import Mathlib

/-!
# msd-script: expressions, values, environments and the interpreter

A shallow embedding of `src/src/Expr.cpp`, `src/src/Val.cpp`, `src/src/Env.h` and
`src/src/parse.cpp`.

* A `PTR(Expr)` held inside a node is never null, so children are plain `Expr`;
  a comparand handed to `equals` may be `nullptr`, so it is an `Option Expr`.
* A `PTR(Env)` may be `nullptr` (the default argument of `interp`), so `Env` has a
  constructor `nullptr` next to the two classes `EmptyEnv` and `ExtendedEnv`.
* `int` is an `Int`; the unsigned arithmetic of `add_to` / `mult_with` is written
  with an explicit `% 2^32`, and so is the `int` arithmetic of `build_number` and
  `parse_num`, which wraps around in the compiled program (`wrap32`).
* A method returns a `Res`: it returns a result, throws `std::runtime_error`, or calls a
  method through a null pointer. `interpFuel` bounds the depth of nested `interp` calls;
  `interpFuel_total` shows that the size of the expression is always enough, so that
  `Expr.interp` is the method `interp` itself.
* The parser reads a list of characters and returns a `PRes` with the characters left over.
  Its mutually recursive functions take fuel in the same way; `parser_fits` shows that
  `parse_fuel` is enough for every input, so that `parse_expr` is the entry point itself.
  `parser_frame` shows that an expression read to the end of the input is read the same
  when a closing parenthesis or a keyword behind whitespace follows.
* The pretty printer writes to a list of characters and threads the reference parameter
  `caller_pos`; `pretty_print_at_aligned` relates it to a layout with explicit columns.
* Printed text is read back: `parse_bases_print` for the literal print of every expression
  without `Call` that has the shape of what the parser builds (`parser_shape`),
  `parse_arith_pretty` for the pretty print of arithmetic.
-/

set_option autoImplicit false

namespace MsdScript

/-- The C++ type `bool`; the class `Bool` of `Expr.h` takes the capitalised name below. -/
abbrev bool : Type := Bool

/-! ## Expressions (`Expr.h`) -/

/-- The ten classes derived from `Expr`, with their member fields. -/
inductive Expr where
  | Num (int_m : Int)
  | Bool (bool_m : bool)
  | Eq (lhs_m rhs_m : Expr)
  | Add (lhs_m rhs_m : Expr)
  | Mult (lhs_m rhs_m : Expr)
  | Var (str_m : String)
  | Let (lhs_m : String) (rhs_m body_m : Expr)
  | If (test_m then_m else_m : Expr)
  | Fun (formal_arg_m : String) (body_m : Expr)
  | Call (to_be_called_m actual_arg_m : Expr)
  deriving Repr, DecidableEq, Inhabited

/-- The method `equals` of the ten classes: `CAST(T)(e)` yields null when `e` is null or
of another class, and then the conjunction is false without touching the fields. -/
def Expr.equals : Expr → Option Expr → bool
  | .Num int_m, some (.Num n) => decide (int_m = n)
  | .Bool bool_m, some (.Bool b) => decide (bool_m = b)
  | .Eq lhs_m rhs_m, some (.Eq l r) => lhs_m.equals (some l) && rhs_m.equals (some r)
  | .Add lhs_m rhs_m, some (.Add l r) => lhs_m.equals (some l) && rhs_m.equals (some r)
  | .Mult lhs_m rhs_m, some (.Mult l r) => lhs_m.equals (some l) && rhs_m.equals (some r)
  | .Var str_m, some (.Var s) => decide (str_m = s)
  | .Let lhs_m rhs_m body_m, some (.Let x r b) =>
      decide (lhs_m = x) && rhs_m.equals (some r) && body_m.equals (some b)
  | .If test_m then_m else_m, some (.If c t e) =>
      test_m.equals (some c) && then_m.equals (some t) && else_m.equals (some e)
  | .Fun formal_arg_m body_m, some (.Fun p b) =>
      decide (formal_arg_m = p) && body_m.equals (some b)
  | .Call to_be_called_m actual_arg_m, some (.Call f a) =>
      to_be_called_m.equals (some f) && actual_arg_m.equals (some a)
  | _, _ => false

/-- The number of nodes of an expression. -/
def Expr.size : Expr → Nat
  | .Num _ => 1
  | .Bool _ => 1
  | .Eq l r => l.size + r.size + 1
  | .Add l r => l.size + r.size + 1
  | .Mult l r => l.size + r.size + 1
  | .Var _ => 1
  | .Let _ r b => r.size + b.size + 1
  | .If c t e => c.size + t.size + e.size + 1
  | .Fun _ b => b.size + 1
  | .Call f a => f.size + a.size + 1

/-! ## Values and environments (`Val.h`, `Env.h`) -/

mutual
/-- The three classes derived from `Val`. -/
inductive Val where
  | NumVal (int_m : Int)
  | BoolVal (bool_m : bool)
  | FunVal (formal_arg_m : String) (body_m : Expr) (env_m : Env)
/-- A `PTR(Env)`: null, or one of the two classes derived from `Env`. -/
inductive Env where
  | nullptr
  | EmptyEnv
  | ExtendedEnv (name : String) (val : Val) (rest : Env)
end

/-- How a call of a method of the program ends. The first two are what the C++ code does by
itself: it returns, or it throws `std::runtime_error(what)`. `null_deref` is a call of a
method through a null `PTR`, which the C++ standard leaves undefined. `out_of_fuel` belongs
to the model only (see `interpFuel`). -/
inductive Res (α : Type) where
  | ok (a : α)
  | runtime_error (what : String)
  | null_deref
  | out_of_fuel

/-- Sequencing: what follows a call runs only when the call returns. -/
def Res.bind {α β : Type} : Res α → (α → Res β) → Res β
  | .ok a, f => f a
  | .runtime_error what, _ => .runtime_error what
  | .null_deref, _ => .null_deref
  | .out_of_fuel, _ => .out_of_fuel

instance : Monad Res where
  pure := Res.ok
  bind := Res.bind

/-- Two to the power 32, the number of values of an `unsigned`. -/
def UINT_SIZE : Int := 4294967296

/-- The largest `int`. -/
def INT_MAX : Int := 2147483647

/-- The smallest `int`. -/
def INT_MIN : Int := -2147483648

/-- The conversion `(unsigned) i` of an `int`: the residue modulo 2^32. -/
def toUnsigned (i : Int) : Int := i % UINT_SIZE

/-- The conversion of an `unsigned` (given as a number in `[0, 2^32)`) to `int`, which
`NEW(NumVal)(...)` performs on its argument: the bit pattern read as a signed 32-bit integer
(guaranteed since C++20, and what the usual compilers did before). -/
def toInt (u : Int) : Int := if u < 2147483648 then u else u - UINT_SIZE

/-- The sum of two `unsigned`, wrapping around. -/
def unsignedAdd (u v : Int) : Int := (u + v) % UINT_SIZE

/-- The product of two `unsigned`, wrapping around. -/
def unsignedMul (u v : Int) : Int := (u * v) % UINT_SIZE

/-- The integer `z` reduced modulo 2^32 and read as a signed 32-bit integer. -/
def wrap32 (z : Int) : Int := toInt (z % UINT_SIZE)

/-- The method `equals` of the three classes derived from `Val`; the comparand may be null. -/
def Val.equals : Val → Option Val → bool
  | .NumVal int_m, some (.NumVal n) => decide (int_m = n)
  | .BoolVal bool_m, some (.BoolVal b) => decide (bool_m = b)
  | .FunVal formal_arg_m body_m _, some (.FunVal p b _) =>
      decide (formal_arg_m = p) && body_m.equals (some b)
  | _, _ => false

/-- The method `add_to`: `NumVal::add_to` casts its argument and throws on null,
`BoolVal::add_to` and `FunVal::add_to` always throw. -/
def Val.add_to : Val → Option Val → Res Val
  | .NumVal int_m, some (.NumVal n) =>
      .ok (.NumVal (toInt (unsignedAdd (toUnsigned int_m) (toUnsigned n))))
  | .NumVal _, _ => .runtime_error "invalid operation on non-number"
  | .BoolVal _, _ => .runtime_error "invalid operation on non-number"
  | .FunVal _ _ _, _ => .runtime_error "invalid operation on non-number"

/-- The method `mult_with`, built like `add_to`. -/
def Val.mult_with : Val → Option Val → Res Val
  | .NumVal int_m, some (.NumVal n) =>
      .ok (.NumVal (toInt (unsignedMul (toUnsigned int_m) (toUnsigned n))))
  | .NumVal _, _ => .runtime_error "invalid operation on non-number"
  | .BoolVal _, _ => .runtime_error "invalid operation on non-number"
  | .FunVal _ _ _, _ => .runtime_error "invalid operation on non-number"

/-- The method `is_true`. -/
def Val.is_true : Val → Res bool
  | .NumVal _ => .runtime_error "cannot call is_true on NumVal"
  | .BoolVal bool_m => .ok bool_m
  | .FunVal _ _ _ => .runtime_error "invalid operation on non-number"

/-- The method `to_expr`. -/
def Val.to_expr : Val → Expr
  | .NumVal int_m => .Num int_m
  | .BoolVal bool_m => .Bool bool_m
  | .FunVal formal_arg_m body_m _ => .Fun formal_arg_m body_m

/-- Modelled from the spec: the definition of the static member `Env::empty` is not in the
sources (only its declaration in `Env.h`); the spec calls it the process-wide singleton
representing no bindings, so it is an `EmptyEnv`. -/
def Env.empty : Env := .EmptyEnv

/-- The method `lookup` of `EmptyEnv` and `ExtendedEnv`; calling it through a null pointer
is undefined. -/
def Env.lookup : Env → String → Res Val
  | .nullptr, _ => .null_deref
  | .EmptyEnv, _ => .runtime_error "Var cannot call interp()"
  | .ExtendedEnv name val rest, find_name =>
      if find_name = name then .ok val else rest.lookup find_name

/-- The statement `if (env == nullptr) { env = Env::empty; }` opening four of the `interp`
methods. -/
def Env.orEmpty : Env → Env
  | .nullptr => Env.empty
  | env => env

/-- The methods `interp` of the ten classes and `FunVal::call`, with a bound on the depth of
nested calls: every call of `interp` takes one unit of fuel. Operands are evaluated left to
right, as C++17 orders `a->f(b)`. `If::interp` and `Call::interp` call `interp()` on their
operands without an argument, so these run with a null environment. -/
def interpFuel : Nat → Expr → Env → Res Val
  | 0, _, _ => .out_of_fuel
  | _ + 1, .Num int_m, _ => .ok (.NumVal int_m)
  | _ + 1, .Bool bool_m, _ => .ok (.BoolVal bool_m)
  | n + 1, .Eq lhs_m rhs_m, env => do
      let l ← interpFuel n lhs_m env
      let r ← interpFuel n rhs_m env
      pure (.BoolVal (l.equals (some r)))
  | n + 1, .Add lhs_m rhs_m, env => do
      let l ← interpFuel n lhs_m env.orEmpty
      let r ← interpFuel n rhs_m env.orEmpty
      l.add_to (some r)
  | n + 1, .Mult lhs_m rhs_m, env => do
      let l ← interpFuel n lhs_m env.orEmpty
      let r ← interpFuel n rhs_m env.orEmpty
      l.mult_with (some r)
  | _ + 1, .Var str_m, env => env.orEmpty.lookup str_m
  | n + 1, .Let lhs_m rhs_m body_m, env => do
      let rhs_val ← interpFuel n rhs_m env.orEmpty
      interpFuel n body_m (.ExtendedEnv lhs_m rhs_val env.orEmpty)
  | n + 1, .If test_m then_m else_m, _ => do
      let c ← interpFuel n test_m .nullptr
      let b ← c.is_true
      if b then interpFuel n then_m .nullptr else interpFuel n else_m .nullptr
  | _ + 1, .Fun formal_arg_m body_m, env => .ok (.FunVal formal_arg_m body_m env)
  | n + 1, .Call to_be_called_m actual_arg_m, _ => do
      let tbc_val ← interpFuel n to_be_called_m .nullptr
      let arg_val ← interpFuel n actual_arg_m .nullptr
      match tbc_val with
      | .FunVal formal_arg_m body_m env_m =>
          interpFuel n body_m (.ExtendedEnv formal_arg_m arg_val env_m)
      | _ => .runtime_error "cannot use call() on this type"

/-- The method `interp`, with the fuel that `interpFuel_total` shows to be enough. -/
def Expr.interp (e : Expr) (env : Env) : Res Val := interpFuel e.size e env

/-- The method `call` of the three classes derived from `Val`. -/
def Val.call : Val → Val → Res Val
  | .FunVal formal_arg_m body_m env_m, actual_arg =>
      body_m.interp (.ExtendedEnv formal_arg_m actual_arg env_m)
  | _, _ => .runtime_error "cannot use call() on this type"

/-! ## `has_variable`, `subst` and `print` (`Expr.cpp`) -/

/-- The method `has_variable` of the ten classes; `Call::has_variable` returns `false`
without looking at its operands. -/
def Expr.has_variable : Expr → bool
  | .Num _ => false
  | .Bool _ => false
  | .Eq lhs_m rhs_m => lhs_m.has_variable || rhs_m.has_variable
  | .Add lhs_m rhs_m => lhs_m.has_variable || rhs_m.has_variable
  | .Mult lhs_m rhs_m => lhs_m.has_variable || rhs_m.has_variable
  | .Var _ => true
  | .Let _ rhs_m body_m => rhs_m.has_variable || body_m.has_variable
  | .If test_m then_m else_m =>
      test_m.has_variable || then_m.has_variable || else_m.has_variable
  | .Fun _ body_m => body_m.has_variable
  | .Call _ _ => false

/-- The spec's reading of `has_variable`: some `Var` node occurs somewhere in the tree. -/
def Expr.containsVar : Expr → bool
  | .Num _ => false
  | .Bool _ => false
  | .Eq l r => l.containsVar || r.containsVar
  | .Add l r => l.containsVar || r.containsVar
  | .Mult l r => l.containsVar || r.containsVar
  | .Var _ => true
  | .Let _ r b => r.containsVar || b.containsVar
  | .If c t e => c.containsVar || t.containsVar || e.containsVar
  | .Fun _ b => b.containsVar
  | .Call f a => f.containsVar || a.containsVar

/-- The method `subst` of the ten classes. -/
def Expr.subst : Expr → String → Expr → Expr
  | .Num int_m, _, _ => .Num int_m
  | .Bool bool_m, _, _ => .Bool bool_m
  | .Eq lhs_m rhs_m, str, e => .Eq (lhs_m.subst str e) (rhs_m.subst str e)
  | .Add lhs_m rhs_m, str, e => .Add (lhs_m.subst str e) (rhs_m.subst str e)
  | .Mult lhs_m rhs_m, str, e => .Mult (lhs_m.subst str e) (rhs_m.subst str e)
  | .Var str_m, str, e => if str = str_m then e else .Var str_m
  | .Let lhs_m rhs_m body_m, str, e =>
      if lhs_m = str then .Let lhs_m (rhs_m.subst str e) body_m
      else .Let lhs_m (rhs_m.subst str e) (body_m.subst str e)
  | .If test_m then_m else_m, str, e =>
      .If (test_m.subst str e) (then_m.subst str e) (else_m.subst str e)
  | .Fun formal_arg_m body_m, str, e =>
      if formal_arg_m = str then .Fun formal_arg_m body_m
      else .Fun formal_arg_m (body_m.subst str e)
  | .Call to_be_called_m actual_arg_m, str, e =>
      .Call (to_be_called_m.subst str e) (actual_arg_m.subst str e)

/-- The node `Var(x)` occurs somewhere in the tree, bound or not. -/
def Expr.occurs (x : String) : Expr → bool
  | .Num _ => false
  | .Bool _ => false
  | .Eq l r => l.occurs x || r.occurs x
  | .Add l r => l.occurs x || r.occurs x
  | .Mult l r => l.occurs x || r.occurs x
  | .Var s => decide (s = x)
  | .Let _ r b => r.occurs x || b.occurs x
  | .If c t e => c.occurs x || t.occurs x || e.occurs x
  | .Fun _ b => b.occurs x
  | .Call f a => f.occurs x || a.occurs x

/-- The node `Var(x)` occurs free in the tree: outside the body of every `Let` and `Fun`
that binds the name `x`. The bound expression of a `Let` is outside its scope. -/
def Expr.occursFree (x : String) : Expr → bool
  | .Num _ => false
  | .Bool _ => false
  | .Eq l r => l.occursFree x || r.occursFree x
  | .Add l r => l.occursFree x || r.occursFree x
  | .Mult l r => l.occursFree x || r.occursFree x
  | .Var s => decide (s = x)
  | .Let y r b => r.occursFree x || (!decide (y = x) && b.occursFree x)
  | .If c t e => c.occursFree x || t.occursFree x || e.occursFree x
  | .Fun p b => !decide (p = x) && b.occursFree x
  | .Call f a => f.occursFree x || a.occursFree x

/-- The spec's reading of `subst`: the tree in which every free occurrence of `Var(x)` is
replaced by `r`. The flag `free` tells whether the place reached lies outside the body of
every binder of `x` met on the way down; under such a binder nothing is replaced. -/
def Expr.replaceWhere (x : String) (r : Expr) : bool → Expr → Expr
  | _, .Num i => .Num i
  | _, .Bool b => .Bool b
  | free, .Eq l rhs => .Eq (replaceWhere x r free l) (replaceWhere x r free rhs)
  | free, .Add l rhs => .Add (replaceWhere x r free l) (replaceWhere x r free rhs)
  | free, .Mult l rhs => .Mult (replaceWhere x r free l) (replaceWhere x r free rhs)
  | free, .Var s => if free && decide (s = x) then r else .Var s
  | free, .Let y rhs b =>
      .Let y (replaceWhere x r free rhs) (replaceWhere x r (free && !decide (y = x)) b)
  | free, .If c t e =>
      .If (replaceWhere x r free c) (replaceWhere x r free t) (replaceWhere x r free e)
  | free, .Fun p b => .Fun p (replaceWhere x r (free && !decide (p = x)) b)
  | free, .Call f a => .Call (replaceWhere x r free f) (replaceWhere x r free a)

/-- The function `std::to_string(int)` of the C++ standard library: the decimal digits of the
number, with a leading minus sign for a negative one. -/
def std_to_string (i : Int) : String :=
  if i < 0 then "-" ++ Nat.repr (-i).toNat else Nat.repr i.toNat

/-- The method `print` of the ten classes: the characters written to the stream. -/
def Expr.print : Expr → String
  | .Num int_m => std_to_string int_m
  | .Bool bool_m => if bool_m then "_true" else "_false"
  | .Eq lhs_m rhs_m => "(" ++ lhs_m.print ++ "==" ++ rhs_m.print ++ ")"
  | .Add lhs_m rhs_m => "(" ++ lhs_m.print ++ "+" ++ rhs_m.print ++ ")"
  | .Mult lhs_m rhs_m => "(" ++ lhs_m.print ++ "*" ++ rhs_m.print ++ ")"
  | .Var str_m => str_m
  | .Let lhs_m rhs_m body_m =>
      "(_let " ++ lhs_m ++ "=" ++ rhs_m.print ++ " _in " ++ body_m.print ++ ")"
  | .If test_m then_m else_m =>
      "(_if " ++ test_m.print ++ " _then " ++ then_m.print ++ " _else " ++ else_m.print ++ ")"
  | .Fun formal_arg_m body_m => "(_fun (" ++ formal_arg_m ++ ") " ++ body_m.print ++ ")"
  | .Call to_be_called_m actual_arg_m => to_be_called_m.print ++ " " ++ actual_arg_m.print

/-- The method `Expr::to_string`: `print` into an empty string stream. -/
def Expr.to_string (e : Expr) : String := e.print

/-! ## Pretty printing (`Expr.cpp`)

The output stream is the list of the characters written so far, so `tellp()` is its length;
every character of a `String` stands for one `char` of a `std::string`. -/

/-- A `std::ostream` that was empty at first, seen as the characters written so far. -/
abbrev ostream : Type := List Char

/-- The type `prec_t`. The casts `static_cast<prec_t>(MULT + 1)` of the source leave its
three named values, so it is a number here. -/
abbrev prec_t : Type := Nat

/-- The value `NONE` of `prec_t`. -/
def NONE : prec_t := 0

/-- The value `ADD` of `prec_t`. -/
def ADD : prec_t := 1

/-- The value `MULT` of `prec_t`. -/
def MULT : prec_t := 2

/-- The classes `Num`, `Bool` and `Var`, which keep the `pretty_print` and `pretty_print_at`
of `Expr`: both end in `print`. -/
def Expr.is_leaf : Expr → bool
  | .Num _ => true
  | .Bool _ => true
  | .Var _ => true
  | _ => false

/-- The methods `pretty_print_at`. The result is the stream and the value left in the
reference parameter `caller_pos`. The difference `start_pos - caller_pos` is never negative
in a run that `pretty_print` starts (`pretty_print_at_pos_le`). -/
def Expr.pretty_print_at : Expr → ostream → prec_t → Nat → bool → ostream × Nat
  | .Num int_m, stream, _, caller_pos, _ =>
      (stream ++ (Expr.Num int_m).print.toList, caller_pos)
  | .Bool bool_m, stream, _, caller_pos, _ =>
      (stream ++ (Expr.Bool bool_m).print.toList, caller_pos)
  | .Var str_m, stream, _, caller_pos, _ =>
      (stream ++ (Expr.Var str_m).print.toList, caller_pos)
  | .Eq lhs_m rhs_m, stream, caller_prec, caller_pos, has_paren =>
      let close_paren := decide (caller_prec > NONE) && !has_paren
      let s1 := if close_paren then stream ++ ['('] else stream
      let l := lhs_m.pretty_print_at s1 (NONE + 1) caller_pos has_paren
      let r := rhs_m.pretty_print_at (l.1 ++ [' ', '=', '=', ' ']) NONE l.2 has_paren
      (if close_paren then r.1 ++ [')'] else r.1, r.2)
  | .Add lhs_m rhs_m, stream, caller_prec, caller_pos, has_paren =>
      let close_paren := decide (caller_prec > ADD)
      let s1 := if close_paren then stream ++ ['('] else stream
      let l := lhs_m.pretty_print_at s1 (ADD + 1) caller_pos has_paren
      let r := rhs_m.pretty_print_at (l.1 ++ [' ', '+', ' ']) NONE l.2 has_paren
      (if close_paren then r.1 ++ [')'] else r.1, r.2)
  | .Mult lhs_m rhs_m, stream, caller_prec, caller_pos, has_paren =>
      let close_paren := decide (caller_prec > MULT)
      let has_paren := if close_paren then true else has_paren
      let s1 := if close_paren then stream ++ ['('] else stream
      let l := lhs_m.pretty_print_at s1 (MULT + 1) caller_pos has_paren
      let r := rhs_m.pretty_print_at (l.1 ++ [' ', '*', ' ']) MULT l.2 has_paren
      (if close_paren then r.1 ++ [')'] else r.1, r.2)
  | .Let lhs_m rhs_m body_m, stream, caller_prec, caller_pos, has_paren =>
      let close_paren := decide (caller_prec > NONE) && !has_paren
      let s1 := if close_paren then stream ++ ['('] else stream
      let start_pos := s1.length
      let kw_offset := List.replicate (start_pos - caller_pos) ' '
      let r := rhs_m.pretty_print_at
        (s1 ++ ['_', 'l', 'e', 't', ' '] ++ lhs_m.toList ++ [' ', '=', ' ']) NONE caller_pos
        has_paren
      let s2 := r.1 ++ ['\n']
      let b := body_m.pretty_print_at (s2 ++ kw_offset ++ ['_', 'i', 'n', ' ', ' ']) NONE
        s2.length has_paren
      (if close_paren then b.1 ++ [')'] else b.1, b.2)
  | .If test_m then_m else_m, stream, caller_prec, caller_pos, has_paren =>
      let close_paren := decide (caller_prec > NONE) && !has_paren
      let s1 := if close_paren then stream ++ ['('] else stream
      let start_pos := s1.length
      let kw_offset := List.replicate (start_pos - caller_pos) ' '
      let c := test_m.pretty_print_at (s1 ++ ['_', 'i', 'f', ' ', ' ', ' ']) NONE caller_pos
        has_paren
      let s2 := c.1 ++ ['\n']
      let t := then_m.pretty_print_at (s2 ++ kw_offset ++ ['_', 't', 'h', 'e', 'n', ' ']) NONE
        s2.length has_paren
      let s3 := t.1 ++ ['\n']
      let e := else_m.pretty_print_at (s3 ++ kw_offset ++ ['_', 'e', 'l', 's', 'e', ' ']) NONE
        s3.length has_paren
      (if close_paren then e.1 ++ [')'] else e.1, e.2)
  | .Fun formal_arg_m body_m, stream, caller_prec, caller_pos, has_paren =>
      let close_paren := decide (caller_prec > NONE) && !has_paren
      let s1 := if close_paren then stream ++ ['('] else stream
      let start_pos := s1.length
      let kw_offset := List.replicate (start_pos - caller_pos) ' '
      let s2 := s1 ++ ['_', 'f', 'u', 'n', ' ', '('] ++ formal_arg_m.toList ++ [')'] ++ ['\n']
      let b := body_m.pretty_print_at (s2 ++ kw_offset ++ [' ', ' ']) NONE s2.length has_paren
      (if close_paren then b.1 ++ [')'] else b.1, b.2)
  | .Call to_be_called_m actual_arg_m, stream, _, caller_pos, has_paren =>
      let f := to_be_called_m.pretty_print_at stream NONE caller_pos has_paren
      let a := actual_arg_m.pretty_print_at (f.1 ++ ['(']) NONE f.2 has_paren
      (a.1 ++ [')'], a.2)

/-- The value `driver_prec` with which the method `pretty_print` of a class calls
`pretty_print_at`. -/
def Expr.driver_prec : Expr → prec_t
  | .Add _ _ => ADD
  | .Mult _ _ => MULT
  | _ => NONE

/-- The methods `pretty_print`: `print` for `Num`, `Bool` and `Var`, and for the other
classes the call of `pretty_print_at` with `driver_prec`, position 0 and no parenthesis. -/
def Expr.pretty_print (e : Expr) (stream : ostream) : ostream :=
  if e.is_leaf then stream ++ e.print.toList
  else (e.pretty_print_at stream e.driver_prec 0 false).1

/-- The method `Expr::to_pretty_string`: `pretty_print` into an empty string stream. -/
def Expr.to_pretty_string (e : Expr) : String := String.mk (e.pretty_print [])

/-! ## Columns, for statements about pretty printing -/

/-- The column reached by writing `text` from column `col`: a line feed leads back to
column 0, every other character one column to the right. -/
def column_after (col : Nat) : List Char → Nat
  | [] => col
  | c :: rest => column_after (if c = '\n' then 0 else col + 1) rest

/-- The column at the end of `text`, counted from the start of its last line. -/
def column (text : List Char) : Nat := column_after 0 text

/-- No name in the expression (of a `Var`, or bound by a `Let` or a `Fun`) holds a line
feed. -/
def Expr.names_on_one_line : Expr → bool
  | .Num _ => true
  | .Bool _ => true
  | .Var s => !s.toList.contains '\n'
  | .Eq l r => l.names_on_one_line && r.names_on_one_line
  | .Add l r => l.names_on_one_line && r.names_on_one_line
  | .Mult l r => l.names_on_one_line && r.names_on_one_line
  | .Let x r b => !x.toList.contains '\n' && r.names_on_one_line && b.names_on_one_line
  | .If c t e => c.names_on_one_line && t.names_on_one_line && e.names_on_one_line
  | .Fun x b => !x.toList.contains '\n' && b.names_on_one_line
  | .Call f a => f.names_on_one_line && a.names_on_one_line

/-- The spec's reading of the layout: the text of `e` written from column `col`, where every
operand is given the column at which its own text starts. A `Let` whose `_let` is written at
column `k` puts `k` spaces in front of its `_in`, an `If` whose `_if` is written at column
`k` puts `k` spaces in front of its `_then` and of its `_else`, and a `Fun` whose `_fun` is
written at column `k` puts `k + 2` spaces in front of its body. Parentheses are placed as
`pretty_print_at` places them. -/
def Expr.aligned : Expr → Nat → prec_t → bool → List Char
  | .Num int_m, _, _, _ => (Expr.Num int_m).print.toList
  | .Bool bool_m, _, _, _ => (Expr.Bool bool_m).print.toList
  | .Var str_m, _, _, _ => (Expr.Var str_m).print.toList
  | .Eq l r, col, prec, has_paren =>
      let paren := decide (prec > NONE) && !has_paren
      let head := (if paren then ['('] else []) ++
        l.aligned (if paren then col + 1 else col) (NONE + 1) has_paren ++ [' ', '=', '=', ' ']
      head ++ r.aligned (column_after col head) NONE has_paren ++ (if paren then [')'] else [])
  | .Add l r, col, prec, has_paren =>
      let paren := decide (prec > ADD)
      let head := (if paren then ['('] else []) ++
        l.aligned (if paren then col + 1 else col) (ADD + 1) has_paren ++ [' ', '+', ' ']
      head ++ r.aligned (column_after col head) NONE has_paren ++ (if paren then [')'] else [])
  | .Mult l r, col, prec, has_paren =>
      let paren := decide (prec > MULT)
      let inside := if paren then true else has_paren
      let head := (if paren then ['('] else []) ++
        l.aligned (if paren then col + 1 else col) (MULT + 1) inside ++ [' ', '*', ' ']
      head ++ r.aligned (column_after col head) MULT inside ++ (if paren then [')'] else [])
  | .Let x r b, col, prec, has_paren =>
      let paren := decide (prec > NONE) && !has_paren
      let k := if paren then col + 1 else col
      let head := (if paren then ['('] else []) ++ ['_', 'l', 'e', 't', ' '] ++ x.toList ++
        [' ', '=', ' ']
      head ++ r.aligned (column_after col head) NONE has_paren ++ ['\n'] ++
        List.replicate k ' ' ++ ['_', 'i', 'n', ' ', ' '] ++ b.aligned (k + 5) NONE has_paren ++
        (if paren then [')'] else [])
  | .If c t e, col, prec, has_paren =>
      let paren := decide (prec > NONE) && !has_paren
      let k := if paren then col + 1 else col
      (if paren then ['('] else []) ++ ['_', 'i', 'f', ' ', ' ', ' '] ++
        c.aligned (k + 6) NONE has_paren ++ ['\n'] ++
        List.replicate k ' ' ++ ['_', 't', 'h', 'e', 'n', ' '] ++
        t.aligned (k + 6) NONE has_paren ++ ['\n'] ++
        List.replicate k ' ' ++ ['_', 'e', 'l', 's', 'e', ' '] ++
        e.aligned (k + 6) NONE has_paren ++ (if paren then [')'] else [])
  | .Fun x b, col, prec, has_paren =>
      let paren := decide (prec > NONE) && !has_paren
      let k := if paren then col + 1 else col
      (if paren then ['('] else []) ++ ['_', 'f', 'u', 'n', ' ', '('] ++ x.toList ++ [')'] ++
        ['\n'] ++ List.replicate (k + 2) ' ' ++ b.aligned (k + 2) NONE has_paren ++
        (if paren then [')'] else [])
  | .Call f a, col, _, has_paren =>
      let head := f.aligned col NONE has_paren ++ ['(']
      head ++ a.aligned (column_after col head) NONE has_paren ++ [')']

/-! ## The parser (`parse.cpp`)

The input stream is the list of characters not yet read. `peek` looks at its head, a
successful `get` drops it, and each `putback` in the source gives back the character just
read (clearing the end-of-file bit first, as C++11 prescribes), so it restores the list as it
was. `eof()` is asked only right after a `peek`, which sets the end-of-file bit exactly when
nothing is left, so it is the test for the empty list. Characters are Unicode scalar values;
none beyond ASCII is a letter, a digit or a space, as for the bytes of the "C" locale.
Arithmetic on `int` that leaves the range of `int` wraps around modulo 2^32 (`wrap32`), as
it does in the compiled program: `build_number` reads the digits `2147483648` as `INT_MIN`. -/

/-- A `std::istream`, seen as the characters not yet read. -/
abbrev istream : Type := List Char

/-- How a call of a parsing function ends: it returns or throws `std::runtime_error(what)`.
`out_of_fuel` belongs to the model only (see `parse_eqs`). -/
inductive PRes (α : Type) where
  | ok (a : α)
  | runtime_error (what : String)
  | out_of_fuel
  deriving DecidableEq, Repr

/-- Sequencing: what follows a call runs only when the call returns. -/
def PRes.bind {α β : Type} : PRes α → (α → PRes β) → PRes β
  | .ok a, f => f a
  | .runtime_error what, _ => .runtime_error what
  | .out_of_fuel, _ => .out_of_fuel

instance : Monad PRes where
  pure := PRes.ok
  bind := PRes.bind

/-- The function `isspace` of the C library in the "C" locale. -/
def isspace (c : Char) : bool :=
  c = ' ' || c = '\t' || c = '\n' || c = Char.ofNat 11 || c = Char.ofNat 12 || c = '\r'

/-- The function `isdigit` of the C library. -/
def isdigit (c : Char) : bool := decide ('0' ≤ c ∧ c ≤ '9')

/-- The function `isalpha` of the C library in the "C" locale. -/
def isalpha (c : Char) : bool := decide (('a' ≤ c ∧ c ≤ 'z') ∨ ('A' ≤ c ∧ c ≤ 'Z'))

/-- The overload `consume(stream, int expect)`: `get` a character (at the end of the input
`get` returns `EOF`) and throw unless it is the expected one. -/
def consume : istream → Char → PRes istream
  | c :: rest, expect => if c = expect then .ok rest else .runtime_error "consume(): mismatch"
  | [], _ => .runtime_error "consume(): mismatch"

/-- The overload `consume(stream, const std::string &str)`: the same for each character of
`str` in turn. -/
def consume_string : istream → List Char → PRes istream
  | stream, [] => .ok stream
  | stream, expect :: str => do
      let rest ← consume stream expect
      consume_string rest str

/-- The function `consume_whitespace`. -/
def consume_whitespace : istream → istream
  | [] => []
  | c :: rest => if isspace c then consume_whitespace rest else c :: rest

/-- The test `!isspace(c) && c != ')' && c != '*' && c != '+' && c != '=' && !stream.eof()`
of `build_number` and `parse_var`, for a character `c` that was read (so not at the end). -/
def malformed_after (c : Char) : bool :=
  !isspace c && c != ')' && c != '*' && c != '+' && c != '='

/-- The loop of `build_number`, started with `number`. The statement
`number = number * 10 + (c - '0')` is computed in `int` and wraps around. -/
def build_number_loop : Int → istream → PRes (Int × istream)
  | number, [] => .ok (number, [])
  | number, c :: rest =>
      if isdigit c then
        build_number_loop (wrap32 (number * 10 + ((c.toNat : Int) - 48))) rest
      else if malformed_after c then .runtime_error "build_number(): malformed number"
      else .ok (number, c :: rest)

/-- The function `build_number`. -/
def build_number (stream : istream) : PRes (Int × istream) := build_number_loop 0 stream

/-- The function `parse_num`; the statement `number *= -1` wraps around, which leaves
`INT_MIN` as it is. -/
def parse_num (stream : istream) : PRes (Expr × istream) :=
  match stream with
  | '-' :: rest =>
      match rest with
      | [] => .runtime_error "parse_num(): expecting digit after '-'"
      | d :: _ =>
          if isdigit d then do
            let (number, s) ← build_number rest
            pure (.Num (wrap32 (number * -1)), s)
          else .runtime_error "parse_num(): expecting digit after '-'"
  | _ => do
      let (number, s) ← build_number stream
      pure (.Num number, s)

/-- The loop of `parse_var`, started with the characters `str` read so far. -/
def parse_var_loop : List Char → istream → PRes (Expr × istream)
  | str, [] => .ok (.Var (String.mk str), [])
  | str, c :: rest =>
      if isalpha c then parse_var_loop (str ++ [c]) rest
      else if malformed_after c then .runtime_error "build_variable(): malformed variable"
      else .ok (.Var (String.mk str), c :: rest)

/-- The function `parse_var`. -/
def parse_var (stream : istream) : PRes (Expr × istream) := parse_var_loop [] stream

/-- The function `peek_keyword`. It puts back what it reads, so the stream is afterwards as
before and only the label is returned. -/
def peek_keyword (stream : istream) : PRes String := do
  let s1 ← consume stream '_'
  match s1 with
  | 'l' :: _ => pure "LET"
  | 'i' :: _ => pure "IF"
  | 't' :: _ => pure "TRUE"
  | 'f' :: s2 =>
      match s2 with
      | 'a' :: _ => pure "FALSE"
      | _ => pure "FUN"
  | _ => .runtime_error "peek_keyword(): invalid keyword"

/-- The function `parse_bool`. -/
def parse_bool (stream : istream) : PRes (Expr × istream) := do
  let s1 ← consume stream '_'
  match s1 with
  | 't' :: _ => do
      let s2 ← consume_string s1 ['t', 'r', 'u', 'e']
      pure (.Bool true, s2)
  | _ => do
      let s2 ← consume_string s1 ['f', 'a', 'l', 's', 'e']
      pure (.Bool false, s2)

mutual
/-- The function `parse_eqs`, with a bound on the depth of nested calls: every call of a
function of this block takes one unit of fuel. The alias `parse_expr(std::istream &)` of the
source is `parse_eqs` itself. -/
def parse_eqs : Nat → istream → PRes (Expr × istream)
  | 0, _ => .out_of_fuel
  | n + 1, stream => do
      let (e, s1) ← parse_adds n stream
      match consume_whitespace s1 with
      | '=' :: s2 =>
          match s2 with
          | '=' :: s3 => do
              let (rhs, s4) ← parse_eqs n s3
              pure (.Eq e rhs, s4)
          | _ => pure (e, '=' :: s2)
      | s2 => pure (e, s2)
/-- The function `parse_adds`. -/
def parse_adds : Nat → istream → PRes (Expr × istream)
  | 0, _ => .out_of_fuel
  | n + 1, stream => do
      let (e, s1) ← parse_mults n stream
      match consume_whitespace s1 with
      | '+' :: s2 => do
          let (rhs, s3) ← parse_adds n s2
          pure (.Add e rhs, s3)
      | s2 => pure (e, s2)
/-- The function `parse_mults`. -/
def parse_mults : Nat → istream → PRes (Expr × istream)
  | 0, _ => .out_of_fuel
  | n + 1, stream => do
      let (e, s1) ← parse_calls n stream
      match consume_whitespace s1 with
      | '*' :: s2 => do
          let (rhs, s3) ← parse_mults n s2
          pure (.Mult e rhs, s3)
      | s2 => pure (e, s2)
/-- The function `parse_calls`. -/
def parse_calls : Nat → istream → PRes (Expr × istream)
  | 0, _ => .out_of_fuel
  | n + 1, stream => do
      let (e, s1) ← parse_bases n stream
      parse_calls_loop n e s1
/-- The `while` loop of `parse_calls`, entered with the expression `e` built so far. -/
def parse_calls_loop : Nat → Expr → istream → PRes (Expr × istream)
  | 0, _, _ => .out_of_fuel
  | n + 1, e, stream =>
      match stream with
      | '(' :: s1 => do
          let (actual_arg, s2) ← parse_eqs n s1
          let s3 ← consume s2 ')'
          parse_calls_loop n (.Call e actual_arg) s3
      | _ => pure (e, stream)
/-- The function `parse_bases`. -/
def parse_bases : Nat → istream → PRes (Expr × istream)
  | 0, _ => .out_of_fuel
  | n + 1, stream =>
      match consume_whitespace stream with
      | [] => .runtime_error "parse_bases(): invalid input"
      | c :: rest =>
          if c = '-' || isdigit c then parse_num (c :: rest)
          else if isalpha c then parse_var (c :: rest)
          else if c = '(' then parse_paren n (c :: rest)
          else if c = '_' then do
            let kw ← peek_keyword (c :: rest)
            if kw = "LET" then parse_let n (c :: rest)
            else if kw = "IF" then parse_if n (c :: rest)
            else if kw = "FUN" then parse_fun n (c :: rest)
            else parse_bool (c :: rest)
          else .runtime_error "parse_bases(): invalid input"
/-- The function `parse_let`. -/
def parse_let : Nat → istream → PRes (Expr × istream)
  | 0, _ => .out_of_fuel
  | n + 1, stream => do
      let s1 ← consume_string stream ['_', 'l', 'e', 't']
      let (lhs, s2) ← parse_eqs n s1
      match lhs with
      | .Var str_m => do
          let s3 ← consume s2 '='
          let (rhs, s4) ← parse_eqs n s3
          let s5 ← consume_string s4 ['_', 'i', 'n']
          let (body, s6) ← parse_eqs n s5
          if (body.subst str_m rhs).equals (some body) then
            .runtime_error "parse_let(): invalid let"
          else pure (.Let str_m rhs body, s6)
      | _ => .runtime_error "parse_let(): invalid let"
/-- The function `parse_if`. -/
def parse_if : Nat → istream → PRes (Expr × istream)
  | 0, _ => .out_of_fuel
  | n + 1, stream => do
      let s1 ← consume_string stream ['_', 'i', 'f']
      let (test, s2) ← parse_eqs n s1
      let s3 ← consume_string s2 ['_', 't', 'h', 'e', 'n']
      let (then_branch, s4) ← parse_eqs n s3
      let s5 ← consume_string s4 ['_', 'e', 'l', 's', 'e']
      let (el, s6) ← parse_eqs n s5
      pure (.If test then_branch el, s6)
/-- The function `parse_fun`. -/
def parse_fun : Nat → istream → PRes (Expr × istream)
  | 0, _ => .out_of_fuel
  | n + 1, stream => do
      let s1 ← consume_string stream ['_', 'f', 'u', 'n']
      let (formal_arg, s2) ← parse_eqs n s1
      match formal_arg with
      | .Var str_m => do
          let (body, s3) ← parse_eqs n s2
          if (body.subst str_m body).equals (some body) then
            .runtime_error "parse_let(): invalid fun"
          else pure (.Fun str_m body, s3)
      | _ => .runtime_error "parse_let(): invalid fun"
/-- The function `parse_paren`. -/
def parse_paren : Nat → istream → PRes (Expr × istream)
  | 0, _ => .out_of_fuel
  | n + 1, stream => do
      let s1 ← consume stream '('
      let (e, s2) ← parse_eqs n s1
      match s2 with
      | ')' :: s3 => pure (e, s3)
      | _ => .runtime_error "parse_paren(): missing closing parenthesis"
end

/-- The fuel that `parse_eqs_total` shows to be enough for an input of the given length. -/
def parse_fuel (length : Nat) : Nat := 6 * length + 6

/-- The function `parse_expr(const std::string &)`. -/
def parse_expr (str : String) : PRes Expr :=
  match parse_eqs (parse_fuel str.length) str.toList with
  | .ok (e, s1) =>
      match consume_whitespace s1 with
      | [] => .ok e
      | _ :: _ => .runtime_error "parse_expr(): invalid input"
  | .runtime_error what => .runtime_error what
  | .out_of_fuel => .out_of_fuel

/-! ## Base terms of the grammar, for statements about the parser -/

/-- The number that a run of digits denotes, read from the left and starting from `number`,
as `build_number` accumulates it. -/
def digits_value : Int → List Char → Int
  | number, [] => number
  | number, c :: rest => digits_value (number * 10 + ((c.toNat : Int) - 48)) rest

/-- A number literal without its sign: one or more digits denoting at most `INT_MAX`. -/
def is_number_literal (text : List Char) : bool :=
  !text.isEmpty && text.all isdigit && decide (digits_value 0 text ≤ INT_MAX)

/-- An identifier: one or more letters. -/
def is_identifier (text : List Char) : bool :=
  !text.isEmpty && text.all isalpha

/-- The grammar's `number` and `variable` tokens with the expression each stands for: digits
with an optional leading minus sign, or letters. Anything else is not a base term. -/
def base_term (text : List Char) : Option Expr :=
  if is_identifier text then some (.Var (String.mk text))
  else if is_number_literal text then some (.Num (digits_value 0 text))
  else if text.head? = some '-' && is_number_literal text.tail then
    some (.Num (digits_value 0 text.tail * -1))
  else none

/-! ## What may follow an expression -/

/-- The rest `t` of an input ends an expression just as the end of the input does: it is
empty, or it starts with `)` or with whitespace, and its first character after the whitespace,
if there is one, is none of `=`, `+`, `*` and `(`. -/
def ends_expression (t : istream) : bool :=
  match t with
  | [] => true
  | c :: _ =>
      (c = ')' || isspace c) &&
        match consume_whitespace t with
        | [] => true
        | d :: _ => d != '=' && d != '+' && d != '*' && d != '('

/-- The rest of the input ends a number or an identifier: it is empty or starts with a
character that `build_number` and `parse_var` let pass (whitespace, `)`, `*`, `+` or `=`). -/
def ends_token (rest : istream) : bool :=
  match rest with
  | [] => true
  | c :: _ => !malformed_after c

/-- Behind an operand that leaves `r`, no caller of `parse_bases` reads on: `r` does not start
with `(`, and after its leading whitespace with none of `*`, `+` and `==`. -/
def stops_operand (r : istream) : bool :=
  (match r with
    | '(' :: _ => false
    | _ => true) &&
  (match consume_whitespace r with
    | '*' :: _ => false
    | '+' :: _ => false
    | '=' :: '=' :: _ => false
    | _ => true)

/-- What a parsing function leaves unread when `t` is appended to its input, given that it
left `rest` without: `rest` followed by `t`, or, where it had read to the end and skips
whitespace before it returns, `t` without its leading whitespace. -/
def rest_extended (t rest rest' : istream) : Prop :=
  rest' = rest ++ t ∨ (rest = [] ∧ rest' = consume_whitespace t)

/-- Appending `t` to the input keeps a returned expression: when `x`, a call on an input,
returns, so does `y`, the call on the input followed by `t`, with the same expression. -/
def framed (t : istream) (x y : PRes (Expr × istream)) : Prop :=
  ∀ e rest, x = .ok (e, rest) → ∃ rest', y = .ok (e, rest') ∧ rest_extended t rest rest'

/-- The function `parse_eqs` reads the expression `e` off the front of `s` and leaves `rest`,
with some bound on the depth of nested calls. -/
def Parses (s : istream) (e : Expr) (rest : istream) : Prop :=
  ∃ n, parse_eqs n s = .ok (e, rest)

/-! ## Closure bodies reachable from a value or an environment -/

mutual
/-- One more than the largest closure body reachable from the value. -/
def Val.bodyBound : Val → Nat
  | .NumVal _ => 0
  | .BoolVal _ => 0
  | .FunVal _ body_m env_m => max (body_m.size + 1) (Env.bodyBound env_m)
/-- One more than the largest closure body reachable from the environment. -/
def Env.bodyBound : Env → Nat
  | .nullptr => 0
  | .EmptyEnv => 0
  | .ExtendedEnv _ val rest => max (Val.bodyBound val) (Env.bodyBound rest)
end

/-- The order on parsing outcomes in which `out_of_fuel` lies below everything else. -/
def PRes.le {α : Type} (x y : PRes α) : Prop := x = .out_of_fuel ∨ x = y

/-- A parsing outcome that is not `out_of_fuel` and, when it returns, leaves at most `L`
characters unread. -/
def PRes.fits {α : Type} (L : Nat) (x : PRes (α × istream)) : Prop :=
  x ≠ .out_of_fuel ∧ ∀ a rest, x = .ok (a, rest) → rest.length ≤ L

/-- The order on outcomes in which `out_of_fuel` lies below everything else. -/
def Res.le {α : Type} (x y : Res α) : Prop := x = .out_of_fuel ∨ x = y

/-- The outcome is not `out_of_fuel`, and a returned result satisfies `P`. -/
def Res.good {α : Type} (P : α → Prop) (x : Res α) : Prop :=
  x ≠ .out_of_fuel ∧ ∀ a, x = .ok a → P a

/-! ## Fragments of the expression language, for statements about evaluation and printing -/

/-- The expression is built from `Num`, `Bool`, `Var`, `Eq`, `Add`, `Mult` and `Let` only: it
has no `If`, no `Fun` and no `Call`. -/
def Expr.let_term : Expr → bool
  | .Num _ => true
  | .Bool _ => true
  | .Var _ => true
  | .Eq l r => l.let_term && r.let_term
  | .Add l r => l.let_term && r.let_term
  | .Mult l r => l.let_term && r.let_term
  | .Let _ r b => r.let_term && b.let_term
  | _ => false

/-- The value is a number or a boolean, not a closure. -/
def Val.is_scalar : Val → bool
  | .NumVal _ => true
  | .BoolVal _ => true
  | .FunVal _ _ _ => false

/-- Two values are the same number, the same boolean, or closures with the same parameter and
body (whatever they captured). -/
def Val.same_code : Val → Val → Prop
  | .NumVal a, .NumVal b => a = b
  | .BoolVal a, .BoolVal b => a = b
  | .FunVal p b _, .FunVal q c _ => p = q ∧ b = c
  | _, _ => False

/-- The second environment has the bindings of the first, in the same order and with values
of the same code, and then whatever else: where the first ends, the second may go on. -/
def Env.sim : Env → Env → Prop
  | .nullptr, _ => True
  | .EmptyEnv, _ => True
  | .ExtendedEnv n v r, .ExtendedEnv m w r2 => n = m ∧ v.same_code w ∧ Env.sim r r2
  | .ExtendedEnv _ _ _, _ => False

/-- Every `Num` of the expression holds a number between `lo` and `hi`. -/
def Expr.nums_within (lo hi : Int) : Expr → bool
  | .Num int_m => decide (lo ≤ int_m ∧ int_m ≤ hi)
  | .Bool _ => true
  | .Var _ => true
  | .Eq l r => l.nums_within lo hi && r.nums_within lo hi
  | .Add l r => l.nums_within lo hi && r.nums_within lo hi
  | .Mult l r => l.nums_within lo hi && r.nums_within lo hi
  | .Let _ r b => r.nums_within lo hi && b.nums_within lo hi
  | .If c t e => c.nums_within lo hi && t.nums_within lo hi && e.nums_within lo hi
  | .Fun _ b => b.nums_within lo hi
  | .Call f a => f.nums_within lo hi && a.nums_within lo hi

/-- The call-free, binder-free fragment: the expression is built from `Num`, `Bool`, `Var`
with a name of one or more letters, `Eq`, `Add`, `Mult` and `If` only. -/
def Expr.call_free_binder_free : Expr → bool
  | .Num _ => true
  | .Bool _ => true
  | .Var str_m => is_identifier str_m.toList
  | .Eq l r => l.call_free_binder_free && r.call_free_binder_free
  | .Add l r => l.call_free_binder_free && r.call_free_binder_free
  | .Mult l r => l.call_free_binder_free && r.call_free_binder_free
  | .If c t e => c.call_free_binder_free && t.call_free_binder_free && e.call_free_binder_free
  | _ => false

/-- The arithmetic fragment: the expression is built from `Num`, `Var` with a name of one or
more letters, `Add` and `Mult` only. -/
def Expr.arithmetic : Expr → bool
  | .Num _ => true
  | .Var str_m => is_identifier str_m.toList
  | .Add l r => l.arithmetic && r.arithmetic
  | .Mult l r => l.arithmetic && r.arithmetic
  | _ => false

/-- The expression is an `Add`. -/
def Expr.is_add : Expr → bool
  | .Add _ _ => true
  | _ => false

/-- The expression is a `Mult`. -/
def Expr.is_mult : Expr → bool
  | .Mult _ _ => true
  | _ => false

/-- The text, in parentheses when `wrap` is set. -/
def parenthesised (wrap : bool) (text : List Char) : List Char :=
  if wrap then '(' :: (text ++ [')']) else text

/-- The spec's reading of the pretty print of an arithmetic expression: operators with a space
on either side, and parentheses exactly around an `Add` or `Mult` that is the left operand of
an operator of the same or higher precedence (an `Add` left of `+` or `*`, a `Mult` left of
`*`) and around an `Add` that is the right operand of a `Mult`. -/
def Expr.arith_pretty : Expr → List Char
  | .Add l r =>
      parenthesised l.is_add l.arith_pretty ++ [' ', '+', ' '] ++ r.arith_pretty
  | .Mult l r =>
      parenthesised (l.is_add || l.is_mult) l.arith_pretty ++ [' ', '*', ' '] ++
        parenthesised r.is_add r.arith_pretty
  | e => e.print.toList

/-- The expression `b` is `e` itself or occurs inside `e`. -/
def Expr.is_subexpression_of (b : Expr) : Expr → bool
  | .Num i => decide (b = .Num i)
  | .Bool c => decide (b = .Bool c)
  | .Var s => decide (b = .Var s)
  | .Eq l r => decide (b = .Eq l r) || b.is_subexpression_of l || b.is_subexpression_of r
  | .Add l r => decide (b = .Add l r) || b.is_subexpression_of l || b.is_subexpression_of r
  | .Mult l r => decide (b = .Mult l r) || b.is_subexpression_of l || b.is_subexpression_of r
  | .Let x r c =>
      decide (b = .Let x r c) || b.is_subexpression_of r || b.is_subexpression_of c
  | .If c t e =>
      decide (b = .If c t e) || b.is_subexpression_of c || b.is_subexpression_of t ||
        b.is_subexpression_of e
  | .Fun p c => decide (b = .Fun p c) || b.is_subexpression_of c
  | .Call f a => decide (b = .Call f a) || b.is_subexpression_of f || b.is_subexpression_of a

mutual
/-- Every closure reachable from the value is the value of a `Fun` that occurs in `K`. -/
def Val.closures_within (K : Expr) : Val → Prop
  | .NumVal _ => True
  | .BoolVal _ => True
  | .FunVal formal_arg_m body_m env_m =>
      (Expr.Fun formal_arg_m body_m).is_subexpression_of K = true ∧
        Env.closures_within K env_m
/-- Every closure reachable from the environment is the value of a `Fun` that occurs in
`K`. -/
def Env.closures_within (K : Expr) : Env → Prop
  | .nullptr => True
  | .EmptyEnv => True
  | .ExtendedEnv _ val rest => Val.closures_within K val ∧ Env.closures_within K rest
end

/-- The expression holds a `Call`. -/
def Expr.has_call : Expr → bool
  | .Num _ => false
  | .Bool _ => false
  | .Var _ => false
  | .Eq l r => l.has_call || r.has_call
  | .Add l r => l.has_call || r.has_call
  | .Mult l r => l.has_call || r.has_call
  | .Let _ r b => r.has_call || b.has_call
  | .If c t e => c.has_call || t.has_call || e.has_call
  | .Fun _ b => b.has_call
  | .Call _ _ => true

/-- What the parser builds: every `Num` holds a number of the range of `int`, every name is
one or more letters, and every `Let` and `Fun` passes the check that `parse_let` and
`parse_fun` make before they return it. -/
def Expr.parsed_shape : Expr → bool
  | .Num int_m => decide (INT_MIN ≤ int_m ∧ int_m ≤ INT_MAX)
  | .Bool _ => true
  | .Var str_m => is_identifier str_m.toList
  | .Eq l r => l.parsed_shape && r.parsed_shape
  | .Add l r => l.parsed_shape && r.parsed_shape
  | .Mult l r => l.parsed_shape && r.parsed_shape
  | .Let x r b =>
      is_identifier x.toList && r.parsed_shape && b.parsed_shape &&
        !(b.subst x r).equals (some b)
  | .If c t e => c.parsed_shape && t.parsed_shape && e.parsed_shape
  | .Fun p b => is_identifier p.toList && b.parsed_shape && !(b.subst p b).equals (some b)
  | .Call f a => f.parsed_shape && a.parsed_shape

/-! ## Basic facts about outcomes -/

@[simp] theorem Res.bind_eq_bind {α β : Type} (x : Res α) (f : α → Res β) :
    x >>= f = x.bind f := rfl

@[simp] theorem Res.pure_eq_ok {α : Type} (a : α) : (pure a : Res α) = .ok a := rfl

@[simp] theorem Res.ok_bind {α β : Type} (a : α) (f : α → Res β) :
    (Res.ok a).bind f = f a := rfl

@[simp] theorem Res.runtime_error_bind {α β : Type} (w : String) (f : α → Res β) :
    (Res.runtime_error w : Res α).bind f = .runtime_error w := rfl

@[simp] theorem Res.null_deref_bind {α β : Type} (f : α → Res β) :
    (Res.null_deref : Res α).bind f = .null_deref := rfl

@[simp] theorem Res.out_of_fuel_bind {α β : Type} (f : α → Res β) :
    (Res.out_of_fuel : Res α).bind f = .out_of_fuel := rfl

theorem Res.le_refl {α : Type} (x : Res α) : Res.le x x := Or.inr rfl

theorem Res.le_bind {α β : Type} {x y : Res α} {f g : α → Res β}
    (hxy : Res.le x y) (hfg : ∀ a, Res.le (f a) (g a)) : Res.le (x.bind f) (y.bind g) := by
  rcases hxy with h | h
  · left; rw [h]; rfl
  · subst h
    cases x with
    | ok a => exact hfg a
    | runtime_error w => exact Res.le_refl _
    | null_deref => exact Res.le_refl _
    | out_of_fuel => exact Res.le_refl _

theorem Res.eq_of_le {α : Type} {x y : Res α} (h : Res.le x y) (hx : x ≠ .out_of_fuel) :
    y = x := by
  rcases h with h | h
  · exact absurd h hx
  · exact h.symm

/-! ## More fuel does not change a finished run -/

theorem interpFuel_le_succ (n : Nat) :
    ∀ (e : Expr) (env : Env), Res.le (interpFuel n e env) (interpFuel (n + 1) e env) := by
  induction n with
  | zero => intro e env; left; rfl
  | succ n ih =>
    intro e env
    cases e with
    | Num i => exact Res.le_refl _
    | Bool b => exact Res.le_refl _
    | Var s => exact Res.le_refl _
    | Fun p b => exact Res.le_refl _
    | Eq l r =>
      simp only [interpFuel, Res.bind_eq_bind]
      exact Res.le_bind (ih _ _) (fun _ => Res.le_bind (ih _ _) (fun _ => Res.le_refl _))
    | Add l r =>
      simp only [interpFuel, Res.bind_eq_bind]
      exact Res.le_bind (ih _ _) (fun _ => Res.le_bind (ih _ _) (fun _ => Res.le_refl _))
    | Mult l r =>
      simp only [interpFuel, Res.bind_eq_bind]
      exact Res.le_bind (ih _ _) (fun _ => Res.le_bind (ih _ _) (fun _ => Res.le_refl _))
    | Let x r b =>
      simp only [interpFuel, Res.bind_eq_bind]
      exact Res.le_bind (ih _ _) (fun _ => ih _ _)
    | If c t e =>
      simp only [interpFuel, Res.bind_eq_bind]
      refine Res.le_bind (ih _ _) (fun v => Res.le_bind (Res.le_refl _) (fun b => ?_))
      cases b
      · exact ih _ _
      · exact ih _ _
    | Call f a =>
      simp only [interpFuel, Res.bind_eq_bind]
      refine Res.le_bind (ih _ _) (fun v => Res.le_bind (ih _ _) (fun w => ?_))
      cases v with
      | NumVal i => exact Res.le_refl _
      | BoolVal b => exact Res.le_refl _
      | FunVal p b cenv => exact ih _ _

theorem interpFuel_le_of_le {n m : Nat} (h : n ≤ m) (e : Expr) (env : Env) :
    Res.le (interpFuel n e env) (interpFuel m e env) := by
  induction h with
  | refl => exact Res.le_refl _
  | step _ ih =>
    rcases ih with h1 | h1
    · exact Or.inl h1
    · rw [h1]; exact interpFuel_le_succ _ e env

/-- A run that finished with fuel `n` gives the same outcome with any larger fuel. -/
theorem interpFuel_stable {n m : Nat} (h : n ≤ m) (e : Expr) (env : Env)
    (hn : interpFuel n e env ≠ .out_of_fuel) : interpFuel m e env = interpFuel n e env :=
  Res.eq_of_le (interpFuel_le_of_le h e env) hn

/-! ## Every run finishes with fuel `e.size` -/

theorem Res.good_ok {α : Type} {P : α → Prop} {a : α} (h : P a) : Res.good P (.ok a) :=
  ⟨by simp, fun b hb => by cases hb; exact h⟩

theorem Res.good_runtime_error {α : Type} {P : α → Prop} (w : String) :
    Res.good P (.runtime_error w) :=
  ⟨by simp, fun b hb => by cases hb⟩

theorem Res.good_null_deref {α : Type} {P : α → Prop} : Res.good P (.null_deref : Res α) :=
  ⟨by simp, fun b hb => by cases hb⟩

theorem Res.good_mono {α : Type} {P Q : α → Prop} {x : Res α} (h : ∀ a, P a → Q a)
    (hx : Res.good P x) : Res.good Q x :=
  ⟨hx.1, fun a ha => h a (hx.2 a ha)⟩

theorem Res.good_bind {α β : Type} {P : α → Prop} {Q : β → Prop} {x : Res α}
    {f : α → Res β} (hx : Res.good P x) (hf : ∀ a, P a → Res.good Q (f a)) :
    Res.good Q (x.bind f) := by
  cases x with
  | ok a => exact hf a (hx.2 a rfl)
  | runtime_error w => exact Res.good_runtime_error w
  | null_deref => exact Res.good_null_deref
  | out_of_fuel => exact absurd rfl hx.1

theorem Env.orEmpty_bodyBound (env : Env) : env.orEmpty.bodyBound = env.bodyBound := by
  cases env <;> rfl

theorem Env.lookup_good {k : Nat} (s : String) :
    ∀ env : Env, env.bodyBound ≤ k → Res.good (fun v => v.bodyBound ≤ k) (env.lookup s)
  | .nullptr, _ => Res.good_null_deref
  | .EmptyEnv, _ => Res.good_runtime_error _
  | .ExtendedEnv name val rest, he => by
      simp only [Env.bodyBound] at he
      simp only [Env.lookup]
      split
      · exact Res.good_ok (by omega)
      · exact Env.lookup_good s rest (by omega)

theorem Val.add_to_good {k : Nat} (v w : Val) :
    Res.good (fun u => u.bodyBound ≤ k) (v.add_to (some w)) := by
  cases v <;> cases w <;>
    first
      | exact Res.good_runtime_error _
      | exact Res.good_ok (Nat.zero_le _)

theorem Val.mult_with_good {k : Nat} (v w : Val) :
    Res.good (fun u => u.bodyBound ≤ k) (v.mult_with (some w)) := by
  cases v <;> cases w <;>
    first
      | exact Res.good_runtime_error _
      | exact Res.good_ok (Nat.zero_le _)

theorem Val.is_true_good (v : Val) : Res.good (fun _ => True) v.is_true := by
  cases v <;>
    first
      | exact Res.good_runtime_error _
      | exact Res.good_ok trivial

/-- With fuel at least the size of the expression the run finishes, and the closure bodies
reachable from its result are no larger than those of the expression and of the
environment. -/
theorem interpFuel_good (n : Nat) :
    ∀ (e : Expr) (env : Env) (k : Nat), e.size ≤ n → e.size ≤ k → env.bodyBound ≤ k →
      Res.good (fun v => v.bodyBound ≤ k) (interpFuel n e env) := by
  induction n with
  | zero => intro e _ _ h; cases e <;> simp [Expr.size] at h
  | succ n ih =>
    intro e env k hn hk henv
    have henv' : env.orEmpty.bodyBound ≤ k := by rw [Env.orEmpty_bodyBound]; exact henv
    cases e with
    | Num i => exact Res.good_ok (Nat.zero_le _)
    | Bool b => exact Res.good_ok (Nat.zero_le _)
    | Var s => exact Env.lookup_good s _ henv'
    | Fun p b =>
      simp only [Expr.size] at hk
      exact Res.good_ok (by simp only [Val.bodyBound]; omega)
    | Eq l r =>
      simp only [Expr.size] at hn hk
      simp only [interpFuel, Res.bind_eq_bind, Res.pure_eq_ok]
      exact Res.good_bind (ih l env k (by omega) (by omega) henv) (fun _ _ =>
        Res.good_bind (ih r env k (by omega) (by omega) henv) (fun _ _ =>
          Res.good_ok (Nat.zero_le _)))
    | Add l r =>
      simp only [Expr.size] at hn hk
      simp only [interpFuel, Res.bind_eq_bind]
      exact Res.good_bind (ih l _ k (by omega) (by omega) henv') (fun lv _ =>
        Res.good_bind (ih r _ k (by omega) (by omega) henv') (fun rv _ =>
          Val.add_to_good lv rv))
    | Mult l r =>
      simp only [Expr.size] at hn hk
      simp only [interpFuel, Res.bind_eq_bind]
      exact Res.good_bind (ih l _ k (by omega) (by omega) henv') (fun lv _ =>
        Res.good_bind (ih r _ k (by omega) (by omega) henv') (fun rv _ =>
          Val.mult_with_good lv rv))
    | Let x r b =>
      simp only [Expr.size] at hn hk
      simp only [interpFuel, Res.bind_eq_bind]
      exact Res.good_bind (ih r _ k (by omega) (by omega) henv') (fun v hv =>
        ih b _ k (by omega) (by omega) (by simp only [Env.bodyBound]; omega))
    | If c t e =>
      simp only [Expr.size] at hn hk
      simp only [interpFuel, Res.bind_eq_bind]
      refine Res.good_bind (ih c _ k (by omega) (by omega) (Nat.zero_le _))
        (fun v _ => Res.good_bind (Val.is_true_good v) (fun b _ => ?_))
      cases b
      · exact ih e _ k (by omega) (by omega) (Nat.zero_le _)
      · exact ih t _ k (by omega) (by omega) (Nat.zero_le _)
    | Call f a =>
      simp only [Expr.size] at hn hk
      simp only [interpFuel, Res.bind_eq_bind]
      refine Res.good_bind
        (ih f _ f.size (by omega) (Nat.le_refl _) (Nat.zero_le _)) (fun v hv =>
        Res.good_bind
          (ih a _ a.size (by omega) (Nat.le_refl _) (Nat.zero_le _)) (fun w hw => ?_))
      cases v with
      | NumVal i => exact Res.good_runtime_error _
      | BoolVal b => exact Res.good_runtime_error _
      | FunVal p b cenv =>
        simp only [Val.bodyBound] at hv
        refine Res.good_mono (fun u (hu : u.bodyBound ≤ max f.size a.size) => ?_)
          (ih b _ (max f.size a.size) (by omega) (by omega)
            (by simp only [Env.bodyBound]; omega))
        show u.bodyBound ≤ k
        omega

/-- The fuel `e.size` is enough in every environment: `interp` never runs out of fuel. -/
theorem interpFuel_total (e : Expr) (env : Env) : interpFuel e.size e env ≠ .out_of_fuel :=
  (interpFuel_good e.size e env (max e.size env.bodyBound) (Nat.le_refl _) (by omega)
    (by omega)).1

/-- Any fuel from `e.size` on gives the outcome of `interp`. -/
theorem interpFuel_eq_interp {n : Nat} (e : Expr) (env : Env) (h : e.size ≤ n) :
    interpFuel n e env = e.interp env :=
  interpFuel_stable h e env (interpFuel_total e env)

/-! ## The methods `interp`, one equation per class -/

theorem interp_Num (i : Int) (env : Env) : (Expr.Num i).interp env = .ok (.NumVal i) := rfl

theorem interp_Bool (b : bool) (env : Env) : (Expr.Bool b).interp env = .ok (.BoolVal b) := rfl

theorem interp_Var (s : String) (env : Env) :
    (Expr.Var s).interp env = env.orEmpty.lookup s := rfl

theorem interp_Fun (p : String) (b : Expr) (env : Env) :
    (Expr.Fun p b).interp env = .ok (.FunVal p b env) := rfl

theorem interp_Eq (l r : Expr) (env : Env) :
    (Expr.Eq l r).interp env =
      (l.interp env).bind (fun lv => (r.interp env).bind (fun rv =>
        .ok (.BoolVal (lv.equals (some rv))))) := by
  simp only [Expr.interp, Expr.size, interpFuel, Res.bind_eq_bind, Res.pure_eq_ok]
  rw [interpFuel_eq_interp l env (by omega), interpFuel_eq_interp r env (by omega)]
  rfl

theorem interp_Add (l r : Expr) (env : Env) :
    (Expr.Add l r).interp env =
      (l.interp env.orEmpty).bind (fun lv => (r.interp env.orEmpty).bind (fun rv =>
        lv.add_to (some rv))) := by
  simp only [Expr.interp, Expr.size, interpFuel, Res.bind_eq_bind]
  rw [interpFuel_eq_interp l _ (by omega), interpFuel_eq_interp r _ (by omega)]
  rfl

theorem interp_Mult (l r : Expr) (env : Env) :
    (Expr.Mult l r).interp env =
      (l.interp env.orEmpty).bind (fun lv => (r.interp env.orEmpty).bind (fun rv =>
        lv.mult_with (some rv))) := by
  simp only [Expr.interp, Expr.size, interpFuel, Res.bind_eq_bind]
  rw [interpFuel_eq_interp l _ (by omega), interpFuel_eq_interp r _ (by omega)]
  rfl

theorem interp_Let (x : String) (r b : Expr) (env : Env) :
    (Expr.Let x r b).interp env =
      (r.interp env.orEmpty).bind (fun rhs_val =>
        b.interp (.ExtendedEnv x rhs_val env.orEmpty)) := by
  simp only [Expr.interp, Expr.size, interpFuel, Res.bind_eq_bind]
  rw [interpFuel_eq_interp r _ (by omega)]
  congr 1
  funext v
  exact interpFuel_eq_interp b _ (by omega)

theorem interp_If (c t e : Expr) (env : Env) :
    (Expr.If c t e).interp env =
      (c.interp .nullptr).bind (fun v => v.is_true.bind (fun b =>
        if b then t.interp .nullptr else e.interp .nullptr)) := by
  simp only [Expr.interp, Expr.size, interpFuel, Res.bind_eq_bind]
  rw [interpFuel_eq_interp c _ (by omega), interpFuel_eq_interp t _ (by omega),
    interpFuel_eq_interp e _ (by omega)]
  rfl

theorem interp_Call (f a : Expr) (env : Env) :
    (Expr.Call f a).interp env =
      (f.interp .nullptr).bind (fun tbc_val => (a.interp .nullptr).bind (fun arg_val =>
        tbc_val.call arg_val)) := by
  show interpFuel (Expr.Call f a).size (Expr.Call f a) env = _
  simp only [Expr.size, interpFuel, Res.bind_eq_bind]
  rw [interpFuel_eq_interp f _ (by omega), interpFuel_eq_interp a _ (by omega)]
  have hf := interpFuel_good f.size f .nullptr f.size (Nat.le_refl _) (Nat.le_refl _)
    (Nat.zero_le _)
  change Res.good _ (f.interp .nullptr) at hf
  cases hv : f.interp .nullptr with
  | ok v =>
    simp only [Res.ok_bind]
    congr 1
    funext w
    cases v with
    | NumVal i => rfl
    | BoolVal b => rfl
    | FunVal p b cenv =>
      have hb := hf.2 _ hv
      simp only [Val.bodyBound] at hb
      exact interpFuel_eq_interp b _ (by omega)
  | runtime_error w => rfl
  | null_deref => rfl
  | out_of_fuel => rfl

/-! ## Structural equality of expressions -/

theorem Expr.equals_iff_eq (a : Expr) : ∀ b : Expr, a.equals (some b) = true ↔ a = b := by
  induction a <;> intro b <;> cases b <;> simp_all [Expr.equals, and_assoc]

theorem Expr.equals_none (a : Expr) : a.equals none = false := by
  cases a <;> rfl

/-- C1: `a.equals(b)` is true exactly when `a` and `b` are the same tree: same class at the
root, equal names, integers and booleans, and sub-expressions equal in turn. -/
theorem C1_equals_iff_same_tree (a b : Expr) : a.equals (some b) = true ↔ a = b :=
  Expr.equals_iff_eq a b

/-- C2: `equals` is reflexive and symmetric, a `Num` never equals a `Bool`, and a null
comparand gives `false` for every expression. -/
theorem C2_equals_refl_symm_discriminating :
    (∀ e : Expr, e.equals (some e) = true) ∧
    (∀ a b : Expr, a.equals (some b) = b.equals (some a)) ∧
    (∀ (n : Int) (b : bool), (Expr.Num n).equals (some (Expr.Bool b)) = false) ∧
    (∀ e : Expr, e.equals none = false) := by
  refine ⟨fun e => (Expr.equals_iff_eq e e).2 rfl, fun a b => ?_, fun _ _ => rfl,
    Expr.equals_none⟩
  rw [Bool.eq_iff_iff, Expr.equals_iff_eq, Expr.equals_iff_eq]
  exact eq_comm

/-! ## Arithmetic on values -/

theorem toInt_unsignedAdd (a b : Int) :
    toInt (unsignedAdd (toUnsigned a) (toUnsigned b)) =
      if (a + b) % 4294967296 < 2147483648 then (a + b) % 4294967296
      else (a + b) % 4294967296 - 4294967296 := by
  simp only [toInt, unsignedAdd, toUnsigned, UINT_SIZE, Int.emod_add_emod, Int.add_emod_emod]

theorem toInt_unsignedMul (a b : Int) :
    toInt (unsignedMul (toUnsigned a) (toUnsigned b)) =
      if (a * b) % 4294967296 < 2147483648 then (a * b) % 4294967296
      else (a * b) % 4294967296 - 4294967296 := by
  simp only [toInt, unsignedMul, toUnsigned, UINT_SIZE]
  rw [← Int.mul_emod]

/-- C3: on two `NumVal` the methods `add_to` and `mult_with` return (they do not throw) the
`NumVal` of the sum, respectively the product, reduced modulo 2^32 and read as a signed
32-bit integer; `INT_MAX + 1` gives `INT_MIN`. -/
theorem C3_add_to_mult_with_wrap :
    (∀ a b : Int, (Val.NumVal a).add_to (some (Val.NumVal b)) =
      Res.ok (Val.NumVal (if (a + b) % 4294967296 < 2147483648 then (a + b) % 4294967296
        else (a + b) % 4294967296 - 4294967296))) ∧
    (∀ a b : Int, (Val.NumVal a).mult_with (some (Val.NumVal b)) =
      Res.ok (Val.NumVal (if (a * b) % 4294967296 < 2147483648 then (a * b) % 4294967296
        else (a * b) % 4294967296 - 4294967296))) ∧
    (Val.NumVal 2147483647).add_to (some (Val.NumVal 1)) = Res.ok (Val.NumVal (-2147483648)) := by
  refine ⟨fun a b => ?_, fun a b => ?_, ?_⟩
  · simp only [Val.add_to, toInt_unsignedAdd]
  · simp only [Val.mult_with, toInt_unsignedMul]
  · simp only [Val.add_to, toInt_unsignedAdd]
    norm_num

/-- C4: `add_to` and `mult_with` throw "invalid operation on non-number" exactly when one of
the two values is not a `NumVal`; on two `NumVal` they return a `NumVal`. -/
theorem C4_add_to_mult_with_type_error :
    (∀ v w : Val,
      (v.add_to (some w) = Res.runtime_error "invalid operation on non-number" ↔
        ¬ ∃ a b, v = Val.NumVal a ∧ w = Val.NumVal b) ∧
      (v.mult_with (some w) = Res.runtime_error "invalid operation on non-number" ↔
        ¬ ∃ a b, v = Val.NumVal a ∧ w = Val.NumVal b)) ∧
    (∀ a b : Int,
      (∃ r, (Val.NumVal a).add_to (some (Val.NumVal b)) = Res.ok (Val.NumVal r)) ∧
      (∃ r, (Val.NumVal a).mult_with (some (Val.NumVal b)) = Res.ok (Val.NumVal r))) := by
  refine ⟨fun v w => ?_, fun a b => ⟨⟨_, rfl⟩, ⟨_, rfl⟩⟩⟩
  cases v <;> cases w <;> simp [Val.add_to, Val.mult_with]

theorem wrap32_emod (z : Int) : wrap32 z % UINT_SIZE = z % UINT_SIZE := by
  simp only [wrap32, toInt, UINT_SIZE]
  split <;> omega

theorem wrap32_congr {x y : Int} (h : x % UINT_SIZE = y % UINT_SIZE) : wrap32 x = wrap32 y := by
  simp only [wrap32, h]

theorem wrap32_of_int {x : Int} (h : INT_MIN ≤ x ∧ x ≤ INT_MAX) : wrap32 x = x := by
  simp only [INT_MIN, INT_MAX] at h
  simp only [wrap32, toInt, UINT_SIZE]
  split <;> omega

theorem wrap32_of_nonneg {x : Int} (h0 : 0 ≤ x) (h : x ≤ INT_MAX) : wrap32 x = x :=
  wrap32_of_int ⟨by unfold INT_MIN; omega, h⟩

theorem wrap32_neg_of_nonneg {x : Int} (h0 : 0 ≤ x) (h : x ≤ INT_MAX) :
    wrap32 (x * -1) = x * -1 :=
  wrap32_of_int ⟨by unfold INT_MIN; unfold INT_MAX at h; omega, by unfold INT_MAX; omega⟩

theorem wrap32_add_left (x y : Int) : wrap32 (wrap32 x + y) = wrap32 (x + y) :=
  wrap32_congr (Int.ModEq.add_right y (wrap32_emod x))

theorem wrap32_add_right (x y : Int) : wrap32 (x + wrap32 y) = wrap32 (x + y) :=
  wrap32_congr (Int.ModEq.add_left x (wrap32_emod y))

theorem wrap32_mul_left (x y : Int) : wrap32 (wrap32 x * y) = wrap32 (x * y) :=
  wrap32_congr (Int.ModEq.mul_right y (wrap32_emod x))

theorem wrap32_mul_right (x y : Int) : wrap32 (x * wrap32 y) = wrap32 (x * y) :=
  wrap32_congr (Int.ModEq.mul_left x (wrap32_emod y))

theorem Val.add_to_NumVal (a b : Int) :
    (Val.NumVal a).add_to (some (Val.NumVal b)) = Res.ok (Val.NumVal (wrap32 (a + b))) := by
  simp only [Val.add_to, wrap32, unsignedAdd, toUnsigned, Int.emod_add_emod, Int.add_emod_emod]

theorem Val.mult_with_NumVal (a b : Int) :
    (Val.NumVal a).mult_with (some (Val.NumVal b)) = Res.ok (Val.NumVal (wrap32 (a * b))) := by
  simp only [Val.mult_with, wrap32, unsignedMul, toUnsigned]
  rw [← Int.mul_emod]

theorem interp_Add_Num (a b : Int) (env : Env) :
    (Expr.Add (.Num a) (.Num b)).interp env = Res.ok (Val.NumVal (wrap32 (a + b))) := by
  simp only [interp_Add, interp_Num, Res.ok_bind, Val.add_to_NumVal]

theorem interp_Mult_Num (a b : Int) (env : Env) :
    (Expr.Mult (.Num a) (.Num b)).interp env = Res.ok (Val.NumVal (wrap32 (a * b))) := by
  simp only [interp_Mult, interp_Num, Res.ok_bind, Val.mult_with_NumVal]

/-! ## Arithmetic laws under `interp` -/

/-- C5: interpreted without an environment, `Add` and `Mult` of number literals are
commutative and associative: both sides return the same value, whatever wraps around. -/
theorem C5_interp_add_mult_comm_assoc (a b c : Int) :
    (∃ v, (Expr.Add (.Num a) (.Num b)).interp .nullptr = Res.ok v ∧
      (Expr.Add (.Num b) (.Num a)).interp .nullptr = Res.ok v) ∧
    (∃ v, (Expr.Add (.Add (.Num a) (.Num b)) (.Num c)).interp .nullptr = Res.ok v ∧
      (Expr.Add (.Num a) (.Add (.Num b) (.Num c))).interp .nullptr = Res.ok v) ∧
    (∃ v, (Expr.Mult (.Num a) (.Num b)).interp .nullptr = Res.ok v ∧
      (Expr.Mult (.Num b) (.Num a)).interp .nullptr = Res.ok v) ∧
    (∃ v, (Expr.Mult (.Mult (.Num a) (.Num b)) (.Num c)).interp .nullptr = Res.ok v ∧
      (Expr.Mult (.Num a) (.Mult (.Num b) (.Num c))).interp .nullptr = Res.ok v) := by
  refine ⟨⟨_, interp_Add_Num a b _, ?_⟩, ⟨Val.NumVal (wrap32 (a + b + c)), ?_, ?_⟩,
    ⟨_, interp_Mult_Num a b _, ?_⟩, ⟨Val.NumVal (wrap32 (a * b * c)), ?_, ?_⟩⟩
  · rw [interp_Add_Num, add_comm]
  · rw [interp_Add, interp_Add_Num, interp_Num]
    simp only [Res.ok_bind, Val.add_to_NumVal, wrap32_add_left]
  · rw [interp_Add, interp_Add_Num, interp_Num]
    simp only [Res.ok_bind, Val.add_to_NumVal, wrap32_add_right, add_assoc]
  · rw [interp_Mult_Num, mul_comm]
  · rw [interp_Mult, interp_Mult_Num, interp_Num]
    simp only [Res.ok_bind, Val.mult_with_NumVal, wrap32_mul_left]
  · rw [interp_Mult, interp_Mult_Num, interp_Num]
    simp only [Res.ok_bind, Val.mult_with_NumVal, wrap32_mul_right, mul_assoc]

/-- C6: for a 32-bit integer `x`, interpreted without an environment, `x + 0` and `x * 1`
give `NumVal(x)`, `x * 0` gives `NumVal(0)`, and `x * (a + b)` gives the same value as
`x * a + x * b`, whatever wraps around. -/
theorem C6_interp_identity_zero_distrib (x a b : Int)
    (hx : -2147483648 ≤ x ∧ x ≤ 2147483647) :
    (Expr.Add (.Num x) (.Num 0)).interp .nullptr = Res.ok (Val.NumVal x) ∧
    (Expr.Mult (.Num x) (.Num 1)).interp .nullptr = Res.ok (Val.NumVal x) ∧
    (Expr.Mult (.Num x) (.Num 0)).interp .nullptr = Res.ok (Val.NumVal 0) ∧
    (∃ v, (Expr.Mult (.Num x) (.Add (.Num a) (.Num b))).interp .nullptr = Res.ok v ∧
      (Expr.Add (.Mult (.Num x) (.Num a)) (.Mult (.Num x) (.Num b))).interp .nullptr =
        Res.ok v) := by
  have hx' : wrap32 x = x := wrap32_of_int hx
  refine ⟨?_, ?_, ?_, ⟨Val.NumVal (wrap32 (x * (a + b))), ?_, ?_⟩⟩
  · rw [interp_Add_Num, add_zero, hx']
  · rw [interp_Mult_Num, mul_one, hx']
  · rw [interp_Mult_Num, mul_zero]; rfl
  · rw [interp_Mult, interp_Add_Num, interp_Num]
    simp only [Res.ok_bind, Val.mult_with_NumVal, wrap32_mul_right]
  · rw [interp_Add, interp_Mult_Num, interp_Mult_Num]
    simp only [Res.ok_bind, Val.add_to_NumVal, wrap32_add_left, wrap32_add_right, mul_add]

/-- C6 at `x = INT_MAX`, `a = INT_MAX`, `b = 1`, where the sum and the products wrap. -/
theorem C6_interp_identity_zero_distrib_witness :
    ((-2147483648 : Int) ≤ 2147483647 ∧ (2147483647 : Int) ≤ 2147483647) ∧
    ((Expr.Add (.Num 2147483647) (.Num 0)).interp .nullptr = Res.ok (Val.NumVal 2147483647) ∧
    (Expr.Mult (.Num 2147483647) (.Num 1)).interp .nullptr = Res.ok (Val.NumVal 2147483647) ∧
    (Expr.Mult (.Num 2147483647) (.Num 0)).interp .nullptr = Res.ok (Val.NumVal 0) ∧
    (∃ v, (Expr.Mult (.Num 2147483647) (.Add (.Num 2147483647) (.Num 1))).interp .nullptr =
        Res.ok v ∧
      (Expr.Add (.Mult (.Num 2147483647) (.Num 2147483647))
        (.Mult (.Num 2147483647) (.Num 1))).interp .nullptr = Res.ok v)) :=
  ⟨by decide, C6_interp_identity_zero_distrib 2147483647 2147483647 1 (by decide)⟩

/-! ## Environments, `Let`, `If` and closures -/

/-- C7: `lookup(m)` on `ExtendedEnv(n, v, p)` returns `v` when `m == n` and is `p.lookup(m)`
otherwise, whatever that does; `lookup` on the empty environment throws the unbound-variable
error "Var cannot call interp()", and so does `Var(x).interp()` without an environment.
Environments are values here, so building `ExtendedEnv(n, v, p)` leaves `p` as it was. -/
theorem C7_lookup_shadowing :
    (∀ (p : Env) (n m : String) (v : Val),
      (Env.ExtendedEnv n v p).lookup m = if m = n then Res.ok v else p.lookup m) ∧
    (∀ m : String, Env.EmptyEnv.lookup m = Res.runtime_error "Var cannot call interp()") ∧
    (∀ x : String,
      (Expr.Var x).interp .nullptr = Res.runtime_error "Var cannot call interp()") :=
  ⟨fun _ _ _ _ => rfl, fun _ => rfl, fun _ => rfl⟩

/-- C8: `Let(x, r, b).interp(env)` evaluates `r` in `env` (the empty environment when `env`
is null), passes on what `r` throws, and otherwise returns `b.interp(ExtendedEnv(x, v, env))`
for the value `v` of `r`; `Let(x, Var x, Var x)` throws the unbound-variable error. -/
theorem C8_interp_Let :
    (∀ (x : String) (r b : Expr) (env : Env),
      (Expr.Let x r b).interp env =
        match r.interp env.orEmpty with
        | Res.ok v => b.interp (Env.ExtendedEnv x v env.orEmpty)
        | Res.runtime_error what => Res.runtime_error what
        | Res.null_deref => Res.null_deref
        | Res.out_of_fuel => Res.out_of_fuel) ∧
    (Env.nullptr.orEmpty = Env.EmptyEnv ∧ Env.EmptyEnv.orEmpty = Env.EmptyEnv ∧
      ∀ (n : String) (v : Val) (p : Env),
        (Env.ExtendedEnv n v p).orEmpty = Env.ExtendedEnv n v p) ∧
    (∀ x : String,
      (Expr.Let x (.Var x) (.Var x)).interp .nullptr =
        Res.runtime_error "Var cannot call interp()" ∧
      (Expr.Let x (.Var x) (.Var x)).interp Env.empty =
        Res.runtime_error "Var cannot call interp()") := by
  refine ⟨fun x r b env => ?_, ⟨rfl, rfl, fun _ _ _ => rfl⟩, fun x => ⟨?_, ?_⟩⟩
  · rw [interp_Let]
    cases r.interp env.orEmpty <;> rfl
  · rw [interp_Let]
    rfl
  · rw [interp_Let]
    rfl

/-- C9: without an environment, `If(c, t, e).interp()` throws a type error when `c` evaluates
to a `NumVal` or a `FunVal`, is `t.interp()` when `c` evaluates to `BoolVal(true)` and
`e.interp()` when it evaluates to `BoolVal(false)`; the other branch plays no part, as with
`If(Bool true, Num 1, Var y)`, which returns although `Var y` alone throws. -/
theorem C9_interp_If :
    (∀ c t e : Expr,
      (Expr.If c t e).interp .nullptr =
        match c.interp .nullptr with
        | Res.ok (Val.BoolVal true) => t.interp .nullptr
        | Res.ok (Val.BoolVal false) => e.interp .nullptr
        | Res.ok (Val.NumVal _) => Res.runtime_error "cannot call is_true on NumVal"
        | Res.ok (Val.FunVal _ _ _) => Res.runtime_error "invalid operation on non-number"
        | Res.runtime_error what => Res.runtime_error what
        | Res.null_deref => Res.null_deref
        | Res.out_of_fuel => Res.out_of_fuel) ∧
    (Expr.If (.Bool true) (.Num 1) (.Var "y")).interp .nullptr = Res.ok (Val.NumVal 1) ∧
    (Expr.If (.Bool false) (.Var "y") (.Num 2)).interp .nullptr = Res.ok (Val.NumVal 2) ∧
    (Expr.If (.Num 42) (.Var "X") (.Var "Y")).interp .nullptr =
      Res.runtime_error "cannot call is_true on NumVal" := by
  refine ⟨fun c t e => ?_, rfl, rfl, rfl⟩
  rw [interp_If]
  cases c.interp .nullptr with
  | ok v =>
    cases v with
    | NumVal i => rfl
    | BoolVal b => cases b <;> rfl
    | FunVal p b cenv => rfl
  | runtime_error w => rfl
  | null_deref => rfl
  | out_of_fuel => rfl

/-- C10: `Fun(p, b).interp(env)` returns a closure whose `call(v)` is
`b.interp(ExtendedEnv(p, v, env))`: the body runs in the environment of the place where the
`Fun` was evaluated. The closure of `_let y = 1 _in _fun (x) x + y` called with `NumVal(2)`
returns `NumVal(3)`. -/
theorem C10_closure_lexical_scope :
    (∀ (p : String) (b : Expr) (env : Env) (v : Val),
      ∃ f, (Expr.Fun p b).interp env = Res.ok f ∧
        f.call v = b.interp (Env.ExtendedEnv p v env)) ∧
    (∃ f, (Expr.Let "y" (.Num 1) (.Fun "x" (.Add (.Var "x") (.Var "y")))).interp .nullptr =
        Res.ok f ∧
      f.call (Val.NumVal 2) = Res.ok (Val.NumVal 3)) :=
  ⟨fun p b env _ => ⟨Val.FunVal p b env, rfl, rfl⟩,
    ⟨Val.FunVal "x" (.Add (.Var "x") (.Var "y")) (.ExtendedEnv "y" (.NumVal 1) .EmptyEnv),
      rfl, rfl⟩⟩

/-! ## `Call` and `Eq` under `interp` -/

/-- C11 (counterexample): `Call(Num 5, Var "x").interp()` throws the error of the argument,
"Var cannot call interp()", and not "cannot use call() on this type". -/
theorem C11_counterexample :
    (Expr.Num 5).interp .nullptr = Res.ok (Val.NumVal 5) ∧
    (Expr.Call (.Num 5) (.Var "x")).interp .nullptr =
      Res.runtime_error "Var cannot call interp()" ∧
    (Expr.Call (.Num 5) (.Var "x")).interp .nullptr ≠
      Res.runtime_error "cannot use call() on this type" := by
  have h : (Expr.Call (.Num 5) (.Var "x")).interp .nullptr =
      Res.runtime_error "Var cannot call interp()" := rfl
  refine ⟨rfl, h, ?_⟩
  rw [h]
  intro hne
  injection hne with hs
  exact absurd hs (by decide)

/-- C11 (as amended): when `f` evaluates to a `NumVal` or a `BoolVal`, `Call(f, a).interp()`
first evaluates the argument; it throws "cannot use call() on this type" when the argument
returns a value, and what the argument throws otherwise. -/
theorem C11_call_non_closure (f a : Expr) (v : Val)
    (hf : f.interp .nullptr = Res.ok v)
    (hv : ∀ (p : String) (b : Expr) (env : Env), v ≠ Val.FunVal p b env) :
    (Expr.Call f a).interp .nullptr =
      match a.interp .nullptr with
      | Res.ok _ => Res.runtime_error "cannot use call() on this type"
      | Res.runtime_error what => Res.runtime_error what
      | Res.null_deref => Res.null_deref
      | Res.out_of_fuel => Res.out_of_fuel := by
  rw [interp_Call, hf, Res.ok_bind]
  cases a.interp .nullptr with
  | ok w =>
    cases v with
    | NumVal i => rfl
    | BoolVal b => rfl
    | FunVal p b env => exact absurd rfl (hv p b env)
  | runtime_error w => rfl
  | null_deref => rfl
  | out_of_fuel => rfl

/-- C11 at `Call(Num 5, Num 9)`, the case of the unit test. -/
theorem C11_call_non_closure_witness :
    (Expr.Num 5).interp .nullptr = Res.ok (Val.NumVal 5) ∧
    (∀ (p : String) (b : Expr) (env : Env), Val.NumVal 5 ≠ Val.FunVal p b env) ∧
    (Expr.Call (.Num 5) (.Num 9)).interp .nullptr =
      Res.runtime_error "cannot use call() on this type" :=
  ⟨rfl, fun _ _ _ h => Val.noConfusion h,
    C11_call_non_closure (.Num 5) (.Num 9) (.NumVal 5) rfl (fun _ _ _ h => Val.noConfusion h)⟩

theorem Val.equals_eq_true_iff (lv rv : Val) :
    lv.equals (some rv) = true ↔
      ((∃ n, lv = Val.NumVal n ∧ rv = Val.NumVal n) ∨
       (∃ c, lv = Val.BoolVal c ∧ rv = Val.BoolVal c) ∨
       (∃ p body e1 e2, lv = Val.FunVal p body e1 ∧ rv = Val.FunVal p body e2)) := by
  cases lv <;> cases rv <;> simp [Val.equals, Expr.equals_iff_eq]
  · exact eq_comm
  · exact eq_comm

/-- C12 (counterexample): two closures with the same parameter and body but different
captured environments are different values, and `Eq` of them returns `BoolVal(true)`. -/
theorem C12_counterexample :
    ∃ lv rv : Val,
      (Expr.Let "y" (.Num 1) (.Fun "x" (.Var "y"))).interp .nullptr = Res.ok lv ∧
      (Expr.Let "y" (.Num 2) (.Fun "x" (.Var "y"))).interp .nullptr = Res.ok rv ∧
      lv ≠ rv ∧
      lv.call (Val.NumVal 0) = Res.ok (Val.NumVal 1) ∧
      rv.call (Val.NumVal 0) = Res.ok (Val.NumVal 2) ∧
      (Expr.Eq (.Let "y" (.Num 1) (.Fun "x" (.Var "y")))
        (.Let "y" (.Num 2) (.Fun "x" (.Var "y")))).interp .nullptr =
        Res.ok (Val.BoolVal true) := by
  refine ⟨Val.FunVal "x" (.Var "y") (.ExtendedEnv "y" (.NumVal 1) .EmptyEnv),
    Val.FunVal "x" (.Var "y") (.ExtendedEnv "y" (.NumVal 2) .EmptyEnv), rfl, rfl, ?_, rfl, rfl,
    rfl⟩
  intro h
  injection h with _ _ h3
  injection h3 with _ h4 _
  injection h4 with h5
  exact absurd h5 (by decide)

/-- C12 (as amended): when `l` and `r` both return a value in `env`, `Eq(l, r).interp(env)`
returns a `BoolVal`, and it is `BoolVal(true)` exactly when the two values are two `NumVal`
with the same integer, two `BoolVal` with the same boolean, or two `FunVal` with the same
parameter and body (their captured environments are not compared). -/
theorem C12_interp_Eq (l r : Expr) (env : Env) (lv rv : Val)
    (hl : l.interp env = Res.ok lv) (hr : r.interp env = Res.ok rv) :
    ∃ b : bool, (Expr.Eq l r).interp env = Res.ok (Val.BoolVal b) ∧
      (b = true ↔
        ((∃ n, lv = Val.NumVal n ∧ rv = Val.NumVal n) ∨
         (∃ c, lv = Val.BoolVal c ∧ rv = Val.BoolVal c) ∨
         (∃ p body e1 e2, lv = Val.FunVal p body e1 ∧ rv = Val.FunVal p body e2))) := by
  refine ⟨lv.equals (some rv), ?_, Val.equals_eq_true_iff lv rv⟩
  rw [interp_Eq, hl, hr]
  rfl

/-- C12 at `Eq(Num 0, Bool false)`: the result is a `BoolVal`, and it is not `true`. -/
theorem C12_interp_Eq_witness :
    (Expr.Num 0).interp .nullptr = Res.ok (Val.NumVal 0) ∧
    (Expr.Bool false).interp .nullptr = Res.ok (Val.BoolVal false) ∧
    ∃ b : bool, (Expr.Eq (.Num 0) (.Bool false)).interp .nullptr = Res.ok (Val.BoolVal b) ∧
      (b = true ↔
        ((∃ n, Val.NumVal 0 = Val.NumVal n ∧ Val.BoolVal false = Val.NumVal n) ∨
         (∃ c, Val.NumVal 0 = Val.BoolVal c ∧ Val.BoolVal false = Val.BoolVal c) ∨
         (∃ p body e1 e2, Val.NumVal 0 = Val.FunVal p body e1 ∧
            Val.BoolVal false = Val.FunVal p body e2))) :=
  ⟨rfl, rfl, C12_interp_Eq (.Num 0) (.Bool false) .nullptr (.NumVal 0) (.BoolVal false) rfl rfl⟩

/-! ## `has_variable` -/

theorem Expr.containsVar_of_has_variable (e : Expr) :
    e.has_variable = true → e.containsVar = true := by
  induction e <;> simp_all [Expr.has_variable, Expr.containsVar] <;> tauto

/-- C13 (the code at the failing input): `Call(Var "x", Num 1)` contains a `Var` node, yet
`has_variable` returns `false` on it and on an `Eq` that holds it, where the methods of the
other classes look into every operand. -/
theorem C13_has_variable_Call :
    (Expr.Call (.Var "x") (.Num 1)).containsVar = true ∧
    (Expr.Call (.Var "x") (.Num 1)).has_variable = false ∧
    (Expr.Eq (.Call (.Var "x") (.Num 1)) (.Num 42)).containsVar = true ∧
    (Expr.Eq (.Call (.Var "x") (.Num 1)) (.Num 42)).has_variable = false ∧
    (∀ f a : Expr, (Expr.Call f a).has_variable = false) :=
  ⟨rfl, rfl, rfl, rfl, fun _ _ => rfl⟩

/-! ## `subst` -/

theorem Expr.replaceWhere_false (x : String) (r : Expr) (e : Expr) :
    Expr.replaceWhere x r false e = e := by
  induction e <;> simp_all [Expr.replaceWhere]

theorem Expr.subst_eq_replaceWhere (x : String) (r : Expr) (e : Expr) :
    e.subst x r = Expr.replaceWhere x r true e := by
  induction e with
  | Var s =>
    simp only [Expr.subst, Expr.replaceWhere, Bool.true_and, decide_eq_true_eq]
    by_cases h : x = s
    · simp [h]
    · simp [h, Ne.symm h]
  | Let y rhs b ihr ihb =>
    by_cases h : y = x
    · simp [Expr.subst, Expr.replaceWhere, h, ihr, Expr.replaceWhere_false]
    · simp [Expr.subst, Expr.replaceWhere, h, ihr, ihb]
  | Fun p b ihb =>
    by_cases h : p = x
    · simp [Expr.subst, Expr.replaceWhere, h, Expr.replaceWhere_false]
    · simp [Expr.subst, Expr.replaceWhere, h, ihb]
  | Num i => rfl
  | Bool b => rfl
  | Eq l rhs ihl ihr => simp [Expr.subst, Expr.replaceWhere, ihl, ihr]
  | Add l rhs ihl ihr => simp [Expr.subst, Expr.replaceWhere, ihl, ihr]
  | Mult l rhs ihl ihr => simp [Expr.subst, Expr.replaceWhere, ihl, ihr]
  | If c t e ihc iht ihe => simp [Expr.subst, Expr.replaceWhere, ihc, iht, ihe]
  | Call f a ihf iha => simp [Expr.subst, Expr.replaceWhere, ihf, iha]

theorem Expr.occursFree_of_occurs_false (x : String) (e : Expr) :
    e.occurs x = false → e.occursFree x = false := by
  induction e <;> simp_all [Expr.occurs, Expr.occursFree]

theorem Expr.subst_occursFree (x : String) (r : Expr) (hr : r.occurs x = false) (e : Expr) :
    (e.subst x r).occursFree x = false := by
  have hr' := Expr.occursFree_of_occurs_false x r hr
  induction e with
  | Var s =>
    by_cases h : x = s
    · subst h
      simp only [Expr.subst, if_true]
      exact hr'
    · simp [Expr.subst, h, Expr.occursFree, Ne.symm h]
  | Let y rhs b ihr ihb =>
    by_cases h : y = x
    · simp [Expr.subst, h, Expr.occursFree, ihr]
    · simp [Expr.subst, h, Expr.occursFree, ihr, ihb]
  | Fun p b ihb =>
    by_cases h : p = x
    · simp [Expr.subst, h, Expr.occursFree]
    · simp [Expr.subst, h, Expr.occursFree, ihb]
  | Num i => rfl
  | Bool b => rfl
  | Eq l rhs ihl ihr => simp [Expr.subst, Expr.occursFree, ihl, ihr]
  | Add l rhs ihl ihr => simp [Expr.subst, Expr.occursFree, ihl, ihr]
  | Mult l rhs ihl ihr => simp [Expr.subst, Expr.occursFree, ihl, ihr]
  | If c t e ihc iht ihe => simp [Expr.subst, Expr.occursFree, ihc, iht, ihe]
  | Call f a ihf iha => simp [Expr.subst, Expr.occursFree, ihf, iha]

theorem Expr.subst_of_not_occursFree (x : String) (r : Expr) (e : Expr) :
    e.occursFree x = false → e.subst x r = e := by
  induction e with
  | Var s =>
    intro h
    have hs : ¬ x = s := by
      intro hx
      simp [Expr.occursFree, hx] at h
    simp [Expr.subst, hs]
  | Let y rhs b ihr ihb =>
    intro h
    by_cases hy : y = x
    · simp_all [Expr.subst, Expr.occursFree]
    · simp_all [Expr.subst, Expr.occursFree]
  | Fun p b ihb =>
    intro h
    by_cases hp : p = x
    · simp_all [Expr.subst, Expr.occursFree]
    · simp_all [Expr.subst, Expr.occursFree]
  | Num i => intro _; rfl
  | Bool b => intro _; rfl
  | Eq l rhs ihl ihr => intro h; simp_all [Expr.subst, Expr.occursFree]
  | Add l rhs ihl ihr => intro h; simp_all [Expr.subst, Expr.occursFree]
  | Mult l rhs ihl ihr => intro h; simp_all [Expr.subst, Expr.occursFree]
  | If c t e ihc iht ihe => intro h; simp_all [Expr.subst, Expr.occursFree]
  | Call f a ihf iha => intro h; simp_all [Expr.subst, Expr.occursFree]

/-- C14: `e.subst(x, r)` is the tree in which every free occurrence of `Var(x)` in `e` is
replaced by `r` and nothing else is changed; when `Var(x)` does not occur in `r`, it does not
occur free in the result, and when it does not occur free in `e`, the result is `e`. -/
theorem C14_subst_replaces_free_occurrences :
    (∀ (e : Expr) (x : String) (r : Expr), e.subst x r = Expr.replaceWhere x r true e) ∧
    (∀ (e : Expr) (x : String) (r : Expr),
      r.occurs x = false → (e.subst x r).occursFree x = false) ∧
    (∀ (e : Expr) (x : String) (r : Expr),
      e.occursFree x = false → (e.subst x r).equals (some e) = true) :=
  ⟨fun e x r => Expr.subst_eq_replaceWhere x r e,
    fun e x r hr => Expr.subst_occursFree x r hr e,
    fun e x r h => (Expr.equals_iff_eq _ _).2 (Expr.subst_of_not_occursFree x r e h)⟩

/-- C15: for its own bound name `Let::subst` substitutes into the bound expression only and
`Fun::subst` changes nothing; for another name both substitute into the body too. -/
theorem C15_subst_binders :
    (∀ (x : String) (rhs body e : Expr),
      (Expr.Let x rhs body).subst x e = Expr.Let x (rhs.subst x e) body) ∧
    (∀ (x : String) (body e : Expr), (Expr.Fun x body).subst x e = Expr.Fun x body) ∧
    (∀ (x y : String) (rhs body e : Expr),
      (Expr.Let x rhs body).subst y e =
        if x = y then Expr.Let x (rhs.subst y e) body
        else Expr.Let x (rhs.subst y e) (body.subst y e)) ∧
    (∀ (x y : String) (body e : Expr),
      (Expr.Fun x body).subst y e =
        if x = y then Expr.Fun x body else Expr.Fun x (body.subst y e)) := by
  refine ⟨fun x rhs body e => ?_, fun x body e => ?_, fun _ _ _ _ _ => rfl,
    fun _ _ _ _ => rfl⟩
  · simp [Expr.subst]
  · simp [Expr.subst]

/-! ## `to_string` and `to_expr` -/

/-- C16: `to_string` follows the literal form: decimal numbers with a leading minus sign,
`_true` / `_false`, the bare name of a variable, binary operators in parentheses without
spaces, the three keyword forms, and a call as callee, one space, argument. -/
theorem C16_to_string_literal_form :
    (∀ n : Int, (Expr.Num n).to_string =
      if n < 0 then "-" ++ Nat.repr (-n).toNat else Nat.repr n.toNat) ∧
    ((Expr.Num 0).to_string = "0" ∧ (Expr.Num 56780).to_string = "56780" ∧
      (Expr.Num (-42)).to_string = "-42" ∧
      (Expr.Num 2147483647).to_string = "2147483647" ∧
      (Expr.Num (-2147483648)).to_string = "-2147483648") ∧
    ((Expr.Bool true).to_string = "_true" ∧ (Expr.Bool false).to_string = "_false") ∧
    (∀ s : String, (Expr.Var s).to_string = s) ∧
    (∀ l r : Expr,
      (Expr.Eq l r).to_string = "(" ++ l.to_string ++ "==" ++ r.to_string ++ ")" ∧
      (Expr.Add l r).to_string = "(" ++ l.to_string ++ "+" ++ r.to_string ++ ")" ∧
      (Expr.Mult l r).to_string = "(" ++ l.to_string ++ "*" ++ r.to_string ++ ")") ∧
    (∀ (n : String) (r b : Expr),
      (Expr.Let n r b).to_string =
        "(_let " ++ n ++ "=" ++ r.to_string ++ " _in " ++ b.to_string ++ ")") ∧
    (∀ t y z : Expr,
      (Expr.If t y z).to_string =
        "(_if " ++ t.to_string ++ " _then " ++ y.to_string ++ " _else " ++ z.to_string ++ ")") ∧
    (∀ (p : String) (b : Expr),
      (Expr.Fun p b).to_string = "(_fun (" ++ p ++ ") " ++ b.to_string ++ ")") ∧
    (∀ f a : Expr, (Expr.Call f a).to_string = f.to_string ++ " " ++ a.to_string) ∧
    (Expr.Call (.Fun "y" (.Add (.Var "y") (.Num 7)))
      (.Let "x" (.Num 9) (.Add (.Var "x") (.Num 4)))).to_string =
        "(_fun (y) (y+7)) (_let x=9 _in (x+4))" := by
  refine ⟨fun _ => rfl, ⟨by decide, by decide, by decide, by decide, by decide⟩, ⟨rfl, rfl⟩,
    fun _ => rfl, fun _ _ => ⟨rfl, rfl, rfl⟩, fun _ _ _ => rfl, fun _ _ _ => rfl,
    fun _ _ => rfl, fun _ _ => rfl, by decide⟩

/-- C18: `to_expr` gives back the literal that was evaluated: `Num(n)` and `Bool(b)` from
their values, and `Fun(p, e)` from its closure whatever environment was captured. -/
theorem C18_to_expr_inverts_interp :
    (∀ n : Int, ∃ v, (Expr.Num n).interp .nullptr = Res.ok v ∧
      v.to_expr.equals (some (Expr.Num n)) = true) ∧
    (∀ b : bool, ∃ v, (Expr.Bool b).interp .nullptr = Res.ok v ∧
      v.to_expr.equals (some (Expr.Bool b)) = true) ∧
    (∀ (p : String) (e : Expr) (env : Env), ∃ v, (Expr.Fun p e).interp env = Res.ok v ∧
      v.to_expr.equals (some (Expr.Fun p e)) = true ∧ v.to_expr = Expr.Fun p e) :=
  ⟨fun _ => ⟨_, rfl, (Expr.equals_iff_eq _ _).2 rfl⟩,
    fun _ => ⟨_, rfl, (Expr.equals_iff_eq _ _).2 rfl⟩,
    fun _ _ _ => ⟨_, rfl, (Expr.equals_iff_eq _ _).2 rfl, rfl⟩⟩

/-! ## Basic facts about parsing outcomes -/

@[simp] theorem PRes.parse_bind_eq_bind {α β : Type} (x : PRes α) (f : α → PRes β) :
    x >>= f = x.bind f := rfl

@[simp] theorem PRes.parse_pure_eq_ok {α : Type} (a : α) : (pure a : PRes α) = .ok a := rfl

@[simp] theorem PRes.parse_ok_bind {α β : Type} (a : α) (f : α → PRes β) :
    (PRes.ok a).bind f = f a := rfl

@[simp] theorem PRes.parse_runtime_error_bind {α β : Type} (w : String) (f : α → PRes β) :
    (PRes.runtime_error w : PRes α).bind f = .runtime_error w := rfl

@[simp] theorem PRes.parse_out_of_fuel_bind {α β : Type} (f : α → PRes β) :
    (PRes.out_of_fuel : PRes α).bind f = .out_of_fuel := rfl

theorem PRes.parse_le_refl {α : Type} (x : PRes α) : PRes.le x x := Or.inr rfl

theorem PRes.parse_le_bind {α β : Type} {x y : PRes α} {f g : α → PRes β}
    (hxy : PRes.le x y) (hfg : ∀ a, PRes.le (f a) (g a)) : PRes.le (x.bind f) (y.bind g) := by
  rcases hxy with h | h
  · left; rw [h]; rfl
  · subst h
    cases x with
    | ok a => exact hfg a
    | runtime_error w => exact PRes.parse_le_refl _
    | out_of_fuel => exact PRes.parse_le_refl _

theorem PRes.parse_eq_of_le {α : Type} {x y : PRes α} (h : PRes.le x y) (hx : x ≠ .out_of_fuel) :
    y = x := by
  rcases h with h | h
  · exact absurd h hx
  · exact h.symm

/-! ## The parsing functions, one equation each -/

theorem parse_eqs_succ (n : Nat) (stream : istream) :
    parse_eqs (n + 1) stream =
      (parse_adds n stream).bind (fun p =>
        match consume_whitespace p.2 with
        | '=' :: s2 =>
            match s2 with
            | '=' :: s3 => (parse_eqs n s3).bind (fun q => .ok (.Eq p.1 q.1, q.2))
            | _ => .ok (p.1, '=' :: s2)
        | s2 => .ok (p.1, s2)) := rfl

theorem parse_adds_succ (n : Nat) (stream : istream) :
    parse_adds (n + 1) stream =
      (parse_mults n stream).bind (fun p =>
        match consume_whitespace p.2 with
        | '+' :: s2 => (parse_adds n s2).bind (fun q => .ok (.Add p.1 q.1, q.2))
        | s2 => .ok (p.1, s2)) := rfl

theorem parse_mults_succ (n : Nat) (stream : istream) :
    parse_mults (n + 1) stream =
      (parse_calls n stream).bind (fun p =>
        match consume_whitespace p.2 with
        | '*' :: s2 => (parse_mults n s2).bind (fun q => .ok (.Mult p.1 q.1, q.2))
        | s2 => .ok (p.1, s2)) := rfl

theorem parse_calls_succ (n : Nat) (stream : istream) :
    parse_calls (n + 1) stream =
      (parse_bases n stream).bind (fun p => parse_calls_loop n p.1 p.2) := rfl

theorem parse_calls_loop_succ (n : Nat) (e : Expr) (stream : istream) :
    parse_calls_loop (n + 1) e stream =
      match stream with
      | '(' :: s1 =>
          (parse_eqs n s1).bind (fun p =>
            (consume p.2 ')').bind (fun s3 => parse_calls_loop n (.Call e p.1) s3))
      | _ => .ok (e, stream) := rfl

theorem parse_bases_succ (n : Nat) (stream : istream) :
    parse_bases (n + 1) stream =
      match consume_whitespace stream with
      | [] => .runtime_error "parse_bases(): invalid input"
      | c :: rest =>
          if c = '-' || isdigit c then parse_num (c :: rest)
          else if isalpha c then parse_var (c :: rest)
          else if c = '(' then parse_paren n (c :: rest)
          else if c = '_' then
            (peek_keyword (c :: rest)).bind (fun kw =>
              if kw = "LET" then parse_let n (c :: rest)
              else if kw = "IF" then parse_if n (c :: rest)
              else if kw = "FUN" then parse_fun n (c :: rest)
              else parse_bool (c :: rest))
          else .runtime_error "parse_bases(): invalid input" := rfl

theorem parse_let_succ (n : Nat) (stream : istream) :
    parse_let (n + 1) stream =
      (consume_string stream ['_', 'l', 'e', 't']).bind (fun s1 =>
        (parse_eqs n s1).bind (fun p =>
          match p.1 with
          | .Var str_m =>
              (consume p.2 '=').bind (fun s3 =>
                (parse_eqs n s3).bind (fun q =>
                  (consume_string q.2 ['_', 'i', 'n']).bind (fun s5 =>
                    (parse_eqs n s5).bind (fun b =>
                      if (b.1.subst str_m q.1).equals (some b.1) then
                        .runtime_error "parse_let(): invalid let"
                      else .ok (.Let str_m q.1 b.1, b.2)))))
          | _ => .runtime_error "parse_let(): invalid let")) := rfl

theorem parse_if_succ (n : Nat) (stream : istream) :
    parse_if (n + 1) stream =
      (consume_string stream ['_', 'i', 'f']).bind (fun s1 =>
        (parse_eqs n s1).bind (fun p =>
          (consume_string p.2 ['_', 't', 'h', 'e', 'n']).bind (fun s3 =>
            (parse_eqs n s3).bind (fun q =>
              (consume_string q.2 ['_', 'e', 'l', 's', 'e']).bind (fun s5 =>
                (parse_eqs n s5).bind (fun r => .ok (.If p.1 q.1 r.1, r.2))))))) := rfl

theorem parse_fun_succ (n : Nat) (stream : istream) :
    parse_fun (n + 1) stream =
      (consume_string stream ['_', 'f', 'u', 'n']).bind (fun s1 =>
        (parse_eqs n s1).bind (fun p =>
          match p.1 with
          | .Var str_m =>
              (parse_eqs n p.2).bind (fun b =>
                if (b.1.subst str_m b.1).equals (some b.1) then
                  .runtime_error "parse_let(): invalid fun"
                else .ok (.Fun str_m b.1, b.2))
          | _ => .runtime_error "parse_let(): invalid fun")) := rfl

theorem parse_paren_succ (n : Nat) (stream : istream) :
    parse_paren (n + 1) stream =
      (consume stream '(').bind (fun s1 =>
        (parse_eqs n s1).bind (fun p =>
          match p.2 with
          | ')' :: s3 => .ok (p.1, s3)
          | _ => .runtime_error "parse_paren(): missing closing parenthesis")) := rfl

/-! ## More fuel does not change a finished parse -/

theorem parser_le_succ (n : Nat) :
    (∀ s, PRes.le (parse_eqs n s) (parse_eqs (n + 1) s)) ∧
    (∀ s, PRes.le (parse_adds n s) (parse_adds (n + 1) s)) ∧
    (∀ s, PRes.le (parse_mults n s) (parse_mults (n + 1) s)) ∧
    (∀ s, PRes.le (parse_calls n s) (parse_calls (n + 1) s)) ∧
    (∀ e s, PRes.le (parse_calls_loop n e s) (parse_calls_loop (n + 1) e s)) ∧
    (∀ s, PRes.le (parse_bases n s) (parse_bases (n + 1) s)) ∧
    (∀ s, PRes.le (parse_let n s) (parse_let (n + 1) s)) ∧
    (∀ s, PRes.le (parse_if n s) (parse_if (n + 1) s)) ∧
    (∀ s, PRes.le (parse_fun n s) (parse_fun (n + 1) s)) ∧
    (∀ s, PRes.le (parse_paren n s) (parse_paren (n + 1) s)) := by
  induction n with
  | zero =>
    exact ⟨fun _ => Or.inl rfl, fun _ => Or.inl rfl, fun _ => Or.inl rfl, fun _ => Or.inl rfl,
      fun _ _ => Or.inl rfl, fun _ => Or.inl rfl, fun _ => Or.inl rfl, fun _ => Or.inl rfl,
      fun _ => Or.inl rfl, fun _ => Or.inl rfl⟩
  | succ n ih =>
    obtain ⟨heqs, hadds, hmults, hcalls, hloop, hbases, hlet, hif, hfun, hparen⟩ := ih
    refine ⟨fun s => ?_, fun s => ?_, fun s => ?_, fun s => ?_, fun e s => ?_, fun s => ?_,
      fun s => ?_, fun s => ?_, fun s => ?_, fun s => ?_⟩
    · rw [parse_eqs_succ n, parse_eqs_succ (n + 1)]
      refine PRes.parse_le_bind (hadds s) (fun p => ?_)
      generalize consume_whitespace p.2 = t
      split
      · split
        · exact PRes.parse_le_bind (heqs _) (fun _ => PRes.parse_le_refl _)
        · exact PRes.parse_le_refl _
      · exact PRes.parse_le_refl _
    · rw [parse_adds_succ n, parse_adds_succ (n + 1)]
      refine PRes.parse_le_bind (hmults s) (fun p => ?_)
      generalize consume_whitespace p.2 = t
      split
      · exact PRes.parse_le_bind (hadds _) (fun _ => PRes.parse_le_refl _)
      · exact PRes.parse_le_refl _
    · rw [parse_mults_succ n, parse_mults_succ (n + 1)]
      refine PRes.parse_le_bind (hcalls s) (fun p => ?_)
      generalize consume_whitespace p.2 = t
      split
      · exact PRes.parse_le_bind (hmults _) (fun _ => PRes.parse_le_refl _)
      · exact PRes.parse_le_refl _
    · rw [parse_calls_succ n, parse_calls_succ (n + 1)]
      exact PRes.parse_le_bind (hbases s) (fun p => hloop _ _)
    · rw [parse_calls_loop_succ n, parse_calls_loop_succ (n + 1)]
      split
      · exact PRes.parse_le_bind (heqs _) (fun _ => PRes.parse_le_bind (PRes.parse_le_refl _) (fun _ => hloop _ _))
      · exact PRes.parse_le_refl _
    · rw [parse_bases_succ n, parse_bases_succ (n + 1)]
      generalize consume_whitespace s = t
      split
      · exact PRes.parse_le_refl _
      · split
        · exact PRes.parse_le_refl _
        · split
          · exact PRes.parse_le_refl _
          · split
            · exact hparen _
            · split
              · refine PRes.parse_le_bind (PRes.parse_le_refl _) (fun kw => ?_)
                split
                · exact hlet _
                · split
                  · exact hif _
                  · split
                    · exact hfun _
                    · exact PRes.parse_le_refl _
              · exact PRes.parse_le_refl _
    · rw [parse_let_succ n, parse_let_succ (n + 1)]
      refine PRes.parse_le_bind (PRes.parse_le_refl _) (fun s1 => PRes.parse_le_bind (heqs _) (fun p => ?_))
      split
      · exact PRes.parse_le_bind (PRes.parse_le_refl _) (fun _ => PRes.parse_le_bind (heqs _) (fun _ =>
          PRes.parse_le_bind (PRes.parse_le_refl _) (fun _ => PRes.parse_le_bind (heqs _) (fun _ =>
            PRes.parse_le_refl _))))
      · exact PRes.parse_le_refl _
    · rw [parse_if_succ n, parse_if_succ (n + 1)]
      exact PRes.parse_le_bind (PRes.parse_le_refl _) (fun _ => PRes.parse_le_bind (heqs _) (fun _ =>
        PRes.parse_le_bind (PRes.parse_le_refl _) (fun _ => PRes.parse_le_bind (heqs _) (fun _ =>
          PRes.parse_le_bind (PRes.parse_le_refl _) (fun _ => PRes.parse_le_bind (heqs _) (fun _ =>
            PRes.parse_le_refl _))))))
    · rw [parse_fun_succ n, parse_fun_succ (n + 1)]
      refine PRes.parse_le_bind (PRes.parse_le_refl _) (fun s1 => PRes.parse_le_bind (heqs _) (fun p => ?_))
      split
      · exact PRes.parse_le_bind (heqs _) (fun _ => PRes.parse_le_refl _)
      · exact PRes.parse_le_refl _
    · rw [parse_paren_succ n, parse_paren_succ (n + 1)]
      exact PRes.parse_le_bind (PRes.parse_le_refl _) (fun _ => PRes.parse_le_bind (heqs _) (fun _ =>
        PRes.parse_le_refl _))

theorem parse_eqs_le_of_le {n m : Nat} (h : n ≤ m) (s : istream) :
    PRes.le (parse_eqs n s) (parse_eqs m s) := by
  induction h with
  | refl => exact PRes.parse_le_refl _
  | step _ ih =>
    rcases ih with h1 | h1
    · exact Or.inl h1
    · rw [h1]; exact (parser_le_succ _).1 s

/-- A parse that finished with fuel `n` gives the same outcome with any larger fuel. -/
theorem parse_eqs_stable {n m : Nat} (h : n ≤ m) (s : istream)
    (hn : parse_eqs n s ≠ .out_of_fuel) : parse_eqs m s = parse_eqs n s :=
  PRes.parse_eq_of_le (parse_eqs_le_of_le h s) hn

/-! ## Every parse finishes with fuel `parse_fuel` -/

theorem PRes.fits_ok {α : Type} {L : Nat} {a : α} {rest : istream} (h : rest.length ≤ L) :
    PRes.fits L (PRes.ok (a, rest)) :=
  ⟨by simp, fun b r hb => by cases hb; exact h⟩

theorem PRes.fits_runtime_error {α : Type} {L : Nat} (w : String) :
    PRes.fits L (PRes.runtime_error w : PRes (α × istream)) :=
  ⟨by simp, fun b r hb => by cases hb⟩

theorem PRes.fits_mono {α : Type} {L L' : Nat} {x : PRes (α × istream)} (h : L ≤ L')
    (hx : PRes.fits L x) : PRes.fits L' x :=
  ⟨hx.1, fun a r ha => Nat.le_trans (hx.2 a r ha) h⟩

theorem PRes.fits_bind {α β : Type} {L L' : Nat} {x : PRes (α × istream)}
    {f : α × istream → PRes (β × istream)} (hx : PRes.fits L x)
    (hf : ∀ p : α × istream, p.2.length ≤ L → PRes.fits L' (f p)) :
    PRes.fits L' (x.bind f) := by
  cases x with
  | ok p => exact hf p (hx.2 p.1 p.2 rfl)
  | runtime_error w => exact PRes.fits_runtime_error w
  | out_of_fuel => exact absurd rfl hx.1

theorem consume_bind_fits {β : Type} {L' : Nat} (s : istream) (c : Char)
    {f : istream → PRes (β × istream)}
    (hf : ∀ rest : istream, rest.length + 1 = s.length → PRes.fits L' (f rest)) :
    PRes.fits L' ((consume s c).bind f) := by
  cases s with
  | nil => exact PRes.fits_runtime_error _
  | cons d rest =>
    simp only [consume]
    split
    · exact hf rest rfl
    · exact PRes.fits_runtime_error _

theorem consume_string_bind_fits {β : Type} {L' : Nat} (str : List Char) :
    ∀ (s : istream) {f : istream → PRes (β × istream)},
      (∀ rest : istream, rest.length + str.length = s.length → PRes.fits L' (f rest)) →
      PRes.fits L' ((consume_string s str).bind f) := by
  induction str with
  | nil =>
    intro s f hf
    exact hf s rfl
  | cons c str ih =>
    intro s f hf
    cases s with
    | nil => exact PRes.fits_runtime_error _
    | cons d rest =>
      simp only [consume_string, consume, PRes.parse_bind_eq_bind]
      split
      · exact ih rest (fun r hr => hf r (by simp only [List.length_cons]; omega))
      · exact PRes.fits_runtime_error _

theorem consume_whitespace_length (s : istream) :
    (consume_whitespace s).length ≤ s.length := by
  induction s with
  | nil => exact Nat.le_refl _
  | cons c rest ih =>
    simp only [consume_whitespace]
    split
    · simp only [List.length_cons]; omega
    · exact Nat.le_refl _

theorem build_number_loop_fits (s : istream) :
    ∀ number : Int, PRes.fits s.length (build_number_loop number s) := by
  induction s with
  | nil => intro number; exact PRes.fits_ok (Nat.le_refl _)
  | cons c rest ih =>
    intro number
    simp only [build_number_loop]
    split
    · exact PRes.fits_mono (by simp) (ih _)
    · split
      · exact PRes.fits_runtime_error _
      · exact PRes.fits_ok (Nat.le_refl _)

theorem parse_num_fits (s : istream) : PRes.fits s.length (parse_num s) := by
  unfold parse_num
  split
  · split
    · exact PRes.fits_runtime_error _
    · split
      · exact PRes.fits_bind (build_number_loop_fits _ 0) (fun p hp =>
          PRes.fits_ok (by simp only [List.length_cons] at hp ⊢; omega))
      · exact PRes.fits_runtime_error _
  · exact PRes.fits_bind (build_number_loop_fits _ 0) (fun p hp => PRes.fits_ok hp)

theorem parse_var_loop_fits (s : istream) :
    ∀ str : List Char, PRes.fits s.length (parse_var_loop str s) := by
  induction s with
  | nil => intro str; exact PRes.fits_ok (Nat.le_refl _)
  | cons c rest ih =>
    intro str
    simp only [parse_var_loop]
    split
    · exact PRes.fits_mono (by simp) (ih _)
    · split
      · exact PRes.fits_runtime_error _
      · exact PRes.fits_ok (Nat.le_refl _)

theorem parse_var_fits (s : istream) : PRes.fits s.length (parse_var s) :=
  parse_var_loop_fits s []

theorem parse_bool_fits (s : istream) : PRes.fits s.length (parse_bool s) := by
  unfold parse_bool
  simp only [PRes.parse_bind_eq_bind, PRes.parse_pure_eq_ok]
  refine consume_bind_fits s '_' (fun s1 h1 => ?_)
  split
  · exact consume_string_bind_fits _ _ (fun r hr => PRes.fits_ok (by omega))
  · exact consume_string_bind_fits _ _ (fun r hr => PRes.fits_ok (by omega))

theorem peek_keyword_bind_fits {β : Type} {L' : Nat} (s : istream)
    {f : String → PRes (β × istream)} (hf : ∀ kw, PRes.fits L' (f kw)) :
    PRes.fits L' ((peek_keyword s).bind f) := by
  cases h : peek_keyword s with
  | ok kw => exact hf kw
  | runtime_error w => exact PRes.fits_runtime_error _
  | out_of_fuel =>
    exfalso
    unfold peek_keyword at h
    cases s with
    | nil => simp [consume] at h
    | cons c rest =>
      simp only [consume, PRes.parse_bind_eq_bind, PRes.parse_pure_eq_ok] at h
      split at h
      · simp only [PRes.parse_ok_bind] at h
        split at h
        · cases h
        · cases h
        · cases h
        · split at h <;> cases h
        · cases h
      · cases h

/-- With fuel at least six units per character plus the rank of the function (from 1 for a
form that first consumes input up to 6 for `parse_eqs`), a parse finishes and leaves no more
input than it was given. -/
theorem parser_fits (n : Nat) :
    (∀ s : istream, 6 * s.length + 6 ≤ n → PRes.fits s.length (parse_eqs n s)) ∧
    (∀ s : istream, 6 * s.length + 5 ≤ n → PRes.fits s.length (parse_adds n s)) ∧
    (∀ s : istream, 6 * s.length + 4 ≤ n → PRes.fits s.length (parse_mults n s)) ∧
    (∀ s : istream, 6 * s.length + 3 ≤ n → PRes.fits s.length (parse_calls n s)) ∧
    (∀ (e : Expr) (s : istream), 6 * s.length + 1 ≤ n →
      PRes.fits s.length (parse_calls_loop n e s)) ∧
    (∀ s : istream, 6 * s.length + 2 ≤ n → PRes.fits s.length (parse_bases n s)) ∧
    (∀ s : istream, 6 * s.length + 1 ≤ n → PRes.fits s.length (parse_let n s)) ∧
    (∀ s : istream, 6 * s.length + 1 ≤ n → PRes.fits s.length (parse_if n s)) ∧
    (∀ s : istream, 6 * s.length + 1 ≤ n → PRes.fits s.length (parse_fun n s)) ∧
    (∀ s : istream, 6 * s.length + 1 ≤ n → PRes.fits s.length (parse_paren n s)) := by
  induction n with
  | zero =>
    exact ⟨fun _ h => by omega, fun _ h => by omega, fun _ h => by omega, fun _ h => by omega,
      fun _ _ h => by omega, fun _ h => by omega, fun _ h => by omega, fun _ h => by omega,
      fun _ h => by omega, fun _ h => by omega⟩
  | succ n ih =>
    obtain ⟨heqs, hadds, hmults, hcalls, hloop, hbases, hlet, hif, hfun, hparen⟩ := ih
    refine ⟨fun s hn => ?_, fun s hn => ?_, fun s hn => ?_, fun s hn => ?_, fun e s hn => ?_,
      fun s hn => ?_, fun s hn => ?_, fun s hn => ?_, fun s hn => ?_, fun s hn => ?_⟩
    · rw [parse_eqs_succ]
      refine PRes.fits_bind (hadds s (by omega)) (fun p hp => ?_)
      have ht := consume_whitespace_length p.2
      generalize consume_whitespace p.2 = t at ht
      split
      · split
        · simp only [List.length_cons] at ht
          exact PRes.fits_bind (heqs _ (by omega)) (fun q hq => PRes.fits_ok (by omega))
        · exact PRes.fits_ok (by omega)
      · exact PRes.fits_ok (by omega)
    · rw [parse_adds_succ]
      refine PRes.fits_bind (hmults s (by omega)) (fun p hp => ?_)
      have ht := consume_whitespace_length p.2
      generalize consume_whitespace p.2 = t at ht
      split
      · simp only [List.length_cons] at ht
        exact PRes.fits_bind (hadds _ (by omega)) (fun q hq => PRes.fits_ok (by omega))
      · exact PRes.fits_ok (by omega)
    · rw [parse_mults_succ]
      refine PRes.fits_bind (hcalls s (by omega)) (fun p hp => ?_)
      have ht := consume_whitespace_length p.2
      generalize consume_whitespace p.2 = t at ht
      split
      · simp only [List.length_cons] at ht
        exact PRes.fits_bind (hmults _ (by omega)) (fun q hq => PRes.fits_ok (by omega))
      · exact PRes.fits_ok (by omega)
    · rw [parse_calls_succ]
      exact PRes.fits_bind (hbases s (by omega)) (fun p hp =>
        PRes.fits_mono hp (hloop _ _ (by omega)))
    · rw [parse_calls_loop_succ]
      split
      · simp only [List.length_cons] at hn ⊢
        refine PRes.fits_bind (heqs _ (by omega)) (fun p hp => ?_)
        exact consume_bind_fits _ _ (fun s3 h3 =>
          PRes.fits_mono (by omega) (hloop _ s3 (by omega)))
      · exact PRes.fits_ok (Nat.le_refl _)
    · rw [parse_bases_succ]
      have ht := consume_whitespace_length s
      generalize consume_whitespace s = t at ht
      split
      · exact PRes.fits_runtime_error _
      · split
        · exact PRes.fits_mono ht (parse_num_fits _)
        · split
          · exact PRes.fits_mono ht (parse_var_fits _)
          · split
            · exact PRes.fits_mono ht (hparen _ (by omega))
            · split
              · refine peek_keyword_bind_fits _ (fun kw => ?_)
                split
                · exact PRes.fits_mono ht (hlet _ (by omega))
                · split
                  · exact PRes.fits_mono ht (hif _ (by omega))
                  · split
                    · exact PRes.fits_mono ht (hfun _ (by omega))
                    · exact PRes.fits_mono ht (parse_bool_fits _)
              · exact PRes.fits_runtime_error _
    · rw [parse_let_succ]
      refine consume_string_bind_fits _ s (fun s1 h1 => ?_)
      simp only [List.length_cons, List.length_nil] at h1
      refine PRes.fits_bind (heqs s1 (by omega)) (fun p hp => ?_)
      split
      · refine consume_bind_fits _ _ (fun s3 h3 => ?_)
        refine PRes.fits_bind (heqs s3 (by omega)) (fun q hq => ?_)
        refine consume_string_bind_fits _ _ (fun s5 h5 => ?_)
        simp only [List.length_cons, List.length_nil] at h5
        refine PRes.fits_bind (heqs s5 (by omega)) (fun b hb => ?_)
        split
        · exact PRes.fits_runtime_error _
        · exact PRes.fits_ok (by omega)
      · exact PRes.fits_runtime_error _
    · rw [parse_if_succ]
      refine consume_string_bind_fits _ s (fun s1 h1 => ?_)
      simp only [List.length_cons, List.length_nil] at h1
      refine PRes.fits_bind (heqs s1 (by omega)) (fun p hp => ?_)
      refine consume_string_bind_fits _ _ (fun s3 h3 => ?_)
      simp only [List.length_cons, List.length_nil] at h3
      refine PRes.fits_bind (heqs s3 (by omega)) (fun q hq => ?_)
      refine consume_string_bind_fits _ _ (fun s5 h5 => ?_)
      simp only [List.length_cons, List.length_nil] at h5
      exact PRes.fits_bind (heqs s5 (by omega)) (fun r hr => PRes.fits_ok (by omega))
    · rw [parse_fun_succ]
      refine consume_string_bind_fits _ s (fun s1 h1 => ?_)
      simp only [List.length_cons, List.length_nil] at h1
      refine PRes.fits_bind (heqs s1 (by omega)) (fun p hp => ?_)
      split
      · refine PRes.fits_bind (heqs p.2 (by omega)) (fun b hb => ?_)
        split
        · exact PRes.fits_runtime_error _
        · exact PRes.fits_ok (by omega)
      · exact PRes.fits_runtime_error _
    · rw [parse_paren_succ]
      refine consume_bind_fits _ _ (fun s1 h1 => ?_)
      refine PRes.fits_bind (heqs s1 (by omega)) (fun p hp => ?_)
      split
      · rename_i s3 heq
        exact PRes.fits_ok (by rw [heq] at hp; simp only [List.length_cons] at hp; omega)
      · exact PRes.fits_runtime_error _

/-- The fuel `parse_fuel` is enough for every input: `parse_eqs` never runs out of it. -/
theorem parse_eqs_total (s : istream) : parse_eqs (parse_fuel s.length) s ≠ .out_of_fuel :=
  ((parser_fits (parse_fuel s.length)).1 s (Nat.le_refl _)).1

/-- Any fuel with which `parse_eqs` finishes gives the outcome it has with `parse_fuel`. -/
theorem parse_eqs_eq_of_ne_out_of_fuel {n : Nat} (s : istream)
    (h : parse_eqs n s ≠ .out_of_fuel) : parse_eqs n s = parse_eqs (parse_fuel s.length) s := by
  rcases Nat.le_total n (parse_fuel s.length) with hle | hle
  · exact (parse_eqs_stable hle s h).symm
  · exact parse_eqs_stable hle s (parse_eqs_total s)

/-- The function `parse_expr` never runs out of fuel. -/
theorem parse_expr_ne_out_of_fuel (str : String) : parse_expr str ≠ .out_of_fuel := by
  unfold parse_expr
  have h : parse_eqs (parse_fuel str.length) str.toList ≠ .out_of_fuel :=
    parse_eqs_total str.toList
  split
  · split <;> simp
  · simp
  · rename_i heq
    exact absurd heq h

/-! ## The entry point `parse_expr` -/

theorem consume_whitespace_eq_nil_iff (s : istream) :
    consume_whitespace s = [] ↔ ∀ c ∈ s, isspace c = true := by
  induction s with
  | nil => simp [consume_whitespace]
  | cons c rest ih =>
    simp only [consume_whitespace, List.mem_cons, forall_eq_or_imp]
    split
    · rename_i hc
      simp [ih, hc]
    · rename_i hc
      simp [hc]

theorem parse_expr_of_parse_eqs {n : Nat} {str : String} {e : Expr} {rest : istream}
    (h : parse_eqs n str.toList = .ok (e, rest)) :
    parse_expr str =
      match consume_whitespace rest with
      | [] => .ok e
      | _ :: _ => .runtime_error "parse_expr(): invalid input" := by
  have h' : parse_eqs (parse_fuel str.length) str.toList = .ok (e, rest) := by
    rw [← h]
    exact (parse_eqs_eq_of_ne_out_of_fuel str.toList (by rw [h]; simp)).symm
  unfold parse_expr
  rw [h']

/-- C17, counterexample: `"(f)(x)"` parses to `Call(Var f, Var x)`, whose `to_string` is
`"f x"`, the form `callee argument` that the unit tests assert, and `parse_expr("f x")` throws;
the same with the call of the unit tests, `"(_fun (x) x + 4)(3 + 8)"`. -/
theorem C17_counterexample :
    parse_expr "(f)(x)" = PRes.ok (Expr.Call (.Var "f") (.Var "x")) ∧
    (Expr.Call (.Var "f") (.Var "x")).to_string = "f x" ∧
    parse_expr "f x" = PRes.runtime_error "parse_expr(): invalid input" ∧
    parse_expr "(_fun (x) x + 4)(3 + 8)" =
      PRes.ok (Expr.Call (.Fun "x" (.Add (.Var "x") (.Num 4))) (.Add (.Num 3) (.Num 8))) ∧
    (Expr.Call (.Fun "x" (.Add (.Var "x") (.Num 4))) (.Add (.Num 3) (.Num 8))).to_string =
      "(_fun (x) (x+4)) (3+8)" ∧
    parse_expr "(_fun (x) (x+4)) (3+8)" =
      PRes.runtime_error "parse_expr(): invalid input" := by
  refine ⟨by decide, by decide, by decide, by decide, by decide, by decide⟩

/-- C19: `parse_expr` returns an expression only when `parse_eqs` has read one and nothing
but whitespace is left; when `parse_eqs` has read an expression and a character other than
whitespace is left, it throws "parse_expr(): invalid input"; it does so on `"5 6780"`,
`"x x"`, `"42 = 42"` and `"42 - 42"`. -/
theorem C19_parse_expr_consumes_whole_input :
    (∀ (str : String) (e : Expr), parse_expr str = PRes.ok e →
      ∃ rest : istream, parse_eqs (parse_fuel str.length) str.toList = PRes.ok (e, rest) ∧
        ∀ c ∈ rest, isspace c = true) ∧
    (∀ (str : String) (n : Nat) (e : Expr) (rest : istream),
      parse_eqs n str.toList = PRes.ok (e, rest) → (∀ c ∈ rest, isspace c = true) →
        parse_expr str = PRes.ok e) ∧
    (∀ (str : String) (n : Nat) (e : Expr) (rest : istream),
      parse_eqs n str.toList = PRes.ok (e, rest) → (∃ c ∈ rest, isspace c = false) →
        parse_expr str = PRes.runtime_error "parse_expr(): invalid input") ∧
    (∀ str : String, parse_expr str ≠ PRes.out_of_fuel) ∧
    (parse_expr "5 6780" = PRes.runtime_error "parse_expr(): invalid input" ∧
      parse_expr "x x" = PRes.runtime_error "parse_expr(): invalid input" ∧
      parse_expr "42 = 42" = PRes.runtime_error "parse_expr(): invalid input" ∧
      parse_expr "42 - 42" = PRes.runtime_error "parse_expr(): invalid input") := by
  refine ⟨fun str e h => ?_, fun str n e rest h hall => ?_, fun str n e rest h hex => ?_,
    parse_expr_ne_out_of_fuel, ⟨by decide, by decide, by decide, by decide⟩⟩
  · unfold parse_expr at h
    split at h
    · rename_i e' s1 heq
      split at h
      · rename_i hws
        cases h
        exact ⟨s1, heq, (consume_whitespace_eq_nil_iff s1).1 hws⟩
      · cases h
    · cases h
    · cases h
  · rw [parse_expr_of_parse_eqs h, (consume_whitespace_eq_nil_iff rest).2 hall]
  · rw [parse_expr_of_parse_eqs h]
    split
    · rename_i hws
      obtain ⟨c, hc, hsp⟩ := hex
      have := (consume_whitespace_eq_nil_iff rest).1 hws c hc
      rw [this] at hsp
      cases hsp
    · rfl

/-! ## Number literals and identifiers under the parser -/

theorem isspace_cases {c : Char} (h : isspace c = true) :
    c = ' ' ∨ c = '\t' ∨ c = '\n' ∨ c = Char.ofNat 11 ∨ c = Char.ofNat 12 ∨ c = '\r' := by
  simpa [isspace, or_assoc] using h

theorem isdigit_toNat {c : Char} (h : isdigit c = true) : 48 ≤ c.toNat ∧ c.toNat ≤ 57 := by
  simp only [isdigit, decide_eq_true_eq] at h
  exact ⟨h.1, h.2⟩

theorem isalpha_toNat {c : Char} (h : isalpha c = true) :
    (97 ≤ c.toNat ∧ c.toNat ≤ 122) ∨ (65 ≤ c.toNat ∧ c.toNat ≤ 90) := by
  simp only [isalpha, decide_eq_true_eq] at h
  rcases h with h | h
  · exact Or.inl ⟨h.1, h.2⟩
  · exact Or.inr ⟨h.1, h.2⟩

theorem isdigit_not_isspace {c : Char} (h : isdigit c = true) : isspace c = false := by
  cases hs : isspace c with
  | false => rfl
  | true =>
    rcases isspace_cases hs with rfl | rfl | rfl | rfl | rfl | rfl <;>
      exact absurd h (by decide)

theorem isalpha_not_isspace {c : Char} (h : isalpha c = true) : isspace c = false := by
  cases hs : isspace c with
  | false => rfl
  | true =>
    rcases isspace_cases hs with rfl | rfl | rfl | rfl | rfl | rfl <;>
      exact absurd h (by decide)

theorem isdigit_ne_minus {c : Char} (h : isdigit c = true) : c ≠ '-' := by
  rintro rfl
  exact absurd h (by decide)

theorem isalpha_ne_minus {c : Char} (h : isalpha c = true) : c ≠ '-' := by
  rintro rfl
  exact absurd h (by decide)

theorem isalpha_not_isdigit {c : Char} (h : isalpha c = true) : isdigit c = false := by
  cases hd : isdigit c with
  | false => rfl
  | true =>
    have h1 := isdigit_toNat hd
    have h2 := isalpha_toNat h
    omega

theorem digits_value_ge (ds : List Char) :
    ∀ number : Int, 0 ≤ number → (∀ c ∈ ds, isdigit c = true) →
      number ≤ digits_value number ds := by
  induction ds with
  | nil => intro number _ _; exact le_refl _
  | cons c rest ih =>
    intro number h0 hds
    have hc := isdigit_toNat (hds c (List.mem_cons_self _ _))
    have hrest := ih (number * 10 + ((c.toNat : Int) - 48)) (by omega)
      (fun d hd => hds d (List.mem_cons_of_mem _ hd))
    simp only [digits_value]
    omega

/-- What may follow a token in the statements below: the end of the input or a space. -/
theorem build_number_loop_digits (ds rest : List Char)
    (hrest : rest = [] ∨ ∃ r, rest = ' ' :: r) :
    ∀ number : Int, 0 ≤ number → (∀ c ∈ ds, isdigit c = true) →
      digits_value number ds ≤ INT_MAX →
      build_number_loop number (ds ++ rest) = .ok (digits_value number ds, rest) := by
  induction ds with
  | nil =>
    intro number _ _ _
    rcases hrest with rfl | ⟨r, rfl⟩
    · rfl
    · rfl
  | cons c cs ih =>
    intro number h0 hds hmax
    have hc := hds c (List.mem_cons_self _ _)
    have hcn := isdigit_toNat hc
    have hcs : ∀ d ∈ cs, isdigit d = true := fun d hd => hds d (List.mem_cons_of_mem _ hd)
    simp only [digits_value] at hmax
    have hge := digits_value_ge cs (number * 10 + ((c.toNat : Int) - 48)) (by omega) hcs
    simp only [List.cons_append, build_number_loop, hc, if_true, digits_value]
    rw [wrap32_of_nonneg (by omega) (by omega)]
    exact ih _ (by omega) hcs hmax

theorem parse_var_loop_letters (cs rest : List Char)
    (hrest : rest = [] ∨ ∃ r, rest = ' ' :: r) :
    ∀ str : List Char, (∀ c ∈ cs, isalpha c = true) →
      parse_var_loop str (cs ++ rest) = .ok (.Var (String.mk (str ++ cs)), rest) := by
  induction cs with
  | nil =>
    intro str _
    have h1 : isalpha ' ' = false := by decide
    have h2 : malformed_after ' ' = false := by decide
    rcases hrest with rfl | ⟨r, rfl⟩
    · simp [parse_var_loop]
    · simp [parse_var_loop, h1, h2]
  | cons c cs ih =>
    intro str hcs
    have hc := hcs c (List.mem_cons_self _ _)
    have h := ih (str ++ [c]) (fun d hd => hcs d (List.mem_cons_of_mem _ hd))
    show parse_var_loop str (c :: (cs ++ rest)) = _
    simp only [parse_var_loop, hc, if_true]
    rw [h]
    simp

theorem base_term_cases {text : List Char} {e : Expr} (h : base_term text = some e) :
    (∃ c cs, text = c :: cs ∧ (∀ d ∈ c :: cs, isalpha d = true) ∧
      e = .Var (String.mk text)) ∨
    (∃ c cs, text = c :: cs ∧ (∀ d ∈ c :: cs, isdigit d = true) ∧
      digits_value 0 text ≤ INT_MAX ∧ e = .Num (digits_value 0 text)) ∨
    (∃ c cs, text = '-' :: c :: cs ∧ (∀ d ∈ c :: cs, isdigit d = true) ∧
      digits_value 0 (c :: cs) ≤ INT_MAX ∧ e = .Num (digits_value 0 (c :: cs) * -1)) := by
  unfold base_term at h
  split at h
  · rename_i hid
    left
    cases text with
    | nil => simp [is_identifier] at hid
    | cons c cs =>
      simp only [is_identifier, Bool.and_eq_true, List.all_eq_true] at hid
      cases h
      exact ⟨c, cs, rfl, hid.2, rfl⟩
  · split at h
    · rename_i hnum
      right; left
      cases text with
      | nil => simp [is_number_literal] at hnum
      | cons c cs =>
        simp only [is_number_literal, Bool.and_eq_true, List.all_eq_true,
          decide_eq_true_eq] at hnum
        cases h
        exact ⟨c, cs, rfl, hnum.1.2, hnum.2, rfl⟩
    · split at h
      · rename_i hneg
        right; right
        simp only [Bool.and_eq_true, beq_iff_eq, decide_eq_true_eq] at hneg
        cases text with
        | nil => simp at hneg
        | cons m ds =>
          simp only [List.head?_cons, Option.some.injEq, List.tail_cons] at hneg h
          obtain ⟨rfl, hnum⟩ := hneg
          cases ds with
          | nil => simp [is_number_literal] at hnum
          | cons c cs =>
            simp only [is_number_literal, Bool.and_eq_true, List.all_eq_true,
              decide_eq_true_eq] at hnum
            cases h
            exact ⟨c, cs, rfl, hnum.1.2, hnum.2, rfl⟩
      · cases h

theorem parse_bases_base_term (n : Nat) {text : List Char} {e : Expr} {rest : List Char}
    (h : base_term text = some e) (hrest : rest = [] ∨ ∃ r, rest = ' ' :: r) :
    parse_bases (n + 1) (text ++ rest) = .ok (e, rest) := by
  rw [parse_bases_succ]
  rcases base_term_cases h with ⟨c, cs, rfl, hall, rfl⟩ | ⟨c, cs, rfl, hall, hmax, rfl⟩ |
    ⟨c, cs, rfl, hall, hmax, rfl⟩
  · have hc := hall c (List.mem_cons_self _ _)
    have hws : consume_whitespace (c :: cs ++ rest) = c :: (cs ++ rest) := by
      show consume_whitespace (c :: (cs ++ rest)) = _
      simp only [consume_whitespace, isalpha_not_isspace hc]
      rfl
    rw [hws]
    simp only [isalpha_ne_minus hc, isalpha_not_isdigit hc, hc, decide_False, Bool.or_false,
      if_true, Bool.false_eq_true, if_false]
    exact parse_var_loop_letters (c :: cs) rest hrest [] hall
  · have hc := hall c (List.mem_cons_self _ _)
    have hws : consume_whitespace (c :: cs ++ rest) = c :: (cs ++ rest) := by
      show consume_whitespace (c :: (cs ++ rest)) = _
      simp only [consume_whitespace, isdigit_not_isspace hc]
      rfl
    rw [hws]
    simp only [hc, Bool.or_true, if_true]
    unfold parse_num
    split
    · rename_i heq
      simp only [List.cons.injEq] at heq
      exact absurd heq.1 (isdigit_ne_minus hc)
    · have hb := build_number_loop_digits (c :: cs) rest hrest 0 (le_refl _) hall hmax
      simp only [build_number, PRes.parse_bind_eq_bind, PRes.parse_pure_eq_ok]
      show (build_number_loop 0 (c :: cs ++ rest)).bind _ = _
      rw [hb]
      rfl
  · have hc := hall c (List.mem_cons_self _ _)
    have hb := build_number_loop_digits (c :: cs) rest hrest 0 (le_refl _) hall hmax
    have hws : consume_whitespace ('-' :: c :: cs ++ rest) = '-' :: (c :: (cs ++ rest)) := rfl
    rw [hws]
    simp only [decide_True, Bool.true_or, if_true]
    simp only [parse_num, hc, if_true, build_number, PRes.parse_bind_eq_bind, PRes.parse_pure_eq_ok]
    show (build_number_loop 0 (c :: cs ++ rest)).bind _ = _
    rw [hb]
    show PRes.ok (Expr.Num (wrap32 (digits_value 0 (c :: cs) * -1)), rest) = _
    rw [wrap32_neg_of_nonneg (digits_value_ge (c :: cs) 0 (le_refl _) hall) hmax]

theorem parse_calls_base_term (n : Nat) {text : List Char} {e : Expr} {rest : List Char}
    (h : base_term text = some e) (hrest : rest = [] ∨ ∃ r, rest = ' ' :: r) :
    parse_calls (n + 2) (text ++ rest) = .ok (e, rest) := by
  rw [parse_calls_succ, parse_bases_base_term n h hrest, PRes.parse_ok_bind, parse_calls_loop_succ]
  rcases hrest with rfl | ⟨r, rfl⟩ <;> rfl

theorem parse_calls_space_base_term (n : Nat) {text : List Char} {e : Expr} {rest : List Char}
    (h : base_term text = some e) (hrest : rest = [] ∨ ∃ r, rest = ' ' :: r) :
    parse_calls (n + 2) (' ' :: (text ++ rest)) = .ok (e, rest) := by
  have hsp : parse_bases (n + 1) (' ' :: (text ++ rest)) = parse_bases (n + 1) (text ++ rest) := by
    rw [parse_bases_succ, parse_bases_succ]
    rfl
  rw [parse_calls_succ, hsp, parse_bases_base_term n h hrest, PRes.parse_ok_bind,
    parse_calls_loop_succ]
  rcases hrest with rfl | ⟨r, rfl⟩ <;> rfl

theorem consume_whitespace_space_op (op : Char) (X : List Char) (h : isspace op = false) :
    consume_whitespace (' ' :: op :: X) = op :: X := by
  have h1 : isspace ' ' = true := by decide
  simp only [consume_whitespace, h1, if_true, h]
  rfl

theorem parse_eqs_mult_mult {ta tb tc : List Char} {ea eb ec : Expr}
    (ha : base_term ta = some ea) (hb : base_term tb = some eb) (hc : base_term tc = some ec) :
    parse_eqs 10 (ta ++ ' ' :: '*' :: ' ' :: (tb ++ ' ' :: '*' :: ' ' :: (tc ++ []))) =
      .ok (.Mult ea (.Mult eb ec), []) := by
  rw [parse_eqs_succ, parse_adds_succ, parse_mults_succ,
    parse_calls_base_term 5 ha (Or.inr ⟨_, rfl⟩)]
  simp only [PRes.parse_ok_bind]
  rw [consume_whitespace_space_op '*' _ (by decide)]
  simp only []
  rw [parse_mults_succ, parse_calls_space_base_term 4 hb (Or.inr ⟨_, rfl⟩)]
  simp only [PRes.parse_ok_bind]
  rw [consume_whitespace_space_op '*' _ (by decide)]
  simp only []
  rw [parse_mults_succ, parse_calls_space_base_term 3 hc (Or.inl rfl)]
  simp only [PRes.parse_ok_bind, consume_whitespace]

theorem consume_whitespace_op (op : Char) (X : List Char) (h : isspace op = false) :
    consume_whitespace (op :: X) = op :: X := by
  simp only [consume_whitespace, h]
  rfl

theorem parse_eqs_add_add {ta tb tc : List Char} {ea eb ec : Expr}
    (ha : base_term ta = some ea) (hb : base_term tb = some eb) (hc : base_term tc = some ec) :
    parse_eqs 10 (ta ++ ' ' :: '+' :: ' ' :: (tb ++ ' ' :: '+' :: ' ' :: (tc ++ []))) =
      .ok (.Add ea (.Add eb ec), []) := by
  rw [parse_eqs_succ, parse_adds_succ, parse_mults_succ,
    parse_calls_base_term 5 ha (Or.inr ⟨_, rfl⟩)]
  simp only [PRes.parse_ok_bind]
  rw [consume_whitespace_space_op '+' _ (by decide)]
  split
  · rename_i heq
    simp at heq
  simp only [PRes.parse_ok_bind]
  rw [consume_whitespace_op '+' _ (by decide)]
  simp only []
  rw [parse_adds_succ, parse_mults_succ, parse_calls_space_base_term 4 hb (Or.inr ⟨_, rfl⟩)]
  simp only [PRes.parse_ok_bind]
  rw [consume_whitespace_space_op '+' _ (by decide)]
  split
  · rename_i heq
    simp at heq
  simp only [PRes.parse_ok_bind]
  rw [consume_whitespace_op '+' _ (by decide)]
  simp only []
  rw [parse_adds_succ, parse_mults_succ, parse_calls_space_base_term 3 hc (Or.inl rfl)]
  simp only [PRes.parse_ok_bind, consume_whitespace]

theorem parse_eqs_add_mult {ta tb tc : List Char} {ea eb ec : Expr}
    (ha : base_term ta = some ea) (hb : base_term tb = some eb) (hc : base_term tc = some ec) :
    parse_eqs 10 (ta ++ ' ' :: '+' :: ' ' :: (tb ++ ' ' :: '*' :: ' ' :: (tc ++ []))) =
      .ok (.Add ea (.Mult eb ec), []) := by
  rw [parse_eqs_succ, parse_adds_succ, parse_mults_succ,
    parse_calls_base_term 5 ha (Or.inr ⟨_, rfl⟩)]
  simp only [PRes.parse_ok_bind]
  rw [consume_whitespace_space_op '+' _ (by decide)]
  split
  · rename_i heq
    simp at heq
  simp only [PRes.parse_ok_bind]
  rw [consume_whitespace_op '+' _ (by decide)]
  simp only []
  rw [parse_adds_succ, parse_mults_succ, parse_calls_space_base_term 4 hb (Or.inr ⟨_, rfl⟩)]
  simp only [PRes.parse_ok_bind]
  rw [consume_whitespace_space_op '*' _ (by decide)]
  simp only []
  rw [parse_mults_succ, parse_calls_space_base_term 3 hc (Or.inl rfl)]
  simp only [PRes.parse_ok_bind, consume_whitespace]

theorem parse_eqs_mult_add {ta tb tc : List Char} {ea eb ec : Expr}
    (ha : base_term ta = some ea) (hb : base_term tb = some eb) (hc : base_term tc = some ec) :
    parse_eqs 10 (ta ++ ' ' :: '*' :: ' ' :: (tb ++ ' ' :: '+' :: ' ' :: (tc ++ []))) =
      .ok (.Add (.Mult ea eb) ec, []) := by
  rw [parse_eqs_succ, parse_adds_succ, parse_mults_succ,
    parse_calls_base_term 5 ha (Or.inr ⟨_, rfl⟩)]
  simp only [PRes.parse_ok_bind]
  rw [consume_whitespace_space_op '*' _ (by decide)]
  simp only []
  rw [parse_mults_succ, parse_calls_space_base_term 4 hb (Or.inr ⟨_, rfl⟩)]
  simp only [PRes.parse_ok_bind]
  rw [consume_whitespace_space_op '+' _ (by decide)]
  split
  · rename_i heq
    simp at heq
  simp only [PRes.parse_ok_bind]
  rw [consume_whitespace_op '+' _ (by decide)]
  simp only []
  rw [parse_adds_succ, parse_mults_succ, parse_calls_space_base_term 4 hc (Or.inl rfl)]
  simp only [PRes.parse_ok_bind, consume_whitespace]

theorem parse_eqs_eq_add {ta tb tc : List Char} {ea eb ec : Expr}
    (ha : base_term ta = some ea) (hb : base_term tb = some eb) (hc : base_term tc = some ec) :
    parse_eqs 10 (ta ++ ' ' :: '=' :: '=' :: ' ' :: (tb ++ ' ' :: '+' :: ' ' :: (tc ++ []))) =
      .ok (.Eq ea (.Add eb ec), []) := by
  rw [parse_eqs_succ, parse_adds_succ, parse_mults_succ,
    parse_calls_base_term 5 ha (Or.inr ⟨_, rfl⟩)]
  simp only [PRes.parse_ok_bind]
  rw [consume_whitespace_space_op '=' _ (by decide)]
  split
  · rename_i heq
    simp at heq
  simp only [PRes.parse_ok_bind]
  rw [consume_whitespace_op '=' _ (by decide)]
  split
  · rename_i heq
    simp at heq
  simp only [PRes.parse_ok_bind]
  rw [consume_whitespace_op '=' _ (by decide)]
  simp only []
  rw [parse_eqs_succ, parse_adds_succ, parse_mults_succ,
    parse_calls_space_base_term 4 hb (Or.inr ⟨_, rfl⟩)]
  simp only [PRes.parse_ok_bind]
  rw [consume_whitespace_space_op '+' _ (by decide)]
  split
  · rename_i heq
    simp at heq
  simp only [PRes.parse_ok_bind]
  rw [consume_whitespace_op '+' _ (by decide)]
  simp only []
  rw [parse_adds_succ, parse_mults_succ, parse_calls_space_base_term 3 hc (Or.inl rfl)]
  simp only [PRes.parse_ok_bind, consume_whitespace]

theorem parse_expr_of_parse_eqs_nil {n : Nat} {str : String} {e : Expr} {text : List Char}
    (ht : str.toList = text) (h : parse_eqs n text = .ok (e, [])) : parse_expr str = .ok e := by
  subst ht
  rw [parse_expr_of_parse_eqs h]
  rfl

/-- C20: for base terms `a`, `b`, `c` (number literals within the range of `int`, or
identifiers) separated by single spaces, `*` and `+` nest to the right, `*` binds tighter
than `+`, and `==` binds loosest; `"1==2+3"` evaluates to `BoolVal(false)` and `"1+1==2+0"`
to `BoolVal(true)`. -/
theorem C20_parser_precedence (a b c : String) (ea eb ec : Expr)
    (ha : base_term a.toList = some ea) (hb : base_term b.toList = some eb)
    (hc : base_term c.toList = some ec) :
    parse_expr (a ++ " * " ++ b ++ " * " ++ c) = PRes.ok (Expr.Mult ea (Expr.Mult eb ec)) ∧
    parse_expr (a ++ " + " ++ b ++ " + " ++ c) = PRes.ok (Expr.Add ea (Expr.Add eb ec)) ∧
    parse_expr (a ++ " + " ++ b ++ " * " ++ c) = PRes.ok (Expr.Add ea (Expr.Mult eb ec)) ∧
    parse_expr (a ++ " * " ++ b ++ " + " ++ c) = PRes.ok (Expr.Add (Expr.Mult ea eb) ec) ∧
    parse_expr (a ++ " == " ++ b ++ " + " ++ c) = PRes.ok (Expr.Eq ea (Expr.Add eb ec)) ∧
    (parse_expr "1==2+3" = PRes.ok (Expr.Eq (.Num 1) (.Add (.Num 2) (.Num 3))) ∧
      (Expr.Eq (.Num 1) (.Add (.Num 2) (.Num 3))).interp .nullptr =
        Res.ok (Val.BoolVal false)) ∧
    (parse_expr "1+1==2+0" =
        PRes.ok (Expr.Eq (.Add (.Num 1) (.Num 1)) (.Add (.Num 2) (.Num 0))) ∧
      (Expr.Eq (.Add (.Num 1) (.Num 1)) (.Add (.Num 2) (.Num 0))).interp .nullptr =
        Res.ok (Val.BoolVal true)) := by
  refine ⟨?_, ?_, ?_, ?_, ?_, ⟨by decide, rfl⟩, ⟨by decide, rfl⟩⟩
  · exact parse_expr_of_parse_eqs_nil (by simp [String.toList]) (parse_eqs_mult_mult ha hb hc)
  · exact parse_expr_of_parse_eqs_nil (by simp [String.toList]) (parse_eqs_add_add ha hb hc)
  · exact parse_expr_of_parse_eqs_nil (by simp [String.toList]) (parse_eqs_add_mult ha hb hc)
  · exact parse_expr_of_parse_eqs_nil (by simp [String.toList]) (parse_eqs_mult_add ha hb hc)
  · exact parse_expr_of_parse_eqs_nil (by simp [String.toList]) (parse_eqs_eq_add ha hb hc)

/-- C20 at `a = "12"`, `b = "x"`, `c = "-3"`. -/
theorem C20_parser_precedence_witness :
    (base_term "12".toList = some (Expr.Num 12) ∧ base_term "x".toList = some (Expr.Var "x") ∧
      base_term "-3".toList = some (Expr.Num (-3))) ∧
    parse_expr "12 * x * -3" = PRes.ok (Expr.Mult (.Num 12) (.Mult (.Var "x") (.Num (-3)))) ∧
    parse_expr "12 + x + -3" = PRes.ok (Expr.Add (.Num 12) (.Add (.Var "x") (.Num (-3)))) ∧
    parse_expr "12 + x * -3" = PRes.ok (Expr.Add (.Num 12) (.Mult (.Var "x") (.Num (-3)))) ∧
    parse_expr "12 * x + -3" = PRes.ok (Expr.Add (.Mult (.Num 12) (.Var "x")) (.Num (-3))) ∧
    parse_expr "12 == x + -3" = PRes.ok (Expr.Eq (.Num 12) (.Add (.Var "x") (.Num (-3)))) :=
  have h := C20_parser_precedence "12" "x" "-3" (.Num 12) (.Var "x") (.Num (-3))
    (by decide) (by decide) (by decide)
  ⟨⟨by decide, by decide, by decide⟩, h.1, h.2.1, h.2.2.1, h.2.2.2.1, h.2.2.2.2.1⟩

/-! ## Tokens that end badly -/

theorem isdigit_malformed_after {c : Char} (h : isdigit c = true) : malformed_after c = true := by
  have h1 := isdigit_not_isspace h
  have h2 : c ≠ ')' := by rintro rfl; exact absurd h (by decide)
  have h3 : c ≠ '*' := by rintro rfl; exact absurd h (by decide)
  have h4 : c ≠ '+' := by rintro rfl; exact absurd h (by decide)
  have h5 : c ≠ '=' := by rintro rfl; exact absurd h (by decide)
  simp [malformed_after, h1, h2, h3, h4, h5]

theorem isalpha_malformed_after {c : Char} (h : isalpha c = true) : malformed_after c = true := by
  have h1 := isalpha_not_isspace h
  have h2 : c ≠ ')' := by rintro rfl; exact absurd h (by decide)
  have h3 : c ≠ '*' := by rintro rfl; exact absurd h (by decide)
  have h4 : c ≠ '+' := by rintro rfl; exact absurd h (by decide)
  have h5 : c ≠ '=' := by rintro rfl; exact absurd h (by decide)
  simp [malformed_after, h1, h2, h3, h4, h5]

theorem isdigit_not_isalpha {c : Char} (h : isdigit c = true) : isalpha c = false := by
  cases ha : isalpha c with
  | false => rfl
  | true => rw [isalpha_not_isdigit ha] at h; cases h

theorem consume_whitespace_spaces_append (ws s : List Char) (hws : ∀ d ∈ ws, isspace d = true) :
    consume_whitespace (ws ++ s) = consume_whitespace s := by
  induction ws with
  | nil => rfl
  | cons c cs ih =>
    have hc := hws c (List.mem_cons_self _ _)
    show consume_whitespace (c :: (cs ++ s)) = _
    simp only [consume_whitespace, hc, if_true]
    exact ih (fun d hd => hws d (List.mem_cons_of_mem _ hd))

theorem parse_var_loop_malformed (cs : List Char) (c : Char) (rest : List Char)
    (hc1 : isalpha c = false) (hc2 : malformed_after c = true) :
    ∀ str : List Char, (∀ d ∈ cs, isalpha d = true) →
      parse_var_loop str (cs ++ c :: rest) =
        .runtime_error "build_variable(): malformed variable" := by
  induction cs with
  | nil =>
    intro str _
    simp [parse_var_loop, hc1, hc2]
  | cons d ds ih =>
    intro str hcs
    have hd := hcs d (List.mem_cons_self _ _)
    show parse_var_loop str (d :: (ds ++ c :: rest)) = _
    simp only [parse_var_loop, hd, if_true]
    exact ih _ (fun x hx => hcs x (List.mem_cons_of_mem _ hx))

theorem parse_bases_malformed_variable (n : Nat) (ws cs : List Char) (c : Char)
    (rest : List Char) (hws : ∀ d ∈ ws, isspace d = true) (hne : cs ≠ [])
    (hcs : ∀ d ∈ cs, isalpha d = true) (hc1 : isalpha c = false)
    (hc2 : malformed_after c = true) :
    parse_bases (n + 1) (ws ++ (cs ++ c :: rest)) =
      .runtime_error "build_variable(): malformed variable" := by
  rw [parse_bases_succ, consume_whitespace_spaces_append ws _ hws]
  cases cs with
  | nil => exact absurd rfl hne
  | cons a as =>
    have ha := hcs a (List.mem_cons_self _ _)
    have hw : consume_whitespace (a :: as ++ c :: rest) = a :: (as ++ c :: rest) := by
      show consume_whitespace (a :: (as ++ c :: rest)) = _
      simp only [consume_whitespace, isalpha_not_isspace ha]
      rfl
    rw [hw]
    simp only [isalpha_ne_minus ha, isalpha_not_isdigit ha, ha, decide_False, Bool.or_false,
      if_true, Bool.false_eq_true, if_false]
    exact parse_var_loop_malformed (a :: as) c rest hc1 hc2 [] hcs

theorem parse_eqs_of_parse_bases_error {n : Nat} {s : istream} {w : String}
    (h : parse_bases (n + 1) s = .runtime_error w) :
    parse_eqs (n + 5) s = .runtime_error w := by
  rw [parse_eqs_succ, parse_adds_succ, parse_mults_succ, parse_calls_succ, h]
  rfl

theorem parse_expr_of_parse_eqs_error {n : Nat} {str : String} {w : String}
    (h : parse_eqs n str.toList = .runtime_error w) : parse_expr str = .runtime_error w := by
  have h' : parse_eqs (parse_fuel str.length) str.toList = .runtime_error w := by
    rw [← h]
    exact (parse_eqs_eq_of_ne_out_of_fuel str.toList (by rw [h]; simp)).symm
  unfold parse_expr
  rw [h']

/-! ## Calls on a base term, and whitespace before an argument -/

/-- C21 (the code at the failing input): an identifier directly followed by `(` is rejected
by `parse_var` with "build_variable(): malformed variable", whatever follows, so `"f(x)"`
and `"f(x)(y)"` throw; the loop of `parse_calls` is reached only behind a parenthesised
callee, where `"(f)(x)"` and `"(f)(x)(y)"` give the left-nested calls. -/
theorem C21_call_on_identifier_rejected :
    (∀ (c : Char) (cs rest : List Char), (∀ d ∈ c :: cs, isalpha d = true) →
      parse_expr (String.mk (c :: cs ++ '(' :: rest)) =
        PRes.runtime_error "build_variable(): malformed variable") ∧
    parse_expr "f(x)" = PRes.runtime_error "build_variable(): malformed variable" ∧
    parse_expr "f(x)(y)" = PRes.runtime_error "build_variable(): malformed variable" ∧
    parse_expr "(f)(x)" = PRes.ok (Expr.Call (.Var "f") (.Var "x")) ∧
    parse_expr "(f)(x)(y)" = PRes.ok (Expr.Call (.Call (.Var "f") (.Var "x")) (.Var "y")) := by
  refine ⟨fun c cs rest h => ?_, by decide, by decide, by decide, by decide⟩
  have hb := parse_bases_malformed_variable 0 [] (c :: cs) '(' rest (by simp) (by simp) h
    (by decide) (by decide)
  exact parse_expr_of_parse_eqs_error (n := 5) (parse_eqs_of_parse_bases_error hb)

/-- C22 (the code at the failing input): the loop of `parse_calls` looks for `(` without
skipping whitespace, so it stops at a space; `"(_fun (x) x + 4)(3)"` parses to a call, and
with a space before the argument the rest `"(3)"` is left over and `parse_expr` throws
"parse_expr(): invalid input"; the same for `"(f)(x)"` and `"(f) (x)"`. Before an operator
the space is skipped. -/
theorem C22_space_before_argument_rejected :
    (∀ (n : Nat) (e : Expr) (rest : istream),
      parse_calls_loop (n + 1) e (' ' :: rest) = PRes.ok (e, ' ' :: rest)) ∧
    parse_expr "(_fun (x) x + 4)(3)" =
      PRes.ok (Expr.Call (.Fun "x" (.Add (.Var "x") (.Num 4))) (.Num 3)) ∧
    parse_expr "(_fun (x) x + 4) (3)" = PRes.runtime_error "parse_expr(): invalid input" ∧
    parse_expr "(f)(x)" = PRes.ok (Expr.Call (.Var "f") (.Var "x")) ∧
    parse_expr "(f) (x)" = PRes.runtime_error "parse_expr(): invalid input" ∧
    parse_expr "(f)(x)+1" = PRes.ok (Expr.Add (.Call (.Var "f") (.Var "x")) (.Num 1)) ∧
    parse_expr "(f)(x) \t\n +1" = PRes.ok (Expr.Add (.Call (.Var "f") (.Var "x")) (.Num 1)) := by
  refine ⟨fun n e rest => rfl, by decide, by decide, by decide, by decide, by decide,
    by decide⟩

/-- C30 (the code at the failing input): `"(_fun (x) x + y)(1)"` parses to
`Call(Fun("x", Add(Var "x", Var "y")), Num 1)`; `Fun::interp` captures the null environment
it is given, so the lookup of `y` in the called body goes through a null pointer instead of
throwing. The same body run in an environment that ends in `Env::empty` throws the
unbound-variable error. -/
theorem C30_unbound_variable_in_called_body :
    parse_expr "(_fun (x) x + y)(1)" =
      PRes.ok (Expr.Call (.Fun "x" (.Add (.Var "x") (.Var "y"))) (.Num 1)) ∧
    (Expr.Fun "x" (.Add (.Var "x") (.Var "y"))).interp .nullptr =
      Res.ok (Val.FunVal "x" (.Add (.Var "x") (.Var "y")) .nullptr) ∧
    (Expr.Call (.Fun "x" (.Add (.Var "x") (.Var "y"))) (.Num 1)).interp .nullptr =
      Res.null_deref ∧
    (Expr.Add (.Var "x") (.Var "y")).interp (.ExtendedEnv "x" (.NumVal 1) Env.empty) =
      Res.runtime_error "Var cannot call interp()" := by
  refine ⟨by decide, rfl, rfl, rfl⟩

/-! ## Token boundaries -/

theorem PRes.parse_bind_ok {α β : Type} {x : PRes α} {f : α → PRes β} {v : β}
    (h : x.bind f = .ok v) : ∃ a, x = .ok a ∧ f a = .ok v := by
  cases x with
  | ok a => exact ⟨a, rfl, h⟩
  | runtime_error w => cases h
  | out_of_fuel => cases h

theorem consume_ok {s : istream} {c : Char} {r : istream} (h : consume s c = .ok r) :
    s = c :: r := by
  cases s with
  | nil => cases h
  | cons d s1 =>
    simp only [consume] at h
    split at h
    · rename_i hd
      cases h
      rw [hd]
    · cases h

theorem consume_cons (c : Char) (r : istream) : consume (c :: r) c = .ok r := by
  simp [consume]

theorem consume_string_ok (str : List Char) :
    ∀ {s r : istream}, consume_string s str = .ok r → s = str ++ r := by
  induction str with
  | nil =>
    intro s r h
    cases h
    rfl
  | cons c cs ih =>
    intro s r h
    simp only [consume_string, PRes.parse_bind_eq_bind] at h
    obtain ⟨s1, h1, h2⟩ := PRes.parse_bind_ok h
    rw [consume_ok h1, ih h2]
    rfl

theorem consume_string_append (str : List Char) (r : istream) :
    consume_string (str ++ r) str = .ok r := by
  induction str with
  | nil => rfl
  | cons c cs ih =>
    show consume_string (c :: (cs ++ r)) (c :: cs) = _
    simp only [consume_string, PRes.parse_bind_eq_bind, consume_cons, PRes.parse_ok_bind]
    exact ih

theorem consume_whitespace_append_cons {s : istream} {c : Char} {u : istream} (t : istream)
    (h : consume_whitespace s = c :: u) : consume_whitespace (s ++ t) = c :: (u ++ t) := by
  induction s with
  | nil => cases h
  | cons a s ih =>
    show consume_whitespace (a :: (s ++ t)) = _
    simp only [consume_whitespace] at h ⊢
    split
    · rename_i ha
      rw [if_pos ha] at h
      exact ih h
    · rename_i ha
      rw [if_neg ha] at h
      cases h
      rfl

theorem consume_whitespace_append_nil {s : istream} (t : istream)
    (h : consume_whitespace s = []) : consume_whitespace (s ++ t) = consume_whitespace t :=
  consume_whitespace_spaces_append s t ((consume_whitespace_eq_nil_iff s).1 h)

theorem consume_whitespace_head {s : istream} {c : Char} {u : istream}
    (h : consume_whitespace s = c :: u) : isspace c = false := by
  induction s with
  | nil => cases h
  | cons a s ih =>
    simp only [consume_whitespace] at h
    split at h
    · exact ih h
    · rename_i ha
      cases h
      simpa using ha

theorem consume_whitespace_idem (s : istream) :
    consume_whitespace (consume_whitespace s) = consume_whitespace s := by
  cases h : consume_whitespace s with
  | nil => rfl
  | cons c u =>
    simp only [consume_whitespace, consume_whitespace_head h]
    rfl

theorem closer_facts {c : Char} (h : c = ')' ∨ isspace c = true) :
    isdigit c = false ∧ isalpha c = false ∧ malformed_after c = false ∧ c ≠ '(' ∧
      c ≠ 'a' ∧ c ≠ '=' ∧ c ≠ '+' ∧ c ≠ '*' := by
  rcases h with rfl | h
  · decide
  · rcases isspace_cases h with rfl | rfl | rfl | rfl | rfl | rfl <;> decide

theorem ends_expression_head {t : istream} (h : ends_expression t = true) :
    t = [] ∨ ∃ c u, t = c :: u ∧ (c = ')' ∨ isspace c = true) := by
  cases t with
  | nil => exact Or.inl rfl
  | cons c u =>
    simp only [ends_expression, Bool.and_eq_true, Bool.or_eq_true, decide_eq_true_eq] at h
    exact Or.inr ⟨c, u, rfl, h.1⟩

theorem ends_expression_next {t : istream} (h : ends_expression t = true) {d : Char}
    {u : istream} (hd : consume_whitespace t = d :: u) :
    d ≠ '=' ∧ d ≠ '+' ∧ d ≠ '*' ∧ d ≠ '(' := by
  cases t with
  | nil => cases hd
  | cons c v =>
    simp only [ends_expression, Bool.and_eq_true] at h
    have h2 := h.2
    rw [hd] at h2
    simpa [bne_iff_ne, and_assoc] using h2

theorem rest_extended_cons {t : istream} {c : Char} {r r' : istream}
    (h : rest_extended t (c :: r) r') : r' = c :: (r ++ t) := by
  rcases h with h | ⟨h, _⟩
  · exact h
  · cases h

theorem rest_extended_whitespace {t r r' : istream} (h : rest_extended t r r') :
    consume_whitespace r' = consume_whitespace (r ++ t) := by
  rcases h with h | ⟨h1, h2⟩
  · rw [h]
  · rw [h1, h2, consume_whitespace_idem]
    rfl

theorem build_number_loop_frame {t : istream} (ht : ends_expression t = true) (s : istream) :
    ∀ (number v : Int) (r : istream), build_number_loop number s = .ok (v, r) →
      build_number_loop number (s ++ t) = .ok (v, r ++ t) := by
  induction s with
  | nil =>
    intro number v r h
    cases h
    rcases ends_expression_head ht with rfl | ⟨c, u, rfl, hc⟩
    · rfl
    · obtain ⟨h1, _, h3, _⟩ := closer_facts hc
      simp [build_number_loop, h1, h3]
  | cons c s ih =>
    intro number v r h
    show build_number_loop number (c :: (s ++ t)) = _
    simp only [build_number_loop] at h ⊢
    split
    · rename_i hc
      rw [if_pos hc] at h
      exact ih _ _ _ h
    · rename_i hc
      rw [if_neg hc] at h
      split
      · rename_i hm
        rw [if_pos hm] at h
        cases h
      · rename_i hm
        rw [if_neg hm] at h
        cases h
        rfl

theorem parse_var_loop_frame {t : istream} (ht : ends_expression t = true) (s : istream) :
    ∀ (str : List Char) (e : Expr) (r : istream), parse_var_loop str s = .ok (e, r) →
      parse_var_loop str (s ++ t) = .ok (e, r ++ t) := by
  induction s with
  | nil =>
    intro str e r h
    cases h
    rcases ends_expression_head ht with rfl | ⟨c, u, rfl, hc⟩
    · rfl
    · obtain ⟨_, h2, h3, _⟩ := closer_facts hc
      simp [parse_var_loop, h2, h3]
  | cons c s ih =>
    intro str e r h
    show parse_var_loop str (c :: (s ++ t)) = _
    simp only [parse_var_loop] at h ⊢
    split
    · rename_i hc
      rw [if_pos hc] at h
      exact ih _ _ _ h
    · rename_i hc
      rw [if_neg hc] at h
      split
      · rename_i hm
        rw [if_pos hm] at h
        cases h
      · rename_i hm
        rw [if_neg hm] at h
        cases h
        rfl
/-! ## One step of each parsing function -/

theorem parse_eqs_step_op {n : Nat} {s : istream} {a : Expr} {r s3 : istream}
    (h : parse_adds n s = .ok (a, r)) (hw : consume_whitespace r = '=' :: '=' :: s3) :
    parse_eqs (n + 1) s = (parse_eqs n s3).bind (fun q => .ok (.Eq a q.1, q.2)) := by
  rw [parse_eqs_succ, h, PRes.parse_ok_bind]
  simp only [hw]

theorem parse_eqs_step_stop {n : Nat} {s : istream} {a : Expr} {r : istream}
    (h : parse_adds n s = .ok (a, r)) (hw : ∀ s3, consume_whitespace r ≠ '=' :: '=' :: s3) :
    parse_eqs (n + 1) s = .ok (a, consume_whitespace r) := by
  rw [parse_eqs_succ, h, PRes.parse_ok_bind]
  dsimp only
  split
  · rename_i s2 heq
    split
    · exact absurd heq (hw _)
    · rw [heq]
  · rfl

theorem parse_adds_step_op {n : Nat} {s : istream} {a : Expr} {r s2 : istream}
    (h : parse_mults n s = .ok (a, r)) (hw : consume_whitespace r = '+' :: s2) :
    parse_adds (n + 1) s = (parse_adds n s2).bind (fun q => .ok (.Add a q.1, q.2)) := by
  rw [parse_adds_succ, h, PRes.parse_ok_bind]
  simp only [hw]

theorem parse_adds_step_stop {n : Nat} {s : istream} {a : Expr} {r : istream}
    (h : parse_mults n s = .ok (a, r)) (hw : ∀ s2, consume_whitespace r ≠ '+' :: s2) :
    parse_adds (n + 1) s = .ok (a, consume_whitespace r) := by
  rw [parse_adds_succ, h, PRes.parse_ok_bind]
  dsimp only
  split
  · rename_i heq
    exact absurd heq (hw _)
  · rfl

theorem parse_mults_step_op {n : Nat} {s : istream} {a : Expr} {r s2 : istream}
    (h : parse_calls n s = .ok (a, r)) (hw : consume_whitespace r = '*' :: s2) :
    parse_mults (n + 1) s = (parse_mults n s2).bind (fun q => .ok (.Mult a q.1, q.2)) := by
  rw [parse_mults_succ, h, PRes.parse_ok_bind]
  simp only [hw]

theorem parse_mults_step_stop {n : Nat} {s : istream} {a : Expr} {r : istream}
    (h : parse_calls n s = .ok (a, r)) (hw : ∀ s2, consume_whitespace r ≠ '*' :: s2) :
    parse_mults (n + 1) s = .ok (a, consume_whitespace r) := by
  rw [parse_mults_succ, h, PRes.parse_ok_bind]
  dsimp only
  split
  · rename_i heq
    exact absurd heq (hw _)
  · rfl

theorem parse_calls_loop_step_stop {n : Nat} {e : Expr} {s : istream}
    (hs : ∀ s1, s ≠ '(' :: s1) : parse_calls_loop (n + 1) e s = .ok (e, s) := by
  rw [parse_calls_loop_succ]
  split
  · exact absurd rfl (hs _)
  · rfl

theorem parse_calls_loop_step_arg {n : Nat} {e a : Expr} {s1 r : istream}
    (h : parse_eqs n s1 = .ok (a, ')' :: r)) :
    parse_calls_loop (n + 1) e ('(' :: s1) = parse_calls_loop n (.Call e a) r := by
  rw [parse_calls_loop_succ]
  simp only [h, PRes.parse_ok_bind, consume_cons]

theorem parse_paren_step {n : Nat} {e : Expr} {s1 r : istream}
    (h : parse_eqs n s1 = .ok (e, ')' :: r)) :
    parse_paren (n + 1) ('(' :: s1) = .ok (e, r) := by
  rw [parse_paren_succ]
  simp only [consume_cons, h, PRes.parse_ok_bind]

theorem parse_paren_step_missing {n : Nat} {e : Expr} {s1 r : istream}
    (h : parse_eqs n s1 = .ok (e, r)) (hr : ∀ s3, r ≠ ')' :: s3) :
    parse_paren (n + 1) ('(' :: s1) =
      .runtime_error "parse_paren(): missing closing parenthesis" := by
  rw [parse_paren_succ]
  simp only [consume_cons, h, PRes.parse_ok_bind]


theorem parse_bases_paren (n : Nat) (s1 : istream) :
    parse_bases (n + 1) ('(' :: s1) = parse_paren n ('(' :: s1) := by
  rw [parse_bases_succ]
  rfl

theorem framed_ok {t : istream} {a : Expr} {r r' : istream} (h : rest_extended t r r') :
    framed t (.ok (a, r)) (.ok (a, r')) := by
  intro e rest he
  cases he
  exact ⟨r', rfl, h⟩

theorem framed_bind {t : istream} {x y : PRes (Expr × istream)}
    {f g : Expr × istream → PRes (Expr × istream)} (hxy : framed t x y)
    (hfg : ∀ a r r', rest_extended t r r' → x = .ok (a, r) →
      framed t (f (a, r)) (g (a, r'))) :
    framed t (x.bind f) (y.bind g) := by
  intro e rest h
  obtain ⟨⟨a, r⟩, hx, hf⟩ := PRes.parse_bind_ok h
  obtain ⟨r', hy, hr⟩ := hxy a r hx
  rw [hy, PRes.parse_ok_bind]
  exact hfg a r r' hr hx e rest hf

theorem rest_extended_whitespace_cases {t r r' : istream} (h : rest_extended t r r') :
    (consume_whitespace r = [] ∧ consume_whitespace r' = consume_whitespace t) ∨
    (∃ c u, consume_whitespace r = c :: u ∧ consume_whitespace r' = c :: (u ++ t)) := by
  rw [rest_extended_whitespace h]
  cases hu : consume_whitespace r with
  | nil => exact Or.inl ⟨rfl, consume_whitespace_append_nil t hu⟩
  | cons c u => exact Or.inr ⟨c, u, rfl, consume_whitespace_append_cons t hu⟩

theorem rest_extended_consume_whitespace {t r r' : istream} (h : rest_extended t r r') :
    rest_extended t (consume_whitespace r) (consume_whitespace r') := by
  rcases rest_extended_whitespace_cases h with ⟨h1, h2⟩ | ⟨c, u, h1, h2⟩
  · exact Or.inr ⟨h1, h2⟩
  · rw [h1, h2]
    exact Or.inl rfl

theorem parse_num_framed {t : istream} (ht : ends_expression t = true) (s : istream) :
    framed t (parse_num s) (parse_num (s ++ t)) := by
  intro e rest h
  refine ⟨rest ++ t, ?_, Or.inl rfl⟩
  cases s with
  | nil =>
    have h0 : parse_num [] = .ok (.Num 0, []) := rfl
    rw [h0] at h
    cases h
    rcases ends_expression_head ht with rfl | ⟨c, u, rfl, hc⟩
    · rfl
    · obtain ⟨h1, _, h3, _⟩ := closer_facts hc
      have hm : c ≠ '-' := by
        rintro rfl
        rcases hc with hc | hc
        · cases hc
        · exact absurd hc (by decide)
      show parse_num (c :: u) = _
      unfold parse_num
      split
      · rename_i heq
        simp only [List.cons.injEq] at heq
        exact absurd heq.1 hm
      · simp [build_number, build_number_loop, h1, h3]
  | cons c s1 =>
    show parse_num (c :: (s1 ++ t)) = _
    by_cases hc : c = '-'
    · subst hc
      cases s1 with
      | nil => cases h
      | cons d s2 =>
        show parse_num ('-' :: d :: (s2 ++ t)) = _
        simp only [parse_num] at h ⊢
        split
        · rename_i hd
          rw [if_pos hd] at h
          simp only [build_number, PRes.parse_bind_eq_bind, PRes.parse_pure_eq_ok] at h ⊢
          obtain ⟨⟨v, r⟩, hb, hv⟩ := PRes.parse_bind_ok h
          cases hv
          have := build_number_loop_frame ht (d :: s2) 0 v r hb
          show (build_number_loop 0 (d :: s2 ++ t)).bind _ = _
          rw [this]
          rfl
        · rename_i hd
          rw [if_neg hd] at h
          cases h
    · unfold parse_num at h ⊢
      split at h
      · rename_i heq
        simp only [List.cons.injEq] at heq
        exact absurd heq.1 hc
      · split
        · rename_i heq
          simp only [List.cons.injEq] at heq
          exact absurd heq.1 hc
        · simp only [build_number, PRes.parse_bind_eq_bind, PRes.parse_pure_eq_ok] at h ⊢
          obtain ⟨⟨v, r⟩, hb, hv⟩ := PRes.parse_bind_ok h
          cases hv
          have := build_number_loop_frame ht (c :: s1) 0 v r hb
          show (build_number_loop 0 (c :: s1 ++ t)).bind _ = _
          rw [this]
          rfl

theorem parse_var_framed {t : istream} (ht : ends_expression t = true) (s : istream) :
    framed t (parse_var s) (parse_var (s ++ t)) := by
  intro e rest h
  exact ⟨rest ++ t, parse_var_loop_frame ht s [] e rest h, Or.inl rfl⟩

theorem parse_bool_framed (t : istream) (s : istream) :
    framed t (parse_bool s) (parse_bool (s ++ t)) := by
  intro e rest h
  refine ⟨rest ++ t, ?_, Or.inl rfl⟩
  simp only [parse_bool, PRes.parse_bind_eq_bind, PRes.parse_pure_eq_ok] at h
  obtain ⟨s1, h1, h2⟩ := PRes.parse_bind_ok h
  have hs := consume_ok h1
  subst hs
  split at h2
  · rename_i u
    obtain ⟨s2, h3, h4⟩ := PRes.parse_bind_ok h2
    cases h4
    have hs := consume_string_ok _ h3
    simp only [List.cons_append, List.nil_append, List.cons.injEq, true_and] at hs
    subst hs
    rfl
  · rename_i hne
    obtain ⟨s2, h3, h4⟩ := PRes.parse_bind_ok h2
    cases h4
    have hs := consume_string_ok _ h3
    subst hs
    rfl

theorem peek_keyword_frame {t : istream} (ht : ends_expression t = true) {s : istream}
    {kw : String} (h : peek_keyword s = .ok kw) : peek_keyword (s ++ t) = .ok kw := by
  simp only [peek_keyword, PRes.parse_bind_eq_bind, PRes.parse_pure_eq_ok] at h
  obtain ⟨s1, h1, h2⟩ := PRes.parse_bind_ok h
  have hs := consume_ok h1
  subst hs
  split at h2
  · cases h2; rfl
  · cases h2; rfl
  · cases h2; rfl
  · rename_i s2
    split at h2
    · cases h2; rfl
    · rename_i hne
      cases h2
      cases s2 with
      | nil =>
        rcases ends_expression_head ht with rfl | ⟨c, u, rfl, hc⟩
        · rfl
        · obtain ⟨_, _, _, _, ha, _⟩ := closer_facts hc
          show peek_keyword ('_' :: 'f' :: c :: u) = _
          simp only [peek_keyword, PRes.parse_bind_eq_bind, PRes.parse_pure_eq_ok, consume_cons,
            PRes.parse_ok_bind]
          split
          · rename_i heq
            simp only [List.cons.injEq] at heq
            exact absurd heq.1 ha
          · rfl
      | cons b s3 =>
        show peek_keyword ('_' :: 'f' :: b :: (s3 ++ t)) = _
        simp only [peek_keyword, PRes.parse_bind_eq_bind, PRes.parse_pure_eq_ok, consume_cons,
          PRes.parse_ok_bind]
        split
        · rename_i heq
          simp only [List.cons.injEq] at heq
          exact absurd (by rw [heq.1]) (hne _)
        · rfl
  · cases h2

theorem parse_bases_nil_not_ok (n : Nat) (v : Expr × istream) : parse_bases n [] ≠ .ok v := by
  cases n with
  | zero => intro h; cases h
  | succ n => intro h; cases h

theorem parse_eqs_nil_not_ok (n : Nat) (v : Expr × istream) : parse_eqs n [] ≠ .ok v := by
  intro h
  cases n with
  | zero => cases h
  | succ n =>
    rw [parse_eqs_succ] at h
    obtain ⟨p, h1, _⟩ := PRes.parse_bind_ok h
    cases n with
    | zero => cases h1
    | succ n =>
      rw [parse_adds_succ] at h1
      obtain ⟨p, h2, _⟩ := PRes.parse_bind_ok h1
      cases n with
      | zero => cases h2
      | succ n =>
        rw [parse_mults_succ] at h2
        obtain ⟨p, h3, _⟩ := PRes.parse_bind_ok h2
        cases n with
        | zero => cases h3
        | succ n =>
          rw [parse_calls_succ] at h3
          obtain ⟨p, h4, _⟩ := PRes.parse_bind_ok h3
          exact parse_bases_nil_not_ok n p h4

theorem rest_extended_append {t r r' : istream} (h : rest_extended t r r') (hne : r ≠ []) :
    r' = r ++ t := by
  rcases h with h | ⟨h, _⟩
  · exact h
  · exact absurd h hne

theorem consume_extended {t r r' s3 : istream} {c : Char} (h : consume r c = .ok s3)
    (hr : rest_extended t r r') : consume r' c = .ok (s3 ++ t) := by
  have hs := consume_ok h
  subst hs
  rw [rest_extended_cons hr]
  exact consume_cons _ _

theorem consume_string_extended {t r r' s5 : istream} {str : List Char} (hne : str ≠ [])
    (h : consume_string r str = .ok s5) (hr : rest_extended t r r') :
    consume_string r' str = .ok (s5 ++ t) := by
  have hs := consume_string_ok _ h
  subst hs
  rw [rest_extended_append hr (by simpa using fun h => absurd h hne), List.append_assoc]
  exact consume_string_append _ _

theorem stop_extended {t r r' : istream} (hr : rest_extended t r r') {op : Char}
    (ht : ∀ d u, consume_whitespace t = d :: u → d ≠ op)
    (hstop : ∀ s2, consume_whitespace r ≠ op :: s2) :
    ∀ s2, consume_whitespace r' ≠ op :: s2 := by
  intro s2 h2
  rcases rest_extended_whitespace_cases hr with ⟨_, h4⟩ | ⟨c, u, h3, h4⟩
  · rw [h4] at h2
    exact ht _ _ h2 rfl
  · rw [h4] at h2
    simp only [List.cons.injEq] at h2
    obtain ⟨rfl, _⟩ := h2
    exact hstop u h3

theorem parser_frame {t : istream} (ht : ends_expression t = true) (n : Nat) :
    (∀ s, framed t (parse_eqs n s) (parse_eqs n (s ++ t))) ∧
    (∀ s, framed t (parse_adds n s) (parse_adds n (s ++ t))) ∧
    (∀ s, framed t (parse_mults n s) (parse_mults n (s ++ t))) ∧
    (∀ s, framed t (parse_calls n s) (parse_calls n (s ++ t))) ∧
    (∀ e s s', rest_extended t s s' →
      framed t (parse_calls_loop n e s) (parse_calls_loop n e s')) ∧
    (∀ s, framed t (parse_bases n s) (parse_bases n (s ++ t))) ∧
    (∀ s, framed t (parse_let n s) (parse_let n (s ++ t))) ∧
    (∀ s, framed t (parse_if n s) (parse_if n (s ++ t))) ∧
    (∀ s, framed t (parse_fun n s) (parse_fun n (s ++ t))) ∧
    (∀ s, framed t (parse_paren n s) (parse_paren n (s ++ t))) := by
  induction n with
  | zero =>
    refine ⟨fun _ _ _ h => ?_, fun _ _ _ h => ?_, fun _ _ _ h => ?_, fun _ _ _ h => ?_,
      fun _ _ _ _ _ _ h => ?_, fun _ _ _ h => ?_, fun _ _ _ h => ?_, fun _ _ _ h => ?_,
      fun _ _ _ h => ?_, fun _ _ _ h => ?_⟩ <;> cases h
  | succ n ih =>
    obtain ⟨heqs, hadds, hmults, hcalls, hloop, hbases, hlet, hif, hfun, hparen⟩ := ih
    refine ⟨?_, ?_, ?_, ?_, ?_, ?_, ?_, ?_, ?_, ?_⟩
    · intro s e rest h
      have h1 := h
      rw [parse_eqs_succ] at h1
      obtain ⟨⟨a, r⟩, ha, -⟩ := PRes.parse_bind_ok h1
      obtain ⟨r', ha', hr⟩ := hadds s a r ha
      by_cases hop : ∃ s3, consume_whitespace r = '=' :: '=' :: s3
      · obtain ⟨s3, hs3⟩ := hop
        rw [parse_eqs_step_op ha hs3] at h
        have hw' : consume_whitespace r' = '=' :: '=' :: (s3 ++ t) := by
          rw [rest_extended_whitespace hr]
          exact consume_whitespace_append_cons t hs3
        rw [parse_eqs_step_op ha' hw']
        exact framed_bind (f := fun q => .ok (.Eq a q.1, q.2)) (g := fun q => .ok (.Eq a q.1, q.2))
          (heqs s3) (fun b q q' hq _ => framed_ok hq) e rest h
      · have hstop : ∀ s3, consume_whitespace r ≠ '=' :: '=' :: s3 :=
          fun s3 h3 => hop ⟨s3, h3⟩
        rw [parse_eqs_step_stop ha hstop] at h
        cases h
        have hstop' : ∀ s3, consume_whitespace r' ≠ '=' :: '=' :: s3 := by
          intro s3 h3
          rcases rest_extended_whitespace_cases hr with ⟨_, h5⟩ | ⟨c, u, h4, h5⟩
          · rw [h5] at h3
            exact (ends_expression_next ht h3).1 rfl
          · rw [h5] at h3
            simp only [List.cons.injEq] at h3
            obtain ⟨rfl, hu⟩ := h3
            cases u with
            | nil =>
              rcases ends_expression_head ht with rfl | ⟨c, v, rfl, hc⟩
              · cases hu
              · simp only [List.nil_append, List.cons.injEq] at hu
                exact (closer_facts hc).2.2.2.2.2.1 hu.1
            | cons b u2 =>
              simp only [List.cons_append, List.cons.injEq] at hu
              obtain ⟨rfl, _⟩ := hu
              exact hstop u2 h4
        rw [parse_eqs_step_stop ha' hstop']
        exact ⟨_, rfl, rest_extended_consume_whitespace hr⟩
    · intro s e rest h
      have h1 := h
      rw [parse_adds_succ] at h1
      obtain ⟨⟨a, r⟩, ha, -⟩ := PRes.parse_bind_ok h1
      obtain ⟨r', ha', hr⟩ := hmults s a r ha
      by_cases hop : ∃ s2, consume_whitespace r = '+' :: s2
      · obtain ⟨s2, hs2⟩ := hop
        rw [parse_adds_step_op ha hs2] at h
        have hw' : consume_whitespace r' = '+' :: (s2 ++ t) := by
          rw [rest_extended_whitespace hr]
          exact consume_whitespace_append_cons t hs2
        rw [parse_adds_step_op ha' hw']
        exact framed_bind (f := fun q => .ok (.Add a q.1, q.2))
          (g := fun q => .ok (.Add a q.1, q.2))
          (hadds s2) (fun b q q' hq _ => framed_ok hq) e rest h
      · have hstop : ∀ s2, consume_whitespace r ≠ '+' :: s2 := fun s2 h2 => hop ⟨s2, h2⟩
        rw [parse_adds_step_stop ha hstop] at h
        cases h
        rw [parse_adds_step_stop ha' (stop_extended hr
          (fun d u hd => (ends_expression_next ht hd).2.1) hstop)]
        exact ⟨_, rfl, rest_extended_consume_whitespace hr⟩
    · intro s e rest h
      have h1 := h
      rw [parse_mults_succ] at h1
      obtain ⟨⟨a, r⟩, ha, -⟩ := PRes.parse_bind_ok h1
      obtain ⟨r', ha', hr⟩ := hcalls s a r ha
      by_cases hop : ∃ s2, consume_whitespace r = '*' :: s2
      · obtain ⟨s2, hs2⟩ := hop
        rw [parse_mults_step_op ha hs2] at h
        have hw' : consume_whitespace r' = '*' :: (s2 ++ t) := by
          rw [rest_extended_whitespace hr]
          exact consume_whitespace_append_cons t hs2
        rw [parse_mults_step_op ha' hw']
        exact framed_bind (f := fun q => .ok (.Mult a q.1, q.2))
          (g := fun q => .ok (.Mult a q.1, q.2))
          (hmults s2) (fun b q q' hq _ => framed_ok hq) e rest h
      · have hstop : ∀ s2, consume_whitespace r ≠ '*' :: s2 := fun s2 h2 => hop ⟨s2, h2⟩
        rw [parse_mults_step_stop ha hstop] at h
        cases h
        rw [parse_mults_step_stop ha' (stop_extended hr
          (fun d u hd => (ends_expression_next ht hd).2.2.1) hstop)]
        exact ⟨_, rfl, rest_extended_consume_whitespace hr⟩
    · intro s
      rw [parse_calls_succ, parse_calls_succ]
      exact framed_bind (hbases s) (fun a r r' hr _ => hloop a r r' hr)
    · intro e0 s s' hs e rest h
      by_cases hop : ∃ s1, s = '(' :: s1
      · obtain ⟨s1, rfl⟩ := hop
        have hs' := rest_extended_cons hs
        subst hs'
        have h1 := h
        rw [parse_calls_loop_succ] at h1
        obtain ⟨⟨a, r⟩, ha, h2⟩ := PRes.parse_bind_ok h1
        obtain ⟨r3, hc, -⟩ := PRes.parse_bind_ok h2
        have hr := consume_ok hc
        dsimp only at hr
        subst hr
        obtain ⟨r', ha', hr⟩ := heqs s1 a (')' :: r3) ha
        have hr' := rest_extended_cons hr
        subst hr'
        rw [parse_calls_loop_step_arg ha] at h
        rw [parse_calls_loop_step_arg ha']
        exact hloop _ r3 (r3 ++ t) (Or.inl rfl) e rest h
      · have hstop : ∀ s1, s ≠ '(' :: s1 := fun s1 h1 => hop ⟨s1, h1⟩
        rw [parse_calls_loop_step_stop hstop] at h
        cases h
        have hstop' : ∀ s1, s' ≠ '(' :: s1 := by
          intro s1 h1
          rcases hs with hs | ⟨_, hs2⟩
          · cases s with
            | nil =>
              rw [hs] at h1
              rcases ends_expression_head ht with rfl | ⟨c, v, rfl, hc⟩
              · cases h1
              · simp only [List.nil_append, List.cons.injEq] at h1
                exact (closer_facts hc).2.2.2.1 h1.1
            | cons c u =>
              rw [hs] at h1
              simp only [List.cons_append, List.cons.injEq] at h1
              obtain ⟨rfl, _⟩ := h1
              exact hstop u rfl
          · rw [hs2] at h1
            exact (ends_expression_next ht h1).2.2.2 rfl
        rw [parse_calls_loop_step_stop hstop']
        exact ⟨s', rfl, hs⟩
    · intro s e rest h
      rw [parse_bases_succ] at h ⊢
      cases hw : consume_whitespace s with
      | nil =>
        rw [hw] at h
        cases h
      | cons c u =>
        rw [hw] at h
        rw [consume_whitespace_append_cons t hw]
        dsimp only at h ⊢
        split at h
        · rename_i hc
          rw [if_pos hc]
          exact parse_num_framed ht (c :: u) e rest h
        · rename_i hc
          rw [if_neg hc]
          split at h
          · rename_i hc2
            rw [if_pos hc2]
            exact parse_var_framed ht (c :: u) e rest h
          · rename_i hc2
            rw [if_neg hc2]
            split at h
            · rename_i hc3
              rw [if_pos hc3]
              exact hparen (c :: u) e rest h
            · rename_i hc3
              rw [if_neg hc3]
              split at h
              · rename_i hc4
                rw [if_pos hc4]
                obtain ⟨kw, hk, h2⟩ := PRes.parse_bind_ok h
                have hk' := peek_keyword_frame ht hk
                rw [show c :: (u ++ t) = (c :: u) ++ t from rfl, hk', PRes.parse_ok_bind]
                split at h2
                · rename_i hkw
                  rw [if_pos hkw]
                  exact hlet (c :: u) e rest h2
                · rename_i hkw
                  rw [if_neg hkw]
                  split at h2
                  · rename_i hkw2
                    rw [if_pos hkw2]
                    exact hif (c :: u) e rest h2
                  · rename_i hkw2
                    rw [if_neg hkw2]
                    split at h2
                    · rename_i hkw3
                      rw [if_pos hkw3]
                      exact hfun (c :: u) e rest h2
                    · rename_i hkw3
                      rw [if_neg hkw3]
                      exact parse_bool_framed t (c :: u) e rest h2
              · cases h
    · intro s e rest h
      rw [parse_let_succ] at h ⊢
      obtain ⟨s1, h1, h⟩ := PRes.parse_bind_ok h
      rw [consume_string_extended (by simp) h1 (Or.inl rfl), PRes.parse_ok_bind]
      obtain ⟨⟨lhs, r2⟩, h2, h⟩ := PRes.parse_bind_ok h
      obtain ⟨r2', h2', hr2⟩ := heqs s1 lhs r2 h2
      rw [h2', PRes.parse_ok_bind]
      cases lhs with
      | Var x =>
        dsimp only at h ⊢
        obtain ⟨s3, h3, h⟩ := PRes.parse_bind_ok h
        rw [consume_extended h3 hr2, PRes.parse_ok_bind]
        obtain ⟨⟨rhs, r4⟩, h4, h⟩ := PRes.parse_bind_ok h
        obtain ⟨r4', h4', hr4⟩ := heqs s3 rhs r4 h4
        rw [h4', PRes.parse_ok_bind]
        dsimp only at h ⊢
        obtain ⟨s5, h5, h⟩ := PRes.parse_bind_ok h
        rw [consume_string_extended (by simp) h5 hr4, PRes.parse_ok_bind]
        obtain ⟨⟨b, r6⟩, h6, h⟩ := PRes.parse_bind_ok h
        obtain ⟨r6', h6', hr6⟩ := heqs s5 b r6 h6
        rw [h6', PRes.parse_ok_bind]
        dsimp only at h ⊢
        split at h
        · cases h
        · rename_i hchk
          rw [if_neg hchk]
          cases h
          exact ⟨r6', rfl, hr6⟩
      | _ => cases h
    · intro s e rest h
      rw [parse_if_succ] at h ⊢
      obtain ⟨s1, h1, h⟩ := PRes.parse_bind_ok h
      rw [consume_string_extended (by simp) h1 (Or.inl rfl), PRes.parse_ok_bind]
      obtain ⟨⟨c, r2⟩, h2, h⟩ := PRes.parse_bind_ok h
      obtain ⟨r2', h2', hr2⟩ := heqs s1 c r2 h2
      rw [h2', PRes.parse_ok_bind]
      dsimp only at h ⊢
      obtain ⟨s3, h3, h⟩ := PRes.parse_bind_ok h
      rw [consume_string_extended (by simp) h3 hr2, PRes.parse_ok_bind]
      obtain ⟨⟨th, r4⟩, h4, h⟩ := PRes.parse_bind_ok h
      obtain ⟨r4', h4', hr4⟩ := heqs s3 th r4 h4
      rw [h4', PRes.parse_ok_bind]
      dsimp only at h ⊢
      obtain ⟨s5, h5, h⟩ := PRes.parse_bind_ok h
      rw [consume_string_extended (by simp) h5 hr4, PRes.parse_ok_bind]
      obtain ⟨⟨el, r6⟩, h6, h⟩ := PRes.parse_bind_ok h
      obtain ⟨r6', h6', hr6⟩ := heqs s5 el r6 h6
      rw [h6', PRes.parse_ok_bind]
      cases h
      exact ⟨r6', rfl, hr6⟩
    · intro s e rest h
      rw [parse_fun_succ] at h ⊢
      obtain ⟨s1, h1, h⟩ := PRes.parse_bind_ok h
      rw [consume_string_extended (by simp) h1 (Or.inl rfl), PRes.parse_ok_bind]
      obtain ⟨⟨fa, r2⟩, h2, h⟩ := PRes.parse_bind_ok h
      obtain ⟨r2', h2', hr2⟩ := heqs s1 fa r2 h2
      rw [h2', PRes.parse_ok_bind]
      cases fa with
      | Var x =>
        dsimp only at h ⊢
        obtain ⟨⟨b, r3⟩, h3, h⟩ := PRes.parse_bind_ok h
        have hr2' : r2' = r2 ++ t := by
          rcases hr2 with hr2 | ⟨hr2, _⟩
          · exact hr2
          · subst hr2
            exact absurd h3 (parse_eqs_nil_not_ok n _)
        subst hr2'
        obtain ⟨r3', h3', hr3⟩ := heqs r2 b r3 h3
        rw [h3', PRes.parse_ok_bind]
        dsimp only at h ⊢
        split at h
        · cases h
        · rename_i hchk
          rw [if_neg hchk]
          cases h
          exact ⟨r3', rfl, hr3⟩
      | _ => cases h
    · intro s e rest h
      rw [parse_paren_succ] at h ⊢
      obtain ⟨s1, h1, h⟩ := PRes.parse_bind_ok h
      rw [consume_extended h1 (Or.inl rfl), PRes.parse_ok_bind]
      obtain ⟨⟨a, r2⟩, h2, h⟩ := PRes.parse_bind_ok h
      obtain ⟨r2', h2', hr2⟩ := heqs s1 a r2 h2
      rw [h2', PRes.parse_ok_bind]
      dsimp only at h ⊢
      split at h
      · rename_i s3
        cases h
        have hr := rest_extended_cons hr2
        subst hr
        exact ⟨_, rfl, Or.inl rfl⟩
      · cases h

/-! ## Consequences for `parse_eqs` -/

theorem parse_eqs_rest_normal (n : Nat) :
    ∀ (s : istream) (e : Expr) (rest : istream), parse_eqs n s = .ok (e, rest) →
      consume_whitespace rest = rest := by
  induction n with
  | zero => intro s e rest h; cases h
  | succ n ih =>
    intro s e rest h
    have h1 := h
    rw [parse_eqs_succ] at h1
    obtain ⟨⟨a, r⟩, ha, -⟩ := PRes.parse_bind_ok h1
    by_cases hop : ∃ s3, consume_whitespace r = '=' :: '=' :: s3
    · obtain ⟨s3, hs3⟩ := hop
      rw [parse_eqs_step_op ha hs3] at h
      obtain ⟨⟨b, q⟩, hb, hv⟩ := PRes.parse_bind_ok h
      cases hv
      exact ih s3 b q hb
    · rw [parse_eqs_step_stop ha (fun s3 h3 => hop ⟨s3, h3⟩)] at h
      cases h
      exact consume_whitespace_idem r

theorem parse_eqs_ok_mono {n m : Nat} {s : istream} {v : Expr × istream}
    (h : parse_eqs n s = .ok v) (hnm : n ≤ m) : parse_eqs m s = .ok v := by
  rw [parse_eqs_stable hnm s (by rw [h]; simp), h]

/-- An expression read up to the end of the input is read the same when `t` follows, and
what is left then is `t` without its leading whitespace. -/
theorem parse_eqs_frame {n : Nat} {s : istream} {e : Expr} {t : istream}
    (h : parse_eqs n s = .ok (e, [])) (ht : ends_expression t = true) :
    parse_eqs n (s ++ t) = .ok (e, consume_whitespace t) := by
  obtain ⟨rest', h', hr⟩ := (parser_frame ht n).1 s e [] h
  rcases hr with hr | ⟨_, hr⟩
  · have hn := parse_eqs_rest_normal n _ _ _ h'
    rw [hr] at hn
    rw [h', hr]
    simp only [List.nil_append] at hn ⊢
    rw [hn]
  · rw [h', hr]

theorem parse_eqs_of_parse_expr {str : String} {e : Expr} (h : parse_expr str = .ok e) :
    parse_eqs (parse_fuel str.length) str.toList = .ok (e, []) := by
  unfold parse_expr at h
  split at h
  · rename_i e' s1 heq
    split at h
    · rename_i hws
      cases h
      have hn := parse_eqs_rest_normal _ _ _ _ heq
      rw [hws] at hn
      rw [heq, ← hn]
    · cases h
  · cases h
  · cases h

theorem parse_bases_spaces (n : Nat) (ws s : List Char) (hws : ∀ d ∈ ws, isspace d = true) :
    parse_bases n (ws ++ s) = parse_bases n s := by
  cases n with
  | zero => rfl
  | succ n => rw [parse_bases_succ, parse_bases_succ, consume_whitespace_spaces_append ws s hws]

theorem parse_calls_spaces (n : Nat) (ws s : List Char) (hws : ∀ d ∈ ws, isspace d = true) :
    parse_calls n (ws ++ s) = parse_calls n s := by
  cases n with
  | zero => rfl
  | succ n => rw [parse_calls_succ, parse_calls_succ, parse_bases_spaces n ws s hws]

theorem parse_mults_spaces (n : Nat) (ws s : List Char) (hws : ∀ d ∈ ws, isspace d = true) :
    parse_mults n (ws ++ s) = parse_mults n s := by
  cases n with
  | zero => rfl
  | succ n => rw [parse_mults_succ, parse_mults_succ, parse_calls_spaces n ws s hws]

theorem parse_adds_spaces (n : Nat) (ws s : List Char) (hws : ∀ d ∈ ws, isspace d = true) :
    parse_adds n (ws ++ s) = parse_adds n s := by
  cases n with
  | zero => rfl
  | succ n => rw [parse_adds_succ, parse_adds_succ, parse_mults_spaces n ws s hws]

/-- Whitespace in front of an expression is skipped. -/
theorem parse_eqs_spaces (n : Nat) (ws s : List Char) (hws : ∀ d ∈ ws, isspace d = true) :
    parse_eqs n (ws ++ s) = parse_eqs n s := by
  cases n with
  | zero => rfl
  | succ n => rw [parse_eqs_succ, parse_eqs_succ, parse_adds_spaces n ws s hws]

/-- What is left behind an operand decides how far the callers of `parse_bases` read on:
not at all when no `(` follows directly and none of `*`, `+`, `==` after whitespace. -/
theorem parse_eqs_of_parse_bases {n : Nat} {s : istream} {e : Expr} {r : istream}
    (h : parse_bases (n + 1) s = .ok (e, r)) (h1 : ∀ s1, r ≠ '(' :: s1)
    (h2 : ∀ s2, consume_whitespace r ≠ '*' :: s2) :
    parse_calls (n + 2) s = .ok (e, r) ∧
    parse_mults (n + 3) s = .ok (e, consume_whitespace r) ∧
    ((∀ s2, consume_whitespace r ≠ '+' :: s2) →
      parse_adds (n + 4) s = .ok (e, consume_whitespace r) ∧
      ((∀ s3, consume_whitespace r ≠ '=' :: '=' :: s3) →
        parse_eqs (n + 5) s = .ok (e, consume_whitespace r))) := by
  have hc : parse_calls (n + 2) s = .ok (e, r) := by
    rw [parse_calls_succ, h, PRes.parse_ok_bind]
    exact parse_calls_loop_step_stop h1
  have hm := parse_mults_step_stop hc h2
  refine ⟨hc, hm, fun h3 => ?_⟩
  have ha : parse_adds (n + 4) s = .ok (e, consume_whitespace r) := by
    have := parse_adds_step_stop hm (by rw [consume_whitespace_idem]; exact h3)
    rw [this, consume_whitespace_idem]
  refine ⟨ha, fun h4 => ?_⟩
  have := parse_eqs_step_stop ha (by rw [consume_whitespace_idem]; exact h4)
  rw [this, consume_whitespace_idem]

/-! ## Parentheses -/

theorem parse_eqs_paren {n : Nat} {s1 : istream} {e : Expr}
    (h : parse_eqs n s1 = .ok (e, [')'])) : parse_eqs (n + 6) ('(' :: s1) = .ok (e, []) := by
  have hp : parse_bases (n + 2) ('(' :: s1) = .ok (e, []) := by
    rw [parse_bases_paren]
    exact parse_paren_step h
  exact ((parse_eqs_of_parse_bases hp (fun _ h => by cases h) (fun _ h => by cases h)).2.2
    (fun _ h => by cases h)).2 (fun _ h => by cases h)

theorem parse_eqs_paren_missing {n : Nat} {s1 : istream} {e : Expr}
    (h : parse_eqs n s1 = .ok (e, [])) :
    parse_eqs (n + 6) ('(' :: s1) =
      .runtime_error "parse_paren(): missing closing parenthesis" := by
  have hp : parse_bases (n + 2) ('(' :: s1) =
      .runtime_error "parse_paren(): missing closing parenthesis" := by
    rw [parse_bases_paren]
    exact parse_paren_step_missing h (fun _ h => by cases h)
  exact parse_eqs_of_parse_bases_error hp

/-- C25: when `parse_expr` accepts `s` with result `e`, it accepts `"(" + s + ")"` with the
same result, throws "parse_paren(): missing closing parenthesis" on `"(" + s` and
"parse_expr(): invalid input" on `s + ")"`; on `"()"` and on `"("` it throws
"parse_bases(): invalid input". -/
theorem C25_parentheses_transparent_and_balanced (s : String) (e : Expr)
    (h : parse_expr s = PRes.ok e) :
    parse_expr ("(" ++ s ++ ")") = PRes.ok e ∧
    parse_expr ("(" ++ s) =
      PRes.runtime_error "parse_paren(): missing closing parenthesis" ∧
    parse_expr (s ++ ")") = PRes.runtime_error "parse_expr(): invalid input" ∧
    parse_expr "()" = PRes.runtime_error "parse_bases(): invalid input" ∧
    parse_expr "(" = PRes.runtime_error "parse_bases(): invalid input" := by
  have h0 := parse_eqs_of_parse_expr h
  have h1 : parse_eqs (parse_fuel s.length) (s.toList ++ [')']) = .ok (e, [')']) :=
    parse_eqs_frame h0 (by decide)
  refine ⟨?_, ?_, ?_, by decide, by decide⟩
  · exact parse_expr_of_parse_eqs_nil (by simp [String.toList]) (parse_eqs_paren h1)
  · have h2 := parse_eqs_paren_missing h0
    have ht : ("(" ++ s).toList = '(' :: s.toList := by simp [String.toList]
    exact parse_expr_of_parse_eqs_error (by rw [ht]; exact h2)
  · have ht : (s ++ ")").toList = s.toList ++ [')'] := by simp [String.toList]
    have := @parse_expr_of_parse_eqs (parse_fuel s.length) (s ++ ")") e [')']
      (by rw [ht]; exact h1)
    rw [this]
    rfl

/-- C25 at `s = "1 + x"`. -/
theorem C25_parentheses_transparent_and_balanced_witness :
    parse_expr "1 + x" = PRes.ok (Expr.Add (.Num 1) (.Var "x")) ∧
    parse_expr "(1 + x)" = PRes.ok (Expr.Add (.Num 1) (.Var "x")) ∧
    parse_expr "(1 + x" =
      PRes.runtime_error "parse_paren(): missing closing parenthesis" ∧
    parse_expr "1 + x)" = PRes.runtime_error "parse_expr(): invalid input" :=
  have h := C25_parentheses_transparent_and_balanced "1 + x" (.Add (.Num 1) (.Var "x"))
    (by decide)
  ⟨by decide, h.1, h.2.1, h.2.2.1⟩

/-! ## Operands and what follows them -/

theorem not_malformed_after {c : Char} (h : malformed_after c = false) :
    isdigit c = false ∧ isalpha c = false := by
  constructor
  · cases hd : isdigit c with
    | false => rfl
    | true => rw [isdigit_malformed_after hd] at h; cases h
  · cases ha : isalpha c with
    | false => rfl
    | true => rw [isalpha_malformed_after ha] at h; cases h

theorem ends_token_head {rest : istream} (h : ends_token rest = true) :
    rest = [] ∨ ∃ c r, rest = c :: r ∧ malformed_after c = false := by
  cases rest with
  | nil => exact Or.inl rfl
  | cons c r =>
    simp only [ends_token, Bool.not_eq_true'] at h
    exact Or.inr ⟨c, r, rfl, h⟩

theorem stops_operand_spec {r : istream} (h : stops_operand r = true) :
    (∀ s1, r ≠ '(' :: s1) ∧ (∀ s2, consume_whitespace r ≠ '*' :: s2) ∧
    (∀ s2, consume_whitespace r ≠ '+' :: s2) ∧
    (∀ s3, consume_whitespace r ≠ '=' :: '=' :: s3) := by
  simp only [stops_operand, Bool.and_eq_true] at h
  obtain ⟨h1, h2⟩ := h
  refine ⟨fun s1 hs => ?_, fun s2 hs => ?_, fun s2 hs => ?_, fun s3 hs => ?_⟩
  · rw [hs] at h1
    cases h1
  · rw [hs] at h2
    cases h2
  · rw [hs] at h2
    cases h2
  · rw [hs] at h2
    cases h2

theorem build_number_loop_token (ds rest : List Char) (hrest : ends_token rest = true) :
    ∀ number : Int, 0 ≤ number → (∀ c ∈ ds, isdigit c = true) →
      digits_value number ds ≤ INT_MAX →
      build_number_loop number (ds ++ rest) = .ok (digits_value number ds, rest) := by
  induction ds with
  | nil =>
    intro number _ _ _
    rcases ends_token_head hrest with rfl | ⟨c, r, rfl, hc⟩
    · rfl
    · simp [build_number_loop, digits_value, (not_malformed_after hc).1, hc]
  | cons c cs ih =>
    intro number h0 hds hmax
    have hc := hds c (List.mem_cons_self _ _)
    have hcn := isdigit_toNat hc
    have hcs : ∀ d ∈ cs, isdigit d = true := fun d hd => hds d (List.mem_cons_of_mem _ hd)
    simp only [digits_value] at hmax
    have hge := digits_value_ge cs (number * 10 + ((c.toNat : Int) - 48)) (by omega) hcs
    simp only [List.cons_append, build_number_loop, hc, if_true, digits_value]
    rw [wrap32_of_nonneg (by omega) (by omega)]
    exact ih _ (by omega) hcs hmax

theorem parse_var_loop_token (cs rest : List Char) (hrest : ends_token rest = true) :
    ∀ str : List Char, (∀ c ∈ cs, isalpha c = true) →
      parse_var_loop str (cs ++ rest) = .ok (.Var (String.mk (str ++ cs)), rest) := by
  induction cs with
  | nil =>
    intro str _
    rcases ends_token_head hrest with rfl | ⟨c, r, rfl, hc⟩
    · simp [parse_var_loop]
    · simp [parse_var_loop, (not_malformed_after hc).2, hc]
  | cons c cs ih =>
    intro str hcs
    have hc := hcs c (List.mem_cons_self _ _)
    have h := ih (str ++ [c]) (fun d hd => hcs d (List.mem_cons_of_mem _ hd))
    show parse_var_loop str (c :: (cs ++ rest)) = _
    simp only [parse_var_loop, hc, if_true]
    rw [h]
    simp

/-- A number literal or an identifier is read as the operand it stands for, whatever
whitespace `ws` is in front of it, when what follows ends the token. -/
theorem parse_bases_token (n : Nat) {text : List Char} {e : Expr} (ws rest : List Char)
    (h : base_term text = some e) (hws : ∀ d ∈ ws, isspace d = true)
    (hrest : ends_token rest = true) :
    parse_bases (n + 1) (ws ++ (text ++ rest)) = .ok (e, rest) := by
  rw [parse_bases_succ, consume_whitespace_spaces_append ws _ hws]
  rcases base_term_cases h with ⟨c, cs, rfl, hall, rfl⟩ | ⟨c, cs, rfl, hall, hmax, rfl⟩ |
    ⟨c, cs, rfl, hall, hmax, rfl⟩
  · have hc := hall c (List.mem_cons_self _ _)
    have hw : consume_whitespace (c :: cs ++ rest) = c :: (cs ++ rest) := by
      show consume_whitespace (c :: (cs ++ rest)) = _
      simp only [consume_whitespace, isalpha_not_isspace hc]
      rfl
    rw [hw]
    simp only [isalpha_ne_minus hc, isalpha_not_isdigit hc, hc, decide_False, Bool.or_false,
      if_true, Bool.false_eq_true, if_false]
    exact parse_var_loop_token (c :: cs) rest hrest [] hall
  · have hc := hall c (List.mem_cons_self _ _)
    have hw : consume_whitespace (c :: cs ++ rest) = c :: (cs ++ rest) := by
      show consume_whitespace (c :: (cs ++ rest)) = _
      simp only [consume_whitespace, isdigit_not_isspace hc]
      rfl
    rw [hw]
    simp only [hc, Bool.or_true, if_true]
    unfold parse_num
    split
    · rename_i heq
      simp only [List.cons.injEq] at heq
      exact absurd heq.1 (isdigit_ne_minus hc)
    · have hb := build_number_loop_token (c :: cs) rest hrest 0 (le_refl _) hall hmax
      simp only [build_number, PRes.parse_bind_eq_bind, PRes.parse_pure_eq_ok]
      show (build_number_loop 0 (c :: cs ++ rest)).bind _ = _
      rw [hb]
      rfl
  · have hc := hall c (List.mem_cons_self _ _)
    have hb := build_number_loop_token (c :: cs) rest hrest 0 (le_refl _) hall hmax
    have hw : consume_whitespace ('-' :: c :: cs ++ rest) = '-' :: (c :: (cs ++ rest)) := rfl
    rw [hw]
    simp only [decide_True, Bool.true_or, if_true]
    simp only [parse_num, hc, if_true, build_number, PRes.parse_bind_eq_bind,
      PRes.parse_pure_eq_ok]
    show (build_number_loop 0 (c :: cs ++ rest)).bind _ = _
    rw [hb]
    show PRes.ok (Expr.Num (wrap32 (digits_value 0 (c :: cs) * -1)), rest) = _
    rw [wrap32_neg_of_nonneg (digits_value_ge (c :: cs) 0 (le_refl _) hall) hmax]

theorem parse_eqs_of_parse_bases_stop {n : Nat} {s : istream} {e : Expr} {r : istream}
    (h : parse_bases (n + 1) s = .ok (e, r)) (hr : stops_operand r = true) :
    parse_calls (n + 2) s = .ok (e, r) ∧
    parse_mults (n + 3) s = .ok (e, consume_whitespace r) ∧
    parse_adds (n + 4) s = .ok (e, consume_whitespace r) ∧
    parse_eqs (n + 5) s = .ok (e, consume_whitespace r) := by
  obtain ⟨h1, h2, h3, h4⟩ := stops_operand_spec hr
  have := parse_eqs_of_parse_bases h h1 h2
  exact ⟨this.1, this.2.1, (this.2.2 h3).1, (this.2.2 h3).2 h4⟩

/-- Two operands with `+` between them, whitespace or none around each token. -/
theorem parse_eqs_plus (n : Nat) {ta tb : List Char} {ea eb : Expr} (w0 w1 w2 rest : List Char)
    (ha : base_term ta = some ea) (hb : base_term tb = some eb)
    (h0 : ∀ d ∈ w0, isspace d = true) (h1 : ∀ d ∈ w1, isspace d = true)
    (h2 : ∀ d ∈ w2, isspace d = true) (hrest : ends_token rest = true)
    (hstop : stops_operand rest = true) :
    parse_eqs (n + 6) (w0 ++ (ta ++ (w1 ++ '+' :: (w2 ++ (tb ++ rest))))) =
      .ok (.Add ea eb, consume_whitespace rest) := by
  have hw : consume_whitespace (w1 ++ '+' :: (w2 ++ (tb ++ rest))) =
      '+' :: (w2 ++ (tb ++ rest)) := by
    rw [consume_whitespace_spaces_append w1 _ h1]
    rfl
  have hfirst : ends_token (w1 ++ '+' :: (w2 ++ (tb ++ rest))) = true := by
    cases w1 with
    | nil => rfl
    | cons c w =>
      have hc := h1 c (List.mem_cons_self _ _)
      simp [ends_token, malformed_after, hc]
  have hba := parse_bases_token (n + 1) w0 _ ha h0 hfirst
  have hca : parse_calls (n + 3) (w0 ++ (ta ++ (w1 ++ '+' :: (w2 ++ (tb ++ rest))))) =
      .ok (ea, w1 ++ '+' :: (w2 ++ (tb ++ rest))) := by
    rw [parse_calls_succ, hba, PRes.parse_ok_bind]
    refine parse_calls_loop_step_stop (fun s1 hs => ?_)
    cases w1 with
    | nil => cases hs
    | cons c w =>
      simp only [List.cons_append, List.cons.injEq] at hs
      have hc := h1 c (List.mem_cons_self _ _)
      rw [hs.1] at hc
      exact absurd hc (by decide)
  have hma : parse_mults (n + 4) (w0 ++ (ta ++ (w1 ++ '+' :: (w2 ++ (tb ++ rest))))) =
      .ok (ea, '+' :: (w2 ++ (tb ++ rest))) := by
    have := parse_mults_step_stop hca (by rw [hw]; intro s2 hs; cases hs)
    rw [hw] at this
    exact this
  have hbb := parse_eqs_of_parse_bases_stop (parse_bases_token n w2 rest hb h2 hrest) hstop
  have hadd : parse_adds (n + 5) (w0 ++ (ta ++ (w1 ++ '+' :: (w2 ++ (tb ++ rest))))) =
      .ok (.Add ea eb, consume_whitespace rest) := by
    rw [parse_adds_step_op hma rfl, hbb.2.2.1]
    rfl
  have := parse_eqs_step_stop hadd (by
    rw [consume_whitespace_idem]
    exact (stops_operand_spec hstop).2.2.2)
  rw [this, consume_whitespace_idem]

/-! ## The keyword forms and calls, from their parts -/

theorem parse_bases_let {n : Nat} {s1 s3 s5 r : istream} {x : String} {rhs body : Expr}
    (h1 : parse_eqs n s1 = .ok (.Var x, '=' :: s3))
    (h2 : parse_eqs n s3 = .ok (rhs, '_' :: 'i' :: 'n' :: s5))
    (h3 : parse_eqs n s5 = .ok (body, r)) :
    parse_bases (n + 2) ('_' :: 'l' :: 'e' :: 't' :: s1) =
      if (body.subst x rhs).equals (some body) then
        .runtime_error "parse_let(): invalid let"
      else .ok (.Let x rhs body, r) := by
  have hd : parse_bases (n + 2) ('_' :: 'l' :: 'e' :: 't' :: s1) =
      parse_let (n + 1) ('_' :: 'l' :: 'e' :: 't' :: s1) := by
    rw [parse_bases_succ]
    rfl
  have hc1 : consume_string ('_' :: 'l' :: 'e' :: 't' :: s1) ['_', 'l', 'e', 't'] = .ok s1 :=
    consume_string_append ['_', 'l', 'e', 't'] s1
  have hc2 : consume_string ('_' :: 'i' :: 'n' :: s5) ['_', 'i', 'n'] = .ok s5 :=
    consume_string_append ['_', 'i', 'n'] s5
  rw [hd, parse_let_succ, hc1, PRes.parse_ok_bind, h1, PRes.parse_ok_bind]
  dsimp only
  rw [consume_cons, PRes.parse_ok_bind, h2, PRes.parse_ok_bind]
  dsimp only
  rw [hc2, PRes.parse_ok_bind, h3, PRes.parse_ok_bind]

theorem parse_bases_let_binder {n : Nat} {s1 r : istream} {lhs : Expr}
    (h1 : parse_eqs n s1 = .ok (lhs, r)) (hl : ∀ x, lhs ≠ .Var x) :
    parse_bases (n + 2) ('_' :: 'l' :: 'e' :: 't' :: s1) =
      .runtime_error "parse_let(): invalid let" := by
  have hd : parse_bases (n + 2) ('_' :: 'l' :: 'e' :: 't' :: s1) =
      parse_let (n + 1) ('_' :: 'l' :: 'e' :: 't' :: s1) := by
    rw [parse_bases_succ]
    rfl
  have hc1 : consume_string ('_' :: 'l' :: 'e' :: 't' :: s1) ['_', 'l', 'e', 't'] = .ok s1 :=
    consume_string_append ['_', 'l', 'e', 't'] s1
  rw [hd, parse_let_succ, hc1, PRes.parse_ok_bind, h1, PRes.parse_ok_bind]
  cases lhs with
  | Var x => exact absurd rfl (hl x)
  | _ => rfl

theorem parse_bases_if {n : Nat} {s1 s3 s5 r : istream} {c t e : Expr}
    (h1 : parse_eqs n s1 = .ok (c, '_' :: 't' :: 'h' :: 'e' :: 'n' :: s3))
    (h2 : parse_eqs n s3 = .ok (t, '_' :: 'e' :: 'l' :: 's' :: 'e' :: s5))
    (h3 : parse_eqs n s5 = .ok (e, r)) :
    parse_bases (n + 2) ('_' :: 'i' :: 'f' :: s1) = .ok (.If c t e, r) := by
  have hd : parse_bases (n + 2) ('_' :: 'i' :: 'f' :: s1) =
      parse_if (n + 1) ('_' :: 'i' :: 'f' :: s1) := by
    rw [parse_bases_succ]
    rfl
  have hc1 : consume_string ('_' :: 'i' :: 'f' :: s1) ['_', 'i', 'f'] = .ok s1 :=
    consume_string_append ['_', 'i', 'f'] s1
  have hc2 : consume_string ('_' :: 't' :: 'h' :: 'e' :: 'n' :: s3) ['_', 't', 'h', 'e', 'n'] =
      .ok s3 := consume_string_append ['_', 't', 'h', 'e', 'n'] s3
  have hc3 : consume_string ('_' :: 'e' :: 'l' :: 's' :: 'e' :: s5) ['_', 'e', 'l', 's', 'e'] =
      .ok s5 := consume_string_append ['_', 'e', 'l', 's', 'e'] s5
  rw [hd, parse_if_succ, hc1, PRes.parse_ok_bind, h1, PRes.parse_ok_bind]
  dsimp only
  rw [hc2, PRes.parse_ok_bind, h2, PRes.parse_ok_bind]
  dsimp only
  rw [hc3, PRes.parse_ok_bind, h3, PRes.parse_ok_bind]

theorem parse_bases_fun {n : Nat} {s1 s2 r : istream} {x : String} {body : Expr}
    (h1 : parse_eqs n s1 = .ok (.Var x, s2)) (h2 : parse_eqs n s2 = .ok (body, r)) :
    parse_bases (n + 2) ('_' :: 'f' :: 'u' :: 'n' :: s1) =
      if (body.subst x body).equals (some body) then
        .runtime_error "parse_let(): invalid fun"
      else .ok (.Fun x body, r) := by
  have hd : parse_bases (n + 2) ('_' :: 'f' :: 'u' :: 'n' :: s1) =
      parse_fun (n + 1) ('_' :: 'f' :: 'u' :: 'n' :: s1) := by
    rw [parse_bases_succ]
    rfl
  have hc1 : consume_string ('_' :: 'f' :: 'u' :: 'n' :: s1) ['_', 'f', 'u', 'n'] = .ok s1 :=
    consume_string_append ['_', 'f', 'u', 'n'] s1
  rw [hd, parse_fun_succ, hc1, PRes.parse_ok_bind, h1, PRes.parse_ok_bind]
  dsimp only
  rw [h2, PRes.parse_ok_bind]

theorem parse_calls_arg {k : Nat} {s s1 r : istream} {f a : Expr}
    (hf : parse_bases (k + 2) s = .ok (f, '(' :: s1))
    (ha : parse_eqs (k + 1) s1 = .ok (a, ')' :: r)) (hr : ∀ s2, r ≠ '(' :: s2) :
    parse_calls (k + 3) s = .ok (.Call f a, r) := by
  rw [parse_calls_succ, hf, PRes.parse_ok_bind]
  dsimp only
  rw [parse_calls_loop_step_arg ha]
  exact parse_calls_loop_step_stop hr

theorem parse_eqs_of_parse_calls {n : Nat} {s : istream} {e : Expr} {r : istream}
    (h : parse_calls n s = .ok (e, r)) (h2 : ∀ s2, consume_whitespace r ≠ '*' :: s2)
    (h3 : ∀ s2, consume_whitespace r ≠ '+' :: s2)
    (h4 : ∀ s3, consume_whitespace r ≠ '=' :: '=' :: s3) :
    parse_eqs (n + 3) s = .ok (e, consume_whitespace r) := by
  have hm := parse_mults_step_stop h h2
  have ha : parse_adds (n + 2) s = .ok (e, consume_whitespace r) := by
    have := parse_adds_step_stop hm (by rw [consume_whitespace_idem]; exact h3)
    rw [this, consume_whitespace_idem]
  have := parse_eqs_step_stop ha (by rw [consume_whitespace_idem]; exact h4)
  rw [this, consume_whitespace_idem]

theorem base_term_of_number_literal {text : List Char} (h : is_number_literal text = true) :
    base_term text = some (.Num (digits_value 0 text)) := by
  have hid : is_identifier text = false := by
    cases text with
    | nil => rfl
    | cons c cs =>
      simp only [is_number_literal, Bool.and_eq_true, List.all_eq_true] at h
      have hc := h.1.2 c (List.mem_cons_self _ _)
      simp [is_identifier, isdigit_not_isalpha hc]
  simp [base_term, hid, h]

theorem base_term_of_identifier {text : List Char} (h : is_identifier text = true) :
    base_term text = some (.Var (String.mk text)) := by
  simp [base_term, h]

/-! ## Parsing and interpreting a call and a `_let` -/

theorem parse_eqs_fun_call {ta tb : List Char} {ea eb : Expr} (ha : base_term ta = some ea)
    (hb : base_term tb = some eb) :
    parse_eqs 35 ('(' :: '_' :: 'f' :: 'u' :: 'n' :: ' ' :: '(' :: 'x' :: ')' :: ' ' :: 'x' ::
        ' ' :: '+' :: ' ' :: (ta ++ ')' :: '(' :: (tb ++ [')']))) =
      .ok (.Call (.Fun "x" (.Add (.Var "x") ea)) eb, []) := by
  have hx : base_term ['x'] = some (.Var "x") := by decide
  have s1 := (parse_eqs_of_parse_bases_stop (parse_bases_token 12 []
    (')' :: ' ' :: 'x' :: ' ' :: '+' :: ' ' :: (ta ++ ')' :: '(' :: (tb ++ [')']))) hx
    (by simp) rfl) rfl).2.2.2
  have s2 : parse_bases 19 (' ' :: '(' :: 'x' :: ')' :: ' ' :: 'x' :: ' ' :: '+' :: ' ' ::
      (ta ++ ')' :: '(' :: (tb ++ [')']))) =
      .ok (.Var "x", ' ' :: 'x' :: ' ' :: '+' :: ' ' :: (ta ++ ')' :: '(' :: (tb ++ [')']))) := by
    have := parse_bases_spaces 19 [' '] ('(' :: 'x' :: ')' :: ' ' :: 'x' :: ' ' :: '+' :: ' ' ::
      (ta ++ ')' :: '(' :: (tb ++ [')']))) (by decide)
    rw [show (' ' :: '(' :: 'x' :: ')' :: ' ' :: 'x' :: ' ' :: '+' :: ' ' ::
      (ta ++ ')' :: '(' :: (tb ++ [')']))) = [' '] ++ ('(' :: 'x' :: ')' :: ' ' :: 'x' :: ' ' ::
      '+' :: ' ' :: (ta ++ ')' :: '(' :: (tb ++ [')']))) from rfl, this, parse_bases_paren]
    exact parse_paren_step s1
  have s3 := (parse_eqs_of_parse_bases_stop s2 rfl).2.2.2
  have s4 := parse_eqs_plus 17 [] [' '] [' '] (')' :: '(' :: (tb ++ [')'])) hx ha
    (by simp) (by decide) (by decide) rfl rfl
  have s5 := parse_bases_fun s3 s4
  rw [if_neg (by simp [Expr.subst, Expr.equals])] at s5
  have s6 := (parse_eqs_of_parse_bases_stop s5 rfl).2.2.2
  have s7 : parse_bases 31 ('(' :: '_' :: 'f' :: 'u' :: 'n' :: ' ' :: '(' :: 'x' :: ')' :: ' ' ::
      'x' :: ' ' :: '+' :: ' ' :: (ta ++ ')' :: '(' :: (tb ++ [')']))) =
      .ok (.Fun "x" (.Add (.Var "x") ea), '(' :: (tb ++ [')'])) := by
    rw [parse_bases_paren]
    exact parse_paren_step s6
  have s8 := (parse_eqs_of_parse_bases_stop (parse_bases_token 25 [] [')'] hb
    (by simp) rfl) rfl).2.2.2
  have s9 := parse_calls_arg s7 s8 (fun _ h => by cases h)
  exact parse_eqs_of_parse_calls s9 (fun _ h => by cases h) (fun _ h => by cases h)
    (fun _ h => by cases h)

/-! ## Whitespace between tokens -/

theorem isspace_not_malformed_after {c : Char} (h : isspace c = true) :
    malformed_after c = false := by
  simp [malformed_after, h]

theorem isspace_ne_paren {c : Char} (h : isspace c = true) : c ≠ '(' := by
  rintro rfl
  exact absurd h (by decide)

theorem ends_token_spaces_append (w X : List Char) (hw : ∀ d ∈ w, isspace d = true)
    (hX : ends_token X = true) : ends_token (w ++ X) = true := by
  cases w with
  | nil => exact hX
  | cons c w =>
    have hc := hw c (List.mem_cons_self _ _)
    simp [ends_token, isspace_not_malformed_after hc]

theorem ends_token_spaces_cons (c : Char) (X : List Char) (hc : isspace c = true) :
    ends_token (c :: X) = true := by
  simp [ends_token, isspace_not_malformed_after hc]

theorem ends_token_spaces (w : List Char) (hw : ∀ d ∈ w, isspace d = true) :
    ends_token w = true := by
  have := ends_token_spaces_append w [] hw rfl
  rwa [List.append_nil] at this

theorem stops_operand_spaces_append (w X : List Char) (hw : ∀ d ∈ w, isspace d = true)
    (hX : stops_operand X = true) : stops_operand (w ++ X) = true := by
  cases w with
  | nil => exact hX
  | cons c w =>
    have hc := hw c (List.mem_cons_self _ _)
    simp only [stops_operand, Bool.and_eq_true] at hX ⊢
    refine ⟨?_, ?_⟩
    · show (match c :: (w ++ X) with
        | '(' :: _ => false
        | _ => true) = true
      split
      · rename_i heq
        simp only [List.cons.injEq] at heq
        exact absurd heq.1 (isspace_ne_paren hc)
      · rfl
    · rw [consume_whitespace_spaces_append (c :: w) X hw]
      exact hX.2

theorem stops_operand_spaces (w : List Char) (hw : ∀ d ∈ w, isspace d = true) :
    stops_operand w = true := by
  have := stops_operand_spaces_append w [] hw rfl
  rwa [List.append_nil] at this

theorem stops_operand_eq (Y : List Char) (hY : ∀ u, Y ≠ '=' :: u) :
    stops_operand ('=' :: Y) = true := by
  simp only [stops_operand, Bool.and_eq_true]
  refine ⟨rfl, ?_⟩
  have hw : consume_whitespace ('=' :: Y) = '=' :: Y := rfl
  rw [hw]
  split
  · rename_i heq; simp at heq
  · rename_i heq; simp at heq
  · rename_i heq
    simp only [List.cons.injEq, true_and] at heq
    exact absurd heq (hY _)
  · rfl

theorem base_term_head {text : List Char} {e : Expr} (h : base_term text = some e) :
    ∃ c cs, text = c :: cs ∧ isspace c = false ∧ c ≠ '=' ∧ c ≠ '(' ∧ c ≠ '_' := by
  rcases base_term_cases h with ⟨c, cs, rfl, hall, _⟩ | ⟨c, cs, rfl, hall, _⟩ |
    ⟨c, cs, rfl, _⟩
  · have hc := hall c (List.mem_cons_self _ _)
    refine ⟨c, cs, rfl, isalpha_not_isspace hc, ?_, ?_, ?_⟩ <;>
      (rintro rfl; exact absurd hc (by decide))
  · have hc := hall c (List.mem_cons_self _ _)
    refine ⟨c, cs, rfl, isdigit_not_isspace hc, ?_, ?_, ?_⟩ <;>
      (rintro rfl; exact absurd hc (by decide))
  · exact ⟨'-', c :: cs, rfl, by decide, by decide, by decide, by decide⟩

theorem operand_head_ne_eq {w ta Z : List Char} {e : Expr} (hw : ∀ d ∈ w, isspace d = true)
    (ha : base_term ta = some e) : ∀ u, w ++ (ta ++ Z) ≠ '=' :: u := by
  intro u hu
  cases w with
  | nil =>
    obtain ⟨c, cs, rfl, _, hc, _⟩ := base_term_head ha
    simp only [List.nil_append, List.cons_append, List.cons.injEq] at hu
    exact hc hu.1
  | cons c w =>
    have hc := hw c (List.mem_cons_self _ _)
    simp only [List.cons_append, List.cons.injEq] at hu
    rw [hu.1] at hc
    exact absurd hc (by decide)

theorem consume_whitespace_spaces (w : List Char) (hw : ∀ d ∈ w, isspace d = true) :
    consume_whitespace w = [] :=
  (consume_whitespace_eq_nil_iff w).2 hw

theorem parse_eqs_binder (n : Nat) {tx : List Char} (w1 w2 Y : List Char)
    (hx : is_identifier tx = true) (h1 : ∀ d ∈ w1, isspace d = true)
    (h2 : ∀ d ∈ w2, isspace d = true) (hY : ∀ u, Y ≠ '=' :: u) :
    parse_eqs (n + 5) (w1 ++ (tx ++ (w2 ++ '=' :: Y))) =
      .ok (.Var (String.mk tx), '=' :: Y) := by
  have h := (parse_eqs_of_parse_bases_stop
    (parse_bases_token n w1 (w2 ++ '=' :: Y) (base_term_of_identifier hx) h1
      (ends_token_spaces_append w2 _ h2 rfl))
    (stops_operand_spaces_append w2 _ h2 (stops_operand_eq Y hY))).2.2.2
  rw [consume_whitespace_spaces_append w2 _ h2] at h
  exact h

theorem parse_eqs_operand_keyword (n : Nat) {ta : List Char} {ea : Expr} (w3 w4 K : List Char)
    (ha : base_term ta = some ea) (h3 : ∀ d ∈ w3, isspace d = true)
    (h4 : ∀ d ∈ w4, isspace d = true) (hw4 : w4 ≠ []) (hK : stops_operand K = true)
    (hn : consume_whitespace K = K) :
    parse_eqs (n + 5) (w3 ++ (ta ++ (w4 ++ K))) = .ok (ea, K) := by
  have he : ends_token (w4 ++ K) = true := by
    cases w4 with
    | nil => exact absurd rfl hw4
    | cons c w => exact ends_token_spaces_cons c _ (h4 c (List.mem_cons_self _ _))
  have h := (parse_eqs_of_parse_bases_stop (parse_bases_token n w3 (w4 ++ K) ha h3 he)
    (stops_operand_spaces_append w4 K h4 hK)).2.2.2
  rw [consume_whitespace_spaces_append w4 _ h4, hn] at h
  exact h

theorem subst_self_plus_ne {x : String} {ea eb : Expr} (hne : ea ≠ .Var x) :
    ((Expr.Add (.Var x) eb).subst x ea).equals (some (.Add (.Var x) eb)) = false := by
  cases hq : ((Expr.Add (.Var x) eb).subst x ea).equals (some (.Add (.Var x) eb)) with
  | false => rfl
  | true =>
    have := (Expr.equals_iff_eq _ _).1 hq
    simp only [Expr.subst, if_true, Expr.Add.injEq] at this
    exact absurd this.1 hne

/-- The shape `_let x = a _in x + b` with any whitespace, or none, at `w1` to `w8`, except
that `w4`, between the operand `a` and `_in`, is not empty. -/
theorem parse_eqs_let_family {tx ta tb : List Char} {ea eb : Expr}
    (w1 w2 w3 w4 w5 w6 w7 w8 : List Char) (hx : is_identifier tx = true)
    (ha : base_term ta = some ea) (hb : base_term tb = some eb)
    (hne : ea ≠ .Var (String.mk tx))
    (h1 : ∀ d ∈ w1, isspace d = true) (h2 : ∀ d ∈ w2, isspace d = true)
    (h3 : ∀ d ∈ w3, isspace d = true) (h4 : ∀ d ∈ w4, isspace d = true)
    (h5 : ∀ d ∈ w5, isspace d = true) (h6 : ∀ d ∈ w6, isspace d = true)
    (h7 : ∀ d ∈ w7, isspace d = true) (h8 : ∀ d ∈ w8, isspace d = true) (hw4 : w4 ≠ []) :
    parse_eqs 12 ('_' :: 'l' :: 'e' :: 't' :: (w1 ++ (tx ++ (w2 ++ '=' :: (w3 ++ (ta ++
        (w4 ++ '_' :: 'i' :: 'n' :: (w5 ++ (tx ++ (w6 ++ '+' :: (w7 ++ (tb ++ w8))))))))))))
      = .ok (.Let (String.mk tx) ea (.Add (.Var (String.mk tx)) eb), []) := by
  have b3 := parse_eqs_plus 0 w5 w6 w7 w8 (base_term_of_identifier hx) hb h5 h6 h7
    (ends_token_spaces w8 h8) (stops_operand_spaces w8 h8)
  rw [consume_whitespace_spaces w8 h8] at b3
  have b2 := parse_eqs_operand_keyword 1 w3 w4
    ('_' :: 'i' :: 'n' :: (w5 ++ (tx ++ (w6 ++ '+' :: (w7 ++ (tb ++ w8)))))) ha h3 h4 hw4 rfl rfl
  have b1 := parse_eqs_binder 1 w1 w2 _ hx h1 h2
    (operand_head_ne_eq (Z := w4 ++ '_' :: 'i' :: 'n' ::
      (w5 ++ (tx ++ (w6 ++ '+' :: (w7 ++ (tb ++ w8)))))) h3 ha)
  have l := parse_bases_let b1 b2 b3
  rw [if_neg (by rw [subst_self_plus_ne hne]; simp)] at l
  exact (parse_eqs_of_parse_bases_stop l rfl).2.2.2

theorem digits_value_nonneg {text : List Char} (h : is_number_literal text = true) :
    0 ≤ digits_value 0 text ∧ digits_value 0 text ≤ INT_MAX := by
  simp only [is_number_literal, Bool.and_eq_true, List.all_eq_true, decide_eq_true_eq] at h
  exact ⟨digits_value_ge text 0 (le_refl _) h.1.2, h.2⟩

/-- C27: for number literals `a` and `b` (digits denoting at most `INT_MAX`),
`"(_fun (x) x + a)(b)"` parses to a call whose `interp()` is `NumVal` of the wrapped sum
`b + a`, and `"_let x = a _in x + b"` to a `Let` whose `interp()` is `NumVal` of the wrapped
sum `a + b`; `"(_fun (x) x + 4)(3 + 8)"` gives `NumVal(15)` and `"_let x = 5 _in x + 5"`
gives `NumVal(10)`. -/
theorem C27_end_to_end_application (a b : String)
    (ha : is_number_literal a.toList = true) (hb : is_number_literal b.toList = true) :
    parse_expr ("(_fun (x) x + " ++ a ++ ")(" ++ b ++ ")") =
      PRes.ok (Expr.Call (.Fun "x" (.Add (.Var "x") (.Num (digits_value 0 a.toList))))
        (.Num (digits_value 0 b.toList))) ∧
    (Expr.Call (.Fun "x" (.Add (.Var "x") (.Num (digits_value 0 a.toList))))
        (.Num (digits_value 0 b.toList))).interp .nullptr =
      Res.ok (Val.NumVal (wrap32 (digits_value 0 b.toList + digits_value 0 a.toList))) ∧
    parse_expr ("_let x = " ++ a ++ " _in x + " ++ b) =
      PRes.ok (Expr.Let "x" (.Num (digits_value 0 a.toList))
        (.Add (.Var "x") (.Num (digits_value 0 b.toList)))) ∧
    (Expr.Let "x" (.Num (digits_value 0 a.toList))
        (.Add (.Var "x") (.Num (digits_value 0 b.toList)))).interp .nullptr =
      Res.ok (Val.NumVal (wrap32 (digits_value 0 a.toList + digits_value 0 b.toList))) ∧
    (parse_expr "(_fun (x) x + 4)(3 + 8)" =
        PRes.ok (Expr.Call (.Fun "x" (.Add (.Var "x") (.Num 4))) (.Add (.Num 3) (.Num 8))) ∧
      (Expr.Call (.Fun "x" (.Add (.Var "x") (.Num 4))) (.Add (.Num 3) (.Num 8))).interp
        .nullptr = Res.ok (Val.NumVal 15)) ∧
    (parse_expr "_let x = 5 _in x + 5" =
        PRes.ok (Expr.Let "x" (.Num 5) (.Add (.Var "x") (.Num 5))) ∧
      (Expr.Let "x" (.Num 5) (.Add (.Var "x") (.Num 5))).interp .nullptr =
        Res.ok (Val.NumVal 10)) := by
  have hta := base_term_of_number_literal ha
  have htb := base_term_of_number_literal hb
  refine ⟨?_, ?_, ?_, ?_, ⟨by decide, rfl⟩, ⟨by decide, rfl⟩⟩
  · exact parse_expr_of_parse_eqs_nil (by simp [String.toList]) (parse_eqs_fun_call hta htb)
  · simp only [interp_Call, interp_Fun, interp_Num, Res.ok_bind, Val.call, interp_Add,
      interp_Var, Env.orEmpty, Env.lookup, if_true, Val.add_to_NumVal]
  · have h := @parse_eqs_let_family ['x'] a.toList b.toList _ _ [' '] [' '] [' '] [' '] [' '] [' ']
      [' '] []
      (by decide) hta htb (by simp) (by decide) (by decide) (by decide) (by decide)
      (by decide) (by decide) (by decide) (by decide) (by decide)
    exact parse_expr_of_parse_eqs_nil (by simp [String.toList]) h
  · simp only [interp_Let, interp_Num, Res.ok_bind, interp_Add, interp_Var, Env.orEmpty,
      Env.lookup, if_true, Val.add_to_NumVal]

/-- C27 at `a = "4"` and `b = "2147483647"`, where the sum wraps. -/
theorem C27_end_to_end_application_witness :
    parse_expr "(_fun (x) x + 4)(2147483647)" =
      PRes.ok (Expr.Call (.Fun "x" (.Add (.Var "x") (.Num 4))) (.Num 2147483647)) ∧
    (Expr.Call (.Fun "x" (.Add (.Var "x") (.Num 4))) (.Num 2147483647)).interp .nullptr =
      Res.ok (Val.NumVal (-2147483645)) ∧
    parse_expr "_let x = 4 _in x + 2147483647" =
      PRes.ok (Expr.Let "x" (.Num 4) (.Add (.Var "x") (.Num 2147483647))) ∧
    (Expr.Let "x" (.Num 4) (.Add (.Var "x") (.Num 2147483647))).interp .nullptr =
      Res.ok (Val.NumVal (-2147483645)) :=
  have h := C27_end_to_end_application "4" "2147483647" (by decide) (by decide)
  ⟨h.1, h.2.1, h.2.2.1, h.2.2.2.1⟩

/-! ## The check of `parse_let` -/

theorem Expr.occursFree_of_subst_eq_self (x : String) (r : Expr) (e : Expr) :
    e.subst x r = e → e.occursFree x = false ∨ r = .Var x := by
  induction e with
  | Num i => intro _; exact Or.inl rfl
  | Bool b => intro _; exact Or.inl rfl
  | Var s =>
    intro h
    by_cases hs : x = s
    · subst hs
      simp only [Expr.subst, if_true] at h
      exact Or.inr h
    · left
      simp only [Expr.occursFree, decide_eq_false_iff_not]
      exact fun h' => hs h'.symm
  | Eq l rhs ihl ihr =>
    intro h
    simp only [Expr.subst, Expr.Eq.injEq] at h
    rcases ihl h.1 with h1 | h1
    · rcases ihr h.2 with h2 | h2
      · exact Or.inl (by simp [Expr.occursFree, h1, h2])
      · exact Or.inr h2
    · exact Or.inr h1
  | Add l rhs ihl ihr =>
    intro h
    simp only [Expr.subst, Expr.Add.injEq] at h
    rcases ihl h.1 with h1 | h1
    · rcases ihr h.2 with h2 | h2
      · exact Or.inl (by simp [Expr.occursFree, h1, h2])
      · exact Or.inr h2
    · exact Or.inr h1
  | Mult l rhs ihl ihr =>
    intro h
    simp only [Expr.subst, Expr.Mult.injEq] at h
    rcases ihl h.1 with h1 | h1
    · rcases ihr h.2 with h2 | h2
      · exact Or.inl (by simp [Expr.occursFree, h1, h2])
      · exact Or.inr h2
    · exact Or.inr h1
  | Call f a ihf iha =>
    intro h
    simp only [Expr.subst, Expr.Call.injEq] at h
    rcases ihf h.1 with h1 | h1
    · rcases iha h.2 with h2 | h2
      · exact Or.inl (by simp [Expr.occursFree, h1, h2])
      · exact Or.inr h2
    · exact Or.inr h1
  | If c t e ihc iht ihe =>
    intro h
    simp only [Expr.subst, Expr.If.injEq] at h
    rcases ihc h.1 with h1 | h1
    · rcases iht h.2.1 with h2 | h2
      · rcases ihe h.2.2 with h3 | h3
        · exact Or.inl (by simp [Expr.occursFree, h1, h2, h3])
        · exact Or.inr h3
      · exact Or.inr h2
    · exact Or.inr h1
  | Let y rhs b ihr ihb =>
    intro h
    by_cases hy : y = x
    · simp only [Expr.subst, hy, if_true, Expr.Let.injEq, true_and, and_true] at h
      rcases ihr h with h1 | h1
      · exact Or.inl (by simp [Expr.occursFree, h1, hy])
      · exact Or.inr h1
    · simp only [Expr.subst, hy, if_false, Expr.Let.injEq, true_and] at h
      rcases ihr h.1 with h1 | h1
      · rcases ihb h.2 with h2 | h2
        · exact Or.inl (by simp [Expr.occursFree, h1, h2])
        · exact Or.inr h2
      · exact Or.inr h1
  | Fun p b ihb =>
    intro h
    by_cases hp : p = x
    · exact Or.inl (by simp [Expr.occursFree, hp])
    · simp only [Expr.subst, hp, if_false, Expr.Fun.injEq, true_and] at h
      rcases ihb h with h1 | h1
      · exact Or.inl (by simp [Expr.occursFree, h1])
      · exact Or.inr h1

/-- The check `body->subst(lhs, rhs)->equals(body)` of `parse_let` holds exactly when the
name does not occur free in the body or the right-hand side is the variable itself. -/
theorem Expr.subst_equals_self_iff (x : String) (r e : Expr) :
    (e.subst x r).equals (some e) = true ↔ (e.occursFree x = false ∨ r = .Var x) := by
  rw [Expr.equals_iff_eq]
  constructor
  · exact Expr.occursFree_of_subst_eq_self x r e
  · rintro (h | h)
    · exact Expr.subst_of_not_occursFree x r e h
    · subst h
      induction e with
      | Var s =>
        by_cases hs : x = s
        · subst hs; simp [Expr.subst]
        · simp [Expr.subst, hs]
      | Let y rhs b ihr ihb =>
        by_cases hy : y = x
        · simp [Expr.subst, hy, ihr]
        · simp [Expr.subst, hy, ihr, ihb]
      | Fun p b ihb =>
        by_cases hp : p = x
        · simp [Expr.subst, hp]
        · simp [Expr.subst, hp, ihb]
      | Num i => rfl
      | Bool b => rfl
      | Eq l rhs ihl ihr => simp [Expr.subst, ihl, ihr]
      | Add l rhs ihl ihr => simp [Expr.subst, ihl, ihr]
      | Mult l rhs ihl ihr => simp [Expr.subst, ihl, ihr]
      | If c t e ihc iht ihe => simp [Expr.subst, ihc, iht, ihe]
      | Call f a ihf iha => simp [Expr.subst, ihf, iha]

/-- C26 is false as stated: in `"_let x = x _in x"` the name `x` occurs free in the body and
the input is rejected with "parse_let(): invalid let"; with `x1` in the binder position the
error is "build_variable(): malformed variable", with nothing there it is
"parse_bases(): invalid input", and the parenthesised `(x)` is accepted as a binder. -/
theorem C26_counterexample :
    parse_expr "x" = PRes.ok (Expr.Var "x") ∧ (Expr.Var "x").occursFree "x" = true ∧
    parse_expr "_let x = x _in x" = PRes.runtime_error "parse_let(): invalid let" ∧
    parse_expr "_let x1 = 5 _in x" =
      PRes.runtime_error "build_variable(): malformed variable" ∧
    parse_expr "_let = 5 _in x" = PRes.runtime_error "parse_bases(): invalid input" ∧
    parse_expr "_let (x) = 5 _in x" = PRes.ok (Expr.Let "x" (.Num 5) (.Var "x")) := by
  refine ⟨by decide, by decide, by decide, by decide, by decide, by decide⟩

/-- C26 (amended): for an identifier `x` and texts `R` and `B` that `parse_expr` accepts
with results `r` and `b`, where `r` is not the variable `x` itself,
`parse_expr("_let x = R _in B")` returns `Let(x, r, b)` when `x` occurs free in `b` and
throws "parse_let(): invalid let" otherwise; it throws that error as well when a number
literal stands in the binder position, whatever follows the `=`. -/
theorem C26_let_binder_validation (x R B : String) (r b : Expr)
    (hx : is_identifier x.toList = true) (hR : parse_expr R = PRes.ok r)
    (hB : parse_expr B = PRes.ok b) (hne : r ≠ Expr.Var x) :
    parse_expr ("_let " ++ x ++ " = " ++ R ++ " _in " ++ B) =
      (if b.occursFree x then PRes.ok (Expr.Let x r b)
        else PRes.runtime_error "parse_let(): invalid let") ∧
    (∀ (num rest : String) (e : Expr), base_term num.toList = some e →
      (∀ s, e ≠ Expr.Var s) →
      parse_expr ("_let " ++ num ++ " = " ++ rest) =
        PRes.runtime_error "parse_let(): invalid let") := by
  constructor
  · have hR0 := parse_eqs_of_parse_expr hR
    have hB0 := parse_eqs_of_parse_expr hB
    have hfr := parse_eqs_frame (t := ' ' :: '_' :: 'i' :: 'n' :: ' ' :: B.toList) hR0 rfl
    have hcw : consume_whitespace (' ' :: '_' :: 'i' :: 'n' :: ' ' :: B.toList) =
        '_' :: 'i' :: 'n' :: ' ' :: B.toList := rfl
    rw [hcw] at hfr
    have b1 := parse_eqs_binder 1 [' '] [' ']
      (' ' :: (R.toList ++ ' ' :: '_' :: 'i' :: 'n' :: ' ' :: B.toList)) hx (by decide)
      (by decide) (fun u h => by cases h)
    have b2 : parse_eqs (parse_fuel R.length)
        (' ' :: (R.toList ++ ' ' :: '_' :: 'i' :: 'n' :: ' ' :: B.toList)) =
        .ok (r, '_' :: 'i' :: 'n' :: ' ' :: B.toList) := by
      rw [← hfr]
      exact parse_eqs_spaces _ [' '] _ (by decide)
    have b3 : parse_eqs (parse_fuel B.length) (' ' :: B.toList) = .ok (b, []) := by
      rw [← hB0]
      exact parse_eqs_spaces _ [' '] _ (by decide)
    have hxs : String.mk x.toList = x := rfl
    rw [hxs] at b1
    have l := parse_bases_let
      (parse_eqs_ok_mono b1 (Nat.le_max_left (1 + 5) (max (parse_fuel R.length)
        (parse_fuel B.length))))
      (parse_eqs_ok_mono b2 (le_trans (Nat.le_max_left _ _) (Nat.le_max_right (1 + 5) _)))
      (parse_eqs_ok_mono b3 (le_trans (Nat.le_max_right _ _) (Nat.le_max_right (1 + 5) _)))
    have ht : ("_let " ++ x ++ " = " ++ R ++ " _in " ++ B).toList =
        '_' :: 'l' :: 'e' :: 't' :: ([' '] ++ (x.toList ++ ([' '] ++ '=' :: ' ' ::
          (R.toList ++ ' ' :: '_' :: 'i' :: 'n' :: ' ' :: B.toList)))) := by
      simp [String.toList]
    cases hocc : b.occursFree x with
    | true =>
      have hchk : (b.subst x r).equals (some b) = false := by
        cases hq : (b.subst x r).equals (some b) with
        | false => rfl
        | true =>
          rcases (Expr.subst_equals_self_iff x r b).1 hq with h | h
          · rw [hocc] at h; cases h
          · exact absurd h hne
      rw [hchk] at l
      simp only [Bool.false_eq_true, if_false, if_true] at l ⊢
      exact parse_expr_of_parse_eqs_nil ht (parse_eqs_of_parse_bases_stop l rfl).2.2.2
    | false =>
      have hchk := (Expr.subst_equals_self_iff x r b).2 (Or.inl hocc)
      rw [hchk] at l
      simp only [if_true, Bool.false_eq_true, if_false] at l ⊢
      exact parse_expr_of_parse_eqs_error (by rw [ht]; exact parse_eqs_of_parse_bases_error l)
  · intro num rest e hn he
    have hb := (parse_eqs_of_parse_bases_stop
      (parse_bases_token 0 [' '] (' ' :: '=' :: ' ' :: rest.toList) hn (by decide) rfl)
      rfl).2.2.2
    have l := parse_bases_let_binder hb he
    have ht : ("_let " ++ num ++ " = " ++ rest).toList =
        '_' :: 'l' :: 'e' :: 't' :: ([' '] ++ (num.toList ++ ' ' :: '=' :: ' ' ::
          rest.toList)) := by
      simp [String.toList]
    exact parse_expr_of_parse_eqs_error (by rw [ht]; exact parse_eqs_of_parse_bases_error l)

/-- C26 at `x`, `R = "2 * y"` and the bodies `"x + 1"` and `"y + 3"`, and at the binder
`3`. -/
theorem C26_let_binder_validation_witness :
    parse_expr "_let x = 2 * y _in x + 1" =
      PRes.ok (Expr.Let "x" (.Mult (.Num 2) (.Var "y")) (.Add (.Var "x") (.Num 1))) ∧
    parse_expr "_let x = 2 * y _in y + 3" = PRes.runtime_error "parse_let(): invalid let" ∧
    parse_expr "_let 3 = 5 _in y + 3" = PRes.runtime_error "parse_let(): invalid let" :=
  ⟨(C26_let_binder_validation "x" "2 * y" "x + 1" (.Mult (.Num 2) (.Var "y"))
      (.Add (.Var "x") (.Num 1)) (by decide) (by decide) (by decide) (by decide)).1,
   (C26_let_binder_validation "x" "2 * y" "y + 3" (.Mult (.Num 2) (.Var "y"))
      (.Add (.Var "y") (.Num 3)) (by decide) (by decide) (by decide) (by decide)).1,
   (C26_let_binder_validation "x" "2 * y" "y + 3" (.Mult (.Num 2) (.Var "y"))
      (.Add (.Var "y") (.Num 3)) (by decide) (by decide) (by decide) (by decide)).2
      "3" "5 _in y + 3" (.Num 3) (by decide) (by simp)⟩

/-! ## Columns -/

theorem column_after_append (a b : List Char) :
    ∀ col, column_after col (a ++ b) = column_after (column_after col a) b := by
  induction a with
  | nil => intro col; rfl
  | cons c a ih =>
    intro col
    simp only [List.cons_append, column_after]
    exact ih _

theorem column_append (s t : List Char) : column (s ++ t) = column_after (column s) t :=
  column_after_append s t 0

theorem column_after_one_line (t : List Char) (ht : ∀ c ∈ t, c ≠ '\n') :
    ∀ col, column_after col t = col + t.length := by
  induction t with
  | nil => intro col; rfl
  | cons c t ih =>
    intro col
    have hc := ht c (List.mem_cons_self _ _)
    simp only [column_after, hc, if_false, List.length_cons]
    rw [ih (fun d hd => ht d (List.mem_cons_of_mem _ hd))]
    omega

theorem column_after_replicate (k col : Nat) :
    column_after col (List.replicate k ' ') = col + k := by
  rw [column_after_one_line _ (by
    intro c hc
    rw [List.eq_of_mem_replicate hc]
    decide)]
  simp

theorem column_after_line_feed (col : Nat) : column_after col ['\n'] = 0 := rfl

theorem digitChar_ne_line_feed (n : Nat) : Nat.digitChar (n % 10) ≠ '\n' := by
  have h : n % 10 < 10 := Nat.mod_lt _ (by decide)
  generalize n % 10 = d at h
  interval_cases d <;> decide

theorem toDigitsCore_one_line (fuel : Nat) :
    ∀ (n : Nat) (ds : List Char), (∀ c ∈ ds, c ≠ '\n') →
      ∀ c ∈ Nat.toDigitsCore 10 fuel n ds, c ≠ '\n' := by
  induction fuel with
  | zero => intro n ds hds c hc; exact hds c hc
  | succ fuel ih =>
    intro n ds hds c hc
    simp only [Nat.toDigitsCore] at hc
    have hds' : ∀ c ∈ Nat.digitChar (n % 10) :: ds, c ≠ '\n' := by
      intro d hd
      rcases List.mem_cons.1 hd with rfl | hd
      · exact digitChar_ne_line_feed n
      · exact hds d hd
    split at hc
    · exact hds' c hc
    · exact ih _ _ hds' c hc

theorem repr_one_line (n : Nat) : ∀ c ∈ (Nat.repr n).toList, c ≠ '\n' := by
  intro c hc
  exact toDigitsCore_one_line _ _ [] (by simp) c hc

theorem std_to_string_one_line (i : Int) : ∀ c ∈ (std_to_string i).toList, c ≠ '\n' := by
  intro c hc
  unfold std_to_string at hc
  split at hc
  · simp only [String.toList, String.data_append, List.mem_append] at hc
    rcases hc with hc | hc
    · simp at hc
      rw [hc]
      decide
    · exact repr_one_line _ c hc
  · exact repr_one_line _ c hc

theorem print_leaf_one_line (e : Expr) (hl : e.is_leaf = true)
    (he : e.names_on_one_line = true) : ∀ c ∈ e.print.toList, c ≠ '\n' := by
  cases e with
  | Num i => exact std_to_string_one_line i
  | Bool b =>
    cases b
    · intro c hc
      have : c ∈ ['_', 'f', 'a', 'l', 's', 'e'] := hc
      revert c
      decide
    · intro c hc
      have : c ∈ ['_', 't', 'r', 'u', 'e'] := hc
      revert c
      decide
  | Var s =>
    intro c hc h
    subst h
    simp only [Expr.names_on_one_line, Bool.not_eq_true', List.contains_eq_any_beq,
      List.any_eq_false, beq_iff_eq] at he
    exact he _ hc rfl
  | _ => cases hl

/-! ## The layout of `pretty_print_at` -/

theorem ite_append_paren (p : Bool) (s : List Char) (ch : Char) :
    (if p = true then s ++ [ch] else s) = s ++ (if p = true then [ch] else []) := by
  cases p <;> simp

theorem paren_one_line (p : Bool) (ch : Char) (hch : ch ≠ '\n') :
    ∀ c ∈ (if p = true then [ch] else []), c ≠ '\n' := by
  cases p
  · simp
  · simpa using hch

theorem paren_column (p : Bool) (col : Nat) (ch : Char) (hch : ch ≠ '\n') :
    column_after col (if p = true then [ch] else []) = if p = true then col + 1 else col := by
  cases p
  · rfl
  · simp [column_after, hch]

theorem line_start_append (s t : List Char) (pos : Nat) (h : pos + column s = s.length)
    (ht : ∀ c ∈ t, c ≠ '\n') :
    pos + column (s ++ t) = (s ++ t).length ∧ column (s ++ t) = column s + t.length := by
  rw [column_append, column_after_one_line t ht, List.length_append]
  omega

theorem line_start_line_feed (s : List Char) :
    (s ++ ['\n']).length + column (s ++ ['\n']) = (s ++ ['\n']).length ∧
    column (s ++ ['\n']) = 0 := by
  rw [column_append]
  simp [column_after]

theorem name_one_line {x : String} (h : (!x.toList.contains '\n') = true) :
    ∀ c ∈ x.toList, c ≠ '\n' := by
  intro c hc hn
  subst hn
  simp only [Bool.not_eq_true', List.contains_eq_any_beq, List.any_eq_false, beq_iff_eq] at h
  exact h _ hc rfl

theorem pretty_print_at_aligned (e : Expr) :
    e.names_on_one_line = true →
    ∀ (stream : ostream) (prec : prec_t) (pos : Nat) (hp : bool),
      pos + column stream = stream.length →
      (e.pretty_print_at stream prec pos hp).1 = stream ++ e.aligned (column stream) prec hp ∧
      (e.pretty_print_at stream prec pos hp).2 +
          column (e.pretty_print_at stream prec pos hp).1 =
        (e.pretty_print_at stream prec pos hp).1.length := by
  induction e with
  | Let x r b ihr ihb =>
    intro he stream prec pos hp hinv
    simp only [Expr.names_on_one_line, Bool.and_eq_true] at he
    obtain ⟨⟨hx, her⟩, heb⟩ := he
    have hx := name_one_line hx
    simp only [Expr.pretty_print_at, Expr.aligned, ite_append_paren]
    generalize (decide (prec > NONE) && !hp) = paren
    -- the stream behind the optional parenthesis
    have h1 := line_start_append stream (if paren = true then ['('] else []) pos hinv
      (paren_one_line paren '(' (by decide))
    have hk : (stream ++ (if paren = true then ['('] else [])).length - pos =
        if paren = true then column stream + 1 else column stream := by
      rw [← paren_column paren (column stream) '(' (by decide), ← column_append]
      omega
    rw [hk]
    have h2 := line_start_append _ ['_', 'l', 'e', 't', ' '] pos h1.1 (by decide)
    have h3 := line_start_append _ x.toList pos h2.1 hx
    have h4 := line_start_append _ [' ', '=', ' '] pos h3.1 (by decide)
    have hcol : column_after (column stream) ((if paren = true then ['('] else []) ++
        ['_', 'l', 'e', 't', ' '] ++ x.toList ++ [' ', '=', ' ']) =
        column (stream ++ (if paren = true then ['('] else []) ++ ['_', 'l', 'e', 't', ' '] ++
          x.toList ++ [' ', '=', ' ']) := by
      rw [← column_append]
      simp only [List.append_assoc]
    rw [hcol]
    obtain ⟨hr1, hr2⟩ := ihr her _ NONE pos hp h4.1
    generalize r.pretty_print_at _ NONE pos hp = R at hr1 hr2 ⊢
    have h5 := line_start_line_feed R.1
    have h6 := line_start_append _ (List.replicate
      (if paren = true then column stream + 1 else column stream) ' ') _ h5.1 (by
        intro c hc
        rw [List.eq_of_mem_replicate hc]
        decide)
    have h7 := line_start_append _ ['_', 'i', 'n', ' ', ' '] _ h6.1 (by decide)
    obtain ⟨hb1, hb2⟩ := ihb heb _ NONE _ hp h7.1
    generalize b.pretty_print_at _ NONE _ hp = Bv at hb1 hb2 ⊢
    have h8 := line_start_append Bv.1 (if paren = true then [')'] else []) Bv.2 hb2
      (paren_one_line paren ')' (by decide))
    refine ⟨?_, h8.1⟩
    rw [hb1, h7.2, h6.2, h5.2, hr1]
    simp only [List.length_replicate, List.length_cons, List.length_nil, Nat.zero_add,
      List.append_assoc]
  | Num i =>
    intro he stream prec pos hp hinv
    exact ⟨rfl, (line_start_append stream _ pos hinv
      (print_leaf_one_line (.Num i) rfl he)).1⟩
  | Bool v =>
    intro he stream prec pos hp hinv
    exact ⟨rfl, (line_start_append stream _ pos hinv
      (print_leaf_one_line (.Bool v) rfl he)).1⟩
  | Var v =>
    intro he stream prec pos hp hinv
    exact ⟨rfl, (line_start_append stream _ pos hinv
      (print_leaf_one_line (.Var v) rfl he)).1⟩
  | Eq l r ihl ihr =>
    intro he stream prec pos hp hinv
    simp only [Expr.names_on_one_line, Bool.and_eq_true] at he
    obtain ⟨hel, her⟩ := he
    simp only [Expr.pretty_print_at, Expr.aligned, ite_append_paren]
    generalize (decide (prec > NONE) && !hp) = paren
    have h1 := line_start_append stream (if paren = true then ['('] else []) pos hinv
      (paren_one_line paren '(' (by decide))
    have hk : (if paren = true then column stream + 1 else column stream) =
        column (stream ++ (if paren = true then ['('] else [])) := by
      rw [column_append, paren_column paren (column stream) '(' (by decide)]
    rw [hk]
    obtain ⟨hl1, hl2⟩ := ihl hel _ (NONE + 1) pos hp h1.1
    have hcol : column_after (column stream) ((if paren = true then ['('] else []) ++
        l.aligned (column (stream ++ (if paren = true then ['('] else []))) (NONE + 1) hp ++
        [' ', '=', '=', ' ']) =
        column ((l.pretty_print_at (stream ++ (if paren = true then ['('] else []))
          (NONE + 1) pos hp).1 ++ [' ', '=', '=', ' ']) := by
      rw [hl1, ← column_append]
      simp only [List.append_assoc]
    rw [hcol]
    generalize l.pretty_print_at _ (NONE + 1) pos hp = L at hl1 hl2 ⊢
    have h2 := line_start_append L.1 [' ', '=', '=', ' '] L.2 hl2 (by decide)
    obtain ⟨hr1, hr2⟩ := ihr her _ NONE L.2 hp h2.1
    generalize r.pretty_print_at _ NONE L.2 hp = R at hr1 hr2 ⊢
    have h3 := line_start_append R.1 (if paren = true then [')'] else []) R.2 hr2
      (paren_one_line paren ')' (by decide))
    refine ⟨?_, h3.1⟩
    rw [hr1, hl1]
    simp only [List.append_assoc]
  | Add l r ihl ihr =>
    intro he stream prec pos hp hinv
    simp only [Expr.names_on_one_line, Bool.and_eq_true] at he
    obtain ⟨hel, her⟩ := he
    simp only [Expr.pretty_print_at, Expr.aligned, ite_append_paren]
    generalize (decide (prec > ADD)) = paren
    have h1 := line_start_append stream (if paren = true then ['('] else []) pos hinv
      (paren_one_line paren '(' (by decide))
    have hk : (if paren = true then column stream + 1 else column stream) =
        column (stream ++ (if paren = true then ['('] else [])) := by
      rw [column_append, paren_column paren (column stream) '(' (by decide)]
    rw [hk]
    obtain ⟨hl1, hl2⟩ := ihl hel _ (ADD + 1) pos hp h1.1
    have hcol : column_after (column stream) ((if paren = true then ['('] else []) ++
        l.aligned (column (stream ++ (if paren = true then ['('] else []))) (ADD + 1) hp ++
        [' ', '+', ' ']) =
        column ((l.pretty_print_at (stream ++ (if paren = true then ['('] else []))
          (ADD + 1) pos hp).1 ++ [' ', '+', ' ']) := by
      rw [hl1, ← column_append]
      simp only [List.append_assoc]
    rw [hcol]
    generalize l.pretty_print_at _ (ADD + 1) pos hp = L at hl1 hl2 ⊢
    have h2 := line_start_append L.1 [' ', '+', ' '] L.2 hl2 (by decide)
    obtain ⟨hr1, hr2⟩ := ihr her _ NONE L.2 hp h2.1
    generalize r.pretty_print_at _ NONE L.2 hp = R at hr1 hr2 ⊢
    have h3 := line_start_append R.1 (if paren = true then [')'] else []) R.2 hr2
      (paren_one_line paren ')' (by decide))
    refine ⟨?_, h3.1⟩
    rw [hr1, hl1]
    simp only [List.append_assoc]
  | Mult l r ihl ihr =>
    intro he stream prec pos hp hinv
    simp only [Expr.names_on_one_line, Bool.and_eq_true] at he
    obtain ⟨hel, her⟩ := he
    simp only [Expr.pretty_print_at, Expr.aligned, ite_append_paren]
    generalize (decide (prec > MULT)) = paren
    generalize (if paren = true then true else hp) = inside
    have h1 := line_start_append stream (if paren = true then ['('] else []) pos hinv
      (paren_one_line paren '(' (by decide))
    have hk : (if paren = true then column stream + 1 else column stream) =
        column (stream ++ (if paren = true then ['('] else [])) := by
      rw [column_append, paren_column paren (column stream) '(' (by decide)]
    rw [hk]
    obtain ⟨hl1, hl2⟩ := ihl hel _ (MULT + 1) pos inside h1.1
    have hcol : column_after (column stream) ((if paren = true then ['('] else []) ++
        l.aligned (column (stream ++ (if paren = true then ['('] else []))) (MULT + 1) inside ++
        [' ', '*', ' ']) =
        column ((l.pretty_print_at (stream ++ (if paren = true then ['('] else []))
          (MULT + 1) pos inside).1 ++ [' ', '*', ' ']) := by
      rw [hl1, ← column_append]
      simp only [List.append_assoc]
    rw [hcol]
    generalize l.pretty_print_at _ (MULT + 1) pos inside = L at hl1 hl2 ⊢
    have h2 := line_start_append L.1 [' ', '*', ' '] L.2 hl2 (by decide)
    obtain ⟨hr1, hr2⟩ := ihr her _ MULT L.2 inside h2.1
    generalize r.pretty_print_at _ MULT L.2 inside = R at hr1 hr2 ⊢
    have h3 := line_start_append R.1 (if paren = true then [')'] else []) R.2 hr2
      (paren_one_line paren ')' (by decide))
    refine ⟨?_, h3.1⟩
    rw [hr1, hl1]
    simp only [List.append_assoc]
  | Call f a ihf iha =>
    intro he stream prec pos hp hinv
    simp only [Expr.names_on_one_line, Bool.and_eq_true] at he
    obtain ⟨hef, hea⟩ := he
    simp only [Expr.pretty_print_at, Expr.aligned]
    obtain ⟨hf1, hf2⟩ := ihf hef stream NONE pos hp hinv
    have hcol : column_after (column stream) (f.aligned (column stream) NONE hp ++ ['(']) =
        column ((f.pretty_print_at stream NONE pos hp).1 ++ ['(']) := by
      rw [hf1, ← column_append]
      simp only [List.append_assoc]
    rw [hcol]
    generalize f.pretty_print_at stream NONE pos hp = F at hf1 hf2 ⊢
    have h2 := line_start_append F.1 ['('] F.2 hf2 (by decide)
    obtain ⟨ha1, ha2⟩ := iha hea _ NONE F.2 hp h2.1
    generalize a.pretty_print_at _ NONE F.2 hp = A at ha1 ha2 ⊢
    have h3 := line_start_append A.1 [')'] A.2 ha2 (by decide)
    refine ⟨?_, h3.1⟩
    rw [ha1, hf1]
    simp only [List.append_assoc]
  | If c t e ihc iht ihe =>
    intro he stream prec pos hp hinv
    simp only [Expr.names_on_one_line, Bool.and_eq_true] at he
    obtain ⟨⟨hec, het⟩, hee⟩ := he
    simp only [Expr.pretty_print_at, Expr.aligned, ite_append_paren]
    generalize (decide (prec > NONE) && !hp) = paren
    have h1 := line_start_append stream (if paren = true then ['('] else []) pos hinv
      (paren_one_line paren '(' (by decide))
    have hk : (stream ++ (if paren = true then ['('] else [])).length - pos =
        if paren = true then column stream + 1 else column stream := by
      rw [← paren_column paren (column stream) '(' (by decide), ← column_append]
      omega
    have hk2 : column (stream ++ (if paren = true then ['('] else [])) =
        if paren = true then column stream + 1 else column stream := by
      rw [column_append, paren_column paren (column stream) '(' (by decide)]
    rw [hk]
    have h2 := line_start_append _ ['_', 'i', 'f', ' ', ' ', ' '] pos h1.1 (by decide)
    obtain ⟨hc1, hc2⟩ := ihc hec _ NONE pos hp h2.1
    rw [h2.2, hk2] at hc1
    generalize c.pretty_print_at _ NONE pos hp = C at hc1 hc2 ⊢
    have h3 := line_start_line_feed C.1
    have h4 := line_start_append _ (List.replicate
      (if paren = true then column stream + 1 else column stream) ' ') _ h3.1 (by
        intro d hd
        rw [List.eq_of_mem_replicate hd]
        decide)
    have h5 := line_start_append _ ['_', 't', 'h', 'e', 'n', ' '] _ h4.1 (by decide)
    obtain ⟨ht1, ht2⟩ := iht het _ NONE _ hp h5.1
    rw [h5.2, h4.2, h3.2] at ht1
    generalize t.pretty_print_at _ NONE _ hp = T at ht1 ht2 ⊢
    have h6 := line_start_line_feed T.1
    have h7 := line_start_append _ (List.replicate
      (if paren = true then column stream + 1 else column stream) ' ') _ h6.1 (by
        intro d hd
        rw [List.eq_of_mem_replicate hd]
        decide)
    have h8 := line_start_append _ ['_', 'e', 'l', 's', 'e', ' '] _ h7.1 (by decide)
    obtain ⟨he1, he2⟩ := ihe hee _ NONE _ hp h8.1
    rw [h8.2, h7.2, h6.2] at he1
    generalize e.pretty_print_at _ NONE _ hp = E at he1 he2 ⊢
    have h9 := line_start_append E.1 (if paren = true then [')'] else []) E.2 he2
      (paren_one_line paren ')' (by decide))
    refine ⟨?_, h9.1⟩
    rw [he1, ht1, hc1]
    simp only [List.length_replicate, List.length_cons, List.length_nil, Nat.zero_add,
      List.append_assoc]
  | Fun x b ihb =>
    intro he stream prec pos hp hinv
    simp only [Expr.names_on_one_line, Bool.and_eq_true] at he
    obtain ⟨hx, heb⟩ := he
    have hx := name_one_line hx
    simp only [Expr.pretty_print_at, Expr.aligned, ite_append_paren]
    generalize (decide (prec > NONE) && !hp) = paren
    have h1 := line_start_append stream (if paren = true then ['('] else []) pos hinv
      (paren_one_line paren '(' (by decide))
    have hk : (stream ++ (if paren = true then ['('] else [])).length - pos =
        if paren = true then column stream + 1 else column stream := by
      rw [← paren_column paren (column stream) '(' (by decide), ← column_append]
      omega
    rw [hk]
    have h3 := line_start_line_feed (stream ++ (if paren = true then ['('] else []) ++
      ['_', 'f', 'u', 'n', ' ', '('] ++ x.toList ++ [')'])
    have h4 := line_start_append _ (List.replicate
      (if paren = true then column stream + 1 else column stream) ' ') _ h3.1 (by
        intro d hd
        rw [List.eq_of_mem_replicate hd]
        decide)
    have h5 := line_start_append _ [' ', ' '] _ h4.1 (by decide)
    obtain ⟨hb1, hb2⟩ := ihb heb _ NONE _ hp h5.1
    rw [h5.2, h4.2, h3.2] at hb1
    generalize b.pretty_print_at _ NONE _ hp = Bv at hb1 hb2 ⊢
    have h6 := line_start_append Bv.1 (if paren = true then [')'] else []) Bv.2 hb2
      (paren_one_line paren ')' (by decide))
    refine ⟨?_, h6.1⟩
    have hrep : ∀ k : Nat, List.replicate (k + 2) ' ' = List.replicate k ' ' ++ [' ', ' '] :=
      fun k => by rw [List.replicate_add]; rfl
    rw [hb1, hrep]
    simp only [List.length_replicate, List.length_cons, List.length_nil, Nat.zero_add,
      List.append_assoc]

/-- In a run of `pretty_print_at` that starts with `caller_pos` at most `tellp()`, this stays
so: the difference `start_pos - caller_pos` is never negative. -/
theorem pretty_print_at_pos_le (e : Expr) :
    ∀ (stream : ostream) (prec : prec_t) (pos : Nat) (hp : bool), pos ≤ stream.length →
      stream.length ≤ (e.pretty_print_at stream prec pos hp).1.length ∧
      (e.pretty_print_at stream prec pos hp).2 ≤
        (e.pretty_print_at stream prec pos hp).1.length := by
  induction e with
  | Num i =>
    intro stream prec pos hp h
    simp only [Expr.pretty_print_at, List.length_append]
    omega
  | Bool v =>
    intro stream prec pos hp h
    simp only [Expr.pretty_print_at, List.length_append]
    omega
  | Var v =>
    intro stream prec pos hp h
    simp only [Expr.pretty_print_at, List.length_append]
    omega
  | Eq l r ihl ihr =>
    intro stream prec pos hp h
    simp only [Expr.pretty_print_at, ite_append_paren]
    generalize (if (decide (prec > NONE) && !hp) = true then ['('] else []) = o
    generalize (if (decide (prec > NONE) && !hp) = true then [')'] else []) = c
    have h1 := ihl (stream ++ o) (NONE + 1) pos hp (by rw [List.length_append]; omega)
    generalize l.pretty_print_at (stream ++ o) (NONE + 1) pos hp = L at h1 ⊢
    have h2 := ihr (L.1 ++ [' ', '=', '=', ' ']) NONE L.2 hp (by
      rw [List.length_append]; omega)
    generalize r.pretty_print_at (L.1 ++ [' ', '=', '=', ' ']) NONE L.2 hp = R at h2 ⊢
    simp only [List.length_append] at h1 h2 ⊢
    omega
  | Add l r ihl ihr =>
    intro stream prec pos hp h
    simp only [Expr.pretty_print_at, ite_append_paren]
    generalize (if decide (prec > ADD) = true then ['('] else []) = o
    generalize (if decide (prec > ADD) = true then [')'] else []) = c
    have h1 := ihl (stream ++ o) (ADD + 1) pos hp (by rw [List.length_append]; omega)
    generalize l.pretty_print_at (stream ++ o) (ADD + 1) pos hp = L at h1 ⊢
    have h2 := ihr (L.1 ++ [' ', '+', ' ']) NONE L.2 hp (by rw [List.length_append]; omega)
    generalize r.pretty_print_at (L.1 ++ [' ', '+', ' ']) NONE L.2 hp = R at h2 ⊢
    simp only [List.length_append] at h1 h2 ⊢
    omega
  | Mult l r ihl ihr =>
    intro stream prec pos hp h
    simp only [Expr.pretty_print_at, ite_append_paren]
    generalize (if decide (prec > MULT) = true then ['('] else []) = o
    generalize (if decide (prec > MULT) = true then [')'] else []) = c
    generalize (if decide (prec > MULT) = true then true else hp) = inside
    have h1 := ihl (stream ++ o) (MULT + 1) pos inside (by rw [List.length_append]; omega)
    generalize l.pretty_print_at (stream ++ o) (MULT + 1) pos inside = L at h1 ⊢
    have h2 := ihr (L.1 ++ [' ', '*', ' ']) MULT L.2 inside (by rw [List.length_append]; omega)
    generalize r.pretty_print_at (L.1 ++ [' ', '*', ' ']) MULT L.2 inside = R at h2 ⊢
    simp only [List.length_append] at h1 h2 ⊢
    omega
  | Call f a ihf iha =>
    intro stream prec pos hp h
    simp only [Expr.pretty_print_at]
    have h1 := ihf stream NONE pos hp h
    generalize f.pretty_print_at stream NONE pos hp = F at h1 ⊢
    have h2 := iha (F.1 ++ ['(']) NONE F.2 hp (by rw [List.length_append]; omega)
    generalize a.pretty_print_at (F.1 ++ ['(']) NONE F.2 hp = A at h2 ⊢
    simp only [List.length_append] at h1 h2 ⊢
    omega
  | Let x r b ihr ihb =>
    intro stream prec pos hp h
    simp only [Expr.pretty_print_at, ite_append_paren]
    generalize (if (decide (prec > NONE) && !hp) = true then ['('] else []) = o
    generalize (if (decide (prec > NONE) && !hp) = true then [')'] else []) = c
    have h1 := ihr (stream ++ o ++ ['_', 'l', 'e', 't', ' '] ++ x.toList ++ [' ', '=', ' ']) NONE
      pos hp (by simp only [List.length_append]; omega)
    generalize r.pretty_print_at _ NONE pos hp = R at h1 ⊢
    have h2 := ihb (R.1 ++ ['\n'] ++ List.replicate ((stream ++ o).length - pos) ' ' ++
      ['_', 'i', 'n', ' ', ' ']) NONE (R.1 ++ ['\n']).length hp (by
        simp only [List.length_append]; omega)
    generalize b.pretty_print_at _ NONE _ hp = Bv at h2 ⊢
    simp only [List.length_append] at h1 h2 ⊢
    omega
  | If c t e ihc iht ihe =>
    intro stream prec pos hp h
    simp only [Expr.pretty_print_at, ite_append_paren]
    generalize (if (decide (prec > NONE) && !hp) = true then ['('] else []) = o
    generalize (if (decide (prec > NONE) && !hp) = true then [')'] else []) = cl
    have h1 := ihc (stream ++ o ++ ['_', 'i', 'f', ' ', ' ', ' ']) NONE pos hp (by
      simp only [List.length_append]; omega)
    generalize c.pretty_print_at _ NONE pos hp = C at h1 ⊢
    have h2 := iht (C.1 ++ ['\n'] ++ List.replicate ((stream ++ o).length - pos) ' ' ++
      ['_', 't', 'h', 'e', 'n', ' ']) NONE (C.1 ++ ['\n']).length hp (by
        simp only [List.length_append]; omega)
    generalize t.pretty_print_at _ NONE _ hp = T at h2 ⊢
    have h3 := ihe (T.1 ++ ['\n'] ++ List.replicate ((stream ++ o).length - pos) ' ' ++
      ['_', 'e', 'l', 's', 'e', ' ']) NONE (T.1 ++ ['\n']).length hp (by
        simp only [List.length_append]; omega)
    generalize e.pretty_print_at _ NONE _ hp = E at h3 ⊢
    simp only [List.length_append] at h1 h2 h3 ⊢
    omega
  | Fun x b ihb =>
    intro stream prec pos hp h
    simp only [Expr.pretty_print_at, ite_append_paren]
    generalize (if (decide (prec > NONE) && !hp) = true then ['('] else []) = o
    generalize (if (decide (prec > NONE) && !hp) = true then [')'] else []) = c
    have h2 := ihb (stream ++ o ++ ['_', 'f', 'u', 'n', ' ', '('] ++ x.toList ++ [')'] ++ ['\n'] ++
      List.replicate ((stream ++ o).length - pos) ' ' ++ [' ', ' ']) NONE
      (stream ++ o ++ ['_', 'f', 'u', 'n', ' ', '('] ++ x.toList ++ [')'] ++ ['\n']).length hp (by
        simp only [List.length_append]; omega)
    generalize b.pretty_print_at _ NONE _ hp = Bv at h2 ⊢
    simp only [List.length_append] at h2 ⊢
    omega

/-! ## Keyword padding and column alignment -/

theorem pretty_print_at_leaf (e : Expr) (h : e.is_leaf = true) (stream : ostream)
    (prec : prec_t) (pos : Nat) (hp : bool) :
    e.pretty_print_at stream prec pos hp = (stream ++ e.print.toList, pos) := by
  cases e with
  | Num i => rfl
  | Bool v => rfl
  | Var v => rfl
  | _ => cases h

/-- C28: for operands `r`, `b`, `c`, `t`, `e` of the classes `Num`, `Bool`, `Var` and every
name `x`, `Let(x, r, b).to_pretty_string()` is `"_let x = " + r + "\n_in  " + b` and
`If(c, t, e).to_pretty_string()` is `"_if   " + c + "\n_then " + t + "\n_else " + e`, each
operand written as `to_string()` writes it; the keywords with their padding are equally long
within each form; `Let("x", Num 42, Var "x")` gives `"_let x = 42\n_in  x"`. -/
theorem C28_keyword_padding (x : String) (r b c t e : Expr)
    (hr : r.is_leaf = true) (hb : b.is_leaf = true) (hc : c.is_leaf = true)
    (ht : t.is_leaf = true) (he : e.is_leaf = true) :
    (Expr.Let x r b).to_pretty_string =
      "_let " ++ x ++ " = " ++ r.to_string ++ "\n_in  " ++ b.to_string ∧
    (Expr.If c t e).to_pretty_string =
      "_if   " ++ c.to_string ++ "\n_then " ++ t.to_string ++ "\n_else " ++ e.to_string ∧
    ("_let ".length = 5 ∧ "_in  ".length = 5) ∧
    ("_if   ".length = 6 ∧ "_then ".length = 6 ∧ "_else ".length = 6) ∧
    (Expr.Let "x" (.Num 42) (.Var "x")).to_pretty_string = "_let x = 42\n_in  x" := by
  refine ⟨?_, ?_, ⟨by decide, by decide⟩, ⟨by decide, by decide, by decide⟩, by decide⟩
  · apply String.ext
    simp [Expr.to_pretty_string, Expr.pretty_print, Expr.is_leaf, Expr.driver_prec,
      Expr.pretty_print_at, pretty_print_at_leaf _ hr, pretty_print_at_leaf _ hb,
      Expr.to_string, NONE, String.toList]
  · apply String.ext
    simp [Expr.to_pretty_string, Expr.pretty_print, Expr.is_leaf, Expr.driver_prec,
      Expr.pretty_print_at, pretty_print_at_leaf _ hc, pretty_print_at_leaf _ ht,
      pretty_print_at_leaf _ he, Expr.to_string, NONE, String.toList]

/-- C28 at `x = "f"`, `r = Num(-7)`, `b = Var("f")`, `c = Bool(true)`, `t = Num 1`,
`e = Var("y")`. -/
theorem C28_keyword_padding_witness :
    (Expr.Let "f" (.Num (-7)) (.Var "f")).to_pretty_string = "_let f = -7\n_in  f" ∧
    (Expr.If (.Bool true) (.Num 1) (.Var "y")).to_pretty_string =
      "_if   _true\n_then 1\n_else y" :=
  have h := C28_keyword_padding "f" (.Num (-7)) (.Var "f") (.Bool true) (.Num 1) (.Var "y")
    rfl rfl rfl rfl rfl
  ⟨h.1, h.2.1⟩

/-- C29 is false as stated: in `Let("a\nb", Let("y", Num 1, Num 2), Num 3)` the name of the
outer binder holds a line feed, the inner `_let` is written at column 4 of its line
(behind `b = `), and its `_in` is indented with 11 spaces. -/
theorem C29_counterexample :
    (Expr.Let "a\nb" (.Let "y" (.Num 1) (.Num 2)) (.Num 3)).to_pretty_string =
      "_let a\nb = _let y = 1\n           _in  2\n_in  3" ∧
    column "_let a\nb = ".toList = 4 ∧
    String.mk ((Expr.Let "a\nb" (.Let "y" (.Num 1) (.Num 2)) (.Num 3)).aligned 0 NONE false) =
      "_let a\nb = _let y = 1\n    _in  2\n_in  3" := by
  refine ⟨by decide, by decide, by decide⟩

/-- C29 (amended): for every expression `e` in which no name holds a line feed,
`e.to_pretty_string()` is the layout `aligned`: each `_in` line is indented with as many
spaces as the column at which its `_let` was written, each `_then` and `_else` line likewise
under its `_if`, and each `Fun` body two columns right of its `_fun`. For all names `x`, `y`
and integers `a`, `b`, `c`, `Let(x, Let(y, Num a, Num b), Num c)` gives
`"_let x = _let y = a\n"`, then `8 + length of x` spaces, then `"_in  b\n_in  c"`. -/
theorem C29_column_alignment (e : Expr) (he : e.names_on_one_line = true) :
    e.to_pretty_string = String.mk (e.aligned 0 e.driver_prec false) ∧
    (∀ (x y : String) (a b c : Int),
      (Expr.Let x (.Let y (.Num a) (.Num b)) (.Num c)).to_pretty_string =
        "_let " ++ x ++ " = _let " ++ y ++ " = " ++ std_to_string a ++ "\n" ++
          String.mk (List.replicate (8 + x.length) ' ') ++ "_in  " ++ std_to_string b ++
          "\n_in  " ++ std_to_string c) := by
  constructor
  · unfold Expr.to_pretty_string Expr.pretty_print
    split
    · rename_i hl
      congr 1
      cases e with
      | Num i => rfl
      | Bool v => rfl
      | Var v => rfl
      | _ => cases hl
    · have := (pretty_print_at_aligned e he [] e.driver_prec 0 false rfl).1
      rw [this]
      rfl
  · intro x y a b c
    have hfalse : (decide (NONE > NONE) && !false) = false := rfl
    have hlen : (['_', 'l', 'e', 't', ' '] ++ (x.data ++ [' ', '=', ' '])).length =
        8 + x.length := by
      simp only [List.length_append, List.length_cons, List.length_nil]
      show _ = 8 + x.data.length
      omega
    apply String.ext
    simp only [Expr.to_pretty_string, Expr.pretty_print, Expr.is_leaf, Expr.driver_prec,
      Expr.pretty_print_at, hfalse, Bool.false_eq_true, if_false, Expr.print,
      String.data_append, String.toList, List.append_assoc, List.nil_append, List.length_nil,
      Nat.sub_zero, List.replicate_zero]
    rw [hlen]
    simp only [List.cons_append, List.nil_append, List.append_assoc]

/-- C29 at `Eq(Let("x", Num 42, Var "x"), Let("y", Num 84, Var "y"))`, a case of the unit
tests. -/
theorem C29_column_alignment_witness :
    (Expr.Eq (.Let "x" (.Num 42) (.Var "x")) (.Let "y" (.Num 84) (.Var "y"))).to_pretty_string =
      String.mk ((Expr.Eq (.Let "x" (.Num 42) (.Var "x"))
        (.Let "y" (.Num 84) (.Var "y"))).aligned 0 NONE false) ∧
    String.mk ((Expr.Eq (.Let "x" (.Num 42) (.Var "x"))
        (.Let "y" (.Num 84) (.Var "y"))).aligned 0 NONE false) =
      "(_let x = 42\n _in  x) == _let y = 84\n            _in  y" :=
  ⟨(C29_column_alignment (.Eq (.Let "x" (.Num 42) (.Var "x")) (.Let "y" (.Num 84) (.Var "y")))
    (by decide)).1, by decide⟩

/-! ## Environments that are ignored, closure equality -/

/-- C31: `If::interp` and `Call::interp` ignore the environment they are given: in every
environment an `If` and a `Call` have the outcome they have with `interp()` (the default null
argument) and in the empty environment. Hence a variable bound by an enclosing `_let` is
unbound inside an `If` and in the callee of a `Call`: both examples fail with the
unbound-variable error. -/
theorem C31_if_call_ignore_environment :
    (∀ (env : Env) (c t e : Expr),
      (Expr.If c t e).interp env = (Expr.If c t e).interp .nullptr ∧
      (Expr.If c t e).interp env = (Expr.If c t e).interp Env.empty) ∧
    (∀ (env : Env) (f a : Expr),
      (Expr.Call f a).interp env = (Expr.Call f a).interp .nullptr ∧
      (Expr.Call f a).interp env = (Expr.Call f a).interp Env.empty) ∧
    (Expr.Let "x" (.Num 1) (.If (.Bool true) (.Var "x") (.Num 0))).interp .nullptr =
      .runtime_error "Var cannot call interp()" ∧
    (Expr.Let "f" (.Fun "x" (.Add (.Var "x") (.Num 1)))
        (.Call (.Var "f") (.Num 2))).interp .nullptr =
      .runtime_error "Var cannot call interp()" := by
  refine ⟨fun env c t e => ⟨?_, ?_⟩, fun env f a => ⟨?_, ?_⟩, rfl, rfl⟩
  · rw [interp_If, interp_If]
  · rw [interp_If, interp_If]
  · rw [interp_Call, interp_Call]
  · rw [interp_Call, interp_Call]

/-- C37: `FunVal::equals` ignores the captured environment: two closures are equal exactly
when their parameters are the same and their bodies are equal. The closures of
`_let y = 1 _in _fun (x) y` and `_let y = 2 _in _fun (x) y` return 1 and 2 when called, yet
they compare equal, and `Eq` of the two expressions interprets to `BoolVal(true)`. -/
theorem C37_closure_equality_ignores_environment :
    (∀ (p q : String) (b c : Expr) (e1 e2 : Env),
      (Val.FunVal p b e1).equals (some (.FunVal q c e2)) = true ↔
        (p = q ∧ b.equals (some c) = true)) ∧
    (Expr.Let "y" (.Num 1) (.Fun "x" (.Var "y"))).interp .nullptr =
      .ok (.FunVal "x" (.Var "y") (.ExtendedEnv "y" (.NumVal 1) .EmptyEnv)) ∧
    (Expr.Let "y" (.Num 2) (.Fun "x" (.Var "y"))).interp .nullptr =
      .ok (.FunVal "x" (.Var "y") (.ExtendedEnv "y" (.NumVal 2) .EmptyEnv)) ∧
    (Val.FunVal "x" (.Var "y") (.ExtendedEnv "y" (.NumVal 1) .EmptyEnv)).call (.NumVal 0) =
      .ok (.NumVal 1) ∧
    (Val.FunVal "x" (.Var "y") (.ExtendedEnv "y" (.NumVal 2) .EmptyEnv)).call (.NumVal 0) =
      .ok (.NumVal 2) ∧
    (Val.FunVal "x" (.Var "y") (.ExtendedEnv "y" (.NumVal 1) .EmptyEnv)).equals
      (some (.FunVal "x" (.Var "y") (.ExtendedEnv "y" (.NumVal 2) .EmptyEnv))) = true ∧
    (Expr.Eq (.Let "y" (.Num 1) (.Fun "x" (.Var "y")))
        (.Let "y" (.Num 2) (.Fun "x" (.Var "y")))).interp .nullptr =
      .ok (.BoolVal true) := by
  refine ⟨fun p q b c e1 e2 => ?_, rfl, rfl, rfl, rfl, rfl, rfl⟩
  simp only [Val.equals, Bool.and_eq_true, decide_eq_true_eq]

/-! ## Pretty-printed text that reads back as another tree -/

/-- C34, evaluated at the claim's two examples. `Add::pretty_print_at` prints its right operand
with precedence `NONE`, so the `Eq` on the right of an `Add` gets no parentheses:
`Add(Num 1, Eq(Num 2, Num 3))` is written `1 + 2 == 3`, which reads back as
`Eq(Add(Num 1, Num 2), Num 3)`. A parenthesised `Mult` sets `has_paren`, and the `Let` that is
its left operand then leaves out its own parentheses:
`Mult(Mult(Let(x, 1, x), Num 2), Num 3)` is written with the `Let` open to the right, which
reads back as `Mult(Let(x, 1, Mult(x, 2)), Num 3)`. -/
theorem C34_pretty_print_reads_back_differently :
    (Expr.Add (.Num 1) (.Eq (.Num 2) (.Num 3))).to_pretty_string = "1 + 2 == 3" ∧
    parse_expr (Expr.Add (.Num 1) (.Eq (.Num 2) (.Num 3))).to_pretty_string =
      .ok (.Eq (.Add (.Num 1) (.Num 2)) (.Num 3)) ∧
    (Expr.Mult (.Mult (.Let "x" (.Num 1) (.Var "x")) (.Num 2)) (.Num 3)).to_pretty_string =
      "(_let x = 1\n _in  x * 2) * 3" ∧
    parse_expr
        (Expr.Mult (.Mult (.Let "x" (.Num 1) (.Var "x")) (.Num 2)) (.Num 3)).to_pretty_string =
      .ok (.Mult (.Let "x" (.Num 1) (.Mult (.Var "x") (.Num 2))) (.Num 3)) := by
  refine ⟨by decide, by decide, by decide, by decide⟩

/-! ## `Let` against substitution -/

/-- With the null environment and with the empty one an expression has the same outcome, up
to the environment that a closure it returns has captured. -/
theorem interp_EmptyEnv_nullptr (e : Expr) :
    e.interp .EmptyEnv = e.interp .nullptr ∨
    ∃ p b, e.interp .nullptr = .ok (.FunVal p b .nullptr) ∧
      e.interp .EmptyEnv = .ok (.FunVal p b .EmptyEnv) := by
  induction e with
  | Num i => exact Or.inl rfl
  | Bool b => exact Or.inl rfl
  | Var s => exact Or.inl rfl
  | Add l r _ _ => left; rw [interp_Add, interp_Add]; rfl
  | Mult l r _ _ => left; rw [interp_Mult, interp_Mult]; rfl
  | Let x r b _ _ => left; rw [interp_Let, interp_Let]; rfl
  | If c t e _ _ _ => left; rw [interp_If, interp_If]
  | Call f a _ _ => left; rw [interp_Call, interp_Call]
  | Fun p b _ => exact Or.inr ⟨p, b, rfl, rfl⟩
  | Eq l r ihl ihr =>
    left
    rw [interp_Eq, interp_Eq]
    rcases ihl with hl | ⟨p, b, hl1, hl2⟩ <;> rcases ihr with hr | ⟨q, c, hr1, hr2⟩
    · rw [hl, hr]
    · rw [hl, hr1, hr2]
      cases l.interp .nullptr with
      | ok v => cases v <;> rfl
      | runtime_error w => rfl
      | null_deref => rfl
      | out_of_fuel => rfl
    · rw [hl1, hl2, hr]
      cases r.interp .nullptr with
      | ok v => cases v <;> rfl
      | runtime_error w => rfl
      | null_deref => rfl
      | out_of_fuel => rfl
    · rw [hl1, hl2, hr1, hr2]
      rfl

theorem Res.bind_ok_inv {α β : Type} {x : Res α} {f : α → Res β} {b : β}
    (h : x.bind f = .ok b) : ∃ a, x = .ok a ∧ f a = .ok b := by
  cases x with
  | ok a => exact ⟨a, rfl, h⟩
  | runtime_error w => cases h
  | null_deref => cases h
  | out_of_fuel => cases h

theorem Val.same_code_refl (v : Val) : v.same_code v := by
  cases v
  · exact rfl
  · exact rfl
  · exact ⟨rfl, rfl⟩

theorem Val.same_code_scalar {v w : Val} (h : v.same_code w) (hv : v.is_scalar = true) :
    w = v := by
  cases v <;> cases w <;> simp_all [Val.same_code, Val.is_scalar]

theorem Val.same_code_equals {a a2 b b2 : Val} (ha : a.same_code a2) (hb : b.same_code b2) :
    a.equals (some b) = a2.equals (some b2) := by
  cases a <;> cases a2 <;> cases b <;> cases b2 <;>
    simp_all [Val.same_code, Val.equals]

theorem Val.same_code_add_to {a a2 b b2 : Val} (ha : a.same_code a2) (hb : b.same_code b2) :
    a.add_to (some b) = a2.add_to (some b2) := by
  cases a <;> cases a2 <;> cases b <;> cases b2 <;>
    simp_all [Val.same_code, Val.add_to]

theorem Val.same_code_mult_with {a a2 b b2 : Val} (ha : a.same_code a2)
    (hb : b.same_code b2) : a.mult_with (some b) = a2.mult_with (some b2) := by
  cases a <;> cases a2 <;> cases b <;> cases b2 <;>
    simp_all [Val.same_code, Val.mult_with]

theorem Env.sim_orEmpty {E1 E2 : Env} (h : Env.sim E1 E2) : Env.sim E1.orEmpty E2.orEmpty := by
  cases E1 with
  | nullptr => exact trivial
  | EmptyEnv => exact trivial
  | ExtendedEnv n v r =>
    cases E2 with
    | nullptr => exact h.elim
    | EmptyEnv => exact h.elim
    | ExtendedEnv m w r2 => exact h

theorem Env.lookup_sim (s : String) :
    ∀ (E1 E2 : Env), Env.sim E1 E2 → ∀ v1, E1.lookup s = .ok v1 →
      ∃ v2, E2.lookup s = .ok v2 ∧ v1.same_code v2
  | .nullptr, _, _, _, h => by cases h
  | .EmptyEnv, _, _, _, h => by cases h
  | .ExtendedEnv _ _ _, .nullptr, hs, _, _ => hs.elim
  | .ExtendedEnv _ _ _, .EmptyEnv, hs, _, _ => hs.elim
  | .ExtendedEnv n v r, .ExtendedEnv m w r2, hs, v1, h => by
    obtain ⟨hn, hv, hr⟩ := hs
    subst hn
    simp only [Env.lookup] at h ⊢
    by_cases hsn : s = n
    · rw [if_pos hsn] at h ⊢
      cases h
      exact ⟨w, rfl, hv⟩
    · rw [if_neg hsn] at h ⊢
      exact Env.lookup_sim s r r2 hr v1 h
/-- Evaluation does not look below the bindings it finds: when an expression returns a value
in an environment, it returns a value of the same code in every environment that has the
same bindings in front. -/
theorem interp_sim (e : Expr) :
    ∀ (E1 E2 : Env), Env.sim E1 E2 → ∀ v1, e.interp E1 = .ok v1 →
      ∃ v2, e.interp E2 = .ok v2 ∧ v1.same_code v2 := by
  induction e with
  | Num i => intro E1 E2 _ v1 h; exact ⟨v1, h, v1.same_code_refl⟩
  | Bool b => intro E1 E2 _ v1 h; exact ⟨v1, h, v1.same_code_refl⟩
  | Var s =>
    intro E1 E2 hs v1 h
    rw [interp_Var] at h ⊢
    exact Env.lookup_sim s _ _ (Env.sim_orEmpty hs) v1 h
  | Fun p b _ =>
    intro E1 E2 _ v1 h
    rw [interp_Fun] at h ⊢
    cases h
    exact ⟨_, rfl, rfl, rfl⟩
  | If c t e _ _ _ =>
    intro E1 E2 _ v1 h
    rw [interp_If] at h ⊢
    exact ⟨v1, h, v1.same_code_refl⟩
  | Call f a _ _ =>
    intro E1 E2 _ v1 h
    rw [interp_Call] at h ⊢
    exact ⟨v1, h, v1.same_code_refl⟩
  | Eq l r ihl ihr =>
    intro E1 E2 hs v1 h
    rw [interp_Eq] at h ⊢
    obtain ⟨lv, hl, h⟩ := Res.bind_ok_inv h
    obtain ⟨rv, hr, h⟩ := Res.bind_ok_inv h
    obtain ⟨lv2, hl2, hlc⟩ := ihl E1 E2 hs lv hl
    obtain ⟨rv2, hr2, hrc⟩ := ihr E1 E2 hs rv hr
    rw [hl2, hr2]
    simp only [Res.ok_bind]
    cases h
    rw [Val.same_code_equals hlc hrc]
    exact ⟨_, rfl, Val.same_code_refl _⟩
  | Add l r ihl ihr =>
    intro E1 E2 hs v1 h
    rw [interp_Add] at h ⊢
    obtain ⟨lv, hl, h⟩ := Res.bind_ok_inv h
    obtain ⟨rv, hr, h⟩ := Res.bind_ok_inv h
    obtain ⟨lv2, hl2, hlc⟩ := ihl _ _ (Env.sim_orEmpty hs) lv hl
    obtain ⟨rv2, hr2, hrc⟩ := ihr _ _ (Env.sim_orEmpty hs) rv hr
    rw [hl2, hr2]
    simp only [Res.ok_bind]
    rw [← Val.same_code_add_to hlc hrc, h]
    exact ⟨_, rfl, Val.same_code_refl _⟩
  | Mult l r ihl ihr =>
    intro E1 E2 hs v1 h
    rw [interp_Mult] at h ⊢
    obtain ⟨lv, hl, h⟩ := Res.bind_ok_inv h
    obtain ⟨rv, hr, h⟩ := Res.bind_ok_inv h
    obtain ⟨lv2, hl2, hlc⟩ := ihl _ _ (Env.sim_orEmpty hs) lv hl
    obtain ⟨rv2, hr2, hrc⟩ := ihr _ _ (Env.sim_orEmpty hs) rv hr
    rw [hl2, hr2]
    simp only [Res.ok_bind]
    rw [← Val.same_code_mult_with hlc hrc, h]
    exact ⟨_, rfl, Val.same_code_refl _⟩
  | Let x r b ihr ihb =>
    intro E1 E2 hs v1 h
    rw [interp_Let] at h ⊢
    obtain ⟨rv, hr, h⟩ := Res.bind_ok_inv h
    obtain ⟨rv2, hr2, hrc⟩ := ihr _ _ (Env.sim_orEmpty hs) rv hr
    rw [hr2]
    simp only [Res.ok_bind]
    exact ihb (.ExtendedEnv x rv E1.orEmpty) (.ExtendedEnv x rv2 E2.orEmpty)
      ⟨rfl, hrc, Env.sim_orEmpty hs⟩ v1 h

/-- An expression that evaluates to a number or a boolean without environment does so in
every environment. -/
theorem interp_of_scalar {e : Expr} {v : Val} (h : e.interp .nullptr = .ok v)
    (hv : v.is_scalar = true) (env : Env) : e.interp env = .ok v := by
  obtain ⟨v2, h2, hc⟩ := interp_sim e .nullptr env trivial v h
  rw [h2, Val.same_code_scalar hc hv]

theorem Env.orEmpty_orEmpty (E : Env) : E.orEmpty.orEmpty = E.orEmpty := by
  cases E <;> rfl

/-- A term without `If`, `Fun` and `Call` has the same outcome in two environments in which
every name looks up the same. -/
theorem interp_congr_lookup :
    ∀ (b : Expr), b.let_term = true → ∀ (E E2 : Env),
      (∀ s, E.orEmpty.lookup s = E2.orEmpty.lookup s) → b.interp E = b.interp E2 := by
  intro b
  induction b with
  | Num i => intro _ E E2 _; rfl
  | Bool c => intro _ E E2 _; rfl
  | Var s => intro _ E E2 h; rw [interp_Var, interp_Var]; exact h s
  | Eq l r ihl ihr =>
    intro hb E E2 h
    simp only [Expr.let_term, Bool.and_eq_true] at hb
    rw [interp_Eq, interp_Eq, ihl hb.1 E E2 h, ihr hb.2 E E2 h]
  | Add l r ihl ihr =>
    intro hb E E2 h
    simp only [Expr.let_term, Bool.and_eq_true] at hb
    have h2 : ∀ s, E.orEmpty.orEmpty.lookup s = E2.orEmpty.orEmpty.lookup s := by
      intro s; rw [Env.orEmpty_orEmpty, Env.orEmpty_orEmpty]; exact h s
    rw [interp_Add, interp_Add, ihl hb.1 _ _ h2, ihr hb.2 _ _ h2]
  | Mult l r ihl ihr =>
    intro hb E E2 h
    simp only [Expr.let_term, Bool.and_eq_true] at hb
    have h2 : ∀ s, E.orEmpty.orEmpty.lookup s = E2.orEmpty.orEmpty.lookup s := by
      intro s; rw [Env.orEmpty_orEmpty, Env.orEmpty_orEmpty]; exact h s
    rw [interp_Mult, interp_Mult, ihl hb.1 _ _ h2, ihr hb.2 _ _ h2]
  | Let y r b ihr ihb =>
    intro hb E E2 h
    simp only [Expr.let_term, Bool.and_eq_true] at hb
    have h2 : ∀ s, E.orEmpty.orEmpty.lookup s = E2.orEmpty.orEmpty.lookup s := by
      intro s; rw [Env.orEmpty_orEmpty, Env.orEmpty_orEmpty]; exact h s
    rw [interp_Let, interp_Let, ihr hb.1 _ _ h2]
    congr 1
    funext rv
    apply ihb hb.2
    intro s
    show (Env.ExtendedEnv y rv E.orEmpty).lookup s = (Env.ExtendedEnv y rv E2.orEmpty).lookup s
    simp only [Env.lookup, h s]
  | If c t e _ _ _ => intro hb; cases hb
  | Fun p b2 _ => intro hb; cases hb
  | Call f a _ _ => intro hb; cases hb

/-- A body without `If`, `Fun` and `Call`, run where `x` is bound to the value of `r`, has the
outcome of the body with `r` substituted for `x`, run where the other names are bound the
same. -/
theorem interp_subst_let_term {x : String} {r : Expr} {v : Val}
    (hr : r.interp .nullptr = .ok v) (hv : v.is_scalar = true) :
    ∀ (b : Expr), b.let_term = true → ∀ (E E2 : Env), E.orEmpty.lookup x = .ok v →
      (∀ s, s ≠ x → E.orEmpty.lookup s = E2.orEmpty.lookup s) →
      b.interp E = (b.subst x r).interp E2 := by
  intro b
  induction b with
  | Num i => intro _ E E2 _ _; rfl
  | Bool c => intro _ E E2 _ _; rfl
  | Var s =>
    intro _ E E2 hx hs
    simp only [Expr.subst]
    by_cases hxs : x = s
    · rw [if_pos hxs, interp_Var, ← hxs, hx, interp_of_scalar hr hv]
    · rw [if_neg hxs, interp_Var, interp_Var]
      exact hs s (Ne.symm hxs)
  | Eq l r2 ihl ihr =>
    intro hb E E2 hx hs
    simp only [Expr.let_term, Bool.and_eq_true] at hb
    simp only [Expr.subst]
    rw [interp_Eq, interp_Eq, ihl hb.1 E E2 hx hs, ihr hb.2 E E2 hx hs]
  | Add l r2 ihl ihr =>
    intro hb E E2 hx hs
    simp only [Expr.let_term, Bool.and_eq_true] at hb
    simp only [Expr.subst]
    have hx2 : E.orEmpty.orEmpty.lookup x = .ok v := by rw [Env.orEmpty_orEmpty]; exact hx
    have hs2 : ∀ s, s ≠ x → E.orEmpty.orEmpty.lookup s = E2.orEmpty.orEmpty.lookup s := by
      intro s h; rw [Env.orEmpty_orEmpty, Env.orEmpty_orEmpty]; exact hs s h
    rw [interp_Add, interp_Add, ihl hb.1 _ _ hx2 hs2, ihr hb.2 _ _ hx2 hs2]
  | Mult l r2 ihl ihr =>
    intro hb E E2 hx hs
    simp only [Expr.let_term, Bool.and_eq_true] at hb
    simp only [Expr.subst]
    have hx2 : E.orEmpty.orEmpty.lookup x = .ok v := by rw [Env.orEmpty_orEmpty]; exact hx
    have hs2 : ∀ s, s ≠ x → E.orEmpty.orEmpty.lookup s = E2.orEmpty.orEmpty.lookup s := by
      intro s h; rw [Env.orEmpty_orEmpty, Env.orEmpty_orEmpty]; exact hs s h
    rw [interp_Mult, interp_Mult, ihl hb.1 _ _ hx2 hs2, ihr hb.2 _ _ hx2 hs2]
  | Let y r2 b2 ihr ihb =>
    intro hb E E2 hx hs
    simp only [Expr.let_term, Bool.and_eq_true] at hb
    have hx2 : E.orEmpty.orEmpty.lookup x = .ok v := by rw [Env.orEmpty_orEmpty]; exact hx
    have hs2 : ∀ s, s ≠ x → E.orEmpty.orEmpty.lookup s = E2.orEmpty.orEmpty.lookup s := by
      intro s h; rw [Env.orEmpty_orEmpty, Env.orEmpty_orEmpty]; exact hs s h
    simp only [Expr.subst]
    by_cases hyx : y = x
    · rw [if_pos hyx, interp_Let, interp_Let, ihr hb.1 _ _ hx2 hs2]
      congr 1
      funext rv
      apply interp_congr_lookup b2 hb.2
      intro s
      show (Env.ExtendedEnv y rv E.orEmpty).lookup s =
        (Env.ExtendedEnv y rv E2.orEmpty).lookup s
      simp only [Env.lookup]
      by_cases hsy : s = y
      · rw [if_pos hsy, if_pos hsy]
      · rw [if_neg hsy, if_neg hsy]
        exact hs s (fun h => hsy (h.trans hyx.symm))
    · rw [if_neg hyx, interp_Let, interp_Let, ihr hb.1 _ _ hx2 hs2]
      congr 1
      funext rv
      apply ihb hb.2
      · show (Env.ExtendedEnv y rv E.orEmpty).lookup x = .ok v
        simp only [Env.lookup, if_neg (Ne.symm hyx)]
        exact hx
      · intro s hsx
        show (Env.ExtendedEnv y rv E.orEmpty).lookup s =
          (Env.ExtendedEnv y rv E2.orEmpty).lookup s
        simp only [Env.lookup, hs s hsx]
  | If c t e _ _ _ => intro hb; cases hb
  | Fun p b2 _ => intro hb; cases hb
  | Call f a _ _ => intro hb; cases hb
/-- C35, counterexample: `Let::interp` does not substitute. It evaluates the bound expression
first, so `_let x = y _in 1` fails on the unbound `y` while the body after substitution, `1`,
evaluates to 1; and it binds the value in the environment, so the closure returned by
`_let x = 1 _in _fun (z) x` still has the body `x`, while the body after substitution evaluates
to a closure with the body `1`. -/
theorem C35_counterexample :
    (Expr.Let "x" (.Var "y") (.Num 1)).interp .nullptr =
      .runtime_error "Var cannot call interp()" ∧
    ((Expr.Num 1).subst "x" (.Var "y")).interp .nullptr = .ok (.NumVal 1) ∧
    (Expr.Let "x" (.Num 1) (.Fun "z" (.Var "x"))).interp .nullptr =
      .ok (.FunVal "z" (.Var "x") (.ExtendedEnv "x" (.NumVal 1) .EmptyEnv)) ∧
    ((Expr.Fun "z" (.Var "x")).subst "x" (.Num 1)).interp .nullptr =
      .ok (.FunVal "z" (.Num 1) .nullptr) :=
  ⟨rfl, rfl, rfl, rfl⟩

/-- C35, amended: `Let` evaluation agrees with substitution when the bound expression `r`
evaluates to a number or a boolean and the body `b` is built from `Num`, `Bool`, `Var`, `Eq`,
`Add`, `Mult` and `Let`: then `Let(x, r, b).interp()` has the outcome of
`b.subst(x, r).interp()`. The bound expression is evaluated first: when it does not return a
value, `Let(x, r, b).interp()` ends as `r.interp()` does, whatever the body. -/
theorem C35_let_agrees_with_substitution :
    (∀ (x : String) (r b : Expr) (v : Val), b.let_term = true →
      r.interp .nullptr = .ok v → v.is_scalar = true →
      (Expr.Let x r b).interp .nullptr = (b.subst x r).interp .nullptr) ∧
    (∀ (x : String) (r b : Expr), (∀ v, r.interp .nullptr ≠ .ok v) →
      (Expr.Let x r b).interp .nullptr = r.interp .nullptr) := by
  constructor
  · intro x r b v hb hr hv
    rw [interp_Let]
    have h0 : Env.nullptr.orEmpty = .EmptyEnv := rfl
    rw [h0, interp_of_scalar hr hv]
    simp only [Res.ok_bind]
    apply interp_subst_let_term hr hv b hb
    · show (Env.ExtendedEnv x v .EmptyEnv).lookup x = .ok v
      simp only [Env.lookup, if_true]
    · intro s hs
      show (Env.ExtendedEnv x v .EmptyEnv).lookup s = Env.EmptyEnv.lookup s
      simp only [Env.lookup, if_neg hs]
  · intro x r b hr
    rw [interp_Let]
    have h0 : Env.nullptr.orEmpty = .EmptyEnv := rfl
    rw [h0]
    rcases interp_EmptyEnv_nullptr r with h | ⟨p, c, h, _⟩
    · rw [h]
      cases hv : r.interp .nullptr with
      | ok v => exact absurd hv (hr v)
      | runtime_error w => rfl
      | null_deref => rfl
      | out_of_fuel => rfl
    · exact absurd h (hr _)

/-- C35 at `_let x = 1 + 2 _in _let y = x _in x + y`: both sides give 6. -/
theorem C35_let_agrees_with_substitution_witness :
    (Expr.Let "x" (.Add (.Num 1) (.Num 2))
        (.Let "y" (.Var "x") (.Add (.Var "x") (.Var "y")))).interp .nullptr =
      ((Expr.Let "y" (.Var "x") (.Add (.Var "x") (.Var "y"))).subst "x"
        (.Add (.Num 1) (.Num 2))).interp .nullptr ∧
    ((Expr.Let "y" (.Var "x") (.Add (.Var "x") (.Var "y"))).subst "x"
        (.Add (.Num 1) (.Num 2))).interp .nullptr = .ok (.NumVal 6) ∧
    (Expr.Let "x" (.Var "y") (.Num 1)).interp .nullptr = (Expr.Var "y").interp .nullptr :=
  ⟨C35_let_agrees_with_substitution.1 "x" (.Add (.Num 1) (.Num 2))
      (.Let "y" (.Var "x") (.Add (.Var "x") (.Var "y"))) (.NumVal 3) rfl rfl rfl, rfl,
    C35_let_agrees_with_substitution.2 "x" (.Var "y") (.Num 1) (fun v h => by cases h)⟩

/-! ## Printed numbers read back -/

theorem digitChar_value (n : Nat) :
    isdigit (Nat.digitChar (n % 10)) = true ∧
    (((Nat.digitChar (n % 10)).toNat : Int) - 48) = ((n % 10 : Nat) : Int) := by
  have h : n % 10 < 10 := Nat.mod_lt _ (by decide)
  generalize n % 10 = d at h
  interval_cases d <;> exact ⟨by decide, by decide⟩

theorem digits_value_append (ds es : List Char) :
    ∀ k : Int, digits_value k (ds ++ es) = digits_value (digits_value k ds) es := by
  induction ds with
  | nil => intro k; rfl
  | cons d ds ih => intro k; exact ih _

/-- What `Nat.toDigitsCore` puts in front of `tail` is a run of decimal digits, not empty,
from which `build_number` reads the number back. -/
theorem toDigitsCore_reads_back (fuel : Nat) :
    ∀ (value : Nat) (tail : List Char), value + 1 ≤ fuel →
      ∃ text : List Char, text ≠ [] ∧ Nat.toDigitsCore 10 fuel value tail = text ++ tail ∧
        (∀ k : Int, digits_value k text = k * 10 ^ text.length + (value : Int)) ∧
        text.all isdigit = true := by
  induction fuel with
  | zero => intro value tail h; omega
  | succ fuel ih =>
    intro value tail h
    obtain ⟨hd1, hd2⟩ := digitChar_value value
    simp only [Nat.toDigitsCore]
    split
    · rename_i h0
      refine ⟨[Nat.digitChar (value % 10)], by simp, rfl, ?_, ?_⟩
      · intro k
        have hv : value % 10 = value := by omega
        simp only [digits_value, hd2, List.length_singleton, pow_one]
        rw [hv]
      · simp only [List.all_cons, hd1, List.all_nil, Bool.and_self]
    · rename_i h0
      obtain ⟨text, hne, he, hval, hdig⟩ :=
        ih (value / 10) (Nat.digitChar (value % 10) :: tail) (by omega)
      refine ⟨text ++ [Nat.digitChar (value % 10)], by simp, ?_, ?_, ?_⟩
      · rw [he]
        simp
      · intro k
        rw [digits_value_append, hval k]
        simp only [digits_value, hd2, List.length_append, List.length_singleton, pow_succ]
        have : (value : Int) = ((value / 10 : Nat) : Int) * 10 + ((value % 10 : Nat) : Int) := by
          have := Nat.div_add_mod value 10
          omega
        rw [this]
        ring
      · simp only [List.all_append, hdig, List.all_cons, hd1, List.all_nil, Bool.and_self]

/-- The decimal digits of a natural number, as `std::to_string` writes them: at least one
digit, and together they denote the number. -/
theorem repr_digits (n : Nat) :
    ∃ c cs, (Nat.repr n).toList = c :: cs ∧ (∀ d ∈ c :: cs, isdigit d = true) ∧
      digits_value 0 (c :: cs) = n := by
  obtain ⟨text, hne, he, hval, hdig⟩ := toDigitsCore_reads_back (n + 1) n [] (by omega)
  have hr : (Nat.repr n).toList = text := by
    show Nat.toDigitsCore 10 (n + 1) n [] = text
    rw [he, List.append_nil]
  cases text with
  | nil => exact absurd rfl hne
  | cons c cs =>
    refine ⟨c, cs, hr, ?_, by rw [hval 0]; simp⟩
    intro d hd
    exact List.all_eq_true.1 hdig d hd

theorem wrap32_range (z : Int) : INT_MIN ≤ wrap32 z ∧ wrap32 z ≤ INT_MAX := by
  simp only [wrap32, toInt, UINT_SIZE, INT_MIN, INT_MAX]
  split <;> omega

/-- Where a token may end, `build_number` stops with the number read so far. -/
theorem build_number_loop_end (number : Int) (rest : istream) (hrest : ends_token rest = true) :
    build_number_loop number rest = .ok (number, rest) := by
  rcases ends_token_head hrest with rfl | ⟨c, r, rfl, hc⟩
  · rfl
  · simp [build_number_loop, (not_malformed_after hc).1, hc]

/-- The function `build_number` reads every run of digits, as the number they denote reduced
to the range of `int`. -/
theorem build_number_loop_wrap (ds rest : List Char) (hrest : ends_token rest = true) :
    ∀ number : Int, (∀ c ∈ ds, isdigit c = true) →
      build_number_loop (wrap32 number) (ds ++ rest) =
        .ok (wrap32 (digits_value number ds), rest) := by
  induction ds with
  | nil => intro number _; exact build_number_loop_end _ rest hrest
  | cons c cs ih =>
    intro number hds
    have hc := hds c (List.mem_cons_self _ _)
    have key : wrap32 (wrap32 number * 10 + ((c.toNat : Int) - 48)) =
        wrap32 (number * 10 + ((c.toNat : Int) - 48)) := by
      rw [← wrap32_add_left (wrap32 number * 10), wrap32_mul_left, wrap32_add_left]
    simp only [List.cons_append, build_number_loop, hc, if_true, digits_value, key]
    exact ih _ (fun d hd => hds d (List.mem_cons_of_mem _ hd))

/-- What `Num::print` writes for a number of the range of `int` is read back by `parse_bases`
as that number, `INT_MIN` included: its digits wrap around to `INT_MIN`, which the negation
leaves as it is. -/
theorem parse_bases_std_to_string (n : Nat) (i : Int) (h1 : INT_MIN ≤ i) (h2 : i ≤ INT_MAX)
    (rest : istream) (hrest : ends_token rest = true) :
    parse_bases (n + 1) ((std_to_string i).toList ++ rest) = .ok (.Num i, rest) := by
  have h0 : wrap32 0 = 0 := rfl
  unfold std_to_string
  by_cases hi : i < 0
  · rw [if_pos hi]
    obtain ⟨c, cs, hr, hall, hv⟩ := repr_digits (-i).toNat
    have hc := hall c (List.mem_cons_self _ _)
    have ht : ("-" ++ Nat.repr (-i).toNat).toList ++ rest = '-' :: (c :: (cs ++ rest)) := by
      have : ("-" ++ Nat.repr (-i).toNat).toList = '-' :: (Nat.repr (-i).toNat).toList := by
        simp [String.toList]
      rw [this, hr]
      rfl
    have hb := build_number_loop_wrap (c :: cs) rest hrest 0 hall
    rw [h0, hv] at hb
    have hw : consume_whitespace ('-' :: (c :: (cs ++ rest))) = '-' :: (c :: (cs ++ rest)) := rfl
    rw [ht, parse_bases_succ, hw]
    simp only [decide_True, Bool.true_or, if_true]
    simp only [parse_num, hc, if_true, build_number, PRes.parse_bind_eq_bind,
      PRes.parse_pure_eq_ok]
    show (build_number_loop 0 (c :: cs ++ rest)).bind _ = _
    rw [hb]
    rw [PRes.parse_ok_bind]
    simp only []
    rw [wrap32_mul_left]
    have hval : (((-i).toNat : Nat) : Int) * -1 = i := by omega
    rw [hval, wrap32_of_int ⟨h1, h2⟩]
  · rw [if_neg hi]
    obtain ⟨c, cs, hr, hall, hv⟩ := repr_digits i.toNat
    have hc := hall c (List.mem_cons_self _ _)
    have hb := build_number_loop_wrap (c :: cs) rest hrest 0 hall
    rw [h0, hv] at hb
    have hw : consume_whitespace (c :: cs ++ rest) = c :: (cs ++ rest) := by
      show consume_whitespace (c :: (cs ++ rest)) = _
      simp only [consume_whitespace, isdigit_not_isspace hc]
      rfl
    rw [hr, parse_bases_succ, hw]
    simp only [hc, Bool.or_true, if_true]
    unfold parse_num
    split
    · rename_i heq
      simp only [List.cons.injEq] at heq
      exact absurd heq.1 (isdigit_ne_minus hc)
    · simp only [build_number, PRes.parse_bind_eq_bind, PRes.parse_pure_eq_ok]
      show (build_number_loop 0 (c :: cs ++ rest)).bind _ = _
      rw [hb]
      have hval : ((i.toNat : Nat) : Int) = i := by omega
      rw [hval, wrap32_of_int ⟨h1, h2⟩]
      rfl

/-- C39: integer literals round-trip through print and parse over the whole 32-bit range.
For every `n` from `INT_MIN` to `INT_MAX`, `parse_expr(Num(n).to_string())` returns `Num(n)`.
`Num(INT_MAX)` prints as `2147483647` and `Num(INT_MIN)` as `-2147483648`; for the latter
`build_number` accumulates the digits `2147483648`, which wrap around to `INT_MIN` in an
`int`, and the negation in `parse_num` leaves `INT_MIN` as it is. -/
theorem C39_integer_literal_round_trip :
    (∀ n : Int, INT_MIN ≤ n → n ≤ INT_MAX →
      parse_expr (Expr.Num n).to_string = .ok (.Num n)) ∧
    (Expr.Num INT_MAX).to_string = "2147483647" ∧
    parse_expr "2147483647" = .ok (.Num INT_MAX) ∧
    (Expr.Num INT_MIN).to_string = "-2147483648" ∧
    build_number ['2', '1', '4', '7', '4', '8', '3', '6', '4', '8'] = .ok (INT_MIN, []) ∧
    parse_expr "-2147483648" = .ok (.Num INT_MIN) := by
  refine ⟨fun n h1 h2 => ?_, by decide, by decide, by decide, by decide, by decide⟩
  have hb := parse_bases_std_to_string 0 n h1 h2 [] rfl
  rw [List.append_nil] at hb
  exact parse_expr_of_parse_eqs_nil rfl (parse_eqs_of_parse_bases_stop hb (by rfl)).2.2.2

/-- C39 at the two ends of the range, `INT_MIN` and `INT_MAX`, and at 0. -/
theorem C39_integer_literal_round_trip_witness :
    parse_expr (Expr.Num INT_MIN).to_string = .ok (.Num INT_MIN) ∧
    parse_expr (Expr.Num INT_MAX).to_string = .ok (.Num INT_MAX) ∧
    parse_expr (Expr.Num 0).to_string = .ok (.Num 0) :=
  ⟨C39_integer_literal_round_trip.1 INT_MIN (by decide) (by decide),
    C39_integer_literal_round_trip.1 INT_MAX (by decide) (by decide),
    C39_integer_literal_round_trip.1 0 (by decide) (by decide)⟩

/-! ## The binder check of `_fun` -/

/-- Text that `parse_bases` accepts does not start, after its whitespace, with an operator. -/
theorem parse_bases_ok_head {n : Nat} {s : istream} {v : Expr × istream}
    (h : parse_bases n s = .ok v) :
    ∃ c rest, consume_whitespace s = c :: rest ∧ c ≠ '*' ∧ c ≠ '+' ∧ c ≠ '=' := by
  cases n with
  | zero => cases h
  | succ n =>
    rw [parse_bases_succ] at h
    cases hc : consume_whitespace s with
    | nil => rw [hc] at h; cases h
    | cons c rest =>
      rw [hc] at h
      refine ⟨c, rest, rfl, ?_, ?_, ?_⟩ <;>
      · intro hcx
        subst hcx
        have h2 : (PRes.runtime_error "parse_bases(): invalid input" : PRes (Expr × istream)) =
            .ok v := h
        cases h2

theorem parse_eqs_ok_head {n : Nat} {s : istream} {v : Expr × istream}
    (h : parse_eqs n s = .ok v) :
    ∃ c rest, consume_whitespace s = c :: rest ∧ c ≠ '*' ∧ c ≠ '+' ∧ c ≠ '=' := by
  cases n with
  | zero => cases h
  | succ n =>
    rw [parse_eqs_succ] at h
    obtain ⟨p, h1, _⟩ := PRes.parse_bind_ok h
    cases n with
    | zero => cases h1
    | succ n =>
      rw [parse_adds_succ] at h1
      obtain ⟨p, h2, _⟩ := PRes.parse_bind_ok h1
      cases n with
      | zero => cases h2
      | succ n =>
        rw [parse_mults_succ] at h2
        obtain ⟨p, h3, _⟩ := PRes.parse_bind_ok h2
        cases n with
        | zero => cases h3
        | succ n =>
          rw [parse_calls_succ] at h3
          obtain ⟨p, h4, _⟩ := PRes.parse_bind_ok h3
          exact parse_bases_ok_head h4

theorem consume_whitespace_prefix (s : istream) :
    ∃ ws : List Char, (∀ d ∈ ws, isspace d = true) ∧ s = ws ++ consume_whitespace s := by
  induction s with
  | nil => exact ⟨[], by simp, rfl⟩
  | cons c rest ih =>
    by_cases hc : isspace c = true
    · obtain ⟨ws, hws, he⟩ := ih
      refine ⟨c :: ws, ?_, ?_⟩
      · intro d hd
        rcases List.mem_cons.1 hd with rfl | hd
        · exact hc
        · exact hws d hd
      · simp only [consume_whitespace, hc, if_true, List.cons_append]
        rw [← he]
    · refine ⟨[], by simp, ?_⟩
      simp only [consume_whitespace, hc, List.nil_append]
      rfl

/-- Leading whitespace does not matter to `parse_eqs`. -/
theorem parse_eqs_consume_whitespace (n : Nat) (s : istream) :
    parse_eqs n (consume_whitespace s) = parse_eqs n s := by
  obtain ⟨ws, hws, he⟩ := consume_whitespace_prefix s
  conv_rhs => rw [he]
  rw [parse_eqs_spaces n ws _ hws]

/-- The text `_fun (p) B`, for an identifier `p` and a text `B` off which `parse_eqs` reads
`b`: `parse_fun` compares `b.subst(p, b)` with `b`. -/
theorem parse_eqs_fun_text {m : Nat} {pl Bl : List Char} {b : Expr} {r : istream}
    (hp : is_identifier pl = true) (hB : parse_eqs m Bl = .ok (b, r)) :
    parse_bases (m + 18)
        ('_' :: 'f' :: 'u' :: 'n' :: ' ' :: '(' :: (pl ++ ')' :: ' ' :: Bl)) =
      if (b.subst (String.mk pl) b).equals (some b) then
        .runtime_error "parse_let(): invalid fun"
      else .ok (.Fun (String.mk pl) b, r) := by
  have hbase := parse_bases_token (m + 5) [] (')' :: ' ' :: Bl) (base_term_of_identifier hp)
    (by simp) (by rfl)
  simp only [List.nil_append] at hbase
  have hin := (parse_eqs_of_parse_bases_stop hbase (by rfl)).2.2.2
  have hcw : consume_whitespace (')' :: ' ' :: Bl) = ')' :: ' ' :: Bl := rfl
  rw [hcw] at hin
  have hparen := parse_paren_step hin
  have hbp : parse_bases (m + 5 + 5 + 1 + 1) ('(' :: (pl ++ ')' :: ' ' :: Bl)) =
      .ok (.Var (String.mk pl), ' ' :: Bl) := by
    rw [parse_bases_paren]
    exact hparen
  obtain ⟨c, rest, hc, hc1, hc2, hc3⟩ := parse_eqs_ok_head hB
  have hsp : consume_whitespace (' ' :: Bl) = consume_whitespace Bl := rfl
  have hformal := ((parse_eqs_of_parse_bases hbp (by intro s1 h; cases h)
    (by rw [hsp, hc]; intro s2 h; cases h; exact hc1 rfl)).2.2
    (by rw [hsp, hc]; intro s2 h; cases h; exact hc2 rfl)).2
    (by rw [hsp, hc]; intro s2 h; cases h; exact hc3 rfl)
  rw [hsp] at hformal
  have hformal2 : parse_eqs (m + 5 + 5 + 1 + 5) (' ' :: '(' :: (pl ++ ')' :: ' ' :: Bl)) =
      .ok (.Var (String.mk pl), consume_whitespace Bl) := by
    rw [← hformal]
    exact parse_eqs_spaces _ [' '] _ (by simp [isspace])
  have hbody : parse_eqs (m + 5 + 5 + 1 + 5) (consume_whitespace Bl) = .ok (b, r) := by
    rw [parse_eqs_consume_whitespace]
    exact parse_eqs_ok_mono hB (by omega)
  have hfuel : m + 18 = m + 5 + 5 + 1 + 5 + 2 := by omega
  rw [hfuel]
  exact parse_bases_fun hformal2 hbody
/-- C32: the binder check of `_fun`. For every identifier `p` and every text `B` that
`parse_expr` reads as `b`, the text `_fun (p) B` is rejected with the invalid-fun error when
`b.subst(p, b)` equals `b` and read as `Fun(p, b)` otherwise; and `b.subst(p, b)` equals `b`
exactly when `p` does not occur free in `b` or `b` is the variable `p` itself. So
`_fun (x) x + 2` is accepted, `_fun (x) x` and `_fun (x) 7` are rejected. -/
theorem C32_fun_binder_check :
    (∀ (p B : String) (b : Expr), is_identifier p.toList = true → parse_expr B = .ok b →
      parse_expr ("_fun (" ++ p ++ ") " ++ B) =
        (if (b.subst p b).equals (some b) then .runtime_error "parse_let(): invalid fun"
          else .ok (.Fun p b)) ∧
      (parse_expr ("_fun (" ++ p ++ ") " ++ B) = .runtime_error "parse_let(): invalid fun" ↔
        (b.subst p b).equals (some b) = true) ∧
      ((b.subst p b).equals (some b) = true ↔ (b.occursFree p = false ∨ b = .Var p))) ∧
    parse_expr "_fun (x) x + 2" = .ok (.Fun "x" (.Add (.Var "x") (.Num 2))) ∧
    parse_expr "_fun (x) x" = .runtime_error "parse_let(): invalid fun" ∧
    parse_expr "_fun (x) 7" = .runtime_error "parse_let(): invalid fun" := by
  refine ⟨fun p B b hp hB => ?_, by decide, by decide, by decide⟩
  have ht : ("_fun (" ++ p ++ ") " ++ B).toList =
      '_' :: 'f' :: 'u' :: 'n' :: ' ' :: '(' :: (p.toList ++ ')' :: ' ' :: B.toList) := by
    simp [String.toList]
  have h := parse_eqs_fun_text hp (parse_eqs_of_parse_expr hB)
  have hmain : parse_expr ("_fun (" ++ p ++ ") " ++ B) =
      (if (b.subst p b).equals (some b) then .runtime_error "parse_let(): invalid fun"
        else .ok (.Fun p b)) := by
    by_cases hc : (b.subst p b).equals (some b) = true
    · rw [if_pos hc]
      have h2 : parse_bases (parse_fuel B.length + 17 + 1)
          ("_fun (" ++ p ++ ") " ++ B).toList = .runtime_error "parse_let(): invalid fun" := by
        rw [ht, h]
        exact if_pos hc
      exact parse_expr_of_parse_eqs_error (parse_eqs_of_parse_bases_error h2)
    · rw [if_neg hc]
      have h2 : parse_bases (parse_fuel B.length + 17 + 1)
          ('_' :: 'f' :: 'u' :: 'n' :: ' ' :: '(' :: (p.toList ++ ')' :: ' ' :: B.toList)) =
          .ok (.Fun p b, []) := by
        rw [h]
        exact if_neg hc
      exact parse_expr_of_parse_eqs_nil ht (parse_eqs_of_parse_bases_stop h2 (by rfl)).2.2.2
  refine ⟨hmain, ?_, Expr.subst_equals_self_iff p b b⟩
  rw [hmain]
  by_cases hc : (b.subst p b).equals (some b) = true
  · rw [if_pos hc]
    exact ⟨fun _ => hc, fun _ => rfl⟩
  · rw [if_neg hc]
    exact ⟨fun h => (by cases h), fun h => absurd h hc⟩

/-- C32 at the parameter `x` and the bodies `x + 2` (accepted), `x` and `7` (rejected). -/
theorem C32_fun_binder_check_witness :
    parse_expr ("_fun (" ++ "x" ++ ") " ++ "x + 2") = .ok (.Fun "x" (.Add (.Var "x") (.Num 2))) ∧
    parse_expr ("_fun (" ++ "x" ++ ") " ++ "x") = .runtime_error "parse_let(): invalid fun" ∧
    parse_expr ("_fun (" ++ "x" ++ ") " ++ "7") = .runtime_error "parse_let(): invalid fun" :=
  ⟨(C32_fun_binder_check.1 "x" "x + 2" (.Add (.Var "x") (.Num 2)) (by decide) (by decide)).1,
    (C32_fun_binder_check.1 "x" "x" (.Var "x") (by decide) (by decide)).1,
    (C32_fun_binder_check.1 "x" "7" (.Num 7) (by decide) (by decide)).1⟩

/-! ## More fuel keeps a result, at every level of the grammar -/

theorem PRes.ok_of_parse_le {α : Type} {x y : PRes α} {v : α} (h : PRes.le x y)
    (hx : x = .ok v) : y = .ok v := by
  rcases h with h | h
  · rw [hx] at h; cases h
  · rw [← h, hx]

theorem parse_adds_ok_mono {n m : Nat} {s : istream} {v : Expr × istream}
    (h : parse_adds n s = .ok v) (hnm : n ≤ m) : parse_adds m s = .ok v := by
  induction hnm with
  | refl => exact h
  | step _ ih => exact PRes.ok_of_parse_le ((parser_le_succ _).2.1 s) ih

theorem parse_mults_ok_mono {n m : Nat} {s : istream} {v : Expr × istream}
    (h : parse_mults n s = .ok v) (hnm : n ≤ m) : parse_mults m s = .ok v := by
  induction hnm with
  | refl => exact h
  | step _ ih => exact PRes.ok_of_parse_le ((parser_le_succ _).2.2.1 s) ih

theorem parse_calls_ok_mono {n m : Nat} {s : istream} {v : Expr × istream}
    (h : parse_calls n s = .ok v) (hnm : n ≤ m) : parse_calls m s = .ok v := by
  induction hnm with
  | refl => exact h
  | step _ ih => exact PRes.ok_of_parse_le ((parser_le_succ _).2.2.2.1 s) ih

theorem parse_bases_ok_mono {n m : Nat} {s : istream} {v : Expr × istream}
    (h : parse_bases n s = .ok v) (hnm : n ≤ m) : parse_bases m s = .ok v := by
  induction hnm with
  | refl => exact h
  | step _ ih => exact PRes.ok_of_parse_le ((parser_le_succ _).2.2.2.2.2.1 s) ih

/-- An operand that `parse_bases` reads is read by `parse_calls` when no `(` follows. -/
theorem parse_calls_of_parse_bases {n : Nat} {s : istream} {e : Expr} {r : istream}
    (h : parse_bases (n + 1) s = .ok (e, r)) (h1 : ∀ s1, r ≠ '(' :: s1) :
    parse_calls (n + 2) s = .ok (e, r) := by
  rw [parse_calls_succ, h]
  exact parse_calls_loop_step_stop h1

/-- A parenthesised expression is a base term of the grammar. -/
theorem parse_bases_of_parse_eqs_paren {n : Nat} {s1 : istream} {e : Expr} {r : istream}
    (h : parse_eqs n s1 = .ok (e, ')' :: r)) :
    parse_bases (n + 2) ('(' :: s1) = .ok (e, r) := by
  rw [parse_bases_paren]
  exact parse_paren_step h

/-- The keywords `_true` and `_false`, whatever follows them. -/
theorem parse_bases_bool (n : Nat) (b : bool) (t : istream) :
    parse_bases (n + 1) ((Expr.Bool b).print.toList ++ t) = .ok (.Bool b, t) := by
  cases b <;> rfl
/-! ## The literal print reads back -/

theorem print_Eq_toList (l r : Expr) (t : List Char) :
    (Expr.Eq l r).print.toList ++ t =
      '(' :: (l.print.toList ++ '=' :: '=' :: (r.print.toList ++ ')' :: t)) := by
  simp [Expr.print, String.toList]

theorem print_Add_toList (l r : Expr) (t : List Char) :
    (Expr.Add l r).print.toList ++ t =
      '(' :: (l.print.toList ++ '+' :: (r.print.toList ++ ')' :: t)) := by
  simp [Expr.print, String.toList]

theorem print_Mult_toList (l r : Expr) (t : List Char) :
    (Expr.Mult l r).print.toList ++ t =
      '(' :: (l.print.toList ++ '*' :: (r.print.toList ++ ')' :: t)) := by
  simp [Expr.print, String.toList]

theorem print_If_toList (c th el : Expr) (t : List Char) :
    (Expr.If c th el).print.toList ++ t =
      '(' :: '_' :: 'i' :: 'f' :: ' ' :: (c.print.toList ++
        ' ' :: '_' :: 't' :: 'h' :: 'e' :: 'n' :: ' ' :: (th.print.toList ++
          ' ' :: '_' :: 'e' :: 'l' :: 's' :: 'e' :: ' ' :: (el.print.toList ++ ')' :: t))) := by
  simp [Expr.print, String.toList]

theorem print_Let_toList (x : String) (r b : Expr) (t : List Char) :
    (Expr.Let x r b).print.toList ++ t =
      '(' :: '_' :: 'l' :: 'e' :: 't' :: ' ' :: (x.toList ++ '=' :: (r.print.toList ++
        ' ' :: '_' :: 'i' :: 'n' :: ' ' :: (b.print.toList ++ ')' :: t))) := by
  simp [Expr.print, String.toList]

theorem print_Fun_toList (p : String) (b : Expr) (t : List Char) :
    (Expr.Fun p b).print.toList ++ t =
      '(' :: '_' :: 'f' :: 'u' :: 'n' :: ' ' :: '(' :: (p.toList ++
        ')' :: ' ' :: (b.print.toList ++ ')' :: t)) := by
  simp [Expr.print, String.toList]

/-- What `print` writes for an expression without `Call` that has the shape of what the parser
builds is read back by `parse_bases` as that expression, up to any rest of the input that may
follow a token. -/
theorem parse_bases_print (e : Expr) :
    e.parsed_shape = true → e.has_call = false →
    ∀ t : istream, ends_token t = true →
      ∃ n, parse_bases (n + 1) (e.print.toList ++ t) = .ok (e, t) := by
  induction e with
  | Num i =>
    intro hs _ t ht
    simp only [Expr.parsed_shape, decide_eq_true_eq] at hs
    exact ⟨0, parse_bases_std_to_string 0 i hs.1 hs.2 t ht⟩
  | Bool b => intro _ _ t _; exact ⟨0, parse_bases_bool 0 b t⟩
  | Var s =>
    intro hs _ t ht
    exact ⟨0, parse_bases_token 0 [] t (base_term_of_identifier hs) (by simp) ht⟩
  | Eq l r ihl ihr =>
    intro hs hc t _
    simp only [Expr.parsed_shape, Bool.and_eq_true] at hs
    simp only [Expr.has_call, Bool.or_eq_false_iff] at hc
    obtain ⟨n1, h1⟩ := ihl hs.1 hc.1 ('=' :: '=' :: (r.print.toList ++ ')' :: t)) (by rfl)
    obtain ⟨n2, h2⟩ := ihr hs.2 hc.2 (')' :: t) (by rfl)
    have h1 := parse_bases_ok_mono h1 (show n1 + 1 ≤ max n1 n2 + 1 + 1 by omega)
    have h2 := parse_bases_ok_mono h2 (show n2 + 1 ≤ max n1 n2 + 1 by omega)
    generalize max n1 n2 = N at h1 h2
    have ha := ((parse_eqs_of_parse_bases h1 (by intro s1 h; cases h)
      (by intro s2 h; cases h)).2.2 (by intro s2 h; cases h)).1
    have hr := (parse_eqs_of_parse_bases_stop h2 (by rfl)).2.2.2
    have he := parse_eqs_step_op ha rfl
    rw [hr] at he
    rw [print_Eq_toList]
    exact ⟨N + 1 + 5 + 1, parse_bases_of_parse_eqs_paren he⟩
  | Add l r ihl ihr =>
    intro hs hc t _
    simp only [Expr.parsed_shape, Bool.and_eq_true] at hs
    simp only [Expr.has_call, Bool.or_eq_false_iff] at hc
    obtain ⟨n1, h1⟩ := ihl hs.1 hc.1 ('+' :: (r.print.toList ++ ')' :: t)) (by rfl)
    obtain ⟨n2, h2⟩ := ihr hs.2 hc.2 (')' :: t) (by rfl)
    have h1 := parse_bases_ok_mono h1 (show n1 + 1 ≤ max n1 n2 + 1 + 1 by omega)
    have h2 := parse_bases_ok_mono h2 (show n2 + 1 ≤ max n1 n2 + 1 by omega)
    generalize max n1 n2 = N at h1 h2
    have hm := (parse_eqs_of_parse_bases h1 (by intro s1 h; cases h)
      (by intro s2 h; cases h)).2.1
    have hr := (parse_eqs_of_parse_bases_stop h2 (by rfl)).2.2.1
    have ha := parse_adds_step_op hm rfl
    rw [hr] at ha
    have he := parse_eqs_step_stop ha (by intro s3 h; cases h)
    rw [print_Add_toList]
    exact ⟨N + 1 + 5 + 1, parse_bases_of_parse_eqs_paren he⟩
  | Mult l r ihl ihr =>
    intro hs hc t _
    simp only [Expr.parsed_shape, Bool.and_eq_true] at hs
    simp only [Expr.has_call, Bool.or_eq_false_iff] at hc
    obtain ⟨n1, h1⟩ := ihl hs.1 hc.1 ('*' :: (r.print.toList ++ ')' :: t)) (by rfl)
    obtain ⟨n2, h2⟩ := ihr hs.2 hc.2 (')' :: t) (by rfl)
    have h1 := parse_bases_ok_mono h1 (show n1 + 1 ≤ max n1 n2 + 1 + 1 by omega)
    have h2 := parse_bases_ok_mono h2 (show n2 + 1 ≤ max n1 n2 + 1 by omega)
    generalize max n1 n2 = N at h1 h2
    have hcl := parse_calls_of_parse_bases h1 (by intro s1 h; cases h)
    have hr := (parse_eqs_of_parse_bases_stop h2 (by rfl)).2.1
    have hm := parse_mults_step_op hcl rfl
    rw [hr] at hm
    have ha := parse_adds_step_stop hm (by intro s3 h; cases h)
    have he := parse_eqs_step_stop ha (by intro s3 h; cases h)
    rw [print_Mult_toList]
    exact ⟨N + 1 + 5 + 1, parse_bases_of_parse_eqs_paren he⟩
  | If c th el ihc iht ihe =>
    intro hs hc t _
    simp only [Expr.parsed_shape, Bool.and_eq_true] at hs
    simp only [Expr.has_call, Bool.or_eq_false_iff] at hc
    obtain ⟨n1, h1⟩ := ihc hs.1.1 hc.1.1
      (' ' :: '_' :: 't' :: 'h' :: 'e' :: 'n' :: ' ' :: (th.print.toList ++
        ' ' :: '_' :: 'e' :: 'l' :: 's' :: 'e' :: ' ' :: (el.print.toList ++ ')' :: t)))
      (by rfl)
    obtain ⟨n2, h2⟩ := iht hs.1.2 hc.1.2
      (' ' :: '_' :: 'e' :: 'l' :: 's' :: 'e' :: ' ' :: (el.print.toList ++ ')' :: t)) (by rfl)
    obtain ⟨n3, h3⟩ := ihe hs.2 hc.2 (')' :: t) (by rfl)
    have h1 := parse_bases_ok_mono h1 (show n1 + 1 ≤ max n1 (max n2 n3) + 1 by omega)
    have h2 := parse_bases_ok_mono h2 (show n2 + 1 ≤ max n1 (max n2 n3) + 1 by omega)
    have h3 := parse_bases_ok_mono h3 (show n3 + 1 ≤ max n1 (max n2 n3) + 1 by omega)
    generalize max n1 (max n2 n3) = N at h1 h2 h3
    have e1 := (parse_eqs_of_parse_bases_stop h1 (by rfl)).2.2.2
    have e2 := (parse_eqs_of_parse_bases_stop h2 (by rfl)).2.2.2
    have e3 := (parse_eqs_of_parse_bases_stop h3 (by rfl)).2.2.2
    rw [← parse_eqs_spaces _ [' '] _ (by simp [isspace])] at e1 e2 e3
    have hb := parse_bases_if e1 e2 e3
    have he := (parse_eqs_of_parse_bases_stop hb (by rfl)).2.2.2
    rw [print_If_toList]
    exact ⟨N + 5 + 1 + 5 + 1, parse_bases_of_parse_eqs_paren he⟩
  | Let x r b ihr ihb =>
    intro hs hc t _
    simp only [Expr.parsed_shape, Bool.and_eq_true, Bool.not_eq_true'] at hs
    simp only [Expr.has_call, Bool.or_eq_false_iff] at hc
    obtain ⟨n1, h1⟩ := ihr hs.1.1.2 hc.1
      (' ' :: '_' :: 'i' :: 'n' :: ' ' :: (b.print.toList ++ ')' :: t)) (by rfl)
    obtain ⟨n2, h2⟩ := ihb hs.1.2 hc.2 (')' :: t) (by rfl)
    have h1 := parse_bases_ok_mono h1 (show n1 + 1 ≤ max n1 n2 + 1 by omega)
    have h2 := parse_bases_ok_mono h2 (show n2 + 1 ≤ max n1 n2 + 1 by omega)
    generalize max n1 n2 = N at h1 h2
    have hY : ∀ u, r.print.toList ++
        ' ' :: '_' :: 'i' :: 'n' :: ' ' :: (b.print.toList ++ ')' :: t) ≠ '=' :: u := by
      intro u hu
      obtain ⟨c, rest, hcw, _, _, hne⟩ := parse_bases_ok_head h1
      rw [hu] at hcw
      have : consume_whitespace ('=' :: u) = '=' :: u := rfl
      rw [this] at hcw
      cases hcw
      exact hne rfl
    have e1 := parse_eqs_binder N [' '] [] _ hs.1.1.1 (by simp [isspace]) (by simp) hY
    have e2 := (parse_eqs_of_parse_bases_stop h1 (by rfl)).2.2.2
    have e3 := (parse_eqs_of_parse_bases_stop h2 (by rfl)).2.2.2
    rw [← parse_eqs_spaces _ [' '] _ (by simp [isspace])] at e3
    have hb := parse_bases_let e1 e2 e3
    have hx : String.mk x.toList = x := rfl
    rw [hx, hs.2] at hb
    have he := (parse_eqs_of_parse_bases_stop hb (by rfl)).2.2.2
    rw [print_Let_toList]
    exact ⟨N + 5 + 1 + 5 + 1, parse_bases_of_parse_eqs_paren he⟩
  | Fun p b ihb =>
    intro hs hc t _
    simp only [Expr.parsed_shape, Bool.and_eq_true, Bool.not_eq_true'] at hs
    simp only [Expr.has_call] at hc
    obtain ⟨n, h⟩ := ihb hs.1.2 hc (')' :: t) (by rfl)
    have e1 := (parse_eqs_of_parse_bases_stop h (by rfl)).2.2.2
    have hb := parse_eqs_fun_text hs.1.1 e1
    have hx : String.mk p.toList = p := rfl
    rw [hx, hs.2] at hb
    have he := (parse_eqs_of_parse_bases_stop hb (by rfl)).2.2.2
    rw [print_Fun_toList]
    exact ⟨n + 5 + 17 + 5 + 1, parse_bases_of_parse_eqs_paren he⟩
  | Call f a _ _ => intro _ hc; cases hc

/-- An expression without `Call` that has the shape of what the parser builds is read back
from its literal print. -/
theorem parse_expr_to_string {e : Expr} (hs : e.parsed_shape = true)
    (hc : e.has_call = false) : parse_expr e.to_string = .ok e := by
  obtain ⟨n, h⟩ := parse_bases_print e hs hc [] rfl
  rw [List.append_nil] at h
  exact parse_expr_of_parse_eqs_nil rfl (parse_eqs_of_parse_bases_stop h (by rfl)).2.2.2

/-- The call-free, binder-free fragment over the range of `int` has the shape of what the
parser builds, without `Call`. -/
theorem parsed_shape_of_call_free_binder_free (e : Expr) :
    e.call_free_binder_free = true → e.nums_within INT_MIN INT_MAX = true →
      e.parsed_shape = true ∧ e.has_call = false := by
  induction e with
  | Num i => intro _ hn; exact ⟨hn, rfl⟩
  | Bool b => intro _ _; exact ⟨rfl, rfl⟩
  | Var s => intro hf _; exact ⟨hf, rfl⟩
  | Eq l r ihl ihr =>
    intro hf hn
    simp only [Expr.call_free_binder_free, Expr.nums_within, Bool.and_eq_true] at hf hn
    simp only [Expr.parsed_shape, Expr.has_call, ihl hf.1 hn.1, ihr hf.2 hn.2, Bool.and_self,
      Bool.or_self, and_self]
  | Add l r ihl ihr =>
    intro hf hn
    simp only [Expr.call_free_binder_free, Expr.nums_within, Bool.and_eq_true] at hf hn
    simp only [Expr.parsed_shape, Expr.has_call, ihl hf.1 hn.1, ihr hf.2 hn.2, Bool.and_self,
      Bool.or_self, and_self]
  | Mult l r ihl ihr =>
    intro hf hn
    simp only [Expr.call_free_binder_free, Expr.nums_within, Bool.and_eq_true] at hf hn
    simp only [Expr.parsed_shape, Expr.has_call, ihl hf.1 hn.1, ihr hf.2 hn.2, Bool.and_self,
      Bool.or_self, and_self]
  | If c t e ihc iht ihe =>
    intro hf hn
    simp only [Expr.call_free_binder_free, Expr.nums_within, Bool.and_eq_true] at hf hn
    simp only [Expr.parsed_shape, Expr.has_call, ihc hf.1.1 hn.1.1, iht hf.1.2 hn.1.2,
      ihe hf.2 hn.2, Bool.and_self, Bool.or_self, and_self]
  | Let x r b _ _ => intro hf; cases hf
  | Fun p b _ => intro hf; cases hf
  | Call f a _ _ => intro hf; cases hf

/-- C38: the literal print round-trips on the call-free, binder-free fragment. For every
expression `e` built only from `Num` (holding a number of the range of `int`), `Bool`, `Var`
with a name of one or more letters, `Eq`, `Add`, `Mult` and `If`, `parse_expr(e.to_string())`
returns an expression equal to `e`; so for `_if x == 3 _then 42 * 42 _else x + 0` of the unit
tests, and for an expression that holds `INT_MIN`. -/
theorem C38_to_string_round_trip :
    (∀ e : Expr, e.call_free_binder_free = true →
      e.nums_within INT_MIN INT_MAX = true →
      ∃ r, parse_expr e.to_string = .ok r ∧ r.equals (some e) = true) ∧
    parse_expr (Expr.If (.Eq (.Var "x") (.Num 3)) (.Mult (.Num 42) (.Num 42))
        (.Add (.Var "x") (.Num 0))).to_string =
      .ok (.If (.Eq (.Var "x") (.Num 3)) (.Mult (.Num 42) (.Num 42))
        (.Add (.Var "x") (.Num 0))) ∧
    parse_expr (Expr.If (.Eq (.Var "x") (.Num INT_MIN)) (.Bool true) (.Num 0)).to_string =
      .ok (.If (.Eq (.Var "x") (.Num INT_MIN)) (.Bool true) (.Num 0)) := by
  refine ⟨fun e hf hn => ?_, by decide, by decide⟩
  obtain ⟨hs, hc⟩ := parsed_shape_of_call_free_binder_free e hf hn
  exact ⟨e, parse_expr_to_string hs hc, (Expr.equals_iff_eq e e).2 rfl⟩

/-- C38 at `If(Eq(Var x, Num INT_MIN), Bool true, Add(Num 0, Mult(Var y, Num 2)))`. -/
theorem C38_to_string_round_trip_witness :
    ∃ r, parse_expr (Expr.If (.Eq (.Var "x") (.Num INT_MIN)) (.Bool true)
        (.Add (.Num 0) (.Mult (.Var "y") (.Num 2)))).to_string = .ok r ∧
      r.equals (some (Expr.If (.Eq (.Var "x") (.Num INT_MIN)) (.Bool true)
        (.Add (.Num 0) (.Mult (.Var "y") (.Num 2))))) = true :=
  C38_to_string_round_trip.1 (.If (.Eq (.Var "x") (.Num INT_MIN)) (.Bool true)
    (.Add (.Num 0) (.Mult (.Var "y") (.Num 2)))) (by decide) (by decide)

/-! ## The pretty print of arithmetic, and reading it back -/

/-- On the arithmetic fragment `pretty_print_at` writes the text `arith_pretty`, in
parentheses when the caller's precedence is above that of the operator, and leaves
`caller_pos` as it is. -/
theorem pretty_print_at_arith (e : Expr) :
    e.arithmetic = true → ∀ (stream : ostream) (p : prec_t) (pos : Nat) (hp : bool),
      e.pretty_print_at stream p pos hp =
        (stream ++ parenthesised ((e.is_add && decide (p > ADD)) ||
          (e.is_mult && decide (p > MULT))) e.arith_pretty, pos) := by
  induction e with
  | Num i => intro _ stream p pos hp; rfl
  | Var s => intro _ stream p pos hp; rfl
  | Add l r ihl ihr =>
    intro he stream p pos hp
    simp only [Expr.arithmetic, Bool.and_eq_true] at he
    have h1 : decide (ADD + 1 > ADD) = true := rfl
    have h2 : decide (ADD + 1 > MULT) = false := rfl
    have h3 : decide (NONE > ADD) = false := rfl
    have h4 : decide (NONE > MULT) = false := rfl
    simp only [Expr.pretty_print_at, ihl he.1, ihr he.2, h1, h2, h3, h4, Expr.is_add,
      Expr.is_mult, Expr.arith_pretty, Bool.and_true, Bool.and_false, Bool.or_false,
      Bool.true_and, Bool.false_and]
    cases decide (p > ADD) <;> simp [parenthesised]
  | Mult l r ihl ihr =>
    intro he stream p pos hp
    simp only [Expr.arithmetic, Bool.and_eq_true] at he
    have h1 : decide (MULT + 1 > ADD) = true := rfl
    have h2 : decide (MULT + 1 > MULT) = true := rfl
    have h3 : decide (MULT > ADD) = true := rfl
    have h4 : decide (MULT > MULT) = false := rfl
    simp only [Expr.pretty_print_at, ihl he.1, ihr he.2, h1, h2, h3, h4, Expr.is_add,
      Expr.is_mult, Expr.arith_pretty, Bool.and_true, Bool.and_false, Bool.or_false,
      Bool.true_and, Bool.false_and, Bool.false_or]
    cases decide (p > MULT) <;> simp [parenthesised]
  | Bool b => intro he; cases he
  | Eq l r _ _ => intro he; cases he
  | Let x r b _ _ => intro he; cases he
  | If c t e _ _ _ => intro he; cases he
  | Fun q b _ => intro he; cases he
  | Call f a _ _ => intro he; cases he

/-- On the arithmetic fragment `to_pretty_string` is the text `arith_pretty`. -/
theorem to_pretty_string_arith (e : Expr) (he : e.arithmetic = true) :
    e.to_pretty_string = String.mk e.arith_pretty := by
  cases e with
  | Num i => rfl
  | Var s => rfl
  | Add l r =>
    have h1 : decide (ADD > ADD) = false := rfl
    simp only [Expr.to_pretty_string, Expr.pretty_print, Expr.is_leaf, Expr.driver_prec,
      pretty_print_at_arith _ he, Expr.is_add, Expr.is_mult, h1, Bool.and_false,
      Bool.false_and, Bool.or_false, parenthesised, Bool.false_eq_true, if_false,
      List.nil_append]
  | Mult l r =>
    have h1 : decide (MULT > MULT) = false := rfl
    simp only [Expr.to_pretty_string, Expr.pretty_print, Expr.is_leaf, Expr.driver_prec,
      pretty_print_at_arith _ he, Expr.is_add, Expr.is_mult, h1, Bool.and_false,
      Bool.false_and, Bool.or_false, parenthesised, Bool.false_eq_true, if_false,
      List.nil_append]
  | Bool b => cases he
  | Eq l r => cases he
  | Let x r b => cases he
  | If c t e => cases he
  | Fun q b => cases he
  | Call f a => cases he
/-- An operand that `parse_bases` reads, seen from the callers of `parse_bases`: each of them
returns it as long as its own operator does not follow. -/
theorem parse_levels_of_parse_bases {n : Nat} {s : istream} {e : Expr} {t : istream}
    (hb : parse_bases (n + 1) s = .ok (e, t)) (h1 : ∀ s1, t ≠ '(' :: s1) :
    parse_calls (n + 2) s = .ok (e, t) ∧
    ((∀ s2, consume_whitespace t ≠ '*' :: s2) →
      parse_mults (n + 3) s = .ok (e, consume_whitespace t) ∧
      ((∀ s2, consume_whitespace t ≠ '+' :: s2) →
        parse_adds (n + 4) s = .ok (e, consume_whitespace t))) := by
  have hc := parse_calls_of_parse_bases hb h1
  refine ⟨hc, fun h2 => ?_⟩
  have hm := parse_mults_step_stop hc h2
  refine ⟨hm, fun h3 => ?_⟩
  have ha := parse_adds_step_stop hm (by rw [consume_whitespace_idem]; exact h3)
  rw [consume_whitespace_idem] at ha
  exact ha

/-- A parenthesised sum or product is a base term. -/
theorem parse_bases_of_parse_adds_paren {n : Nat} {X : List Char} {e : Expr} {t : istream}
    (h : parse_adds (n + 1) (X ++ ')' :: t) = .ok (e, consume_whitespace (')' :: t))) :
    parse_bases (n + 4) (parenthesised true X ++ t) = .ok (e, t) := by
  have he := parse_eqs_step_stop h (by intro s3 h3; cases h3)
  have hcw : consume_whitespace (consume_whitespace (')' :: t)) = ')' :: t := rfl
  rw [hcw] at he
  have hx : parenthesised true X ++ t = '(' :: (X ++ ')' :: t) := by
    simp [parenthesised]
  rw [hx]
  exact parse_bases_of_parse_eqs_paren he
/-- The text `arith_pretty` of an arithmetic expression whose numbers lie in the range of `int`
is read back as that expression: by `parse_calls` when it stands in the parentheses of a left
operand of `*`, by `parse_mults` when it stands in those of an operand of `+` on the left or
of `*` on the right, and by `parse_adds` as it is. -/
theorem parse_arith_pretty (e : Expr) :
    e.arithmetic = true → e.nums_within INT_MIN INT_MAX = true →
    (∀ t : istream, ends_token t = true → (∀ s1, t ≠ '(' :: s1) →
      ∃ n, parse_calls (n + 1)
        (parenthesised (e.is_add || e.is_mult) e.arith_pretty ++ t) = .ok (e, t)) ∧
    (∀ t : istream, ends_token t = true → (∀ s1, t ≠ '(' :: s1) →
      (∀ s2, consume_whitespace t ≠ '*' :: s2) →
      ∃ n, parse_mults (n + 1) (parenthesised e.is_add e.arith_pretty ++ t) =
        .ok (e, consume_whitespace t)) ∧
    (∀ t : istream, ends_token t = true → (∀ s1, t ≠ '(' :: s1) →
      (∀ s2, consume_whitespace t ≠ '*' :: s2) → (∀ s2, consume_whitespace t ≠ '+' :: s2) →
      ∃ n, parse_adds (n + 1) (e.arith_pretty ++ t) = .ok (e, consume_whitespace t)) := by
  have leaf : ∀ (e : Expr), e.is_add = false → e.is_mult = false →
      (∀ t : istream, ends_token t = true →
        parse_bases (0 + 1) (e.arith_pretty ++ t) = .ok (e, t)) →
      (∀ t : istream, ends_token t = true → (∀ s1, t ≠ '(' :: s1) →
        ∃ n, parse_calls (n + 1)
          (parenthesised (e.is_add || e.is_mult) e.arith_pretty ++ t) = .ok (e, t)) ∧
      (∀ t : istream, ends_token t = true → (∀ s1, t ≠ '(' :: s1) →
        (∀ s2, consume_whitespace t ≠ '*' :: s2) →
        ∃ n, parse_mults (n + 1) (parenthesised e.is_add e.arith_pretty ++ t) =
          .ok (e, consume_whitespace t)) ∧
      (∀ t : istream, ends_token t = true → (∀ s1, t ≠ '(' :: s1) →
        (∀ s2, consume_whitespace t ≠ '*' :: s2) → (∀ s2, consume_whitespace t ≠ '+' :: s2) →
        ∃ n, parse_adds (n + 1) (e.arith_pretty ++ t) = .ok (e, consume_whitespace t)) := by
    intro e ha hm hb
    rw [ha, hm]
    simp only [parenthesised, Bool.or_self, Bool.false_eq_true, if_false]
    refine ⟨fun t ht h1 => ⟨_, (parse_levels_of_parse_bases (hb t ht) h1).1⟩,
      fun t ht h1 h2 => ⟨_, ((parse_levels_of_parse_bases (hb t ht) h1).2 h2).1⟩,
      fun t ht h1 h2 h3 => ⟨_, ((parse_levels_of_parse_bases (hb t ht) h1).2 h2).2 h3⟩⟩
  induction e with
  | Num i =>
    intro _ hn
    simp only [Expr.nums_within, decide_eq_true_eq] at hn
    exact leaf (.Num i) rfl rfl (fun t ht => parse_bases_std_to_string 0 i hn.1 hn.2 t ht)
  | Var s =>
    intro he _
    exact leaf (.Var s) rfl rfl (fun t ht => by
      have := parse_bases_token 0 [] t (base_term_of_identifier he) (by simp) ht
      simpa using this)
  | Add l r ihl ihr =>
    intro he hn
    simp only [Expr.arithmetic, Expr.nums_within, Bool.and_eq_true] at he hn
    have hA : ∀ t : istream, ends_token t = true → (∀ s1, t ≠ '(' :: s1) →
        (∀ s2, consume_whitespace t ≠ '*' :: s2) → (∀ s2, consume_whitespace t ≠ '+' :: s2) →
        ∃ n, parse_adds (n + 1) ((Expr.Add l r).arith_pretty ++ t) =
          .ok (.Add l r, consume_whitespace t) := by
      intro t ht h1 h2 h3
      have hcw : consume_whitespace (' ' :: '+' :: ' ' :: (r.arith_pretty ++ t)) =
          '+' :: ' ' :: (r.arith_pretty ++ t) := rfl
      obtain ⟨n1, hl⟩ := (ihl he.1 hn.1).2.1 (' ' :: '+' :: ' ' :: (r.arith_pretty ++ t))
        (by rfl) (by intro s1 h; cases h) (by rw [hcw]; intro s2 h; cases h)
      obtain ⟨n2, hr⟩ := (ihr he.2 hn.2).2.2 t ht h1 h2 h3
      have hl := parse_mults_ok_mono hl (show n1 + 1 ≤ max n1 n2 + 1 by omega)
      have hr := parse_adds_ok_mono hr (show n2 + 1 ≤ max n1 n2 + 1 by omega)
      generalize max n1 n2 = N at hl hr
      rw [hcw] at hl
      have ha := parse_adds_step_op hl rfl
      have hsp : parse_adds (N + 1) (' ' :: (r.arith_pretty ++ t)) =
          parse_adds (N + 1) (r.arith_pretty ++ t) :=
        parse_adds_spaces _ [' '] _ (by simp [isspace])
      rw [hsp, hr] at ha
      refine ⟨N + 1, ?_⟩
      have hx : (Expr.Add l r).arith_pretty ++ t =
          parenthesised l.is_add l.arith_pretty ++
            ' ' :: '+' :: ' ' :: (r.arith_pretty ++ t) := by
        simp [Expr.arith_pretty]
      rw [hx]
      exact ha
    have hB : ∀ t : istream, ∃ n, parse_bases (n + 1)
        (parenthesised true (Expr.Add l r).arith_pretty ++ t) = .ok (.Add l r, t) := by
      intro t
      obtain ⟨n, h⟩ := hA (')' :: t) (by rfl) (by intro s1 h; cases h)
        (by intro s2 h; cases h) (by intro s2 h; cases h)
      exact ⟨n + 3, parse_bases_of_parse_adds_paren h⟩
    refine ⟨fun t _ h1 => ?_, fun t _ h1 h2 => ?_, hA⟩
    · obtain ⟨n, h⟩ := hB t
      exact ⟨_, (parse_levels_of_parse_bases h h1).1⟩
    · obtain ⟨n, h⟩ := hB t
      exact ⟨_, ((parse_levels_of_parse_bases h h1).2 h2).1⟩
  | Mult l r ihl ihr =>
    intro he hn
    simp only [Expr.arithmetic, Expr.nums_within, Bool.and_eq_true] at he hn
    have hM : ∀ t : istream, ends_token t = true → (∀ s1, t ≠ '(' :: s1) →
        (∀ s2, consume_whitespace t ≠ '*' :: s2) →
        ∃ n, parse_mults (n + 1) ((Expr.Mult l r).arith_pretty ++ t) =
          .ok (.Mult l r, consume_whitespace t) := by
      intro t ht h1 h2
      have hcw : consume_whitespace
          (' ' :: '*' :: ' ' :: (parenthesised r.is_add r.arith_pretty ++ t)) =
          '*' :: ' ' :: (parenthesised r.is_add r.arith_pretty ++ t) := rfl
      obtain ⟨n1, hl⟩ := (ihl he.1 hn.1).1
        (' ' :: '*' :: ' ' :: (parenthesised r.is_add r.arith_pretty ++ t))
        (by rfl) (by intro s1 h; cases h)
      obtain ⟨n2, hr⟩ := (ihr he.2 hn.2).2.1 t ht h1 h2
      have hl := parse_calls_ok_mono hl (show n1 + 1 ≤ max n1 n2 + 1 by omega)
      have hr := parse_mults_ok_mono hr (show n2 + 1 ≤ max n1 n2 + 1 by omega)
      generalize max n1 n2 = N at hl hr
      have hm := parse_mults_step_op hl hcw
      have hsp : parse_mults (N + 1) (' ' :: (parenthesised r.is_add r.arith_pretty ++ t)) =
          parse_mults (N + 1) (parenthesised r.is_add r.arith_pretty ++ t) :=
        parse_mults_spaces _ [' '] _ (by simp [isspace])
      rw [hsp, hr] at hm
      refine ⟨N + 1, ?_⟩
      have hx : (Expr.Mult l r).arith_pretty ++ t =
          parenthesised (l.is_add || l.is_mult) l.arith_pretty ++
            ' ' :: '*' :: ' ' :: (parenthesised r.is_add r.arith_pretty ++ t) := by
        simp [Expr.arith_pretty]
      rw [hx]
      exact hm
    have hA : ∀ t : istream, ends_token t = true → (∀ s1, t ≠ '(' :: s1) →
        (∀ s2, consume_whitespace t ≠ '*' :: s2) → (∀ s2, consume_whitespace t ≠ '+' :: s2) →
        ∃ n, parse_adds (n + 1) ((Expr.Mult l r).arith_pretty ++ t) =
          .ok (.Mult l r, consume_whitespace t) := by
      intro t ht h1 h2 h3
      obtain ⟨n, h⟩ := hM t ht h1 h2
      have ha := parse_adds_step_stop h (by rw [consume_whitespace_idem]; exact h3)
      rw [consume_whitespace_idem] at ha
      exact ⟨_, ha⟩
    have hB : ∀ t : istream, ∃ n, parse_bases (n + 1)
        (parenthesised true (Expr.Mult l r).arith_pretty ++ t) = .ok (.Mult l r, t) := by
      intro t
      obtain ⟨n, h⟩ := hA (')' :: t) (by rfl) (by intro s1 h; cases h)
        (by intro s2 h; cases h) (by intro s2 h; cases h)
      exact ⟨n + 3, parse_bases_of_parse_adds_paren h⟩
    refine ⟨fun t _ h1 => ?_, hM, hA⟩
    obtain ⟨n, h⟩ := hB t
    exact ⟨_, (parse_levels_of_parse_bases h h1).1⟩
  | Bool b => intro he; cases he
  | Eq l r _ _ => intro he; cases he
  | Let x r b _ _ => intro he; cases he
  | If c t e _ _ _ => intro he; cases he
  | Fun q b _ => intro he; cases he
  | Call f a _ _ => intro he; cases he
/-- C33: the pretty print of arithmetic is read back as the same tree. For every expression
`e` built only from `Num` (holding a number of the range of `int`), `Var` with a name of one
or more letters, `Add` and `Mult`, `parse_expr(e.to_pretty_string())` returns `e`; and the
pretty print is the text `arith_pretty`, with parentheses exactly around an `Add` or `Mult`
on the left of an operator of the same or higher precedence and around an `Add` on the right
of a `Mult`. -/
theorem C33_pretty_print_arithmetic_round_trip :
    (∀ e : Expr, e.arithmetic = true → e.nums_within INT_MIN INT_MAX = true →
      parse_expr e.to_pretty_string = .ok e) ∧
    (∀ e : Expr, e.arithmetic = true → e.to_pretty_string = String.mk e.arith_pretty) ∧
    (Expr.Mult (.Add (.Num 3) (.Num 5)) (.Mult (.Num 6) (.Num 1))).to_pretty_string =
      "(3 + 5) * 6 * 1" ∧
    (Expr.Mult (.Mult (.Num 7) (.Num 7)) (.Add (.Num 9) (.Num 2))).to_pretty_string =
      "(7 * 7) * (9 + 2)" ∧
    (Expr.Add (.Add (.Num 1) (.Num 2))
        (.Add (.Mult (.Num 3) (.Num 4)) (.Num 5))).to_pretty_string =
      "(1 + 2) + 3 * 4 + 5" ∧
    parse_expr (Expr.Add (.Var "x") (.Num INT_MIN)).to_pretty_string =
      .ok (.Add (.Var "x") (.Num INT_MIN)) := by
  refine ⟨fun e he hn => ?_, to_pretty_string_arith, by decide, by decide, by decide,
    by decide⟩
  rw [to_pretty_string_arith e he]
  obtain ⟨n, h⟩ := (parse_arith_pretty e he hn).2.2 [] rfl (by intro s1 h; cases h)
    (by intro s2 h; cases h) (by intro s2 h; cases h)
  rw [List.append_nil] at h
  have h2 := parse_eqs_step_stop h (by intro s3 h3; cases h3)
  exact parse_expr_of_parse_eqs_nil rfl h2

/-- C33 at `Mult(Add(Var x, Num INT_MIN), Mult(Add(Num 3, Num 5), Var y))`, which
pretty-prints as `(x + -2147483648) * (3 + 5) * y`. -/
theorem C33_pretty_print_arithmetic_round_trip_witness :
    parse_expr (Expr.Mult (.Add (.Var "x") (.Num INT_MIN))
        (.Mult (.Add (.Num 3) (.Num 5)) (.Var "y"))).to_pretty_string =
      .ok (.Mult (.Add (.Var "x") (.Num INT_MIN)) (.Mult (.Add (.Num 3) (.Num 5)) (.Var "y"))) ∧
    (Expr.Mult (.Add (.Var "x") (.Num INT_MIN))
        (.Mult (.Add (.Num 3) (.Num 5)) (.Var "y"))).to_pretty_string =
      "(x + -2147483648) * (3 + 5) * y" :=
  ⟨C33_pretty_print_arithmetic_round_trip.1 (.Mult (.Add (.Var "x") (.Num INT_MIN))
    (.Mult (.Add (.Num 3) (.Num 5)) (.Var "y"))) (by decide) (by decide), by decide⟩

/-! ## The closures that a run calls -/

theorem Expr.is_subexpression_of_refl (e : Expr) : e.is_subexpression_of e = true := by
  cases e <;> simp [Expr.is_subexpression_of]

theorem Expr.is_subexpression_of_trans {a b : Expr} (hab : a.is_subexpression_of b = true) :
    ∀ c : Expr, b.is_subexpression_of c = true → a.is_subexpression_of c = true := by
  intro c
  induction c with
  | Num i => intro h; simp only [Expr.is_subexpression_of, decide_eq_true_eq] at h; rw [← h]; exact hab
  | Bool i => intro h; simp only [Expr.is_subexpression_of, decide_eq_true_eq] at h; rw [← h]; exact hab
  | Var i => intro h; simp only [Expr.is_subexpression_of, decide_eq_true_eq] at h; rw [← h]; exact hab
  | Eq l r ihl ihr =>
    intro h
    simp only [Expr.is_subexpression_of, Bool.or_eq_true, decide_eq_true_eq] at h
    rcases h with (h | h) | h
    · rw [← h]; exact hab
    · simp only [Expr.is_subexpression_of, Bool.or_eq_true, ihl h, or_true, true_or]
    · simp only [Expr.is_subexpression_of, Bool.or_eq_true, ihr h, or_true]
  | Add l r ihl ihr =>
    intro h
    simp only [Expr.is_subexpression_of, Bool.or_eq_true, decide_eq_true_eq] at h
    rcases h with (h | h) | h
    · rw [← h]; exact hab
    · simp only [Expr.is_subexpression_of, Bool.or_eq_true, ihl h, or_true, true_or]
    · simp only [Expr.is_subexpression_of, Bool.or_eq_true, ihr h, or_true]
  | Mult l r ihl ihr =>
    intro h
    simp only [Expr.is_subexpression_of, Bool.or_eq_true, decide_eq_true_eq] at h
    rcases h with (h | h) | h
    · rw [← h]; exact hab
    · simp only [Expr.is_subexpression_of, Bool.or_eq_true, ihl h, or_true, true_or]
    · simp only [Expr.is_subexpression_of, Bool.or_eq_true, ihr h, or_true]
  | Let x r d ihr ihd =>
    intro h
    simp only [Expr.is_subexpression_of, Bool.or_eq_true, decide_eq_true_eq] at h
    rcases h with (h | h) | h
    · rw [← h]; exact hab
    · simp only [Expr.is_subexpression_of, Bool.or_eq_true, ihr h, or_true, true_or]
    · simp only [Expr.is_subexpression_of, Bool.or_eq_true, ihd h, or_true]
  | If d t e ihd iht ihe =>
    intro h
    simp only [Expr.is_subexpression_of, Bool.or_eq_true, decide_eq_true_eq] at h
    rcases h with ((h | h) | h) | h
    · rw [← h]; exact hab
    · simp only [Expr.is_subexpression_of, Bool.or_eq_true, ihd h, or_true, true_or]
    · simp only [Expr.is_subexpression_of, Bool.or_eq_true, iht h, or_true, true_or]
    · simp only [Expr.is_subexpression_of, Bool.or_eq_true, ihe h, or_true]
  | Fun p d ihd =>
    intro h
    simp only [Expr.is_subexpression_of, Bool.or_eq_true, decide_eq_true_eq] at h
    rcases h with h | h
    · rw [← h]; exact hab
    · simp only [Expr.is_subexpression_of, Bool.or_eq_true, ihd h, or_true]
  | Call f d ihf ihd =>
    intro h
    simp only [Expr.is_subexpression_of, Bool.or_eq_true, decide_eq_true_eq] at h
    rcases h with (h | h) | h
    · rw [← h]; exact hab
    · simp only [Expr.is_subexpression_of, Bool.or_eq_true, ihf h, or_true, true_or]
    · simp only [Expr.is_subexpression_of, Bool.or_eq_true, ihd h, or_true]

theorem Expr.is_subexpression_of_size {b : Expr} :
    ∀ e : Expr, b.is_subexpression_of e = true → b.size ≤ e.size := by
  intro e
  induction e with
  | Num i => intro h; simp only [Expr.is_subexpression_of, decide_eq_true_eq] at h; rw [h]
  | Bool i => intro h; simp only [Expr.is_subexpression_of, decide_eq_true_eq] at h; rw [h]
  | Var i => intro h; simp only [Expr.is_subexpression_of, decide_eq_true_eq] at h; rw [h]
  | Eq l r ihl ihr =>
    intro h
    simp only [Expr.is_subexpression_of, Bool.or_eq_true, decide_eq_true_eq] at h
    rcases h with (h | h) | h
    · rw [h]
    · have := ihl h; simp only [Expr.size]; omega
    · have := ihr h; simp only [Expr.size]; omega
  | Add l r ihl ihr =>
    intro h
    simp only [Expr.is_subexpression_of, Bool.or_eq_true, decide_eq_true_eq] at h
    rcases h with (h | h) | h
    · rw [h]
    · have := ihl h; simp only [Expr.size]; omega
    · have := ihr h; simp only [Expr.size]; omega
  | Mult l r ihl ihr =>
    intro h
    simp only [Expr.is_subexpression_of, Bool.or_eq_true, decide_eq_true_eq] at h
    rcases h with (h | h) | h
    · rw [h]
    · have := ihl h; simp only [Expr.size]; omega
    · have := ihr h; simp only [Expr.size]; omega
  | Let x r d ihr ihd =>
    intro h
    simp only [Expr.is_subexpression_of, Bool.or_eq_true, decide_eq_true_eq] at h
    rcases h with (h | h) | h
    · rw [h]
    · have := ihr h; simp only [Expr.size]; omega
    · have := ihd h; simp only [Expr.size]; omega
  | If d t e ihd iht ihe =>
    intro h
    simp only [Expr.is_subexpression_of, Bool.or_eq_true, decide_eq_true_eq] at h
    rcases h with ((h | h) | h) | h
    · rw [h]
    · have := ihd h; simp only [Expr.size]; omega
    · have := iht h; simp only [Expr.size]; omega
    · have := ihe h; simp only [Expr.size]; omega
  | Fun p d ihd =>
    intro h
    simp only [Expr.is_subexpression_of, Bool.or_eq_true, decide_eq_true_eq] at h
    rcases h with h | h
    · rw [h]
    · have := ihd h; simp only [Expr.size]; omega
  | Call f d ihf ihd =>
    intro h
    simp only [Expr.is_subexpression_of, Bool.or_eq_true, decide_eq_true_eq] at h
    rcases h with (h | h) | h
    · rw [h]
    · have := ihf h; simp only [Expr.size]; omega
    · have := ihd h; simp only [Expr.size]; omega

theorem Env.closures_within_orEmpty {K : Expr} {env : Env} (h : env.closures_within K) :
    env.orEmpty.closures_within K := by
  cases env with
  | nullptr => exact trivial
  | EmptyEnv => exact trivial
  | ExtendedEnv n v r => exact h

theorem Env.lookup_closures_within {K : Expr} (s : String) :
    ∀ env : Env, env.closures_within K → ∀ v, env.lookup s = .ok v → v.closures_within K
  | .nullptr, _, _, h => by cases h
  | .EmptyEnv, _, _, h => by cases h
  | .ExtendedEnv name val rest, he, v, h => by
      simp only [Env.lookup] at h
      split at h
      · cases h
        exact he.1
      · exact Env.lookup_closures_within s rest he.2 v h

theorem Val.add_to_closures_within {K : Expr} {a b v : Val}
    (h : a.add_to (some b) = .ok v) : v.closures_within K := by
  cases a <;> cases b <;> first | (cases h; done) | (cases h; exact trivial)

theorem Val.mult_with_closures_within {K : Expr} {a b v : Val}
    (h : a.mult_with (some b) = .ok v) : v.closures_within K := by
  cases a <;> cases b <;> first | (cases h; done) | (cases h; exact trivial)
/-- Every closure in the result of a run is the value of a `Fun` that occurs in the program
`K` the expression is part of, given that this holds of the environment. -/
theorem interpFuel_closures_within (n : Nat) :
    ∀ (e : Expr) (env : Env) (K : Expr), e.size ≤ n → e.is_subexpression_of K = true →
      env.closures_within K → ∀ v, interpFuel n e env = .ok v → v.closures_within K := by
  induction n with
  | zero => intro e _ _ h; cases e <;> simp [Expr.size] at h
  | succ n ih =>
    intro e env K hn hK henv v hv
    have sub : ∀ c : Expr, c.is_subexpression_of e = true → c.is_subexpression_of K = true :=
      fun c hc => Expr.is_subexpression_of_trans hc K hK
    cases e with
    | Num i => cases hv; exact trivial
    | Bool b => cases hv; exact trivial
    | Var s => exact Env.lookup_closures_within s _ (Env.closures_within_orEmpty henv) v hv
    | Fun p b => cases hv; exact ⟨hK, henv⟩
    | Eq l r =>
      simp only [interpFuel, Res.bind_eq_bind, Res.pure_eq_ok] at hv
      obtain ⟨lv, _, hv⟩ := Res.bind_ok_inv hv
      obtain ⟨rv, _, hv⟩ := Res.bind_ok_inv hv
      cases hv
      exact trivial
    | Add l r =>
      simp only [interpFuel, Res.bind_eq_bind] at hv
      obtain ⟨lv, _, hv⟩ := Res.bind_ok_inv hv
      obtain ⟨rv, _, hv⟩ := Res.bind_ok_inv hv
      exact Val.add_to_closures_within hv
    | Mult l r =>
      simp only [interpFuel, Res.bind_eq_bind] at hv
      obtain ⟨lv, _, hv⟩ := Res.bind_ok_inv hv
      obtain ⟨rv, _, hv⟩ := Res.bind_ok_inv hv
      exact Val.mult_with_closures_within hv
    | Let x r b =>
      simp only [Expr.size] at hn
      simp only [interpFuel, Res.bind_eq_bind] at hv
      obtain ⟨rv, hr, hv⟩ := Res.bind_ok_inv hv
      have hrv := ih r _ K (by omega)
        (sub r (by simp [Expr.is_subexpression_of, Expr.is_subexpression_of_refl]))
        (Env.closures_within_orEmpty henv) rv hr
      exact ih b (.ExtendedEnv x rv env.orEmpty) K (by omega)
        (sub b (by simp [Expr.is_subexpression_of, Expr.is_subexpression_of_refl]))
        ⟨hrv, Env.closures_within_orEmpty henv⟩ v hv
    | If c t e =>
      simp only [Expr.size] at hn
      simp only [interpFuel, Res.bind_eq_bind] at hv
      obtain ⟨cv, _, hv⟩ := Res.bind_ok_inv hv
      obtain ⟨b, _, hv⟩ := Res.bind_ok_inv hv
      cases b
      · exact ih e .nullptr K (by omega)
          (sub e (by simp [Expr.is_subexpression_of, Expr.is_subexpression_of_refl]))
          trivial v hv
      · exact ih t .nullptr K (by omega)
          (sub t (by simp [Expr.is_subexpression_of, Expr.is_subexpression_of_refl]))
          trivial v hv
    | Call f a =>
      simp only [Expr.size] at hn
      simp only [interpFuel, Res.bind_eq_bind] at hv
      obtain ⟨fv, hf, hv⟩ := Res.bind_ok_inv hv
      obtain ⟨av, ha, hv⟩ := Res.bind_ok_inv hv
      have hfK := ih f .nullptr K (by omega)
        (sub f (by simp [Expr.is_subexpression_of, Expr.is_subexpression_of_refl]))
        trivial fv hf
      have hff := ih f .nullptr f (by omega) (Expr.is_subexpression_of_refl f) trivial fv hf
      have haK := ih a .nullptr K (by omega)
        (sub a (by simp [Expr.is_subexpression_of, Expr.is_subexpression_of_refl]))
        trivial av ha
      cases fv with
      | NumVal i => cases hv
      | BoolVal b => cases hv
      | FunVal p b cenv =>
        have hsize := Expr.is_subexpression_of_size f hff.1
        simp only [Expr.size] at hsize
        have hbK : b.is_subexpression_of K = true :=
          Expr.is_subexpression_of_trans
            (by simp [Expr.is_subexpression_of, Expr.is_subexpression_of_refl]) K hfK.1
        exact ih b (.ExtendedEnv p av cenv) K (by omega) hbK ⟨haK, hfK.2⟩ v hv

/-- The closure that an expression evaluates to without environment is the value of a `Fun`
that occurs in the expression, and so are the closures it has captured. -/
theorem interp_closures_within {f : Expr} {v : Val} (h : f.interp .nullptr = .ok v) :
    v.closures_within f :=
  interpFuel_closures_within f.size f .nullptr f (Nat.le_refl _)
    (Expr.is_subexpression_of_refl f) trivial v h
/-- C36: interpretation always terminates. In every environment the run of `interp` on an
expression `e` ends (it does not run out of fuel) within a call depth of `e.size`, and more
fuel does not change its outcome. The closure that a `Call` runs comes from its callee
evaluated without environment, so it is the value of a `Fun` that occurs in the callee: its
body is a proper sub-expression of the `Call`. The self-application of `_fun (x) x(x)` stops
with the unbound-variable error. -/
theorem C36_interp_terminates :
    (∀ (e : Expr) (env : Env), e.interp env ≠ .out_of_fuel) ∧
    (∀ (e : Expr) (env : Env) (n : Nat), e.size ≤ n → interpFuel n e env = e.interp env) ∧
    (∀ (f a : Expr) (p : String) (b : Expr) (cenv : Env),
      f.interp .nullptr = .ok (.FunVal p b cenv) →
      (Expr.Fun p b).is_subexpression_of f = true ∧
      b.is_subexpression_of (.Call f a) = true ∧ b.size < (Expr.Call f a).size) ∧
    (Expr.Call (.Fun "x" (.Call (.Var "x") (.Var "x")))
        (.Fun "x" (.Call (.Var "x") (.Var "x")))).interp .nullptr =
      .runtime_error "Var cannot call interp()" := by
  refine ⟨fun e env => interpFuel_total e env,
    fun e env n h => interpFuel_eq_interp e env h, fun f a p b cenv h => ?_, rfl⟩
  have hf := (interp_closures_within h).1
  have hbf : b.is_subexpression_of f = true :=
    Expr.is_subexpression_of_trans
      (by simp [Expr.is_subexpression_of, Expr.is_subexpression_of_refl]) f hf
  have hsize := Expr.is_subexpression_of_size f hf
  simp only [Expr.size] at hsize ⊢
  refine ⟨hf, ?_, by omega⟩
  simp only [Expr.is_subexpression_of, hbf, Bool.or_true, Bool.true_or]

/-! ## The shape of what the parser builds -/

theorem build_number_loop_range (s : istream) :
    ∀ (number v : Int) (r : istream), build_number_loop number s = .ok (v, r) →
      INT_MIN ≤ number ∧ number ≤ INT_MAX → INT_MIN ≤ v ∧ v ≤ INT_MAX := by
  induction s with
  | nil => intro number v r h hn; cases h; exact hn
  | cons c s ih =>
    intro number v r h hn
    simp only [build_number_loop] at h
    split at h
    · exact ih _ _ _ h (wrap32_range _)
    · split at h
      · cases h
      · cases h; exact hn

theorem parse_num_shape {s : istream} {e : Expr} {r : istream}
    (h : parse_num s = .ok (e, r)) : e.parsed_shape = true := by
  have h00 : INT_MIN ≤ (0 : Int) ∧ (0 : Int) ≤ INT_MAX := by decide
  unfold parse_num at h
  split at h
  · split at h
    · cases h
    · split at h
      · obtain ⟨⟨v, q⟩, hb, hv⟩ := PRes.parse_bind_ok h
        cases hv
        simp only [Expr.parsed_shape, decide_eq_true_eq]
        exact wrap32_range _
      · cases h
  · obtain ⟨⟨v, q⟩, hb, hv⟩ := PRes.parse_bind_ok h
    cases hv
    simp only [Expr.parsed_shape, decide_eq_true_eq]
    exact build_number_loop_range _ _ _ _ hb h00

theorem parse_var_loop_shape (s : istream) :
    ∀ (str : List Char) (e : Expr) (r : istream), parse_var_loop str s = .ok (e, r) →
      ∃ more : List Char, e = .Var (String.mk (str ++ more)) ∧
        ∀ d ∈ more, isalpha d = true := by
  induction s with
  | nil =>
    intro str e r h
    cases h
    exact ⟨[], by simp, by simp⟩
  | cons c s ih =>
    intro str e r h
    simp only [parse_var_loop] at h
    split at h
    · rename_i hc
      obtain ⟨more, he, hm⟩ := ih _ _ _ h
      refine ⟨c :: more, by rw [he]; simp, ?_⟩
      intro d hd
      rcases List.mem_cons.1 hd with rfl | hd
      · exact hc
      · exact hm d hd
    · split at h
      · cases h
      · cases h
        exact ⟨[], by simp, by simp⟩

theorem parse_var_shape {c : Char} {s : istream} {e : Expr} {r : istream}
    (hc : isalpha c = true) (h : parse_var (c :: s) = .ok (e, r)) :
    e.parsed_shape = true := by
  unfold parse_var at h
  simp only [parse_var_loop, hc, if_true] at h
  obtain ⟨more, he, hm⟩ := parse_var_loop_shape s _ _ _ h
  rw [he]
  simp only [Expr.parsed_shape, is_identifier, String.toList, List.nil_append,
    List.cons_append, List.isEmpty_cons, Bool.not_false, Bool.true_and, List.all_cons, hc,
    List.all_eq_true]
  exact hm

theorem parse_bool_shape {s : istream} {e : Expr} {r : istream}
    (h : parse_bool s = .ok (e, r)) : e.parsed_shape = true := by
  unfold parse_bool at h
  obtain ⟨s1, _, h⟩ := PRes.parse_bind_ok h
  split at h
  · obtain ⟨s2, _, h⟩ := PRes.parse_bind_ok h
    cases h
    rfl
  · obtain ⟨s2, _, h⟩ := PRes.parse_bind_ok h
    cases h
    rfl
/-- Every expression that a function of the parser returns has the shape `parsed_shape`. -/
theorem parser_shape (n : Nat) :
    (∀ s e r, parse_eqs n s = .ok (e, r) → e.parsed_shape = true) ∧
    (∀ s e r, parse_adds n s = .ok (e, r) → e.parsed_shape = true) ∧
    (∀ s e r, parse_mults n s = .ok (e, r) → e.parsed_shape = true) ∧
    (∀ s e r, parse_calls n s = .ok (e, r) → e.parsed_shape = true) ∧
    (∀ e0 s e r, parse_calls_loop n e0 s = .ok (e, r) → e0.parsed_shape = true →
      e.parsed_shape = true) ∧
    (∀ s e r, parse_bases n s = .ok (e, r) → e.parsed_shape = true) ∧
    (∀ s e r, parse_let n s = .ok (e, r) → e.parsed_shape = true) ∧
    (∀ s e r, parse_if n s = .ok (e, r) → e.parsed_shape = true) ∧
    (∀ s e r, parse_fun n s = .ok (e, r) → e.parsed_shape = true) ∧
    (∀ s e r, parse_paren n s = .ok (e, r) → e.parsed_shape = true) := by
  induction n with
  | zero =>
    exact ⟨fun _ _ _ h => (by cases h), fun _ _ _ h => (by cases h), fun _ _ _ h => (by cases h),
      fun _ _ _ h => (by cases h), fun _ _ _ _ h _ => (by cases h), fun _ _ _ h => (by cases h),
      fun _ _ _ h => (by cases h), fun _ _ _ h => (by cases h), fun _ _ _ h => (by cases h),
      fun _ _ _ h => (by cases h)⟩
  | succ n ih =>
    obtain ⟨heqs, hadds, hmults, hcalls, hloop, hbases, hlet, hif, hfun, hparen⟩ := ih
    refine ⟨?_, ?_, ?_, ?_, ?_, ?_, ?_, ?_, ?_, ?_⟩
    · intro s e r h
      have h1 := h
      rw [parse_eqs_succ] at h1
      obtain ⟨⟨a, r1⟩, ha, -⟩ := PRes.parse_bind_ok h1
      by_cases hop : ∃ s3, consume_whitespace r1 = '=' :: '=' :: s3
      · obtain ⟨s3, hs3⟩ := hop
        rw [parse_eqs_step_op ha hs3] at h
        obtain ⟨⟨b, q⟩, hb, hv⟩ := PRes.parse_bind_ok h
        cases hv
        simp only [Expr.parsed_shape, hadds _ _ _ ha, heqs _ _ _ hb, Bool.and_self]
      · rw [parse_eqs_step_stop ha (fun s3 h3 => hop ⟨s3, h3⟩)] at h
        cases h
        exact hadds _ _ _ ha
    · intro s e r h
      have h1 := h
      rw [parse_adds_succ] at h1
      obtain ⟨⟨a, r1⟩, ha, -⟩ := PRes.parse_bind_ok h1
      by_cases hop : ∃ s2, consume_whitespace r1 = '+' :: s2
      · obtain ⟨s2, hs2⟩ := hop
        rw [parse_adds_step_op ha hs2] at h
        obtain ⟨⟨b, q⟩, hb, hv⟩ := PRes.parse_bind_ok h
        cases hv
        simp only [Expr.parsed_shape, hmults _ _ _ ha, hadds _ _ _ hb, Bool.and_self]
      · rw [parse_adds_step_stop ha (fun s2 h2 => hop ⟨s2, h2⟩)] at h
        cases h
        exact hmults _ _ _ ha
    · intro s e r h
      have h1 := h
      rw [parse_mults_succ] at h1
      obtain ⟨⟨a, r1⟩, ha, -⟩ := PRes.parse_bind_ok h1
      by_cases hop : ∃ s2, consume_whitespace r1 = '*' :: s2
      · obtain ⟨s2, hs2⟩ := hop
        rw [parse_mults_step_op ha hs2] at h
        obtain ⟨⟨b, q⟩, hb, hv⟩ := PRes.parse_bind_ok h
        cases hv
        simp only [Expr.parsed_shape, hcalls _ _ _ ha, hmults _ _ _ hb, Bool.and_self]
      · rw [parse_mults_step_stop ha (fun s2 h2 => hop ⟨s2, h2⟩)] at h
        cases h
        exact hcalls _ _ _ ha
    · intro s e r h
      rw [parse_calls_succ] at h
      obtain ⟨⟨a, r1⟩, ha, h⟩ := PRes.parse_bind_ok h
      exact hloop _ _ _ _ h (hbases _ _ _ ha)
    · intro e0 s e r h h0
      rw [parse_calls_loop_succ] at h
      split at h
      · obtain ⟨⟨a, r1⟩, ha, h⟩ := PRes.parse_bind_ok h
        obtain ⟨s3, _, h⟩ := PRes.parse_bind_ok h
        refine hloop _ _ _ _ h ?_
        simp only [Expr.parsed_shape, h0, heqs _ _ _ ha, Bool.and_self]
      · cases h
        exact h0
    · intro s e r h
      rw [parse_bases_succ] at h
      split at h
      · cases h
      · rename_i c rest _
        split at h
        · exact parse_num_shape h
        · split at h
          · rename_i hc
            exact parse_var_shape hc h
          · split at h
            · exact hparen _ _ _ h
            · split at h
              · obtain ⟨kw, _, h⟩ := PRes.parse_bind_ok h
                split at h
                · exact hlet _ _ _ h
                · split at h
                  · exact hif _ _ _ h
                  · split at h
                    · exact hfun _ _ _ h
                    · exact parse_bool_shape h
              · cases h
    · intro s e r h
      rw [parse_let_succ] at h
      obtain ⟨s1, _, h⟩ := PRes.parse_bind_ok h
      obtain ⟨⟨lhs, r1⟩, hl, h⟩ := PRes.parse_bind_ok h
      have hls := heqs _ _ _ hl
      split at h
      · rename_i str_m hvar
        simp only at hvar
        obtain ⟨s3, _, h⟩ := PRes.parse_bind_ok h
        obtain ⟨⟨rhs, r2⟩, hr, h⟩ := PRes.parse_bind_ok h
        obtain ⟨s5, _, h⟩ := PRes.parse_bind_ok h
        obtain ⟨⟨body, r3⟩, hb, h⟩ := PRes.parse_bind_ok h
        split at h
        · cases h
        · rename_i hcheck
          cases h
          rw [hvar] at hls
          simp only [Expr.parsed_shape] at hls
          simp only [Expr.parsed_shape, hls, heqs _ _ _ hr, heqs _ _ _ hb, Bool.and_self,
            Bool.true_and, Bool.not_eq_true']
          simpa using hcheck
      · cases h
    · intro s e r h
      rw [parse_if_succ] at h
      obtain ⟨s1, _, h⟩ := PRes.parse_bind_ok h
      obtain ⟨⟨c, r1⟩, hc, h⟩ := PRes.parse_bind_ok h
      obtain ⟨s3, _, h⟩ := PRes.parse_bind_ok h
      obtain ⟨⟨t, r2⟩, ht, h⟩ := PRes.parse_bind_ok h
      obtain ⟨s5, _, h⟩ := PRes.parse_bind_ok h
      obtain ⟨⟨el, r3⟩, hel, h⟩ := PRes.parse_bind_ok h
      cases h
      simp only [Expr.parsed_shape, heqs _ _ _ hc, heqs _ _ _ ht, heqs _ _ _ hel, Bool.and_self]
    · intro s e r h
      rw [parse_fun_succ] at h
      obtain ⟨s1, _, h⟩ := PRes.parse_bind_ok h
      obtain ⟨⟨formal, r1⟩, hf, h⟩ := PRes.parse_bind_ok h
      have hfs := heqs _ _ _ hf
      split at h
      · rename_i str_m hvar
        simp only at hvar
        obtain ⟨⟨body, r3⟩, hb, h⟩ := PRes.parse_bind_ok h
        split at h
        · cases h
        · rename_i hcheck
          cases h
          rw [hvar] at hfs
          simp only [Expr.parsed_shape] at hfs
          simp only [Expr.parsed_shape, hfs, heqs _ _ _ hb, Bool.and_self, Bool.true_and,
            Bool.not_eq_true']
          simpa using hcheck
      · cases h
    · intro s e r h
      rw [parse_paren_succ] at h
      obtain ⟨s1, _, h⟩ := PRes.parse_bind_ok h
      obtain ⟨⟨a, r1⟩, ha, h⟩ := PRes.parse_bind_ok h
      split at h
      · cases h
        exact heqs _ _ _ ha
      · cases h

/-- What `parse_expr` returns has the shape `parsed_shape`. -/
theorem parse_expr_shape {str : String} {e : Expr} (h : parse_expr str = .ok e) :
    e.parsed_shape = true :=
  (parser_shape _).1 _ _ _ (parse_eqs_of_parse_expr h)
/-- C17, amended: the round trip parse, print, parse holds for every result without a `Call`.
For every input `s` that `parse_expr` accepts with a result `e` that holds no `Call`,
`parse_expr(e.to_string())` returns an expression equal to `e`; this covers every other
variant the parser can produce, `Let` and `Fun` included. -/
theorem C17_round_trip_without_call (s : String) (e : Expr) (h : parse_expr s = .ok e)
    (hc : e.has_call = false) :
    ∃ r, parse_expr e.to_string = .ok r ∧ r.equals (some e) = true :=
  ⟨e, parse_expr_to_string (parse_expr_shape h) hc, (Expr.equals_iff_eq e e).2 rfl⟩

/-- C17 at `_let f = _fun (x) x + -2147483648 _in _if f == f _then _true _else 3 * y`, whose
result prints as `(_let f=(_fun (x) (x+-2147483648)) _in (_if (f==f) _then _true _else (3*y)))`. -/
theorem C17_round_trip_without_call_witness :
    parse_expr "_let f = _fun (x) x + -2147483648 _in _if f == f _then _true _else 3 * y" =
      .ok (.Let "f" (.Fun "x" (.Add (.Var "x") (.Num INT_MIN)))
        (.If (.Eq (.Var "f") (.Var "f")) (.Bool true) (.Mult (.Num 3) (.Var "y")))) ∧
    (Expr.Let "f" (.Fun "x" (.Add (.Var "x") (.Num INT_MIN)))
        (.If (.Eq (.Var "f") (.Var "f")) (.Bool true)
          (.Mult (.Num 3) (.Var "y")))).to_string =
      "(_let f=(_fun (x) (x+-2147483648)) _in (_if (f==f) _then _true _else (3*y)))" ∧
    ∃ r, parse_expr (Expr.Let "f" (.Fun "x" (.Add (.Var "x") (.Num INT_MIN)))
        (.If (.Eq (.Var "f") (.Var "f")) (.Bool true)
          (.Mult (.Num 3) (.Var "y")))).to_string = .ok r ∧
      r.equals (some (Expr.Let "f" (.Fun "x" (.Add (.Var "x") (.Num INT_MIN)))
        (.If (.Eq (.Var "f") (.Var "f")) (.Bool true)
          (.Mult (.Num 3) (.Var "y"))))) = true :=
  ⟨by decide, by decide,
    C17_round_trip_without_call
      "_let f = _fun (x) x + -2147483648 _in _if f == f _then _true _else 3 * y"
      (.Let "f" (.Fun "x" (.Add (.Var "x") (.Num INT_MIN)))
        (.If (.Eq (.Var "f") (.Var "f")) (.Bool true) (.Mult (.Num 3) (.Var "y"))))
      (by decide) (by decide)⟩

end MsdScript
